import Mathlib

/-!
# ModelConfig: bitfield allocation and attribute assignment

A shallow embedding of `src/Configuration/ModelConfig/ModelConfig.cpp`.

* `uint32_t` values are natural numbers, every arithmetic step that can wrap is
  reduced modulo `2 ^ 32` explicitly, and the `(uint32_t)` casts of the source
  are `toU32`.
* A failed `CFG_ASSERT` (or a throwing library call) is a `CfgError`.  The
  constructor of the session either yields a session or fails
  (`Except CfgError _`); the commands that mutate a live session return the
  session they leave behind together with the failure, if any.
* `std::map` is a list of key/value pairs in ascending key order, which is the
  order in which the source iterates it.
* Indexing a `std::vector` outside its bounds is undefined behaviour in the
  source; here it is the failure `CfgError.MemoryFault`.
-/

namespace FOEDAG

/-- Failure kinds.  The first five are the taxonomy of the specification;
`InternalError` is a failed self-check that the taxonomy does not name,
`MemoryFault` is an out-of-bounds access to a vector, and
`MissingBitfieldError` is the failure of the serializer's walk when no
descriptor starts at the cursor. -/
inductive CfgError where
  | ValidationError
  | NotFoundError
  | RangeError
  | OverlapError
  | IOError
  | InternalError
  | MemoryFault
  | MissingBitfieldError
  deriving DecidableEq, Repr

/-- The conversion `(uint32_t)(x)` of a signed or wider integer. -/
def toU32 (x : Int) : Nat := (x % 4294967296).toNat

/-- Modelled from the spec: `ParameterType<int>` is declared in DeviceModeling,
which is not among the sources.  It carries the bit width (`get_size`), the
optional default (`has_default_value` / `get_default_value`) and the labels of
an enumeration (`get_enum_value`). -/
structure ParameterType where
  size : Int
  default_value : Option Int
  enum_values : List (String × Int)
  deriving DecidableEq, Repr

/-- Modelled from the spec: `ParameterType<int>::get_enum_value` resolves a
symbolic label; an unresolved label is a `NotFoundError`. -/
def ParameterType.get_enum_value (t : ParameterType) (label : String) :
    Except CfgError Int :=
  match t.enum_values.find? (fun p => p.1 == label) with
  | some p => .ok p.2
  | none => .error .NotFoundError

/-- Modelled from the spec: `Parameter<int>`, an attribute of a block: its local
address (`get_address`) and its type (`get_type`). -/
structure Parameter where
  address : Int
  type : ParameterType
  deriving DecidableEq, Repr

/-- Modelled from the spec: `device_block` with its attributes and its child
instances, each list in the iteration order of the corresponding container.
An instance is its name, its logical address (`get_logic_address`) and its
block (`get_block`).  The tree is finite, hence acyclic. -/
inductive device_block where
  | mk (block_name : String) (attributes : List (String × Parameter))
      (instances : List (String × Int × device_block))

/-- Modelled from the spec: the two services of `device` that the allocator
uses, `get_block` and `getCustomerName` (the user alias of a hierarchical
block name). -/
structure device where
  get_block : String → Option device_block
  getCustomerName : String → String

/-- The struct `ModelConfig_BITFIELD`.  `m_type` is a shared pointer and may be
null. -/
structure ModelConfig_BITFIELD where
  m_block_name : String
  m_user_name : String
  m_name : String
  m_addr : Nat
  m_size : Nat
  m_value : Nat
  m_type : Option ParameterType
  deriving DecidableEq, Repr

/-- The constructor of `ModelConfig_BITFIELD` with its two assertions. -/
def ModelConfig_BITFIELD.new (block_name user_name name : String)
    (addr size default_value : Nat) (type : Option ParameterType) :
    Except CfgError ModelConfig_BITFIELD :=
  if ¬ (size > 0 ∧ size ≤ 32) then .error .RangeError
  else if ¬ (size = 32 ∨ default_value < 1 <<< size) then .error .RangeError
  else .ok ⟨block_name, user_name, name, addr, size, default_value, type⟩

/-- The struct `ModelConfig_API_ATTRIBUTE`. -/
structure ModelConfig_API_ATTRIBUTE where
  m_name : String
  m_value : String
  deriving DecidableEq, Repr

/-- The struct `ModelConfig_API_SETTING`. -/
structure ModelConfig_API_SETTING where
  m_instance_equation : String
  m_attributes : List ModelConfig_API_ATTRIBUTE
  deriving DecidableEq, Repr

/-- The struct `ModelConfig_API`; `m_setting` is a map from setting name to
setting. -/
structure ModelConfig_API where
  m_name : String
  m_setting : List (String × ModelConfig_API_SETTING)
  deriving DecidableEq, Repr

/-- The method `ModelConfig_API::get_setting`; `none` is the null pointer. -/
def ModelConfig_API.get_setting (api : ModelConfig_API) (setting : String) :
    Option ModelConfig_API_SETTING :=
  (api.m_setting.find? (fun p => p.1 == setting)).map Prod.snd

/-- The data members of `ModelConfig_DEVICE` (the device pointer is only read
by the constructor and is passed to it instead).  `m_bitfields` is keyed by the
global bit address. -/
structure ModelConfig_DEVICE where
  m_feature : String
  m_model : String
  m_total_bits : Nat
  m_max_attr_name_length : Nat
  m_bitfields : List (Nat × ModelConfig_BITFIELD)
  m_api : List (String × ModelConfig_API)
  deriving DecidableEq, Repr

/-- The assignment `m[key] = value` of a `std::map` with natural-number keys. -/
def map_assign (key : Nat) (value : ModelConfig_BITFIELD) :
    List (Nat × ModelConfig_BITFIELD) → List (Nat × ModelConfig_BITFIELD)
  | [] => [(key, value)]
  | x :: xs =>
    if key < x.1 then (key, value) :: x :: xs
    else if key = x.1 then (key, value) :: xs
    else x :: map_assign key value xs

/-- The lookup `m.find(key)`; `none` is `m.end()`. -/
def map_find (key : Nat) (m : List (Nat × ModelConfig_BITFIELD)) :
    Option ModelConfig_BITFIELD :=
  (m.find? (fun p => p.1 == key)).map Prod.snd

/-- The loop of `add_bitfield` over the occupancy mask: `n` bits remain to be
taken, `j` is the current bit.  A set bit fails the assertion; the bit is
marked otherwise.  (Every byte of the mask stays below 256, so the narrowing of
the `|=` to `uint8_t` changes nothing.) -/
def mark_bits : Nat → Nat → List Nat → Except CfgError (List Nat)
  | 0, _, mask => .ok mask
  | n + 1, j, mask =>
    match mask[j >>> 3]? with
    | none => .error .MemoryFault
    | some b =>
      if b &&& (1 <<< (j &&& 7)) ≠ 0 then .error .OverlapError
      else mark_bits n ((j + 1) % 4294967296)
        (mask.set (j >>> 3) (b ||| (1 <<< (j &&& 7))))

/-- The loop `while (((m_total_bits + 7) / 8) > mask.size()) mask.push_back(0)`
of `add_bitfield`. -/
def extend_mask (total_bits : Nat) (mask : List Nat) : List Nat :=
  mask ++ List.replicate ((total_bits + 7) % 4294967296 / 8 - mask.length) 0

/-- The method `ModelConfig_DEVICE::add_bitfield`; the state is the session
under construction and the occupancy mask. -/
def add_bitfield (block_name user_name bitfield_name : String)
    (addr size default_value : Nat) (type : Option ParameterType)
    (st : ModelConfig_DEVICE × List Nat) :
    Except CfgError (ModelConfig_DEVICE × List Nat) :=
  let dev := st.1
  let mask := st.2
  if size = 0 then .error .RangeError
  else
    let grow := (addr + size) % 4294967296 > dev.m_total_bits
    let total_bits := if grow then (addr + size) % 4294967296 else dev.m_total_bits
    let mask := if grow then extend_mask total_bits mask else mask
    let max_len :=
      if bitfield_name.utf8ByteSize > dev.m_max_attr_name_length
      then bitfield_name.utf8ByteSize % 4294967296 else dev.m_max_attr_name_length
    match mark_bits size addr mask with
    | .error e => .error e
    | .ok mask =>
      if (map_find addr dev.m_bitfields).isSome then .error .InternalError
      else
        match ModelConfig_BITFIELD.new block_name user_name bitfield_name addr size
            default_value type with
        | .error e => .error e
        | .ok b =>
          .ok ({ dev with
                  m_total_bits := total_bits
                  m_max_attr_name_length := max_len
                  m_bitfields := map_assign addr b dev.m_bitfields }, mask)

/-- The loop of `create_bitfields` over the attributes of one block. -/
def create_attributes (name user_name : String) (offset : Nat) :
    List (String × Parameter) → ModelConfig_DEVICE × List Nat →
    Except CfgError (ModelConfig_DEVICE × List Nat)
  | [], st => .ok st
  | iter :: rest, st =>
    let attr := iter.2
    let attr_type := attr.type
    let addr := (offset + toU32 attr.address) % 4294967296
    let size := toU32 attr_type.size
    let default_value :=
      match attr_type.default_value with
      | some v => toU32 v
      | none => 0
    match add_bitfield name user_name iter.1 addr size default_value (some attr_type) st with
    | .error e => .error e
    | .ok st => create_attributes name user_name offset rest st

/-- The string that `std::string` builds from `s.c_str()`: the characters of
`s` before its first NUL character. -/
def c_str (s : String) : String :=
  String.mk (s.data.takeWhile (fun c => c ≠ Char.ofNat 0))

/-- The hierarchical name of a child instance, as `create_bitfields` and
`dump_ric` build it: the name of the instance is taken from
`iter.first.c_str()` and joined with a dot to a non-empty name. -/
def child_name (name iter_first : String) : String :=
  if name.utf8ByteSize ≠ 0 then name ++ "." ++ c_str iter_first else c_str iter_first

mutual
/-- The method `ModelConfig_DEVICE::create_bitfields`. -/
def create_bitfields (d : device) :
    device_block → String → String → String → Nat → ModelConfig_DEVICE × List Nat →
    Except CfgError (ModelConfig_DEVICE × List Nat)
  | .mk _ attributes instances, space, name, addr_name, offset, st =>
    let r :=
      if attributes.length ≠ 0 then
        create_attributes name (d.getCustomerName name) offset attributes st
      else .ok st
    match r with
    | .error e => .error e
    | .ok st => create_instances d instances space name addr_name offset st
/-- The loop of `create_bitfields` over the child instances of one block. -/
def create_instances (d : device) :
    List (String × Int × device_block) → String → String → String → Nat →
    ModelConfig_DEVICE × List Nat → Except CfgError (ModelConfig_DEVICE × List Nat)
  | [], _, _, _, _, st => .ok st
  | (iter_first, logic_address, block) :: rest, space, name, addr_name, offset, st =>
    let next_addr_name := addr_name ++ " + " ++ toString logic_address
    match create_bitfields d block (space ++ "    ") (child_name name iter_first)
        next_addr_name ((offset + toU32 logic_address) % 4294967296) st with
    | .error e => .error e
    | .ok st => create_instances d rest space name addr_name offset st
end

/-- The loop `for (size_t i = 0; i < n; i++) CFG_ASSERT(mask[i] == 0xFF)` of
the constructor: `n` bytes remain to be checked, `i` is the current index. -/
def check_bytes (mask : List Nat) : Nat → Nat → Except CfgError Unit
  | 0, _ => .ok ()
  | n + 1, i =>
    match mask[i]? with
    | none => .error .MemoryFault
    | some b => if b = 255 then check_bytes mask n (i + 1) else .error .InternalError

/-- The self-check at the end of the constructor: with a partial last byte,
the bytes before it are `0xFF` and the last byte is `(1 << (total % 8)) - 1`;
without one, every byte is `0xFF`. -/
def check_mask (total_bits : Nat) (mask : List Nat) : Except CfgError Unit :=
  if total_bits % 8 ≠ 0 then
    match check_bytes mask (total_bits / 8) 0 with
    | .error e => .error e
    | .ok _ =>
      match mask.getLast? with
      | none => .error .MemoryFault
      | some b => if b = (1 <<< (total_bits % 8)) - 1 then .ok () else .error .InternalError
  else if mask.all (fun b => b == 255) then .ok () else .error .InternalError

/-- The constructor `ModelConfig_DEVICE::ModelConfig_DEVICE`; `none` for the
device is the null pointer. -/
def ModelConfig_DEVICE.new (feature model : String) (dev : Option device) :
    Except CfgError ModelConfig_DEVICE :=
  if model.utf8ByteSize = 0 then .error .InternalError
  else
    match dev with
    | none => .error .InternalError
    | some d =>
      match d.get_block model with
      | none => .error .NotFoundError
      | some block =>
        match create_bitfields d block "  " "" "0" 0
            (⟨feature, model, 0, 0, [], []⟩, []) with
        | .error e => .error e
        | .ok (s, mask) =>
          if s.m_total_bits = 0 then .error .InternalError
          else if (s.m_total_bits + 7) % 4294967296 / 8 ≠ mask.length then .error .InternalError
          else
            match check_mask s.m_total_bits mask with
            | .error e => .error e
            | .ok _ => .ok s

/-- Value of a digit character in decimal or hexadecimal notation. -/
def digit_value (c : Char) : Option Nat :=
  if 48 ≤ c.toNat ∧ c.toNat ≤ 57 then some (c.toNat - 48)
  else if 97 ≤ c.toNat ∧ c.toNat ≤ 102 then some (c.toNat - 87)
  else if 65 ≤ c.toNat ∧ c.toNat ≤ 70 then some (c.toNat - 55)
  else none

/-- Reads a run of digits in the given base, most significant first. -/
def parse_digits (base : Nat) : List Char → Nat → Option Nat
  | [], acc => some acc
  | c :: cs, acc =>
    match digit_value c with
    | some v => if v < base then parse_digits base cs (acc * base + v) else none
    | none => none

/-- Modelled from the spec: `CFG_convert_string_to_u64` belongs to CFGCommon,
which is not among the sources.  It parses an integer written in decimal or,
after the prefix `0x`, in hexadecimal; `none` is a cleared status flag (an
empty string, a character that is not a digit, a value that does not fit 64
bits). -/
def CFG_convert_string_to_u64 (str : String) : Option Nat :=
  let r :=
    match str.data with
    | [] => none
    | '0' :: 'x' :: c :: cs => parse_digits 16 (c :: cs) 0
    | cs => parse_digits 10 cs 0
  match r with
  | some v => if v < 18446744073709551616 then some v else none
  | none => none

/-- The method `ModelConfig_DEVICE::is_number`: the parsed value narrowed to
`uint32_t` when the status flag is set, `none` when it is cleared. -/
def is_number (str : String) : Option Nat :=
  match CFG_convert_string_to_u64 str with
  | some v => some (v % 4294967296)
  | none => none

/-- The test in the loop of `get_bitfield`. -/
def bitfield_matches (inst name : String) (b : ModelConfig_BITFIELD) : Bool :=
  (b.m_block_name == inst || b.m_user_name == inst) && b.m_name == name

/-- The loop of `get_bitfield` over the map in ascending key order: the
position of the first matching entry together with the entry. -/
def find_bitfield (inst name : String) :
    List (Nat × ModelConfig_BITFIELD) → Option (Nat × Nat × ModelConfig_BITFIELD)
  | [] => none
  | b :: rest =>
    if bitfield_matches inst name b.2 then some (0, b)
    else
      match find_bitfield inst name rest with
      | some (i, r) => some (i + 1, r)
      | none => none

/-- The method `ModelConfig_DEVICE::get_bitfield`.  The pointer it returns is
the position of the entry in the map; `none` is the null pointer. -/
def ModelConfig_DEVICE.get_bitfield (s : ModelConfig_DEVICE) (inst name : String) :
    Option (Nat × Nat × ModelConfig_BITFIELD) :=
  find_bitfield inst name s.m_bitfields

/-- The value that the two-argument `set_attr` assigns: the number that the
string denotes or, when it denotes none, the value of the label in the
enumeration of the descriptor's type, narrowed to `uint32_t`. -/
def resolve_value (bitfield : ModelConfig_BITFIELD) (value : String) : Except CfgError Nat :=
  match is_number value with
  | some v => .ok v
  | none =>
    match bitfield.m_type with
    | none => .error .NotFoundError
    | some t =>
      match t.get_enum_value value with
      | .ok v => .ok (toU32 v)
      | .error e => .error e

/-- The two-argument form `ModelConfig_DEVICE::set_attr(instance, name, value)`.
The result is the failure, if any, and the session after the call. -/
def ModelConfig_DEVICE.set_attr (s : ModelConfig_DEVICE) (inst name value : String) :
    Option CfgError × ModelConfig_DEVICE :=
  match s.get_bitfield inst name with
  | none => (some .NotFoundError, s)
  | some (i, key, bitfield) =>
    match resolve_value bitfield value with
    | .error e => (some e, s)
    | .ok v =>
      if ¬ (bitfield.m_size = 32 ∨ v < 1 <<< bitfield.m_size) then (some .RangeError, s)
      else (none, { s with m_bitfields := s.m_bitfields.set i (key, { bitfield with m_value := v }) })

/-- The lookup `options.at(key)` of a `std::map` of strings; `none` is the
exception `std::out_of_range`. -/
def options_at (options : List (String × String)) (key : String) : Option String :=
  (options.find? (fun p => p.1 == key)).map Prod.snd

/-- The loop of the preset-aware `set_attr` over `setting->m_attributes`; a
failing assignment ends the loop and leaves the earlier ones in place. -/
def set_attr_loop (inst : String) :
    List ModelConfig_API_ATTRIBUTE → ModelConfig_DEVICE → Option CfgError × ModelConfig_DEVICE
  | [], s => (none, s)
  | attr :: rest, s =>
    match s.set_attr inst attr.m_name attr.m_value with
    | (some e, s) => (some e, s)
    | (none, s) => set_attr_loop inst rest s

/-- The preset-aware form `ModelConfig_DEVICE::set_attr(options)`. -/
def ModelConfig_DEVICE.set_attr_options (s : ModelConfig_DEVICE)
    (options : List (String × String)) : Option CfgError × ModelConfig_DEVICE :=
  match options_at options "instance", options_at options "name",
      options_at options "value" with
  | some inst, some name, some value =>
    match s.m_api.find? (fun p => p.1 == name) with
    | some api =>
      match api.2.get_setting value with
      | none => (some .NotFoundError, s)
      | some setting => set_attr_loop inst setting.m_attributes s
    | none => s.set_attr inst name value
  | _, _, _ => (some .InternalError, s)

/-! ## Vocabulary of the specification -/

/-- A block occurrence together with one of its attributes: the instances
`i1, ..., ik` (name and logical address) that lead to the block from the root,
the attribute name and the attribute. -/
structure Occurrence where
  path : List (String × Int)
  attr_name : String
  attr : Parameter
  deriving DecidableEq, Repr

mutual
/-- Every (block occurrence, attribute) pair of a block tree. -/
def occurrences : device_block → List Occurrence
  | .mk _ attributes instances =>
    attributes.map (fun a => ⟨[], a.1, a.2⟩) ++ occurrences_of_instances instances
/-- The (block occurrence, attribute) pairs below a list of instances. -/
def occurrences_of_instances : List (String × Int × device_block) → List Occurrence
  | [] => []
  | (iter_first, logic_address, block) :: rest =>
    (occurrences block).map (fun o => { o with path := (iter_first, logic_address) :: o.path })
      ++ occurrences_of_instances rest
end

/-- The dotted name `i1.i2...ik`, empty for the root. -/
def Occurrence.dotted_name (o : Occurrence) : String :=
  ".".intercalate (o.path.map Prod.fst)

/-- The hierarchical name the walk builds along a path: every instance name
is taken up to its first NUL character; a segment is joined with a dot to a
non-empty name and replaces an empty one. -/
def Occurrence.block_name (o : Occurrence) : String :=
  (o.path.map Prod.fst).foldl child_name ""

/-- The global offset: the local address plus the logical addresses of the
instances on the path, in 32-bit arithmetic. -/
def Occurrence.offset (o : Occurrence) : Nat :=
  (toU32 o.attr.address + (o.path.map (fun i => toU32 i.2)).sum) % 4294967296

/-- The bit width: the size of the attribute's type, as a 32-bit value. -/
def Occurrence.width (o : Occurrence) : Nat := toU32 o.attr.type.size

/-- The initial value: the default of the attribute's type, 0 without one. -/
def Occurrence.default_value (o : Occurrence) : Nat :=
  match o.attr.type.default_value with
  | some v => toU32 v
  | none => 0

/-- The descriptor that allocation creates for an occurrence. -/
def Occurrence.descriptor (d : device) (o : Occurrence) : ModelConfig_BITFIELD :=
  ⟨o.block_name, d.getCustomerName o.block_name, o.attr_name, o.offset, o.width,
    o.default_value, some o.attr.type⟩

/-- Bit `k` lies in the range `[offset, offset + width)` of a descriptor. -/
def ModelConfig_BITFIELD.covers (b : ModelConfig_BITFIELD) (k : Nat) : Prop :=
  b.m_addr ≤ k ∧ k < b.m_addr + b.m_size

/-- Bit `k` lies in the global range of an occurrence. -/
def Occurrence.covers (o : Occurrence) (k : Nat) : Prop :=
  o.offset ≤ k ∧ k < o.offset + o.width

instance (b : ModelConfig_BITFIELD) (k : Nat) : Decidable (b.covers k) :=
  inferInstanceAs (Decidable (_ ∧ _))

instance (o : Occurrence) (k : Nat) : Decidable (o.covers k) :=
  inferInstanceAs (Decidable (_ ∧ _))

/-- Bit `k` of the occupancy mask. -/
def mask_bit (mask : List Nat) (k : Nat) : Bool :=
  match mask[k / 8]? with
  | some b => b.testBit (k % 8)
  | none => false

/-! ## Invariant of the allocation walk -/

/-- Every byte of the mask fits eight bits. -/
def mask_bytes (mask : List Nat) : Prop := ∀ b ∈ mask, b < 256

/-- What holds of the session under construction and the occupancy mask
between two calls of `add_bitfield`. -/
structure AllocInv (st : ModelConfig_DEVICE × List Nat) : Prop where
  total_le : st.1.m_total_bits ≤ 4294967288
  mask_len : st.2.length = (st.1.m_total_bits + 7) / 8
  bytes : mask_bytes st.2
  bits : ∀ k, mask_bit st.2 k = true ↔ ∃ p ∈ st.1.m_bitfields, p.2.covers k
  keys : ∀ p ∈ st.1.m_bitfields, p.1 = p.2.m_addr
  ordered : st.1.m_bitfields.Pairwise (fun p q => p.2.m_addr + p.2.m_size ≤ q.2.m_addr)
  sizes : ∀ p ∈ st.1.m_bitfields, 0 < p.2.m_size ∧ p.2.m_size ≤ 32 ∧
    (p.2.m_size = 32 ∨ p.2.m_value < 2 ^ p.2.m_size)
  within : ∀ p ∈ st.1.m_bitfields, p.2.m_addr + p.2.m_size ≤ st.1.m_total_bits
  top : (st.1.m_total_bits = 0 ∧ st.1.m_bitfields = []) ∨
    ∃ p ∈ st.1.m_bitfields, p.2.m_addr + p.2.m_size = st.1.m_total_bits

/-- The state after a successful call. -/
def after_add (bn un n : String) (addr size dv : Nat) (ty : Option ParameterType)
    (st st' : ModelConfig_DEVICE × List Nat) : Prop :=
  AllocInv st' ∧
    st'.1.m_bitfields.Perm ((addr, ⟨bn, un, n, addr, size, dv, ty⟩) :: st.1.m_bitfields) ∧
    st'.1.m_feature = st.1.m_feature ∧ st'.1.m_model = st.1.m_model ∧
    st'.1.m_api = st.1.m_api ∧
    st'.1.m_total_bits = max st.1.m_total_bits (addr + size)

/-- The descriptor of an occurrence as seen from a block whose hierarchical
name is `name` and whose global offset is `offset`. -/
def Occurrence.descriptor_from (d : device) (name : String) (offset : Nat)
    (o : Occurrence) : ModelConfig_BITFIELD :=
  let block_name := (o.path.map Prod.fst).foldl child_name name
  let block_offset :=
    (o.path.map Prod.snd).foldl (fun acc la => (acc + toU32 la) % 4294967296) offset
  ⟨block_name, d.getCustomerName block_name, o.attr_name,
    (block_offset + toU32 o.attr.address) % 4294967296, o.width, o.default_value,
    some o.attr.type⟩

/-- The call of `add_bitfield` that creates the descriptor `b`. -/
def add_descriptor (b : ModelConfig_BITFIELD) (st : ModelConfig_DEVICE × List Nat) :
    Except CfgError (ModelConfig_DEVICE × List Nat) :=
  add_bitfield b.m_block_name b.m_user_name b.m_name b.m_addr b.m_size b.m_value b.m_type st

/-- The calls of `add_bitfield` for a list of descriptors, one after the other
up to the first failure. -/
def add_all : List ModelConfig_BITFIELD → ModelConfig_DEVICE × List Nat →
    Except CfgError (ModelConfig_DEVICE × List Nat)
  | [], st => .ok st
  | b :: bs, st =>
    match add_descriptor b st with
    | .error e => .error e
    | .ok st => add_all bs st

/-- Two descriptors share a bit. -/
def ModelConfig_BITFIELD.overlaps (a b : ModelConfig_BITFIELD) : Prop :=
  ∃ k, a.covers k ∧ b.covers k

/-- A descriptor the allocator accepts when its range is free: a width from 1
to 32, a value that fits the width, and a range that ends at or below
`2 ^ 32 - 8`, the last bit a mask indexed by 32-bit byte counts can hold. -/
def ModelConfig_BITFIELD.regular (b : ModelConfig_BITFIELD) : Prop :=
  b.m_size ≠ 0 ∧ b.m_size ≤ 32 ∧ (b.m_size = 32 ∨ b.m_value < 2 ^ b.m_size) ∧
    b.m_addr + b.m_size ≤ 4294967288


/-! ## Concrete device models -/

/-- A type of the given width, without default and without labels. -/
def plain_type (size : Int) : ParameterType := ⟨size, none, []⟩

/-- A root block with the attributes `a` in `[0, 4)` and `b` in `[4, 8)` and an
instance `i` at logical address 8 whose block has the attribute `x` in
`[0, 8)`. -/
def sample_block : device_block :=
  .mk "root" [("a", ⟨0, plain_type 4⟩), ("b", ⟨4, plain_type 4⟩)]
    [("i", 8, .mk "child" [("x", ⟨0, plain_type 8⟩)] [])]

/-- A device that holds `sample_block` under the model name `m` and gives the
instance `i` the alias `I`. -/
def sample_device : device :=
  ⟨fun model => if model = "m" then some sample_block else none,
    fun name => if name = "i" then "I" else ""⟩

/-- The session that the constructor builds for `sample_device`. -/
def sample_session : ModelConfig_DEVICE :=
  ⟨"f", "m", 16, 1,
    [(0, ⟨"", "", "a", 0, 4, 0, some (plain_type 4)⟩),
     (4, ⟨"", "", "b", 4, 4, 0, some (plain_type 4)⟩),
     (8, ⟨"i", "I", "x", 8, 8, 0, some (plain_type 8)⟩)], []⟩

/-- A root block whose only attribute lies in `[8, 9)`: bits 0 to 7 belong to
no attribute. -/
def gap_block : device_block := .mk "root" [("a", ⟨8, plain_type 1⟩)] []

/-- A device that holds `gap_block` under every model name. -/
def gap_device : device := ⟨fun _ => some gap_block, fun _ => ""⟩

/-- A root block whose attributes `a`, 40 bits wide, and `b` both start at
bit 0. -/
def wide_block : device_block :=
  .mk "root" [("a", ⟨0, plain_type 40⟩), ("b", ⟨0, plain_type 8⟩)] []

/-- A device that holds `wide_block` under every model name. -/
def wide_device : device := ⟨fun _ => some wide_block, fun _ => ""⟩

/-- A root block whose instance has the empty name; the block of that
instance has the attribute `a` and an instance `x`, whose block has the
attribute `b`. -/
def unnamed_block : device_block :=
  .mk "root" []
    [("", 0, .mk "mid" [("a", ⟨0, plain_type 8⟩)]
      [("x", 8, .mk "leaf" [("b", ⟨0, plain_type 8⟩)] [])])]

/-- A device that holds `unnamed_block` under every model name. -/
def unnamed_device : device := ⟨fun _ => some unnamed_block, fun _ => ""⟩

/-- The session that the constructor builds for `unnamed_device`. -/
def unnamed_session : ModelConfig_DEVICE :=
  ⟨"f", "m", 16, 1,
    [(0, ⟨"", "", "a", 0, 8, 0, some (plain_type 8)⟩),
     (8, ⟨"x", "", "b", 8, 8, 0, some (plain_type 8)⟩)], []⟩

/-- A root block whose attributes `a` in `[0, 8)` and `b` in `[4, 8)` share the
bits 4 to 7. -/
def clash_block : device_block :=
  .mk "root" [("a", ⟨0, plain_type 8⟩), ("b", ⟨4, plain_type 4⟩)] []

/-- A device that holds `clash_block` under every model name. -/
def clash_device : device := ⟨fun _ => some clash_block, fun _ => ""⟩

/-- A root block with an instance whose name has a NUL character after its
first letter; the block of the instance has the attribute `a`. -/
def nul_block : device_block :=
  .mk "root" [] [(String.mk ['i', Char.ofNat 0, 'j'], 0, .mk "leaf" [("a", ⟨0, plain_type 8⟩)] [])]

/-- A device that holds `nul_block` under every model name. -/
def nul_device : device := ⟨fun _ => some nul_block, fun _ => ""⟩

/-- The session that the constructor builds for `nul_device`. -/
def nul_session : ModelConfig_DEVICE :=
  ⟨"f", "m", 8, 1, [(0, ⟨"i", "", "a", 0, 8, 0, some (plain_type 8)⟩)], []⟩

/-! ## Vocabulary of the claims about `set_attr` -/

/-- The descriptors of a session are keyed by their global offset, in ascending
order of the keys, as in the `std::map` of the source. -/
def ModelConfig_DEVICE.keyed (s : ModelConfig_DEVICE) : Prop :=
  s.m_bitfields.Pairwise (fun p q => p.1 < q.1) ∧ ∀ p ∈ s.m_bitfields, p.1 = p.2.m_addr

/-- Specification of the preset expansion: the two-argument assignments of the
pairs, applied one after the other in declared order to the session that the
previous one left; a failure ends the command. -/
def assign_in_order (inst : String) (pairs : List (String × String))
    (s : ModelConfig_DEVICE) : Option CfgError × ModelConfig_DEVICE :=
  pairs.foldl
    (fun r pair =>
      match r with
      | (none, s) => s.set_attr inst pair.1 pair.2
      | (some e, s) => (some e, s))
    (none, s)

/-- The value that the descriptor of an instance (block name or alias) and
attribute name holds, read as `get_bitfield` finds it. -/
def ModelConfig_DEVICE.read (s : ModelConfig_DEVICE) (inst name : String) : Option Nat :=
  (s.get_bitfield inst name).map (fun r => r.2.2.m_value)

/-- A root block with one attribute `w` of 32 bits. -/
def word_block : device_block := .mk "root" [("w", ⟨0, plain_type 32⟩)] []

/-- A device that holds `word_block` under every model name. -/
def word_device : device := ⟨fun _ => some word_block, fun _ => ""⟩

/-- The session that the constructor builds for `word_device`. -/
def word_session : ModelConfig_DEVICE :=
  ⟨"f", "m", 32, 1, [(0, ⟨"", "", "w", 0, 32, 0, some (plain_type 32)⟩)], []⟩

/-- A type of four bits with the labels `slow` and `fast`. -/
def speed_type : ParameterType := ⟨4, none, [("slow", 0), ("fast", 1)]⟩

/-- A root block with an instance `I` at logical address 0, whose block has the
four-bit attributes `x` in `[0, 4)` and `y` in `[4, 8)`. -/
def preset_block : device_block :=
  .mk "root" [] [("I", 0, .mk "cell" [("x", ⟨0, speed_type⟩), ("y", ⟨4, speed_type⟩)] [])]

/-- A device that holds `preset_block` under every model name. -/
def preset_device : device := ⟨fun _ => some preset_block, fun _ => ""⟩

/-- The API group `mode` with the settings `fast`, which assigns 1 to `x` and
then 2 to `y`, `twice`, which assigns 1 and then 3 to `x`, and `wrong`, which
assigns 1 to `x` and then 16 to `y`. -/
def mode_api : ModelConfig_API :=
  ⟨"mode",
    [("fast", ⟨"", [⟨"x", "1"⟩, ⟨"y", "2"⟩]⟩),
     ("twice", ⟨"", [⟨"x", "1"⟩, ⟨"x", "3"⟩]⟩),
     ("wrong", ⟨"", [⟨"x", "1"⟩, ⟨"y", "16"⟩]⟩)]⟩

/-- The descriptors of `preset_device` with the values of `x` and `y`. -/
def preset_bitfields (x y : Nat) : List (Nat × ModelConfig_BITFIELD) :=
  [(0, ⟨"I", "", "x", 0, 4, x, some speed_type⟩),
   (4, ⟨"I", "", "y", 4, 4, y, some speed_type⟩)]

/-- The session that the constructor builds for `preset_device`, with the API
group `mode` registered and `x`, `y` holding the given values. -/
def preset_session (x y : Nat) : ModelConfig_DEVICE :=
  ⟨"f", "m", 8, 1, preset_bitfields x y, [("mode", mode_api)]⟩


/-! ## Documents -/

/-- Modelled from the spec: a value of `nlohmann::json`.  The members of an
object are listed in the order in which the library iterates them, which is
the ascending order of the keys. -/
inductive Json where
  | null
  | bool (b : Bool)
  | number (n : Int)
  | string (s : String)
  | array (elements : List Json)
  | object (members : List (String × Json))

/-- The method `size()` of `nlohmann::json`: 0 for null, the number of
elements of an array or object, 1 for every other value. -/
def Json.size : Json → Nat
  | .null => 0
  | .array elements => elements.length
  | .object members => members.length
  | _ => 1

/-- The method `is_object()`. -/
def Json.is_object : Json → Bool
  | .object _ => true
  | _ => false

/-- The method `is_array()`. -/
def Json.is_array : Json → Bool
  | .array _ => true
  | _ => false

/-- The method `is_string()`. -/
def Json.is_string : Json → Bool
  | .string _ => true
  | _ => false

/-- The method `contains(key)`: an object has a member with the key. -/
def Json.contains (j : Json) (key : String) : Bool :=
  match j with
  | .object members => members.any (fun m => m.1 == key)
  | _ => false

/-- The access `j[key]` to a member that the object contains. -/
def Json.get (j : Json) (key : String) : Option Json :=
  match j with
  | .object members => (members.find? (fun m => m.1 == key)).map Prod.snd
  | _ => none

/-- A file handed to `set_api` or `set_design`: a file that cannot be opened,
a file that is not a JSON text, or the document that `nlohmann::json::parse`
returns. -/
inductive JsonFile where
  | unreadable
  | malformed
  | parsed (doc : Json)

/-! ## The design attribute loader -/

/-- The loop of `set_design_attribute` over `attributes.items()`. -/
def set_design_items (inst : String) :
    List (String × Json) → ModelConfig_DEVICE → Option CfgError × ModelConfig_DEVICE
  | [], s => (none, s)
  | (key, value) :: rest, s =>
    match value with
    | .string v =>
      match s.set_attr_options [("instance", inst), ("name", key), ("value", v)] with
      | (some e, s) => (some e, s)
      | (none, s) => set_design_items inst rest s
    | _ => (some .ValidationError, s)

/-- The method `ModelConfig_DEVICE::set_design_attribute`. -/
def ModelConfig_DEVICE.set_design_attribute (s : ModelConfig_DEVICE) (inst : String)
    (attributes : Json) : Option CfgError × ModelConfig_DEVICE :=
  match attributes with
  | .object members =>
    if members.length = 0 then (some .ValidationError, s)
    else set_design_items inst members s
  | _ => (some .ValidationError, s)

/-- The loop of `set_design_attributes` over an array of attribute maps. -/
def set_design_maps (inst : String) :
    List Json → ModelConfig_DEVICE → Option CfgError × ModelConfig_DEVICE
  | [], s => (none, s)
  | element :: rest, s =>
    if ¬ element.is_object then (some .ValidationError, s)
    else
      match s.set_design_attribute inst element with
      | (some e, s) => (some e, s)
      | (none, s) => set_design_maps inst rest s

/-- The method `ModelConfig_DEVICE::set_design_attributes`. -/
def ModelConfig_DEVICE.set_design_attributes (s : ModelConfig_DEVICE) (inst : Json)
    (attributes : Json) : Option CfgError × ModelConfig_DEVICE :=
  match inst with
  | .string location =>
    if ¬ (attributes.is_array ∨ attributes.is_object) then (some .ValidationError, s)
    else if attributes.size = 0 then (some .ValidationError, s)
    else
      match attributes with
      | .array elements => set_design_maps location elements s
      | _ => s.set_design_attribute location attributes
  | _ => (some .ValidationError, s)

/-- The loop of `set_design` over the elements of `instances`. -/
def set_design_instances :
    List Json → ModelConfig_DEVICE → Option CfgError × ModelConfig_DEVICE
  | [], s => (none, s)
  | inst :: rest, s =>
    if ¬ inst.is_object then (some .ValidationError, s)
    else if inst.size = 0 then (some .ValidationError, s)
    else if inst.contains "config_attributes" then
      match inst.get "location", inst.get "config_attributes" with
      | some location, some attributes =>
        match s.set_design_attributes location attributes with
        | (some e, s) => (some e, s)
        | (none, s) => set_design_instances rest s
      | _, _ => (some .ValidationError, s)
    else set_design_instances rest s

/-- The method `ModelConfig_DEVICE::set_design`.  The two warnings that it
posts have no effect on the session. -/
def ModelConfig_DEVICE.set_design (s : ModelConfig_DEVICE) (file : JsonFile) :
    Option CfgError × ModelConfig_DEVICE :=
  match file with
  | .unreadable => (some .IOError, s)
  | .malformed => (some .ValidationError, s)
  | .parsed api =>
    if ¬ api.is_object then (some .ValidationError, s)
    else if api.size = 0 then (some .ValidationError, s)
    else if api.contains "instances" then
      match api.get "instances" with
      | some (.array instances) =>
        if instances.length ≠ 0 then set_design_instances instances s
        else (none, s)
      | _ => (some .ValidationError, s)
    else (none, s)

/-! ## The API catalog -/

/-- The assignment `m[key] = value` of a `std::map` with string keys. -/
def string_map_assign {α : Type} (key : String) (value : α) :
    List (String × α) → List (String × α)
  | [] => [(key, value)]
  | x :: xs =>
    if key < x.1 then (key, value) :: x :: xs
    else if key = x.1 then (key, value) :: xs
    else x :: string_map_assign key value xs

/-- The method `ModelConfig_DEVICE::check_json_setting`: the object has as many
members as `vector` has names, every key is one of the names and every value is
a string. -/
def check_json_setting (json : Json) (vector : List String) : Option CfgError :=
  match json with
  | .object members =>
    if members.length ≠ vector.length then some .ValidationError
    else if members.all (fun m => vector.contains m.1 && m.2.is_string) then none
    else some .ValidationError
  | _ => some .ValidationError

/-- The string that a JSON string converts to; the empty string stands for the
conversion of any other value, which the checks before each use exclude. -/
def Json.to_string : Json → String
  | .string s => s
  | _ => ""

/-- The constructor of `ModelConfig_API_ATTRIBUTE` with its two assertions. -/
def ModelConfig_API_ATTRIBUTE.new (name value : String) :
    Except CfgError ModelConfig_API_ATTRIBUTE :=
  if name.utf8ByteSize = 0 then .error .ValidationError
  else if value.utf8ByteSize = 0 then .error .ValidationError
  else .ok ⟨name, value⟩

/-- The loop of `add_api_setting` over the entries of a setting; `set` is the
setting under construction. -/
def add_api_entries :
    List Json → ModelConfig_API_SETTING → Option CfgError × ModelConfig_API_SETTING
  | [], set => (none, set)
  | iter :: rest, set =>
    if ¬ iter.is_object then (some .ValidationError, set)
    else if iter.contains "instance" then
      match check_json_setting iter ["instance"] with
      | some e => (some e, set)
      | none =>
        add_api_entries rest
          { set with m_instance_equation := ((iter.get "instance").getD .null).to_string }
    else
      match check_json_setting iter ["attr", "value"] with
      | some e => (some e, set)
      | none =>
        match ModelConfig_API_ATTRIBUTE.new ((iter.get "attr").getD .null).to_string
            ((iter.get "value").getD .null).to_string with
        | .error e => (some e, set)
        | .ok attr => add_api_entries rest { set with m_attributes := set.m_attributes ++ [attr] }

/-- The method `ModelConfig_DEVICE::add_api_setting`, with
`ModelConfig_API::add_setting`.  The setting is created in the group before its
entries are read and stays there when an entry fails. -/
def add_api_setting (api : ModelConfig_API) (setting : String) (json : Json) :
    Option CfgError × ModelConfig_API :=
  match json with
  | .array elements =>
    if elements.length = 0 then (some .ValidationError, api)
    else if (api.get_setting setting).isSome then (some .InternalError, api)
    else
      match add_api_entries elements ⟨"", []⟩ with
      | (e, set) => (e, { api with m_setting := string_map_assign setting set api.m_setting })
  | _ => (some .ValidationError, api)

/-- The loop of `add_api` over the settings of a group. -/
def add_api_settings :
    List (String × Json) → ModelConfig_API → Option CfgError × ModelConfig_API
  | [], api => (none, api)
  | (key, value) :: rest, api =>
    match add_api_setting api key value with
    | (some e, api) => (some e, api)
    | (none, api) => add_api_settings rest api

/-- The method `ModelConfig_DEVICE::add_api`.  A group of the same name is
replaced; the new group is in the catalog while its settings are read and
stays there when a setting fails. -/
def ModelConfig_DEVICE.add_api (s : ModelConfig_DEVICE) (api : String) (json : Json) :
    Option CfgError × ModelConfig_DEVICE :=
  match json with
  | .object members =>
    if members.length = 0 then (some .ValidationError, s)
    else if api.utf8ByteSize = 0 then (some .ValidationError, s)
    else
      match add_api_settings members ⟨api, []⟩ with
      | (e, group) => (e, { s with m_api := string_map_assign api group s.m_api })
  | _ => (some .ValidationError, s)

/-- The loop of `set_api` over the groups of the document. -/
def set_api_groups :
    List (String × Json) → ModelConfig_DEVICE → Option CfgError × ModelConfig_DEVICE
  | [], s => (none, s)
  | (key, value) :: rest, s =>
    match s.add_api key value with
    | (some e, s) => (some e, s)
    | (none, s) => set_api_groups rest s

/-- The method `ModelConfig_DEVICE::set_api`. -/
def ModelConfig_DEVICE.set_api (s : ModelConfig_DEVICE) (file : JsonFile) :
    Option CfgError × ModelConfig_DEVICE :=
  match file with
  | .unreadable => (some .IOError, s)
  | .malformed => (some .ValidationError, s)
  | .parsed api =>
    match api with
    | .object members =>
      if members.length = 0 then (some .ValidationError, s)
      else set_api_groups members s
    | _ => (some .ValidationError, s)

/-! ## Commands on a session -/

/-- A command that mutates a session: the preset-aware `set_attr`, `set_api`
and `set_design`. -/
inductive Command where
  | set_attr (options : List (String × String))
  | set_api (file : JsonFile)
  | set_design (file : JsonFile)

/-- The failure, if any, and the session after one command. -/
def ModelConfig_DEVICE.run (s : ModelConfig_DEVICE) :
    Command → Option CfgError × ModelConfig_DEVICE
  | .set_attr options => s.set_attr_options options
  | .set_api file => s.set_api file
  | .set_design file => s.set_design file

/-- The session after a sequence of commands, each of which may have succeeded
or failed. -/
def ModelConfig_DEVICE.run_all (s : ModelConfig_DEVICE) : List Command → ModelConfig_DEVICE
  | [] => s
  | c :: rest => (s.run c).2.run_all rest


/-! ## The bitstream serializer -/

/-- Modelled from the spec: the conversion `%d` of `CFG_print`, which is not
among the sources, applied to a `uint32_t`: the decimal digits of the value
read as a signed 32-bit integer. -/
def print_d (v : Nat) : String :=
  if v % 4294967296 < 2147483648 then toString (v % 4294967296)
  else "-" ++ toString (4294967296 - v % 4294967296)

/-- The uppercase hexadecimal digit of a number below 16. -/
def hex_digit (n : Nat) : Char :=
  if n < 10 then Char.ofNat (48 + n) else Char.ofNat (55 + n)

/-- Modelled from the spec: the conversion `%08X` of `CFG_print` applied to a
`uint32_t`: eight uppercase hexadecimal digits, the most significant first. -/
def print_08X (v : Nat) : String :=
  String.mk ((List.range 8).map (fun k => hex_digit (v / 16 ^ (7 - k) % 16)))

/-- Modelled from the spec: a conversion of `CFG_print` with a minimum field
width (`%*s`, `%2d`): the text is padded with blanks on the left. -/
def print_padded (width : Nat) (text : String) : String :=
  String.mk (List.replicate (width - text.utf8ByteSize) ' ') ++ text

/-- The output operator `file << text`: the text is appended to an open stream
and lost on a stream that was not opened. -/
def file_put (file : Option String) (text : String) : Option String :=
  file.map (fun content => content ++ text)

/-- The lines that `write` puts at the start of every text file, and after them
the model-binding command of the TCL format. -/
def write_header (s : ModelConfig_DEVICE) (format : String) : String :=
  "// Feature Bitstream: " ++ s.m_feature ++ "\n" ++
  ("// Model: " ++ s.m_model ++ "\n") ++
  ("// Total Bits: " ++ print_d s.m_total_bits ++ "\n") ++
  "// Timestamp:\n" ++
  ("// Format: " ++ format ++ "\n") ++
  (if format = "TCL" then
    "model_config set_model -feature " ++ s.m_feature ++ " " ++ s.m_model ++ "\n"
  else "")

/-- The local variables of `write` that its loop over the descriptors
changes. -/
structure WriteState where
  addr : Nat
  data : List Nat
  file : Option String
  block_name : String
  deriving DecidableEq, Repr

/-- The loop of `write` over the bits of one descriptor: `n` bits remain, `i`
is the bit of the value and `addr` the global bit.  (Every byte of the buffer
stays below 256, so the narrowing of the `|=` to `uint8_t` changes nothing;
the width of a descriptor is at most 32, so `i` stays below 32.) -/
def put_bits (value : Nat) : Nat → Nat → Nat → List Nat → Option CfgError × Nat × List Nat
  | 0, _, addr, data => (none, addr, data)
  | n + 1, i, addr, data =>
    if value &&& (1 <<< i) ≠ 0 then
      match data[addr >>> 3]? with
      | none => (some .MemoryFault, addr, data)
      | some b =>
        put_bits value n (i + 1) ((addr + 1) % 4294967296)
          (data.set (addr >>> 3) (b ||| (1 <<< (addr &&& 7))))
    else put_bits value n (i + 1) ((addr + 1) % 4294967296) data

/-- The lines of the DETAIL format for one descriptor: the header of its block
when the block name differs from that of the previous descriptor, and the line
of the attribute. -/
def detail_text (s : ModelConfig_DEVICE) (block_name : String)
    (bitfield : ModelConfig_BITFIELD) : String :=
  (if bitfield.m_block_name ≠ block_name then
    "Block " ++ bitfield.m_block_name ++ " [" ++ bitfield.m_user_name ++ "]\n" ++
      "  Attributes:\n"
  else "") ++
  ("    " ++ print_padded s.m_max_attr_name_length bitfield.m_name ++ " - Addr: 0x" ++
    print_08X bitfield.m_addr ++ ", Size: " ++ print_padded 2 (print_d bitfield.m_size) ++
    ", Value: (0x" ++ print_08X bitfield.m_value ++ ") " ++ print_d bitfield.m_value ++ "\n")

/-- The name that the TCL format gives the instance of a descriptor: the user
alias when there is one, the block name otherwise. -/
def tcl_instance (bitfield : ModelConfig_BITFIELD) : String :=
  if bitfield.m_user_name.utf8ByteSize ≠ 0 then bitfield.m_user_name
  else bitfield.m_block_name

/-- The line of the TCL format for one descriptor. -/
def tcl_line (bitfield : ModelConfig_BITFIELD) : String :=
  "model_config set_attr -instance " ++ tcl_instance bitfield ++ " -name " ++
    bitfield.m_name ++ " -value " ++ print_d bitfield.m_value ++ "\n"

/-- The loop `while (addr < m_total_bits)` of `write`.  `fuel` bounds the
number of iterations; `none` is a loop that has not ended within the bound. -/
def write_loop (s : ModelConfig_DEVICE) (format : String) :
    Nat → WriteState → Option (Option CfgError × WriteState)
  | 0, st => if st.addr < s.m_total_bits then none else some (none, st)
  | fuel + 1, st =>
    if st.addr < s.m_total_bits then
      match map_find st.addr s.m_bitfields with
      | none => some (some .MissingBitfieldError, st)
      | some bitfield =>
        if st.addr ≠ bitfield.m_addr then some (some .MissingBitfieldError, st)
        else if st.data.length ≠ 0 then
          match put_bits bitfield.m_value bitfield.m_size 0 st.addr st.data with
          | (some e, addr, data) => some (some e, { st with addr := addr, data := data })
          | (none, addr, data) => write_loop s format fuel { st with addr := addr, data := data }
        else if format = "DETAIL" then
          write_loop s format fuel
            { st with
              file := file_put st.file (detail_text s st.block_name bitfield)
              block_name := bitfield.m_block_name
              addr := (st.addr + bitfield.m_size) % 4294967296 }
        else
          write_loop s format fuel
            { st with
              file := file_put st.file (tcl_line bitfield)
              block_name := tcl_instance bitfield
              addr := (st.addr + bitfield.m_size) % 4294967296 }
    else some (none, st)

/-- The loop of the BIT format over the global bits: `n` bits remain, `i` is
the current bit. -/
def write_bit_lines (data : List Nat) :
    Nat → Nat → Option String → Option CfgError × Option String
  | 0, _, file => (none, file)
  | n + 1, i, file =>
    match data[i >>> 3]? with
    | none => (some .MemoryFault, file)
    | some b =>
      write_bit_lines data n (i + 1)
        (file_put file (if b &&& (1 <<< (i &&& 7)) ≠ 0 then "1\n" else "0\n"))

/-- The word `words[i]` of the buffer read as an array of `uint32_t`, on a
machine that stores the least significant byte first. -/
def word_at (data : List Nat) (i : Nat) : Nat :=
  data.getD (4 * i) 0 + 256 * data.getD (4 * i + 1) 0 + 65536 * data.getD (4 * i + 2) 0 +
    16777216 * data.getD (4 * i + 3) 0

/-- The text that follows the digits of a word of the WORD format: the note
on the valid bits after the last word of a total that is not a multiple of 32,
and the end of the line. -/
def word_suffix (total_bits word_count i : Nat) : String :=
  if (i + 1) % 4294967296 = word_count ∧ total_bits % 32 ≠ 0 then
    " // (Valid LSBits: " ++ print_d (total_bits % 32) ++ ", Dummy MSBits: " ++
      print_d (32 - total_bits % 32) ++ ")\n"
  else "\n"

/-- The loop of the WORD format over the words: `n` words remain, `i` is the
current word. -/
def write_word_lines (total_bits word_count : Nat) (data : List Nat) :
    Nat → Nat → Option String → Option String
  | 0, _, file => file
  | n + 1, i, file =>
    write_word_lines total_bits word_count data n (i + 1)
      (file_put (file_put file (print_08X (word_at data i)))
        (word_suffix total_bits word_count i))

/-- What `write` leaves behind: the content of the text stream, if it was
opened, and the bytes handed to `CFG_write_binary_file`, if it was called. -/
structure WriteOutput where
  file : Option String
  binary : Option (List Nat)
  deriving DecidableEq, Repr

/-- The method `ModelConfig_DEVICE::write`.  `fuel` bounds the iterations of
the loop over the descriptors and `can_open` tells whether the text file can
be opened.  The result is `none` when the loop has not ended within the bound;
otherwise it is the failure, if any, and what was written up to it. -/
def ModelConfig_DEVICE.write (s : ModelConfig_DEVICE) (fuel : Nat)
    (options : List (String × String)) (can_open : Bool) :
    Option (Option CfgError × WriteOutput) :=
  if s.m_total_bits = 0 then some (some .InternalError, ⟨none, none⟩)
  else
    match options_at options "format" with
    | none => some (some .InternalError, ⟨none, none⟩)
    | some format =>
      if ¬ (format = "BIT" ∨ format = "WORD" ∨ format = "DETAIL" ∨ format = "TCL" ∨
          format = "BIN") then some (some .InternalError, ⟨none, none⟩)
      else if format ≠ "BIN" ∧ can_open = false then some (some .IOError, ⟨none, none⟩)
      else
        let file : Option String :=
          if format ≠ "BIN" then some (write_header s format) else none
        let data : List Nat :=
          if format = "BIT" ∨ format = "WORD" ∨ format = "BIN" then
            List.replicate ((s.m_total_bits + 31) % 4294967296 / 32 * 4 % 4294967296) 0
          else []
        match write_loop s format fuel ⟨0, data, file, ""⟩ with
        | none => none
        | some (some e, st) => some (some e, ⟨st.file, none⟩)
        | some (none, st) =>
          if st.addr ≠ s.m_total_bits then some (some .MissingBitfieldError, ⟨st.file, none⟩)
          else if st.data.length ≠ 0 then
            if format = "BIT" then
              match write_bit_lines st.data s.m_total_bits 0 st.file with
              | (e, file) => some (e, ⟨file, none⟩)
            else if format = "WORD" then
              some (none,
                ⟨write_word_lines s.m_total_bits ((s.m_total_bits + 31) % 4294967296 / 32)
                    st.data ((s.m_total_bits + 31) % 4294967296 / 32) 0 st.file,
                  none⟩)
            else
              some (none,
                ⟨st.file, some (st.data.take ((s.m_total_bits + 7) % 4294967296 / 8))⟩)
          else some (none, ⟨st.file, none⟩)


/-! ## Vocabulary of the claims about commands and documents -/

/-- A descriptor without its current value: what allocation fixes. -/
def ModelConfig_BITFIELD.fixed (b : ModelConfig_BITFIELD) : ModelConfig_BITFIELD :=
  { b with m_value := 0 }

/-- The descriptors of a session with their keys and without their values. -/
def ModelConfig_DEVICE.layout (s : ModelConfig_DEVICE) : List (Nat × ModelConfig_BITFIELD) :=
  s.m_bitfields.map (fun p => (p.1, p.2.fixed))

/-- Every descriptor has a width from 1 to 32 and a value below `2 ^ width`. -/
def ModelConfig_DEVICE.values_fit (s : ModelConfig_DEVICE) : Prop :=
  ∀ p ∈ s.m_bitfields, 1 ≤ p.2.m_size ∧ p.2.m_size ≤ 32 ∧ p.2.m_value < 2 ^ p.2.m_size

/-- Specification of the design loader: the assignments `(location, attribute
name, value)` of one `config_attributes` map, in the order of its members. -/
def map_entries (location : String) (attributes : Json) : List (String × String × String) :=
  match attributes with
  | .object members => members.map (fun m => (location, m.1, m.2.to_string))
  | _ => []

/-- Specification of the design loader: the assignments of one element of
`instances`: none without `config_attributes`, those of the map, or those of
the maps of an array one after the other. -/
def instance_entries (inst : Json) : List (String × String × String) :=
  match inst.get "location", inst.get "config_attributes" with
  | some (.string location), some (.array maps) =>
    (maps.map (map_entries location)).flatten
  | some (.string location), some attributes => map_entries location attributes
  | _, _ => []

/-- Specification of the design loader: the assignments of a design document,
instance after instance in the order of the array. -/
def design_entries (doc : Json) : List (String × String × String) :=
  match doc.get "instances" with
  | some (.array instances) => (instances.map instance_entries).flatten
  | _ => []

/-- Specification of the design loader: the preset-aware `set_attr` applied to
the assignments one after the other; a failure ends the sequence. -/
def replay_entries (entries : List (String × String × String)) (s : ModelConfig_DEVICE) :
    Option CfgError × ModelConfig_DEVICE :=
  entries.foldl
    (fun r entry =>
      match r with
      | (none, s) =>
        s.set_attr_options
          [("instance", entry.1), ("name", entry.2.1), ("value", entry.2.2)]
      | (some e, s) => (some e, s))
    (none, s)

/-- A root block with an instance `I` whose block has the four-bit attribute
`mode`. -/
def shadow_block : device_block :=
  .mk "root" [] [("I", 0, .mk "cell" [("mode", ⟨0, plain_type 4⟩)] [])]

/-- A device that holds `shadow_block` under every model name. -/
def shadow_device : device := ⟨fun _ => some shadow_block, fun _ => ""⟩

/-- The session that the constructor builds for `shadow_device`, with the API
group `mode` registered. -/
def shadow_session : ModelConfig_DEVICE :=
  ⟨"f", "m", 4, 4, [(0, ⟨"I", "", "mode", 0, 4, 0, some (plain_type 4)⟩)],
    [("mode", mode_api)]⟩

/-- What every command keeps of a session: the descriptors apart from their
values, the total, the names and the padding width; and the bound of the
values, when it held before. -/
structure Keeps (s s' : ModelConfig_DEVICE) : Prop where
  layout : s'.layout = s.layout
  total : s'.m_total_bits = s.m_total_bits
  feature : s'.m_feature = s.m_feature
  model : s'.m_model = s.m_model
  name_length : s'.m_max_attr_name_length = s.m_max_attr_name_length
  fit : s.values_fit → s'.values_fit

/-- A design document that assigns the label `fast` to `x` and the number 16
to `y` of the instance `I`. -/
def sample_design : Json :=
  .object [("instances",
    .array [.object [("config_attributes", .object [("x", .string "fast"), ("y", .string "16")]),
      ("location", .string "I")]])]

/-- A design document with two instances: the first assigns through an array
of two maps, the second selects the preset `fast`. -/
def replay_design : Json :=
  .object [("instances", .array
    [.object [("config_attributes",
        .array [.object [("x", .string "3")], .object [("x", .string "4"), ("y", .string "5")]]),
      ("location", .string "I")],
     .object [("location", .string "nowhere")],
     .object [("config_attributes", .object [("mode", .string "fast")]),
      ("location", .string "I")]])]


/-! ## Vocabulary of the claims about the serializer -/

/-- The descriptors of the list are keyed by their offsets, have a width of at
least one bit and follow one another without gap from bit `a` to bit `t`. -/
def chained : Nat → Nat → List (Nat × ModelConfig_BITFIELD) → Prop
  | a, t, [] => a = t
  | a, t, p :: rest =>
    p.1 = a ∧ p.2.m_addr = a ∧ 1 ≤ p.2.m_size ∧ chained (a + p.2.m_size) t rest

/-- What the serializer relies on: a positive total that the allocator can
reach, descriptors that fill `[0, total_bits)` in the order of their offsets,
and values that fit their widths. -/
structure ModelConfig_DEVICE.serializable (s : ModelConfig_DEVICE) : Prop where
  total_pos : 0 < s.m_total_bits
  total_le : s.m_total_bits ≤ 4294967288
  chain : chained 0 s.m_total_bits s.m_bitfields
  fit : s.values_fit

/-- Global bit `k` of the packed image of a list of descriptors: bit
`k - offset` of the value of the descriptor whose range holds `k`, and 0 when
there is none. -/
def image_bit (l : List (Nat × ModelConfig_BITFIELD)) (k : Nat) : Bool :=
  l.any (fun p =>
    decide (p.2.m_addr ≤ k ∧ k < p.2.m_addr + p.2.m_size) && p.2.m_value.testBit (k - p.2.m_addr))

/-- The number read from `width` bits of a byte buffer, starting at global bit
`offset`, the least significant bit first. -/
def read_bits (bytes : List Nat) (offset : Nat) : Nat → Nat
  | 0 => 0
  | width + 1 =>
    read_bits bytes offset width + (if mask_bit bytes (offset + width) then 2 ^ width else 0)

/-- The text made of the given texts one after the other. -/
def concat_text : List String → String
  | [] => ""
  | t :: rest => t ++ concat_text rest

/-- The lines of a text: the runs of characters that end with a line feed, in
order, and the run after the last line feed when it is not empty. -/
def split_lines : List Char → List Char → List String
  | [], current => if current = [] then [] else [String.mk current.reverse]
  | c :: rest, current =>
    if c = '\n' then String.mk current.reverse :: split_lines rest []
    else split_lines rest (c :: current)

/-- The lines of a text. -/
def text_lines (text : String) : List String := split_lines text.data []


/-! ## Further device models -/

/-- A root block with `n` attributes of 16 bits each, one after the other from
bit 0. -/
def long_block (n : Nat) : device_block :=
  .mk "root"
    ((List.range n).map (fun i => ("a" ++ toString i, ⟨((16 * i : Nat) : Int), plain_type 16⟩)))
    []

/-- A device that holds, under every model name, a block of 268435455
attributes of 16 bits: `2 ^ 32 - 16` bits in all. -/
def huge_device : device := ⟨fun _ => some (long_block 268435455), fun _ => ""⟩

/-- A root block with the attributes `a` in `[0, 32)` and `b` in `[32, 40)`. -/
def forty_block : device_block :=
  .mk "root" [("a", ⟨0, plain_type 32⟩), ("b", ⟨32, plain_type 8⟩)] []

/-- A device that holds `forty_block` under every model name. -/
def forty_device : device := ⟨fun _ => some forty_block, fun _ => ""⟩

/-- The session that the constructor builds for `forty_device`. -/
def forty_session : ModelConfig_DEVICE :=
  ⟨"f", "m", 40, 1,
    [(0, ⟨"", "", "a", 0, 32, 0, some (plain_type 32)⟩),
     (32, ⟨"", "", "b", 32, 8, 0, some (plain_type 8)⟩)], []⟩

/-! ## Vocabulary of the claims about the API catalog -/

/-- The key set of an entry is exactly `instance` or exactly `attr` and
`value`. -/
def entry_accepted (members : List (String × Json)) : Prop :=
  (members.map Prod.fst).Perm ["instance"] ∨ (members.map Prod.fst).Perm ["attr", "value"]

instance (members : List (String × Json)) : Decidable (entry_accepted members) :=
  inferInstanceAs (Decidable (_ ∨ _))

/-- What an accepted entry adds to the setting under construction: the
equation of an `instance` entry replaces the equation, the pair of an `attr`
and `value` entry is appended to the pairs. -/
def entry_effect (entry : Json) (set : ModelConfig_API_SETTING) : ModelConfig_API_SETTING :=
  if entry.contains "instance" then
    { set with m_instance_equation := ((entry.get "instance").getD .null).to_string }
  else
    { set with
      m_attributes := set.m_attributes ++
        [⟨((entry.get "attr").getD .null).to_string, ((entry.get "value").getD .null).to_string⟩] }

/-- The setting that the entries of an array describe: the equation of the
last `instance` entry, the empty string without one, and the pairs of the
other entries in the order of the array. -/
def setting_of_entries (elements : List Json) : ModelConfig_API_SETTING :=
  ⟨(((elements.filter (fun e => e.contains "instance")).getLast?).map
      (fun e => ((e.get "instance").getD .null).to_string)).getD "",
    (elements.filter (fun e => ¬ e.contains "instance")).map
      (fun e => ⟨((e.get "attr").getD .null).to_string, ((e.get "value").getD .null).to_string⟩)⟩

/-- The setting that a document of settings holds under a name: the setting
of the entries of the array under the name, if the document has the name. -/
def setting_of_document (members : List (String × Json)) (name : String) :
    Option ModelConfig_API_SETTING :=
  match members.find? (fun m => m.1 == name) with
  | some (_, .array elements) => some (setting_of_entries elements)
  | _ => none

/-- The group of the catalog under a name. -/
def ModelConfig_DEVICE.get_api (s : ModelConfig_DEVICE) (name : String) : Option ModelConfig_API :=
  (s.m_api.find? (fun p => p.1 == name)).map Prod.snd

/-! ## The feature registry -/

/-- The data members of `ModelConfig_MRG`.  A session lives in the map under
its feature; `none` in the map is a pointer to a session that was deleted.
`m_current_device` is the feature under which the map holds the session that
the pointer refers to; `none` is the pointer before its first assignment. -/
structure ModelConfig_MRG where
  m_current_feature : String
  m_current_device : Option String
  m_feature_devices : List (String × Option ModelConfig_DEVICE)
  deriving DecidableEq, Repr

/-- The registry at startup. -/
def ModelConfig_MRG.empty : ModelConfig_MRG := ⟨"", none, []⟩

/-- The lookup `m_feature_devices.find(feature)`: `none` when the feature is
not bound, the session or the deleted session otherwise. -/
def ModelConfig_MRG.find (r : ModelConfig_MRG) (feature : String) :
    Option (Option ModelConfig_DEVICE) :=
  (r.m_feature_devices.find? (fun p => p.1 == feature)).map Prod.snd

/-- The session of a feature, when the feature is bound to a session that was
not deleted. -/
def ModelConfig_MRG.session (r : ModelConfig_MRG) (feature : String) :
    Option ModelConfig_DEVICE :=
  (r.find feature).join

/-- The session that `m_current_device` refers to. -/
def ModelConfig_MRG.current (r : ModelConfig_MRG) : Option ModelConfig_DEVICE :=
  match r.m_current_device with
  | none => none
  | some feature => r.session feature

/-- The map of the registry after the session of a feature has changed in
place: the methods of a session change the object that the map points to, not
the map. -/
def session_update (feature : String) (s : ModelConfig_DEVICE) :
    List (String × Option ModelConfig_DEVICE) → List (String × Option ModelConfig_DEVICE)
  | [] => []
  | p :: rest =>
    if p.1 = feature then (p.1, some s) :: rest else p :: session_update feature s rest

/-- The registry after a method has changed the session that
`m_current_device` refers to. -/
def ModelConfig_MRG.set_current (r : ModelConfig_MRG) (s : ModelConfig_DEVICE) :
    ModelConfig_MRG :=
  match r.m_current_device with
  | none => r
  | some feature =>
    { r with m_feature_devices := session_update feature s r.m_feature_devices }

/-- Modelled from the spec: `Model::get_modler().get_device_model(model)` is
declared in DeviceModeling, which is not among the sources: the device of a
model name, `none` for the null pointer. -/
structure Model where
  get_device_model : String → Option device

/-- The method `ModelConfig_MRG::set_model`.  A session bound to the feature
is deleted before the new one is constructed; the construction may fail. -/
def ModelConfig_MRG.set_model (r : ModelConfig_MRG) (modeler : Model)
    (options : List (String × String)) (model : String) : Option CfgError × ModelConfig_MRG :=
  match options_at options "feature" with
  | none => (some .InternalError, r)
  | some feature =>
    match modeler.get_device_model model with
    | none => (some .NotFoundError, r)
    | some dev =>
      match r.find feature with
      | some none => (some .MemoryFault, { r with m_current_feature := feature })
      | found =>
        match ModelConfig_DEVICE.new feature model (some dev) with
        | .error e =>
          (some e,
            { r with
              m_current_feature := feature
              m_feature_devices :=
                if found.isSome then string_map_assign feature none r.m_feature_devices
                else r.m_feature_devices })
        | .ok s =>
          (none,
            { m_current_feature := feature
              m_current_device := some feature
              m_feature_devices := string_map_assign feature (some s) r.m_feature_devices })

/-- The method `ModelConfig_MRG::set_feature`. -/
def ModelConfig_MRG.set_feature (r : ModelConfig_MRG) (options : List (String × String)) :
    Option CfgError × ModelConfig_MRG :=
  let feature :=
    match options_at options "feature" with
    | some feature => feature
    | none => r.m_current_feature
  if feature.utf8ByteSize = 0 then (some .NotFoundError, r)
  else
    match r.find feature with
    | none => (some .NotFoundError, { r with m_current_feature := feature })
    | some _ =>
      (none, { r with m_current_feature := feature, m_current_device := some feature })

/-- A call `m_current_device->method(...)` of a method that may change the
session; the call through a pointer that was not assigned or to a deleted
session is undefined behaviour in the source and a `MemoryFault` here. -/
def ModelConfig_MRG.call (r : ModelConfig_MRG)
    (method : ModelConfig_DEVICE → Option CfgError × ModelConfig_DEVICE) :
    Option CfgError × ModelConfig_MRG :=
  match r.current with
  | none => (some .MemoryFault, r)
  | some s =>
    match method s with
    | (e, s) => (e, r.set_current s)

/-- The method `ModelConfig_MRG::set_api`. -/
def ModelConfig_MRG.set_api (r : ModelConfig_MRG) (options : List (String × String))
    (file : JsonFile) : Option CfgError × ModelConfig_MRG :=
  match r.set_feature options with
  | (some e, r) => (some e, r)
  | (none, r) => r.call (fun s => s.set_api file)

/-- The method `ModelConfig_MRG::set_attr`. -/
def ModelConfig_MRG.set_attr (r : ModelConfig_MRG) (options : List (String × String)) :
    Option CfgError × ModelConfig_MRG :=
  match r.set_feature options with
  | (some e, r) => (some e, r)
  | (none, r) => r.call (fun s => s.set_attr_options options)

/-- The method `ModelConfig_MRG::set_design`. -/
def ModelConfig_MRG.set_design (r : ModelConfig_MRG) (options : List (String × String))
    (file : JsonFile) : Option CfgError × ModelConfig_MRG :=
  match r.set_feature options with
  | (some e, r) => (some e, r)
  | (none, r) => r.call (fun s => s.set_design file)

/-- The method `ModelConfig_MRG::write`: the result of the serializer, `none`
while its loop has not ended within `fuel` iterations, and the registry. -/
def ModelConfig_MRG.write (r : ModelConfig_MRG) (fuel : Nat) (options : List (String × String))
    (can_open : Bool) : Option (Option CfgError × WriteOutput) × ModelConfig_MRG :=
  match r.set_feature options with
  | (some e, r) => (some (some e, ⟨none, none⟩), r)
  | (none, r) =>
    match r.current with
    | none => (some (some .MemoryFault, ⟨none, none⟩), r)
    | some s => (s.write fuel options can_open, r)

/-! ## The diagnostic walk `dump_ric` -/

/-- A line that `dump_ric` writes, with the arguments of its conversions: the
line of a block, with the hierarchical name and the alias when the block has
attributes; the line of an attribute; the line of an instance.  The
diagnostic location of an instance (`X`, `Y`, `Z`), which the model of the
block tree does not carry, is left out. -/
inductive RicRecord where
  | block (space block_name : String) (names : Option (String × String))
  | attr (space attr_name : String) (addr : Nat) (addr_name : String)
      (size default_value : Nat)
  | inst (space : String) (depth : Nat) (name : String) (offset : Nat) (logic_address : Int)
  deriving DecidableEq, Repr

/-- The loop of `dump_ric` over the attributes of one block. -/
def dump_ric_attributes (space addr_name : String) (offset : Nat) :
    List (String × Parameter) → List RicRecord
  | [] => []
  | iter :: rest =>
    let attr := iter.2
    let attr_type := attr.type
    let addr := (offset + toU32 attr.address) % 4294967296
    let size := toU32 attr_type.size
    let default_value :=
      match attr_type.default_value with
      | some v => toU32 v
      | none => 0
    .attr space iter.1 addr addr_name size default_value ::
      dump_ric_attributes space addr_name offset rest

mutual
/-- The protected method `ModelConfig_MRG::dump_ric`: the lines that it
appends to the file. -/
def dump_ric (d : device) : device_block → String → String → String → Nat → List RicRecord
  | .mk block_name attributes instances, space, name, addr_name, offset =>
    (if attributes.length ≠ 0 then
      .block space block_name (some (name, d.getCustomerName name)) ::
        dump_ric_attributes space addr_name offset attributes
    else [.block space block_name none]) ++
      dump_ric_instances d instances space name addr_name offset
/-- The loop of `dump_ric` over the child instances of one block. -/
def dump_ric_instances (d : device) :
    List (String × Int × device_block) → String → String → String → Nat → List RicRecord
  | [], _, _, _, _ => []
  | (iter_first, logic_address, block) :: rest, space, name, addr_name, offset =>
    .inst space (space.utf8ByteSize / 4) iter_first offset logic_address ::
      (dump_ric d block (space ++ "    ") (child_name name iter_first)
          (addr_name ++ " + " ++ toString logic_address)
          ((offset + toU32 logic_address) % 4294967296) ++
        dump_ric_instances d rest space name addr_name offset)
end

/-- The public method `ModelConfig_MRG::dump_ric`: the failure, if any, the
lines written to the output file, and the registry.  `can_open` tells whether
the output file can be opened. -/
def ModelConfig_MRG.dump_ric (r : ModelConfig_MRG) (modeler : Model) (model : String)
    (can_open : Bool) : Option CfgError × Option (List RicRecord) × ModelConfig_MRG :=
  match modeler.get_device_model model with
  | none => (some .NotFoundError, none, r)
  | some dev =>
    match dev.get_block model with
    | none => (some .NotFoundError, none, r)
    | some block =>
      if can_open = false then (some .IOError, none, r)
      else (none, some (FOEDAG.dump_ric dev block "" "" "0" 0), r)

/-- A command of the registry. -/
inductive RegistryCommand where
  | set_model (options : List (String × String)) (model : String)
  | set_api (options : List (String × String)) (file : JsonFile)
  | set_attr (options : List (String × String))
  | set_design (options : List (String × String)) (file : JsonFile)
  | write (options : List (String × String)) (can_open : Bool)
  | dump_ric (model : String) (can_open : Bool)

/-- The registry after one command, which may have succeeded or failed.
`fuel` bounds the iterations of the loop of `write`, which changes nothing. -/
def ModelConfig_MRG.run (r : ModelConfig_MRG) (modeler : Model) (fuel : Nat) :
    RegistryCommand → ModelConfig_MRG
  | .set_model options model => (r.set_model modeler options model).2
  | .set_api options file => (r.set_api options file).2
  | .set_attr options => (r.set_attr options).2
  | .set_design options file => (r.set_design options file).2
  | .write options can_open => (r.write fuel options can_open).2
  | .dump_ric model can_open => (r.dump_ric modeler model can_open).2.2

/-- The registry after a sequence of commands. -/
def ModelConfig_MRG.run_all (r : ModelConfig_MRG) (modeler : Model) (fuel : Nat) :
    List RegistryCommand → ModelConfig_MRG
  | [] => r
  | c :: rest => (r.run modeler fuel c).run_all modeler fuel rest

/-! ## Vocabulary of the claims about the registry and `dump_ric` -/

mutual
/-- The block occurrences of a tree in pre-order: the root, and for
every instance edge the occurrences of the block of the instance. -/
def block_occurrences : device_block → List device_block
  | .mk block_name attributes instances =>
    .mk block_name attributes instances :: block_occurrences_of_instances instances
/-- The block occurrences below a list of instances. -/
def block_occurrences_of_instances : List (String × Int × device_block) → List device_block
  | [] => []
  | (_, _, block) :: rest => block_occurrences block ++ block_occurrences_of_instances rest
end

/-- The name of the block of a record that is the line of a block. -/
def RicRecord.block_name? : RicRecord → Option String
  | .block _ block_name _ => some block_name
  | _ => none

/-- The name, the global address, the width and the default of a record that
is the line of an attribute. -/
def RicRecord.attr? : RicRecord → Option (String × Nat × Nat × Nat)
  | .attr _ attr_name addr _ size default_value => some (attr_name, addr, size, default_value)
  | _ => none

/-- The name of the block of a tree. -/
def device_block.block_name : device_block → String
  | .mk block_name _ _ => block_name

/-- The feature that a command resolves: the option `feature` when it is
given, the current feature otherwise. -/
def ModelConfig_MRG.resolve (r : ModelConfig_MRG) (options : List (String × String)) : String :=
  (options_at options "feature").getD r.m_current_feature

/-- The current feature is empty, or it is bound to a session and the
current-session reference is that session. -/
def ModelConfig_MRG.consistent (r : ModelConfig_MRG) : Prop :=
  r.m_current_feature = "" ∨
    ((r.session r.m_current_feature).isSome ∧ r.m_current_device = some r.m_current_feature)

/-- A command that is within what the registry relies on: a `set_model` whose
model is known builds its session, and a feature option of another command
names a feature that is bound to a session. -/
def RegistryCommand.aimed (r : ModelConfig_MRG) (modeler : Model) : RegistryCommand → Prop
  | .set_model options model =>
    ∀ feature dev, options_at options "feature" = some feature →
      modeler.get_device_model model = some dev →
        (r.find feature ≠ some none ∧
          ∃ s, ModelConfig_DEVICE.new feature model (some dev) = .ok s)
  | .set_api options _ | .set_attr options | .set_design options _ | .write options _ =>
    ∀ feature, options_at options "feature" = some feature → (r.session feature).isSome
  | .dump_ric _ _ => True

/-- Every command of a sequence is within what the registry relies on, in the
registry that the commands before it leave. -/
def aimed_all (modeler : Model) (fuel : Nat) : ModelConfig_MRG → List RegistryCommand → Prop
  | _, [] => True
  | r, c :: rest => c.aimed r modeler ∧ aimed_all modeler fuel (r.run modeler fuel c) rest

instance (r : ModelConfig_MRG) : Decidable r.consistent :=
  inferInstanceAs (Decidable (_ ∨ _))

/-- A command has acted on the session of the resolved feature: its failure
is that of the method of the session, the session that the method leaves is
bound to the resolved feature, which is the current feature, and every other
binding is as it was. -/
def ModelConfig_MRG.acted (r : ModelConfig_MRG) (options : List (String × String))
    (outcome : Option CfgError × ModelConfig_DEVICE)
    (result : Option CfgError × ModelConfig_MRG) : Prop :=
  result.1 = outcome.1 ∧ result.2.session (r.resolve options) = some outcome.2 ∧
    (∀ other, other ≠ r.resolve options → result.2.find other = r.find other) ∧
    result.2.m_current_feature = r.resolve options ∧
    result.2.m_current_device = some (r.resolve options)

/-- The name, the global address, the width and the initial value of a
descriptor. -/
def ModelConfig_BITFIELD.attribute_data (b : ModelConfig_BITFIELD) : String × Nat × Nat × Nat :=
  (b.m_name, b.m_addr, b.m_size, b.m_value)

/-! ## Sample registries -/

/-- A modeler that knows the model `m`, whose device is `sample_device`, and
the model `gap`, whose device is `gap_device` and cannot be allocated. -/
def sample_modeler : Model :=
  ⟨fun model =>
    if model = "m" then some sample_device
    else if model = "gap" then some gap_device
    else none⟩

/-- The session that the constructor builds for the feature `F` and the model
`m` of `sample_modeler`, with the value `x` of the attribute `x`. -/
def feature_session (x : Nat) : ModelConfig_DEVICE :=
  ⟨"F", "m", 16, 1,
    [(0, ⟨"", "", "a", 0, 4, 0, some (plain_type 4)⟩),
     (4, ⟨"", "", "b", 4, 4, 0, some (plain_type 4)⟩),
     (8, ⟨"i", "I", "x", 8, 8, x, some (plain_type 8)⟩)], []⟩

/-- A registry in which the feature `F` is bound to a session and is the
current feature. -/
def feature_registry (x : Nat) : ModelConfig_MRG :=
  ⟨"F", some "F", [("F", some (feature_session x))]⟩

/-- A registry in which the feature `F` is bound to a session with an assigned
value and a registered preset, and the feature `G` to a session of its own. -/
def busy_registry : ModelConfig_MRG :=
  ⟨"G", some "G",
    [("F", some { feature_session 3 with m_api := [("mode", mode_api)] }),
     ("G", some { feature_session 7 with m_feature := "G" })]⟩

/-! ## The occupancy mask -/

theorem shift_three (j : Nat) : j >>> 3 = j / 8 := by
  rw [Nat.shiftRight_eq_div_pow]

theorem and_seven (j : Nat) : j &&& 7 = j % 8 :=
  Nat.and_pow_two_sub_one_eq_mod j 3

theorem and_bit_ne_zero (b s : Nat) : b &&& (1 <<< s) ≠ 0 ↔ b.testBit s = true := by
  rw [Nat.one_shiftLeft, Nat.and_two_pow]
  cases h : b.testBit s <;> simp

theorem mask_bit_of_lt {mask : List Nat} {k : Nat} (h : mask_bit mask k = true) :
    k < 8 * mask.length := by
  unfold mask_bit at h
  cases hb : mask[k / 8]? with
  | none => simp [hb] at h
  | some b =>
    have := (List.getElem?_eq_some.mp hb).1
    omega

theorem mask_bit_set (mask : List Nat) (j b k : Nat) (hb : mask[j / 8]? = some b) :
    mask_bit (mask.set (j / 8) (b ||| (1 <<< (j % 8)))) k
      = (mask_bit mask k || decide (k = j)) := by
  have hlen : j / 8 < mask.length := (List.getElem?_eq_some.mp hb).1
  unfold mask_bit
  by_cases hk : k / 8 = j / 8
  · rw [hk, List.getElem?_set_self hlen, hb]
    simp only [Nat.testBit_or, Nat.one_shiftLeft, Nat.testBit_two_pow]
    congr 1
    have : (j % 8 = k % 8) ↔ k = j := by omega
    simp [this]
  · rw [List.getElem?_set_ne (Ne.symm hk)]
    have : k ≠ j := fun h => hk (by rw [h])
    simp [this]

theorem mask_bit_append_zero (mask : List Nat) (n k : Nat) :
    mask_bit (mask ++ List.replicate n 0) k = mask_bit mask k := by
  unfold mask_bit
  by_cases h : k / 8 < mask.length
  · rw [List.getElem?_append_left h]
  · rw [List.getElem?_append_right (Nat.le_of_not_lt h), List.getElem?_eq_none (Nat.le_of_not_lt h),
      List.getElem?_replicate]
    split_ifs <;> simp

theorem mask_bytes_set {mask : List Nat} (hm : mask_bytes mask) (i b s : Nat)
    (hb : mask[i]? = some b) (hs : s < 8) : mask_bytes (mask.set i (b ||| (1 <<< s))) := by
  intro x hx
  rcases List.mem_or_eq_of_mem_set hx with h | h
  · exact hm x h
  · have hb256 : b < 2 ^ 8 := by
      obtain ⟨hi, he⟩ := List.getElem?_eq_some.mp hb
      exact hm b (he ▸ List.getElem_mem hi)
    have h1 : 1 <<< s < 2 ^ 8 := by
      rw [Nat.one_shiftLeft]; exact Nat.pow_lt_pow_right (by norm_num) hs
    rw [h]; exact Nat.or_lt_two_pow hb256 h1

theorem mask_bytes_append_zero {mask : List Nat} (hm : mask_bytes mask) (n : Nat) :
    mask_bytes (mask ++ List.replicate n 0) := by
  intro x hx
  rcases List.mem_append.mp hx with h | h
  · exact hm x h
  · rw [List.eq_of_mem_replicate h]; norm_num

/-- The loop marks a free range that lies within the mask. -/
theorem mark_bits_free (n : Nat) : ∀ (j : Nat) (mask : List Nat),
    j + n ≤ 8 * mask.length → 8 * mask.length ≤ 4294967288 →
    (∀ k, j ≤ k → k < j + n → mask_bit mask k = false) →
    ∃ mask', mark_bits n j mask = .ok mask' ∧ mask'.length = mask.length ∧
      (mask_bytes mask → mask_bytes mask') ∧
      ∀ k, mask_bit mask' k = (mask_bit mask k || decide (j ≤ k ∧ k < j + n)) := by
  induction n with
  | zero =>
    intro j mask _ _ _
    exact ⟨mask, rfl, rfl, id, fun k => by simp⟩
  | succ n ih =>
    intro j mask hin hlen hfree
    have hj : j / 8 < mask.length := by omega
    obtain ⟨b, hb⟩ : ∃ b, mask[j / 8]? = some b :=
      ⟨mask[j / 8], List.getElem?_eq_getElem hj⟩
    have hbit : b.testBit (j % 8) = false := by
      have := hfree j (le_refl j) (by omega)
      simpa [mask_bit, hb] using this
    have hwrap : (j + 1) % 4294967296 = j + 1 := Nat.mod_eq_of_lt (by omega)
    have hnz : ¬ (b &&& (1 <<< (j % 8)) ≠ 0) := by
      rw [and_bit_ne_zero]; simp [hbit]
    obtain ⟨mask', hrun, hl, hby, hbits⟩ := ih (j + 1) (mask.set (j / 8) (b ||| (1 <<< (j % 8))))
      (by rw [List.length_set]; omega) (by rw [List.length_set]; exact hlen)
      (fun k hk1 hk2 => by
        rw [mask_bit_set mask j b k hb, hfree k (by omega) (by omega)]
        simp; omega)
    refine ⟨mask', ?_, ?_, ?_, ?_⟩
    · simp only [mark_bits, shift_three, and_seven, hb, hwrap, if_neg hnz]
      exact hrun
    · rw [hl, List.length_set]
    · intro hm
      exact hby (mask_bytes_set hm (j / 8) b (j % 8) hb (Nat.mod_lt _ (by norm_num)))
    · intro k
      rw [hbits k, mask_bit_set mask j b k hb, Bool.or_assoc]
      congr 1
      rw [← Bool.decide_or]
      apply decide_eq_decide.mpr
      omega

/-- The loop fails on a range that lies within the mask and holds a set bit. -/
theorem mark_bits_taken (n : Nat) : ∀ (j : Nat) (mask : List Nat),
    j + n ≤ 8 * mask.length → 8 * mask.length ≤ 4294967288 →
    (∃ k, j ≤ k ∧ k < j + n ∧ mask_bit mask k = true) →
    mark_bits n j mask = .error .OverlapError := by
  induction n with
  | zero =>
    intro j mask _ _ h
    obtain ⟨k, h1, h2, _⟩ := h
    omega
  | succ n ih =>
    intro j mask hin hlen hex
    have hj : j / 8 < mask.length := by omega
    obtain ⟨b, hb⟩ : ∃ b, mask[j / 8]? = some b :=
      ⟨mask[j / 8], List.getElem?_eq_getElem hj⟩
    have hwrap : (j + 1) % 4294967296 = j + 1 := Nat.mod_eq_of_lt (by omega)
    by_cases hbit : b.testBit (j % 8) = true
    · have hnz : b &&& (1 <<< (j % 8)) ≠ 0 := (and_bit_ne_zero b (j % 8)).mpr hbit
      simp only [mark_bits, shift_three, and_seven, hb, if_pos hnz]
    · have hnz : ¬ (b &&& (1 <<< (j % 8)) ≠ 0) := by
        rw [and_bit_ne_zero]; exact hbit
      simp only [mark_bits, shift_three, and_seven, hb, hwrap, if_neg hnz]
      apply ih (j + 1) _ (by rw [List.length_set]; omega) (by rw [List.length_set]; exact hlen)
      obtain ⟨k, h1, h2, h3⟩ := hex
      have hkj : k ≠ j := by
        intro h
        apply hbit
        simpa [mask_bit, h, hb] using h3
      refine ⟨k, by omega, by omega, ?_⟩
      rw [mask_bit_set mask j b k hb, h3]; rfl

/-- The loop fails on a range that reaches beyond the mask. -/
theorem mark_bits_beyond (n : Nat) : ∀ (j : Nat) (mask : List Nat),
    j ≤ 8 * mask.length → 8 * mask.length < j + n → 8 * mask.length ≤ 4294967288 →
    ∃ e, mark_bits n j mask = .error e := by
  induction n with
  | zero => intro j mask h1 h2 _; omega
  | succ n ih =>
    intro j mask h1 h2 hlen
    by_cases hj : j / 8 < mask.length
    · obtain ⟨b, hb⟩ : ∃ b, mask[j / 8]? = some b :=
        ⟨mask[j / 8], List.getElem?_eq_getElem hj⟩
      have hwrap : (j + 1) % 4294967296 = j + 1 := Nat.mod_eq_of_lt (by omega)
      by_cases hnz : b &&& (1 <<< (j % 8)) ≠ 0
      · exact ⟨.OverlapError, by simp only [mark_bits, shift_three, and_seven, hb, if_pos hnz]⟩
      · simp only [mark_bits, shift_three, and_seven, hb, hwrap, if_neg hnz]
        exact ih (j + 1) _ (by rw [List.length_set]; omega) (by rw [List.length_set]; omega)
          (by rw [List.length_set]; exact hlen)
    · have hnone : mask[j / 8]? = none := List.getElem?_eq_none (Nat.le_of_not_lt hj)
      exact ⟨.MemoryFault, by simp only [mark_bits, shift_three, hnone]⟩

/-! ## The map of descriptors -/

theorem map_find_eq_none {key : Nat} {m : List (Nat × ModelConfig_BITFIELD)} :
    map_find key m = none ↔ ∀ p ∈ m, p.1 ≠ key := by
  unfold map_find
  rw [Option.map_eq_none', List.find?_eq_none]
  simp

theorem mem_map_assign {key : Nat} {value : ModelConfig_BITFIELD}
    {m : List (Nat × ModelConfig_BITFIELD)} (hm : ∀ p ∈ m, p.1 ≠ key)
    (q : Nat × ModelConfig_BITFIELD) :
    q ∈ map_assign key value m ↔ q = (key, value) ∨ q ∈ m := by
  induction m with
  | nil => simp [map_assign]
  | cons x xs ih =>
    have hx : x.1 ≠ key := hm x (List.mem_cons_self _ _)
    have hxs : ∀ p ∈ xs, p.1 ≠ key := fun p hp => hm p (List.mem_cons_of_mem _ hp)
    unfold map_assign
    by_cases h1 : key < x.1
    · simp [h1]
    · have h2 : ¬ key = x.1 := fun h => hx h.symm
      simp only [h1, h2, if_false, List.mem_cons, ih hxs]
      tauto

theorem map_assign_perm {key : Nat} {value : ModelConfig_BITFIELD}
    {m : List (Nat × ModelConfig_BITFIELD)} (hm : ∀ p ∈ m, p.1 ≠ key) :
    (map_assign key value m).Perm ((key, value) :: m) := by
  induction m with
  | nil => simp [map_assign]
  | cons x xs ih =>
    have hx : x.1 ≠ key := hm x (List.mem_cons_self _ _)
    have hxs : ∀ p ∈ xs, p.1 ≠ key := fun p hp => hm p (List.mem_cons_of_mem _ hp)
    unfold map_assign
    by_cases h1 : key < x.1
    · simp [h1]
    · have h2 : ¬ key = x.1 := fun h => hx h.symm
      simp only [h1, h2, if_false]
      exact ((ih hxs).cons x).trans (List.Perm.swap _ _ _)

theorem map_assign_ordered {b : ModelConfig_BITFIELD}
    {m : List (Nat × ModelConfig_BITFIELD)}
    (hkeys : ∀ p ∈ m, p.1 = p.2.m_addr)
    (hsz : ∀ p ∈ m, 0 < p.2.m_size) (hb : 0 < b.m_size)
    (hdis : ∀ p ∈ m, p.2.m_addr + p.2.m_size ≤ b.m_addr ∨ b.m_addr + b.m_size ≤ p.2.m_addr)
    (hord : m.Pairwise (fun p q => p.2.m_addr + p.2.m_size ≤ q.2.m_addr)) :
    (map_assign b.m_addr b m).Pairwise (fun p q => p.2.m_addr + p.2.m_size ≤ q.2.m_addr) := by
  induction m with
  | nil => simp [map_assign]
  | cons x xs ih =>
    have hxk := hkeys x (List.mem_cons_self _ _)
    have hxs := hsz x (List.mem_cons_self _ _)
    have hxd := hdis x (List.mem_cons_self _ _)
    have hne : ∀ p ∈ x :: xs, p.1 ≠ b.m_addr := by
      intro p hp h
      have h1 := hkeys p hp
      have h2 := hsz p hp
      have h3 := hdis p hp
      omega
    rw [List.pairwise_cons] at hord
    unfold map_assign
    by_cases h1 : b.m_addr < x.1
    · simp only [h1, if_true, List.pairwise_cons]
      refine ⟨?_, hord.1, hord.2⟩
      intro q hq
      rcases List.mem_cons.mp hq with h | h
      · subst h; show b.m_addr + b.m_size ≤ q.2.m_addr; omega
      · have h2 := hord.1 q h
        have h3 := hdis q (List.mem_cons_of_mem _ h)
        have h4 := hsz q (List.mem_cons_of_mem _ h)
        show b.m_addr + b.m_size ≤ q.2.m_addr; omega
    · have h2 : ¬ b.m_addr = x.1 := fun h => hne x (List.mem_cons_self _ _) h.symm
      simp only [h1, h2, if_false, List.pairwise_cons]
      refine ⟨?_, ih (fun p hp => hkeys p (List.mem_cons_of_mem _ hp))
        (fun p hp => hsz p (List.mem_cons_of_mem _ hp))
        (fun p hp => hdis p (List.mem_cons_of_mem _ hp)) hord.2⟩
      intro q hq
      rw [mem_map_assign (fun p hp => hne p (List.mem_cons_of_mem _ hp))] at hq
      rcases hq with h | h
      · subst h; show x.2.m_addr + x.2.m_size ≤ b.m_addr; omega
      · exact hord.1 q h

/-! ## One call of `add_bitfield` -/

/-- The total and the mask after the growth step, for a range that ends at or
below `2 ^ 32 - 8`. -/
theorem grown_mask {st : ModelConfig_DEVICE × List Nat} (hinv : AllocInv st)
    {addr size : Nat} (hend : addr + size ≤ 4294967288) :
    ∃ total mask, total = max st.1.m_total_bits (addr + size) ∧
      (if (addr + size) % 4294967296 > st.1.m_total_bits
        then (addr + size) % 4294967296 else st.1.m_total_bits) = total ∧
      (if (addr + size) % 4294967296 > st.1.m_total_bits
        then extend_mask total st.2 else st.2) = mask ∧
      mask.length = (total + 7) / 8 ∧ mask_bytes mask ∧
      ∀ k, mask_bit mask k = mask_bit st.2 k := by
  have hmod : (addr + size) % 4294967296 = addr + size := Nat.mod_eq_of_lt (by omega)
  have h1 := hinv.total_le
  have h2 := hinv.mask_len
  rw [hmod]
  by_cases hg : addr + size > st.1.m_total_bits
  · refine ⟨addr + size, extend_mask (addr + size) st.2, by omega, by simp [hg], by simp [hg],
      ?_, ?_, ?_⟩
    · have h3 : (addr + size + 7) % 4294967296 = addr + size + 7 := Nat.mod_eq_of_lt (by omega)
      simp only [extend_mask, List.length_append, List.length_replicate, h3]
      omega
    · exact mask_bytes_append_zero hinv.bytes _
    · intro k; exact mask_bit_append_zero _ _ _
  · exact ⟨st.1.m_total_bits, st.2, by omega, by simp [hg], by simp [hg], h2, hinv.bytes,
      fun _ => rfl⟩

/-- The descriptors already present that share a bit with `[addr, addr + size)`
make the call fail with the overlap assertion. -/
theorem add_bitfield_overlap {st : ModelConfig_DEVICE × List Nat} (hinv : AllocInv st)
    (bn un n : String) {addr size : Nat} (dv : Nat) (ty : Option ParameterType)
    (hsize : size ≠ 0) (hend : addr + size ≤ 4294967288)
    (hov : ∃ p ∈ st.1.m_bitfields, ∃ k, p.2.covers k ∧ addr ≤ k ∧ k < addr + size) :
    add_bitfield bn un n addr size dv ty st = .error .OverlapError := by
  obtain ⟨total, mask, htot, e1, e2, hlen, _, hbits⟩ := grown_mask hinv hend
  obtain ⟨p, hp, k, hk, hk1, hk2⟩ := hov
  have hset : mask_bit mask k = true := by
    rw [hbits k]; exact (hinv.bits k).mpr ⟨p, hp, hk⟩
  have hrun : mark_bits size addr mask = .error .OverlapError :=
    mark_bits_taken size addr mask (by omega) (by have := hinv.total_le; omega)
      ⟨k, hk1, hk2, hset⟩
  simp only [add_bitfield, hsize, if_false, decide_eq_true_eq, e1, e2, hrun]

/-- A range free of descriptors, of a width from 1 to 32 and with a default that
fits, is added. -/
theorem add_bitfield_free {st : ModelConfig_DEVICE × List Nat} (hinv : AllocInv st)
    (bn un n : String) {addr size : Nat} (dv : Nat) (ty : Option ParameterType)
    (hsize : size ≠ 0) (hend : addr + size ≤ 4294967288)
    (hfree : ∀ p ∈ st.1.m_bitfields, ∀ k, p.2.covers k → ¬ (addr ≤ k ∧ k < addr + size))
    (h32 : size ≤ 32) (hdv : size = 32 ∨ dv < 2 ^ size) :
    ∃ st', add_bitfield bn un n addr size dv ty st = .ok st' ∧
      after_add bn un n addr size dv ty st st' := by
  obtain ⟨total, mask, htot, e1, e2, hlen, hbytes, hbits⟩ := grown_mask hinv hend
  have hfree' : ∀ k, addr ≤ k → k < addr + size → mask_bit mask k = false := by
    intro k hk1 hk2
    rw [hbits k]
    cases hm : mask_bit st.2 k with
    | false => rfl
    | true =>
      obtain ⟨p, hp, hc⟩ := (hinv.bits k).mp hm
      exact absurd ⟨hk1, hk2⟩ (hfree p hp k hc)
  obtain ⟨mask', hrun, hlen', hby', hbits'⟩ :=
    mark_bits_free size addr mask (by omega) (by have := hinv.total_le; omega) hfree'
  have hdis : ∀ p ∈ st.1.m_bitfields,
      p.2.m_addr + p.2.m_size ≤ addr ∨ addr + size ≤ p.2.m_addr := by
    intro p hp
    by_contra hcon
    have hs := (hinv.sizes p hp).1
    exact hfree p hp (max addr p.2.m_addr) ⟨by omega, by omega⟩ ⟨by omega, by omega⟩
  have hkey : ∀ p ∈ st.1.m_bitfields, p.1 ≠ addr := by
    intro p hp h
    have h1 := hinv.keys p hp
    have h2 := (hinv.sizes p hp).1
    have h3 := hdis p hp
    omega
  have hfind : map_find addr st.1.m_bitfields = none := map_find_eq_none.mpr hkey
  have hnew : ModelConfig_BITFIELD.new bn un n addr size dv ty
      = .ok ⟨bn, un, n, addr, size, dv, ty⟩ := by
    have hpos : size > 0 := Nat.pos_of_ne_zero hsize
    have : size = 32 ∨ dv < 1 <<< size := by rw [Nat.one_shiftLeft]; exact hdv
    simp [ModelConfig_BITFIELD.new, hpos, h32, this]
  refine ⟨_, by
    simp only [add_bitfield, hsize, if_false, decide_eq_true_eq, e1, e2, hrun, hfind, hnew,
      Option.isSome_none]
    rfl, ?_⟩
  set b : ModelConfig_BITFIELD := ⟨bn, un, n, addr, size, dv, ty⟩ with hb
  have hmem := fun q => @mem_map_assign addr b st.1.m_bitfields hkey q
  refine ⟨⟨?_, ?_, ?_, ?_, ?_, ?_, ?_, ?_, ?_⟩, map_assign_perm hkey, rfl, rfl, rfl, htot⟩
  · show total ≤ 4294967288
    have := hinv.total_le; omega
  · show mask'.length = (total + 7) / 8
    omega
  · exact hby' hbytes
  · intro k
    show mask_bit mask' k = true ↔ ∃ p ∈ map_assign addr b st.1.m_bitfields, p.2.covers k
    rw [hbits' k, hbits k, Bool.or_eq_true, hinv.bits k, decide_eq_true_eq]
    constructor
    · rintro (⟨p, hp, hc⟩ | h)
      · exact ⟨p, (hmem p).mpr (Or.inr hp), hc⟩
      · exact ⟨(addr, b), (hmem _).mpr (Or.inl rfl), h⟩
    · rintro ⟨p, hp, hc⟩
      rcases (hmem p).mp hp with h | h
      · right; subst h; exact hc
      · left; exact ⟨p, h, hc⟩
  · intro p hp
    rcases (hmem p).mp hp with h | h
    · subst h; rfl
    · exact hinv.keys p h
  · exact map_assign_ordered (b := b) hinv.keys (fun p hp => (hinv.sizes p hp).1)
      (Nat.pos_of_ne_zero hsize) hdis hinv.ordered
  · intro p hp
    rcases (hmem p).mp hp with h | h
    · subst h; exact ⟨Nat.pos_of_ne_zero hsize, h32, hdv⟩
    · exact hinv.sizes p h
  · intro p hp
    show p.2.m_addr + p.2.m_size ≤ total
    rcases (hmem p).mp hp with h | h
    · subst h; show addr + size ≤ total; omega
    · have := hinv.within p h; omega
  · right
    show ∃ p ∈ map_assign addr b st.1.m_bitfields, p.2.m_addr + p.2.m_size = total
    by_cases hg : addr + size > st.1.m_total_bits
    · exact ⟨(addr, b), (hmem _).mpr (Or.inl rfl), by show addr + size = total; omega⟩
    · rcases hinv.top with ⟨h0, _⟩ | ⟨p, hp, ht⟩
      · omega
      · exact ⟨p, (hmem p).mpr (Or.inr hp), by omega⟩

theorem mark_bits_out (n j : Nat) (mask : List Nat) (hn : n ≠ 0)
    (hout : 8 * mask.length < j + n) (hlen : 8 * mask.length ≤ 4294967288) :
    ∃ e, mark_bits n j mask = .error e := by
  by_cases hj : j ≤ 8 * mask.length
  · exact mark_bits_beyond n j mask hj hout hlen
  · obtain ⟨m, rfl⟩ := Nat.exists_eq_succ_of_ne_zero hn
    have hnone : mask[j / 8]? = none := List.getElem?_eq_none (by omega)
    exact ⟨.MemoryFault, by simp only [mark_bits, shift_three, hnone]⟩

/-- A range that ends above `2 ^ 32 - 8` reaches beyond the mask, whose size in
bytes is a 32-bit quotient by 8: the call fails. -/
theorem add_bitfield_far {st : ModelConfig_DEVICE × List Nat} (hinv : AllocInv st)
    (bn un n : String) {addr size : Nat} (dv : Nat) (ty : Option ParameterType)
    (hsize : size ≠ 0) (hend : 4294967288 < addr + size) :
    ∃ e, add_bitfield bn un n addr size dv ty st = .error e := by
  have hlen := hinv.mask_len
  have htl := hinv.total_le
  have key : ∀ m : List Nat, 8 * m.length ≤ 4294967288 →
      ∃ e, mark_bits size addr m = .error e :=
    fun m hm => mark_bits_out size addr m hsize (by omega) hm
  have hgrow : ∀ (c : Prop) [Decidable c] (t : Nat),
      8 * (if c then extend_mask t st.2 else st.2).length ≤ 4294967288 := by
    intro c _ t
    split_ifs
    · simp only [extend_mask, List.length_append, List.length_replicate]; omega
    · omega
  simp only [add_bitfield, hsize, if_false, decide_eq_true_eq]
  obtain ⟨e, he⟩ := key _ (hgrow ((addr + size) % 4294967296 > st.1.m_total_bits)
    (if (addr + size) % 4294967296 > st.1.m_total_bits
      then (addr + size) % 4294967296 else st.1.m_total_bits))
  exact ⟨e, by rw [he]⟩

/-- A free range whose width exceeds 32, or whose default does not fit the
width, fails the assertions of the descriptor's constructor. -/
theorem add_bitfield_range {st : ModelConfig_DEVICE × List Nat} (hinv : AllocInv st)
    (bn un n : String) {addr size : Nat} (dv : Nat) (ty : Option ParameterType)
    (hsize : size ≠ 0) (hend : addr + size ≤ 4294967288)
    (hfree : ∀ p ∈ st.1.m_bitfields, ∀ k, p.2.covers k → ¬ (addr ≤ k ∧ k < addr + size))
    (hbad : ¬ (size ≤ 32 ∧ (size = 32 ∨ dv < 2 ^ size))) :
    add_bitfield bn un n addr size dv ty st = .error .RangeError := by
  obtain ⟨total, mask, htot, e1, e2, hlen, hbytes, hbits⟩ := grown_mask hinv hend
  have hfree' : ∀ k, addr ≤ k → k < addr + size → mask_bit mask k = false := by
    intro k hk1 hk2
    rw [hbits k]
    cases hm : mask_bit st.2 k with
    | false => rfl
    | true =>
      obtain ⟨p, hp, hc⟩ := (hinv.bits k).mp hm
      exact absurd ⟨hk1, hk2⟩ (hfree p hp k hc)
  obtain ⟨mask', hrun, _, _, _⟩ :=
    mark_bits_free size addr mask (by omega) (by have := hinv.total_le; omega) hfree'
  have hkey : ∀ p ∈ st.1.m_bitfields, p.1 ≠ addr := by
    intro p hp h
    have h1 := hinv.keys p hp
    have h2 := (hinv.sizes p hp).1
    exact hfree p hp addr ⟨by omega, by omega⟩ ⟨le_refl _, by omega⟩
  have hfind : map_find addr st.1.m_bitfields = none := map_find_eq_none.mpr hkey
  have hnew : ModelConfig_BITFIELD.new bn un n addr size dv ty = .error .RangeError := by
    unfold ModelConfig_BITFIELD.new
    rw [Nat.one_shiftLeft]
    by_cases h1 : size > 0 ∧ size ≤ 32
    · have h2 : ¬ (size = 32 ∨ dv < 2 ^ size) := fun h => hbad ⟨h1.2, h⟩
      simp [h1, h2]
    · simp [h1]
  simp only [add_bitfield, hsize, if_false, decide_eq_true_eq, e1, e2, hrun, hfind, hnew,
    Option.isSome_none]
  rfl

/-- What a successful call of `add_bitfield` tells about its arguments and its
result. -/
theorem add_bitfield_ok {st st' : ModelConfig_DEVICE × List Nat} (hinv : AllocInv st)
    (bn un n : String) {addr size : Nat} (dv : Nat) (ty : Option ParameterType)
    (h : add_bitfield bn un n addr size dv ty st = .ok st') :
    size ≠ 0 ∧ size ≤ 32 ∧ (size = 32 ∨ dv < 2 ^ size) ∧ addr + size ≤ 4294967288 ∧
      (∀ p ∈ st.1.m_bitfields, ∀ k, p.2.covers k → ¬ (addr ≤ k ∧ k < addr + size)) ∧
      after_add bn un n addr size dv ty st st' := by
  have hsize : size ≠ 0 := by
    intro h0
    simp [add_bitfield, h0] at h
  have hend : addr + size ≤ 4294967288 := by
    by_contra hcon
    obtain ⟨e, he⟩ := add_bitfield_far hinv bn un n dv ty hsize (Nat.lt_of_not_le hcon)
    rw [he] at h; cases h
  have hfree : ∀ p ∈ st.1.m_bitfields, ∀ k, p.2.covers k → ¬ (addr ≤ k ∧ k < addr + size) := by
    intro p hp k hc hk
    rw [add_bitfield_overlap hinv bn un n dv ty hsize hend ⟨p, hp, k, hc, hk.1, hk.2⟩] at h
    cases h
  have hgood : size ≤ 32 ∧ (size = 32 ∨ dv < 2 ^ size) := by
    by_contra hcon
    rw [add_bitfield_range hinv bn un n dv ty hsize hend hfree hcon] at h
    cases h
  obtain ⟨st'', h1, h2⟩ := add_bitfield_free hinv bn un n dv ty hsize hend hfree hgood.1 hgood.2
  rw [h1] at h
  cases h
  exact ⟨hsize, hgood.1, hgood.2, hend, hfree, h2⟩

/-! ## The walk as a sequence of `add_bitfield` calls -/

theorem add_all_append (l₁ l₂ : List ModelConfig_BITFIELD)
    (st : ModelConfig_DEVICE × List Nat) :
    add_all (l₁ ++ l₂) st =
      match add_all l₁ st with
      | .error e => .error e
      | .ok st => add_all l₂ st := by
  induction l₁ generalizing st with
  | nil => rfl
  | cons b bs ih =>
    simp only [List.cons_append, add_all]
    cases add_descriptor b st with
    | error e => rfl
    | ok st1 => exact ih st1

theorem create_attributes_eq (d : device) (name : String) (offset : Nat)
    (attributes : List (String × Parameter)) (st : ModelConfig_DEVICE × List Nat) :
    create_attributes name (d.getCustomerName name) offset attributes st =
      add_all ((attributes.map (fun a => (⟨[], a.1, a.2⟩ : Occurrence))).map
        (Occurrence.descriptor_from d name offset)) st := by
  induction attributes generalizing st with
  | nil => rfl
  | cons a rest ih =>
    simp only [create_attributes, List.map_cons, add_all, add_descriptor,
      Occurrence.descriptor_from, List.map_nil, List.foldl_nil, Occurrence.width,
      Occurrence.default_value]
    cases add_bitfield name (d.getCustomerName name) a.1
        ((offset + toU32 a.2.address) % 4294967296) (toU32 a.2.type.size)
        (match a.2.type.default_value with
          | some v => toU32 v
          | none => 0) (some a.2.type) st with
    | error e => rfl
    | ok st1 => exact ih st1

theorem descriptor_from_cons (d : device) (name : String) (offset : Nat)
    (iter_first : String) (logic_address : Int) (o : Occurrence) :
    Occurrence.descriptor_from d name offset
        { o with path := (iter_first, logic_address) :: o.path } =
      Occurrence.descriptor_from d (child_name name iter_first)
        ((offset + toU32 logic_address) % 4294967296) o := by
  simp [Occurrence.descriptor_from, Occurrence.width, Occurrence.default_value]

mutual
theorem create_bitfields_eq (d : device) :
    ∀ (block : device_block) (space name addr_name : String) (offset : Nat)
      (st : ModelConfig_DEVICE × List Nat),
      create_bitfields d block space name addr_name offset st =
        add_all ((occurrences block).map (Occurrence.descriptor_from d name offset)) st
  | .mk _ attributes instances, space, name, addr_name, offset, st => by
    rw [create_bitfields, occurrences, List.map_append, add_all_append,
      ← create_attributes_eq]
    cases attributes with
    | nil =>
      simp only [List.length_nil, ne_eq, not_true_eq_false, if_false, create_attributes]
      exact create_instances_eq d instances space name addr_name offset st
    | cons a rest =>
      simp only [List.length_cons, ne_eq, Nat.add_one_ne_zero, not_false_eq_true, if_true]
      cases create_attributes name (d.getCustomerName name) offset (a :: rest) st with
      | error e => rfl
      | ok st1 => exact create_instances_eq d instances space name addr_name offset st1
theorem create_instances_eq (d : device) :
    ∀ (instances : List (String × Int × device_block)) (space name addr_name : String)
      (offset : Nat) (st : ModelConfig_DEVICE × List Nat),
      create_instances d instances space name addr_name offset st =
        add_all ((occurrences_of_instances instances).map
          (Occurrence.descriptor_from d name offset)) st
  | [], _, _, _, _, _ => by
    rw [create_instances, occurrences_of_instances]; rfl
  | (iter_first, logic_address, block) :: rest, space, name, addr_name, offset, st => by
    rw [create_instances, occurrences_of_instances, List.map_append, add_all_append,
      List.map_map]
    have hmap : (Occurrence.descriptor_from d name offset ∘
        fun o : Occurrence => { o with path := (iter_first, logic_address) :: o.path }) =
        Occurrence.descriptor_from d (child_name name iter_first)
          ((offset + toU32 logic_address) % 4294967296) := by
      funext o
      exact descriptor_from_cons d name offset iter_first logic_address o
    rw [hmap, create_bitfields_eq d block]
    cases add_all ((occurrences block).map (Occurrence.descriptor_from d
        (child_name name iter_first) ((offset + toU32 logic_address) % 4294967296))) st with
    | error e => rfl
    | ok st1 => exact create_instances_eq d rest space name addr_name offset st1
end

theorem foldl_offset (l : List Int) (acc : Nat) :
    (l.foldl (fun acc la => (acc + toU32 la) % 4294967296) acc) % 4294967296 =
      (acc + (l.map toU32).sum) % 4294967296 := by
  induction l generalizing acc with
  | nil => simp
  | cons x xs ih =>
    simp only [List.foldl_cons, List.map_cons, List.sum_cons]
    rw [ih]
    omega

theorem descriptor_from_root (d : device) (o : Occurrence) :
    Occurrence.descriptor_from d "" 0 o = o.descriptor d := by
  have h := foldl_offset (o.path.map Prod.snd) 0
  have hmap : (o.path.map Prod.snd).map toU32 = o.path.map (fun i => toU32 i.2) := by
    rw [List.map_map]; rfl
  rw [hmap] at h
  simp only [Occurrence.descriptor_from, Occurrence.descriptor, Occurrence.block_name,
    Occurrence.offset]
  congr 1
  omega

/-! ## A sequence of `add_bitfield` calls -/

theorem alloc_inv_init (feature model : String) :
    AllocInv ((⟨feature, model, 0, 0, [], []⟩ : ModelConfig_DEVICE), ([] : List Nat)) where
  total_le := by simp
  mask_len := by simp
  bytes := by intro b hb; cases hb
  bits := by intro k; simp [mask_bit]
  keys := by intro p hp; cases hp
  ordered := List.Pairwise.nil
  sizes := by intro p hp; cases hp
  within := by intro p hp; cases hp
  top := Or.inl ⟨rfl, rfl⟩

/-- A successful sequence keeps the invariant and adds exactly the descriptors
it was given. -/
theorem add_all_ok (bs : List ModelConfig_BITFIELD) :
    ∀ {st st' : ModelConfig_DEVICE × List Nat}, AllocInv st → add_all bs st = .ok st' →
      AllocInv st' ∧
      st'.1.m_bitfields.Perm (bs.map (fun b => (b.m_addr, b)) ++ st.1.m_bitfields) ∧
      st'.1.m_feature = st.1.m_feature ∧ st'.1.m_model = st.1.m_model ∧
      st'.1.m_api = st.1.m_api := by
  induction bs with
  | nil =>
    intro st st' hinv h
    cases h
    exact ⟨hinv, List.Perm.refl _, rfl, rfl, rfl⟩
  | cons b bs ih =>
    intro st st' hinv h
    simp only [add_all] at h
    cases h1 : add_descriptor b st with
    | error e => rw [h1] at h; cases h
    | ok st1 =>
      rw [h1] at h
      obtain ⟨_, _, _, _, _, hinv1, hperm1, hf1, hm1, ha1, _⟩ :=
        add_bitfield_ok hinv b.m_block_name b.m_user_name b.m_name b.m_value b.m_type h1
      obtain ⟨hinv', hperm', hf', hm', ha'⟩ := ih hinv1 h
      refine ⟨hinv', ?_, hf'.trans hf1, hm'.trans hm1, ha'.trans ha1⟩
      refine hperm'.trans ?_
      simp only [List.map_cons, List.cons_append]
      exact (List.Perm.append_left _ hperm1).trans List.perm_middle

/-- A sequence of regular descriptors either succeeds or fails with the overlap
assertion. -/
theorem add_all_regular (bs : List ModelConfig_BITFIELD) :
    ∀ {st : ModelConfig_DEVICE × List Nat}, AllocInv st → (∀ b ∈ bs, b.regular) →
      (∃ st', add_all bs st = .ok st') ∨ add_all bs st = .error .OverlapError := by
  induction bs with
  | nil => intro st _ _; exact Or.inl ⟨st, rfl⟩
  | cons b bs ih =>
    intro st hinv hreg
    obtain ⟨hs, h32, hv, hend⟩ := hreg b (List.mem_cons_self _ _)
    simp only [add_all]
    by_cases hov : ∃ p ∈ st.1.m_bitfields, ∃ k, p.2.covers k ∧ b.m_addr ≤ k ∧ k < b.m_addr + b.m_size
    · right
      have := add_bitfield_overlap hinv b.m_block_name b.m_user_name b.m_name b.m_value
        b.m_type hs hend hov
      simp only [add_descriptor, this]
    · have hfree : ∀ p ∈ st.1.m_bitfields, ∀ k, p.2.covers k →
          ¬ (b.m_addr ≤ k ∧ k < b.m_addr + b.m_size) :=
        fun p hp k hc hk => hov ⟨p, hp, k, hc, hk.1, hk.2⟩
      obtain ⟨st1, h1, hafter⟩ := add_bitfield_free hinv b.m_block_name b.m_user_name b.m_name
        b.m_value b.m_type hs hend hfree h32 hv
      simp only [add_descriptor, h1]
      exact ih hafter.1 (fun b' hb' => hreg b' (List.mem_cons_of_mem _ hb'))

/-- A sequence of regular descriptors that overlap neither each other nor the
descriptors already present succeeds. -/
theorem add_all_free (bs : List ModelConfig_BITFIELD) :
    ∀ {st : ModelConfig_DEVICE × List Nat}, AllocInv st → (∀ b ∈ bs, b.regular) →
      bs.Pairwise (fun a b => ¬ a.overlaps b) →
      (∀ b ∈ bs, ∀ p ∈ st.1.m_bitfields, ¬ p.2.overlaps b) →
      ∃ st', add_all bs st = .ok st' := by
  induction bs with
  | nil => intro st _ _ _ _; exact ⟨st, rfl⟩
  | cons b bs ih =>
    intro st hinv hreg hpw hold
    obtain ⟨hs, h32, hv, hend⟩ := hreg b (List.mem_cons_self _ _)
    rw [List.pairwise_cons] at hpw
    have hfree : ∀ p ∈ st.1.m_bitfields, ∀ k, p.2.covers k →
        ¬ (b.m_addr ≤ k ∧ k < b.m_addr + b.m_size) :=
      fun p hp k hc hk => hold b (List.mem_cons_self _ _) p hp ⟨k, hc, hk⟩
    obtain ⟨st1, h1, hafter⟩ := add_bitfield_free hinv b.m_block_name b.m_user_name b.m_name
      b.m_value b.m_type hs hend hfree h32 hv
    simp only [add_all, add_descriptor, h1]
    apply ih hafter.1 (fun b' hb' => hreg b' (List.mem_cons_of_mem _ hb')) hpw.2
    intro b' hb' p hp
    rcases List.mem_cons.mp (hafter.2.1.mem_iff.mp hp) with h | h
    · subst h; exact hpw.1 b' hb'
    · exact hold b' (List.mem_cons_of_mem _ hb') p h

/-! ## The final self-check of the constructor -/

theorem byte_full {b : Nat} (hb : b < 256) (hbits : ∀ i, i < 8 → b.testBit i = true) :
    b = 255 := by
  apply Nat.eq_of_testBit_eq
  intro i
  by_cases hi : i < 8
  · rw [hbits i hi]
    have : (255 : Nat) = 2 ^ 8 - 1 := by norm_num
    rw [this, Nat.testBit_two_pow_sub_one]; simp [hi]
  · have h8 : (256 : Nat) ≤ 2 ^ i := by
      calc (256 : Nat) = 2 ^ 8 := by norm_num
        _ ≤ 2 ^ i := Nat.pow_le_pow_right (by norm_num) (by omega)
    rw [Nat.testBit_lt_two_pow (lt_of_lt_of_le hb h8),
      Nat.testBit_lt_two_pow (lt_of_lt_of_le (by norm_num : (255 : Nat) < 256) h8)]

theorem byte_low_bits {b r : Nat} (hb : b < 256) (hr : r < 8)
    (hbits : ∀ i, i < 8 → (b.testBit i = true ↔ i < r)) : b = (1 <<< r) - 1 := by
  rw [Nat.one_shiftLeft]
  apply Nat.eq_of_testBit_eq
  intro i
  rw [Nat.testBit_two_pow_sub_one]
  by_cases hi : i < 8
  · have := hbits i hi
    cases h : b.testBit i with
    | true => rw [h] at this; simp [this.mp rfl]
    | false =>
      rw [h] at this
      have : ¬ i < r := fun hlt => by simpa using this.mpr hlt
      simp [this]
  · have h8 : (256 : Nat) ≤ 2 ^ i := by
      calc (256 : Nat) = 2 ^ 8 := by norm_num
        _ ≤ 2 ^ i := Nat.pow_le_pow_right (by norm_num) (by omega)
    rw [Nat.testBit_lt_two_pow (lt_of_lt_of_le hb h8)]
    have : ¬ i < r := by omega
    simp [this]

theorem testBit_255 {i : Nat} (hi : i < 8) : (255 : Nat).testBit i = true := by
  have : (255 : Nat) = 2 ^ 8 - 1 := by norm_num
  rw [this, Nat.testBit_two_pow_sub_one]; simp [hi]

theorem check_bytes_ok (mask : List Nat) (n : Nat) :
    ∀ i, check_bytes mask n i = .ok () ↔ ∀ k, i ≤ k → k < i + n → mask[k]? = some 255 := by
  induction n with
  | zero =>
    intro i
    simp only [check_bytes, true_iff]
    intro k h1 h2
    omega
  | succ n ih =>
    intro i
    unfold check_bytes
    cases hb : mask[i]? with
    | none =>
      simp only [false_iff, reduceCtorEq]
      intro h
      have := h i (le_refl i) (by omega)
      rw [hb] at this
      cases this
    | some b =>
      simp only
      by_cases h255 : b = 255
      · rw [if_pos h255, ih (i + 1)]
        constructor
        · intro h k h1 h2
          by_cases hk : k = i
          · rw [hk, hb, h255]
          · exact h k (by omega) (by omega)
        · intro h k h1 h2
          exact h k (by omega) (by omega)
      · rw [if_neg h255]
        simp only [false_iff, reduceCtorEq]
        intro h
        have := h i (le_refl i) (by omega)
        rw [hb] at this
        exact h255 (Option.some.inj this)

/-- A mask that passes the self-check has every bit below `total_bits` set. -/
theorem check_mask_ok {total : Nat} {mask : List Nat}
    (hlen : mask.length = (total + 7) / 8) (h : check_mask total mask = .ok ()) :
    ∀ k, k < total → mask_bit mask k = true := by
  intro k hk
  unfold check_mask at h
  by_cases hr : total % 8 ≠ 0
  · rw [if_pos hr] at h
    cases h2 : check_bytes mask (total / 8) 0 with
    | error e => rw [h2] at h; cases h
    | ok u =>
      rw [h2] at h
      simp only at h
      have hfull := (check_bytes_ok mask (total / 8) 0).mp h2
      have hlast : mask.getLast? = mask[total / 8]? := by
        rw [List.getLast?_eq_getElem?]
        congr 1
        omega
      by_cases hkb : k / 8 < total / 8
      · have hget : mask[k / 8]? = some 255 := hfull (k / 8) (Nat.zero_le _) (by omega)
        simp [mask_bit, hget, testBit_255 (Nat.mod_lt k (by norm_num : 8 > 0))]
      · have hk8 : k / 8 = total / 8 := by omega
        cases hl : mask.getLast? with
        | none => rw [hl] at h; cases h
        | some b =>
          rw [hl] at h
          simp only at h
          by_cases hb : b = (1 <<< (total % 8)) - 1
          · rw [hlast] at hl
            simp only [mask_bit, hk8, hl, hb, Nat.one_shiftLeft, Nat.testBit_two_pow_sub_one]
            simp; omega
          · rw [if_neg hb] at h; cases h
  · rw [if_neg hr] at h
    by_cases h2 : mask.all (fun b => b == 255) = true
    · have hlt : k / 8 < mask.length := by omega
      have := List.all_eq_true.mp h2 _ (List.getElem_mem hlt)
      have hget : mask[k / 8]? = some 255 := by
        rw [List.getElem?_eq_getElem hlt]
        simpa using this
      simp [mask_bit, hget, testBit_255 (Nat.mod_lt k (by norm_num : 8 > 0))]
    · rw [if_neg h2] at h; cases h

/-- A mask whose set bits are exactly the bits below `total_bits` passes the
self-check. -/
theorem check_mask_full {total : Nat} {mask : List Nat} (hbytes : mask_bytes mask)
    (hlen : mask.length = (total + 7) / 8)
    (hbits : ∀ k, mask_bit mask k = true ↔ k < total) :
    check_mask total mask = .ok () := by
  have hbyte : ∀ i (hi : i < mask.length), ∀ s, s < 8 →
      (mask[i].testBit s = true ↔ 8 * i + s < total) := by
    intro i hi s hs
    have := hbits (8 * i + s)
    have hdiv : (8 * i + s) / 8 = i := by omega
    have hmod : (8 * i + s) % 8 = s := by omega
    simpa [mask_bit, hdiv, hmod, List.getElem?_eq_getElem hi] using this
  have hfull : ∀ i (hi : i < mask.length), i < total / 8 → mask[i] = 255 := by
    intro i hi hlt
    apply byte_full (hbytes _ (List.getElem_mem hi))
    intro s hs
    exact (hbyte i hi s hs).mpr (by omega)
  unfold check_mask
  by_cases hr : total % 8 ≠ 0
  · rw [if_pos hr]
    have h2 : check_bytes mask (total / 8) 0 = .ok () := by
      rw [check_bytes_ok]
      intro i _ hi
      have hi' : i < mask.length := by omega
      rw [List.getElem?_eq_getElem hi', hfull i hi' (by omega)]
    rw [h2]
    simp only
    have hpos : total / 8 < mask.length := by omega
    have hlast : mask.getLast? = some mask[total / 8] := by
      rw [List.getLast?_eq_getElem?, ← List.getElem?_eq_getElem hpos]
      congr 1
      omega
    rw [hlast]
    have hb : mask[total / 8] = (1 <<< (total % 8)) - 1 := by
      apply byte_low_bits (hbytes _ (List.getElem_mem hpos)) (Nat.mod_lt _ (by norm_num))
      intro s hs
      rw [hbyte (total / 8) hpos s hs]
      omega
    simp only [hb, if_true]
  · rw [if_neg hr]
    have h2 : mask.all (fun b => b == 255) = true := by
      rw [List.all_eq_true]
      intro x hx
      obtain ⟨i, hi, rfl⟩ := List.getElem_of_mem hx
      simp [hfull i hi (by omega)]
    rw [if_pos h2]

/-! ## The constructor -/

/-- The successful constructor, read backwards: the walk over the root block
succeeded, as a sequence of `add_bitfield` calls for the occurrences of the
tree, and the mask it left passed the self-check. -/
theorem new_ok {feature model : String} {dev : Option device} {s : ModelConfig_DEVICE}
    (h : ModelConfig_DEVICE.new feature model dev = .ok s) :
    ∃ d root mask, dev = some d ∧ d.get_block model = some root ∧
      add_all ((occurrences root).map (Occurrence.descriptor d))
        (⟨feature, model, 0, 0, [], []⟩, []) = .ok (s, mask) ∧
      AllocInv (s, mask) ∧ s.m_total_bits ≠ 0 ∧ check_mask s.m_total_bits mask = .ok () := by
  unfold ModelConfig_DEVICE.new at h
  by_cases hm : model.utf8ByteSize = 0
  · rw [if_pos hm] at h; cases h
  rw [if_neg hm] at h
  cases dev with
  | none => cases h
  | some d =>
    simp only at h
    cases hb : d.get_block model with
    | none => rw [hb] at h; cases h
    | some root =>
      rw [hb] at h
      simp only at h
      rw [create_bitfields_eq] at h
      have hroot : (occurrences root).map (Occurrence.descriptor_from d "" 0) =
          (occurrences root).map (Occurrence.descriptor d) :=
        List.map_congr_left (fun o _ => descriptor_from_root d o)
      rw [hroot] at h
      cases hrun : add_all ((occurrences root).map (Occurrence.descriptor d))
          (⟨feature, model, 0, 0, [], []⟩, []) with
      | error e => rw [hrun] at h; cases h
      | ok st =>
        obtain ⟨s1, mask⟩ := st
        rw [hrun] at h
        simp only at h
        have hinv := (add_all_ok _ (alloc_inv_init feature model) hrun).1
        by_cases h0 : s1.m_total_bits = 0
        · rw [if_pos h0] at h; cases h
        rw [if_neg h0] at h
        by_cases hl : (s1.m_total_bits + 7) % 4294967296 / 8 ≠ mask.length
        · rw [if_pos hl] at h; cases h
        rw [if_neg hl] at h
        cases hc : check_mask s1.m_total_bits mask with
        | error e => rw [hc] at h; cases h
        | ok u =>
          rw [hc] at h
          cases h
          exact ⟨d, root, mask, rfl, hb, hrun, hinv, h0, hc⟩

/-- The constructor, read forwards, for a named model that the device holds. -/
theorem new_of_add_all {feature model : String} {d : device} {root : device_block}
    {s : ModelConfig_DEVICE} {mask : List Nat}
    (hm : model.utf8ByteSize ≠ 0) (hb : d.get_block model = some root)
    (hrun : add_all ((occurrences root).map (Occurrence.descriptor d))
      (⟨feature, model, 0, 0, [], []⟩, []) = .ok (s, mask))
    (h0 : s.m_total_bits ≠ 0) (hc : check_mask s.m_total_bits mask = .ok ()) :
    ModelConfig_DEVICE.new feature model (some d) = .ok s := by
  have hinv := (add_all_ok _ (alloc_inv_init feature model) hrun).1
  have hroot : (occurrences root).map (Occurrence.descriptor_from d "" 0) =
      (occurrences root).map (Occurrence.descriptor d) :=
    List.map_congr_left (fun o _ => descriptor_from_root d o)
  have hl : (s.m_total_bits + 7) % 4294967296 / 8 = mask.length := by
    have h1 := hinv.total_le
    have h2 := hinv.mask_len
    simp only at h1 h2
    omega
  unfold ModelConfig_DEVICE.new
  rw [if_neg hm]
  simp only [hb, create_bitfields_eq, hroot, hrun, h0, if_false, hl, ne_eq, not_true_eq_false, hc]

/-- The failing constructor for a named model that the device holds: the walk
failed with the same error, for a sequence of regular descriptors. -/
theorem new_error_of_add_all {feature model : String} {d : device} {root : device_block}
    {e : CfgError} (hm : model.utf8ByteSize ≠ 0) (hb : d.get_block model = some root)
    (hrun : add_all ((occurrences root).map (Occurrence.descriptor d))
      (⟨feature, model, 0, 0, [], []⟩, []) = .error e) :
    ModelConfig_DEVICE.new feature model (some d) = .error e := by
  have hroot : (occurrences root).map (Occurrence.descriptor_from d "" 0) =
      (occurrences root).map (Occurrence.descriptor d) :=
    List.map_congr_left (fun o _ => descriptor_from_root d o)
  unfold ModelConfig_DEVICE.new
  rw [if_neg hm]
  simp only [hb, create_bitfields_eq, hroot, hrun]

theorem ordered_not_overlaps {l : List (Nat × ModelConfig_BITFIELD)}
    (h : l.Pairwise (fun p q => p.2.m_addr + p.2.m_size ≤ q.2.m_addr)) :
    ∀ p ∈ l, ∀ q ∈ l, p ≠ q → ¬ ∃ k, p.2.covers k ∧ q.2.covers k := by
  have hsym : l.Pairwise (fun p q => ¬ ∃ k, p.2.covers k ∧ q.2.covers k) := by
    refine h.imp ?_
    rintro p q hpq ⟨k, hp, hq⟩
    unfold ModelConfig_BITFIELD.covers at hp hq
    omega
  have hs : Symmetric (fun p q : Nat × ModelConfig_BITFIELD =>
      ¬ ∃ k, p.2.covers k ∧ q.2.covers k) := by
    intro a b hab hba
    obtain ⟨k, hb, ha⟩ := hba
    exact hab ⟨k, ha, hb⟩
  intro p hp q hq hne
  exact hsym.forall hs hp hq hne

/-- The bits covered by the descriptors of a constructed session. -/
theorem new_covering {feature model : String} {dev : Option device} {s : ModelConfig_DEVICE}
    (h : ModelConfig_DEVICE.new feature model dev = .ok s) :
    ∀ k, k < s.m_total_bits ↔ ∃ p ∈ s.m_bitfields, p.2.covers k := by
  obtain ⟨d, root, mask, _, _, _, hinv, _, hc⟩ := new_ok h
  intro k
  constructor
  · intro hk
    exact (hinv.bits k).mp (check_mask_ok hinv.mask_len hc k hk)
  · rintro ⟨p, hp, hc⟩
    have := hinv.within p hp
    unfold ModelConfig_BITFIELD.covers at hc
    simp only at this
    omega

/-- Widths of ranges that follow one another and fill `[a, t)` add up to
`t - a`. -/
theorem sum_sizes_of_cover (l : List (Nat × ModelConfig_BITFIELD)) :
    ∀ (a t : Nat), l.Pairwise (fun p q => p.2.m_addr + p.2.m_size ≤ q.2.m_addr) →
      (∀ p ∈ l, 0 < p.2.m_size) →
      (∀ k, (a ≤ k ∧ k < t) ↔ ∃ p ∈ l, p.2.covers k) →
      (l.map (fun p => p.2.m_size)).sum = t - a := by
  induction l with
  | nil =>
    intro a t _ _ hcov
    have : ¬ (a ≤ a ∧ a < t) := fun h => by simpa using (hcov a).mp h
    simp only [List.map_nil, List.sum_nil]
    omega
  | cons x xs ih =>
    intro a t hord hsz hcov
    rw [List.pairwise_cons] at hord
    have hx := hsz x (List.mem_cons_self _ _)
    have hxc : ∀ k, x.2.covers k → a ≤ k ∧ k < t :=
      fun k hk => (hcov k).mpr ⟨x, List.mem_cons_self _ _, hk⟩
    have h1 := hxc x.2.m_addr ⟨le_refl _, by omega⟩
    have h2 := hxc (x.2.m_addr + x.2.m_size - 1) ⟨by omega, by omega⟩
    have ha : x.2.m_addr = a := by
      obtain ⟨p, hp, hpc⟩ := (hcov a).mp ⟨le_refl _, by omega⟩
      unfold ModelConfig_BITFIELD.covers at hpc
      rcases List.mem_cons.mp hp with h | h
      · subst h; omega
      · have := hord.1 p h; omega
    have htail := ih (x.2.m_addr + x.2.m_size) t hord.2
      (fun p hp => hsz p (List.mem_cons_of_mem _ hp)) (by
        intro k
        constructor
        · intro hk
          obtain ⟨p, hp, hpc⟩ := (hcov k).mp ⟨by omega, hk.2⟩
          rcases List.mem_cons.mp hp with h | h
          · subst h; unfold ModelConfig_BITFIELD.covers at hpc; omega
          · exact ⟨p, h, hpc⟩
        · rintro ⟨p, hp, hpc⟩
          have h3 := hord.1 p hp
          have h4 := (hcov k).mpr ⟨p, List.mem_cons_of_mem _ hp, hpc⟩
          unfold ModelConfig_BITFIELD.covers at hpc
          omega)
    simp only [List.map_cons, List.sum_cons, htail]
    omega

/-! ## Names along a path -/

theorem utf8ByteSize_ne_zero {s : String} (h : s ≠ "") : s.utf8ByteSize ≠ 0 := by
  obtain ⟨l⟩ := s
  cases l with
  | nil => exact absurd rfl h
  | cons c cs =>
    have := Char.utf8Size_pos c
    simp only [String.utf8ByteSize, String.utf8ByteSize.go]
    omega

theorem append_ne_empty {a : String} (b : String) (h : a ≠ "") : a ++ b ≠ "" := by
  intro hab
  apply h
  have h1 : (a ++ b).data = [] := by rw [hab]
  rw [String.data_append] at h1
  exact String.ext (List.append_eq_nil.mp h1).1

theorem c_str_eq {s : String} (h : Char.ofNat 0 ∉ s.data) : c_str s = s := by
  unfold c_str
  have : s.data.takeWhile (fun c => decide (c ≠ Char.ofNat 0)) = s.data := by
    rw [List.takeWhile_eq_self_iff]
    intro c hc
    simp only [ne_eq, decide_not, Bool.not_eq_true', decide_eq_false_iff_not]
    intro hz
    exact h (hz ▸ hc)
  rw [this]

theorem foldl_child_name (names : List String) (hne : ∀ n ∈ names, c_str n ≠ "") :
    ∀ acc : String, acc ≠ "" →
      names.foldl child_name acc = String.intercalate.go acc "." (names.map c_str) := by
  induction names with
  | nil => intro acc _; rfl
  | cons n rest ih =>
    intro acc hacc
    have hstep : child_name acc n = acc ++ "." ++ c_str n := by
      unfold child_name
      rw [if_pos (utf8ByteSize_ne_zero hacc)]
    rw [List.foldl_cons, hstep, List.map_cons, String.intercalate.go]
    exact ih (fun m hm => hne m (List.mem_cons_of_mem _ hm)) _
      (append_ne_empty _ (append_ne_empty _ hacc))

/-- Along a path on which no instance name is empty up to its first NUL
character, the walk builds the dotted name of the instance names, each up to
its first NUL character. -/
theorem block_name_eq_truncated (o : Occurrence) (hne : ∀ i ∈ o.path, c_str i.1 ≠ "") :
    o.block_name = ".".intercalate (o.path.map (fun i => c_str i.1)) := by
  unfold Occurrence.block_name
  have hnames : ∀ n ∈ o.path.map Prod.fst, c_str n ≠ "" := by
    intro n hn
    obtain ⟨i, hi, rfl⟩ := List.mem_map.mp hn
    exact hne i hi
  have hmap : o.path.map (fun i => c_str i.1) = (o.path.map Prod.fst).map c_str := by
    rw [List.map_map]
    rfl
  rw [hmap]
  cases hp : o.path.map Prod.fst with
  | nil => rfl
  | cons n rest =>
    rw [hp] at hnames
    have hn : c_str n ≠ "" := hnames n (List.mem_cons_self _ _)
    have h1 : child_name "" n = c_str n := by
      unfold child_name
      rw [if_neg (by decide)]
    rw [List.foldl_cons, h1, List.map_cons, String.intercalate]
    exact foldl_child_name rest (fun m hm => hnames m (List.mem_cons_of_mem _ hm)) _ hn

/-- Along a path without empty instance names and without NUL characters the
walk builds the dotted name. -/
theorem block_name_eq_dotted (o : Occurrence)
    (hne : ∀ i ∈ o.path, i.1 ≠ "" ∧ Char.ofNat 0 ∉ i.1.data) :
    o.block_name = o.dotted_name := by
  have hsame : ∀ i ∈ o.path, c_str i.1 = i.1 := fun i hi => c_str_eq (hne i hi).2
  rw [block_name_eq_truncated o (fun i hi => by rw [hsame i hi]; exact (hne i hi).1)]
  unfold Occurrence.dotted_name
  congr 1
  exact List.map_congr_left hsame

/-! ## Sessions built by the allocator -/

/-- The descriptors of a constructed session are those of the occurrences of
the root block. -/
theorem new_perm {feature model : String} {d : device} {root : device_block}
    {s : ModelConfig_DEVICE} (hb : d.get_block model = some root)
    (h : ModelConfig_DEVICE.new feature model (some d) = .ok s) :
    s.m_bitfields.Perm ((occurrences root).map (fun o => ((o.descriptor d).m_addr, o.descriptor d))) := by
  obtain ⟨d', root', mask, hd, hb', hrun, _, _, _⟩ := new_ok h
  cases hd
  rw [hb] at hb'
  cases hb'
  have := (add_all_ok _ (alloc_inv_init feature model) hrun).2.1
  simpa [List.map_map, Function.comp] using this

/-- Descriptors that a sequence of `add_bitfield` calls accepted one after the
other share no bit. -/
theorem add_all_ok_disjoint {bs : List ModelConfig_BITFIELD} {feature model : String}
    {st' : ModelConfig_DEVICE × List Nat}
    (h : add_all bs (⟨feature, model, 0, 0, [], []⟩, []) = .ok st') :
    bs.Pairwise (fun a b => ¬ a.overlaps b) := by
  obtain ⟨hinv, hperm, _⟩ := add_all_ok bs (alloc_inv_init feature model) h
  have h1 : st'.1.m_bitfields.Pairwise (fun p q => ¬ p.2.overlaps q.2) := by
    refine hinv.ordered.imp ?_
    rintro p q hpq ⟨k, hp, hq⟩
    unfold ModelConfig_BITFIELD.covers at hp hq
    omega
  have hs : Symmetric (fun p q : Nat × ModelConfig_BITFIELD => ¬ p.2.overlaps q.2) := by
    intro a b hab hba
    obtain ⟨k, hb, ha⟩ := hba
    exact hab ⟨k, ha, hb⟩
  have h2 := (hperm.pairwise_iff (fun {a b} hab => hs hab)).mp h1
  simp only [List.append_nil] at h2
  exact (List.pairwise_map.mp h2)

/-! ## Claims about the allocator -/

/-- C1: in a session that the constructor built, `total_bits` is positive, the
ranges `[offset, offset + width)` of two distinct descriptors share no bit, and
the ranges together are exactly `[0, total_bits)`. -/
theorem allocated_ranges_partition (feature model : String) (dev : Option device)
    (s : ModelConfig_DEVICE) (h : ModelConfig_DEVICE.new feature model dev = .ok s) :
    0 < s.m_total_bits ∧
      (∀ p ∈ s.m_bitfields, ∀ q ∈ s.m_bitfields, p ≠ q →
        ¬ ∃ k, p.2.covers k ∧ q.2.covers k) ∧
      (∀ k, k < s.m_total_bits ↔ ∃ p ∈ s.m_bitfields, p.2.covers k) := by
  obtain ⟨d, root, mask, _, _, _, hinv, h0, _⟩ := new_ok h
  exact ⟨Nat.pos_of_ne_zero h0, ordered_not_overlaps hinv.ordered, new_covering h⟩

/-- Witness of C1 on the sample device. -/
theorem allocated_ranges_partition_witness :
    ModelConfig_DEVICE.new "f" "m" (some sample_device) = .ok sample_session ∧
      0 < sample_session.m_total_bits ∧
      (∀ p ∈ sample_session.m_bitfields, ∀ q ∈ sample_session.m_bitfields, p ≠ q →
        ¬ ∃ k, p.2.covers k ∧ q.2.covers k) ∧
      (∀ k, k < sample_session.m_total_bits ↔ ∃ p ∈ sample_session.m_bitfields, p.2.covers k) :=
  ⟨rfl, allocated_ranges_partition "f" "m" (some sample_device) sample_session rfl⟩

/-- C2: in a session that the constructor built, the widths of the descriptors
add up to `total_bits`. -/
theorem allocated_widths_sum (feature model : String) (dev : Option device)
    (s : ModelConfig_DEVICE) (h : ModelConfig_DEVICE.new feature model dev = .ok s) :
    (s.m_bitfields.map (fun p => p.2.m_size)).sum = s.m_total_bits := by
  obtain ⟨d, root, mask, _, _, _, hinv, _, _⟩ := new_ok h
  have hcov := new_covering h
  have := sum_sizes_of_cover s.m_bitfields 0 s.m_total_bits hinv.ordered
    (fun p hp => (hinv.sizes p hp).1) (fun k => by simpa using hcov k)
  simpa using this

/-- Witness of C2 on the sample device. -/
theorem allocated_widths_sum_witness :
    ModelConfig_DEVICE.new "f" "m" (some sample_device) = .ok sample_session ∧
      (sample_session.m_bitfields.map (fun p => p.2.m_size)).sum
        = sample_session.m_total_bits :=
  ⟨rfl, allocated_widths_sum "f" "m" (some sample_device) sample_session rfl⟩

/-- C3, as stated, fails: an instance with the empty name contributes neither a
segment nor a dot to the names below it, and the name of an instance is taken
up to its first NUL character.  The attribute `b` of the block reached through
the instances `""` and `x` has the dotted name `.x`, and the attribute `a` of
the block reached through the instance named `i`, NUL, `j` has that whole name
as dotted name; no descriptor of either session carries such a block name. -/
theorem dotted_name_counterexample :
    (ModelConfig_DEVICE.new "f" "m" (some unnamed_device) = .ok unnamed_session ∧
      ∃ o ∈ occurrences unnamed_block, ¬ ∃ p ∈ unnamed_session.m_bitfields,
        p.2.m_block_name = o.dotted_name ∧ p.2.m_name = o.attr_name) ∧
    (ModelConfig_DEVICE.new "f" "m" (some nul_device) = .ok nul_session ∧
      ∃ o ∈ occurrences nul_block, ¬ ∃ p ∈ nul_session.m_bitfields,
        p.2.m_block_name = o.dotted_name ∧ p.2.m_name = o.attr_name) :=
  ⟨⟨rfl, by decide⟩, ⟨rfl, by decide⟩⟩

/-- C3, amended: the descriptors of a constructed session are, one for one, the
descriptors of the (block occurrence, attribute) pairs of the tree, each keyed
by its global offset, no two at the same offset.  The descriptor of an
occurrence has the block name that the walk builds along the path, the
attribute's name, the width of its type, and as offset the local address plus
the logical addresses on the path in 32-bit arithmetic.  The walk takes every
instance name up to its first NUL character: the block name is the dotted name
of the names so cut when none of them is empty, and the dotted name
`i1.i2...ik` when no instance name on the path is empty or has a NUL
character. -/
theorem descriptors_of_occurrences (feature model : String) (d : device)
    (root : device_block) (s : ModelConfig_DEVICE)
    (hb : d.get_block model = some root)
    (h : ModelConfig_DEVICE.new feature model (some d) = .ok s) :
    (s.m_bitfields.map Prod.snd).Perm ((occurrences root).map (Occurrence.descriptor d)) ∧
      (∀ p ∈ s.m_bitfields, p.1 = p.2.m_addr) ∧
      (s.m_bitfields.map Prod.fst).Nodup ∧
      (∀ o ∈ occurrences root,
        (o.descriptor d).m_block_name = (o.path.map Prod.fst).foldl child_name "" ∧
        (o.descriptor d).m_name = o.attr_name ∧
        (o.descriptor d).m_size = toU32 o.attr.type.size ∧
        (o.descriptor d).m_addr =
          (toU32 o.attr.address + (o.path.map (fun i => toU32 i.2)).sum) % 4294967296 ∧
        ((∀ i ∈ o.path, c_str i.1 ≠ "") →
          (o.descriptor d).m_block_name =
            ".".intercalate (o.path.map (fun i => c_str i.1))) ∧
        ((∀ i ∈ o.path, i.1 ≠ "" ∧ Char.ofNat 0 ∉ i.1.data) →
          (o.descriptor d).m_block_name = ".".intercalate (o.path.map Prod.fst))) := by
  have hperm := new_perm hb h
  obtain ⟨_, _, mask, _, _, _, hinv, _, _⟩ := new_ok h
  refine ⟨?_, hinv.keys, ?_, ?_⟩
  · have := hperm.map Prod.snd
    simpa [List.map_map, Function.comp] using this
  · have hlt : (s.m_bitfields.map Prod.fst).Pairwise (· < ·) := by
      rw [List.pairwise_map]
      refine (List.Pairwise.and_mem.mp hinv.ordered).imp ?_
      rintro p q ⟨hp, hq, hpq⟩
      have h1 := hinv.keys p hp
      have h2 := hinv.keys q hq
      have h3 := (hinv.sizes p hp).1
      simp only at h1 h2 h3
      omega
    exact hlt.imp (fun hab => Nat.ne_of_lt hab)
  · intro o _
    exact ⟨rfl, rfl, rfl, rfl, fun hne => block_name_eq_truncated o hne,
      fun hne => block_name_eq_dotted o hne⟩

/-- Witness of C3 on the device whose instance name has a NUL character. -/
theorem descriptors_of_occurrences_witness :
    (nul_session.m_bitfields.map Prod.snd).Perm
        ((occurrences nul_block).map (Occurrence.descriptor nul_device)) ∧
      (∀ p ∈ nul_session.m_bitfields, p.1 = p.2.m_addr) ∧
      (nul_session.m_bitfields.map Prod.fst).Nodup ∧
      (∀ o ∈ occurrences nul_block,
        (o.descriptor nul_device).m_block_name = (o.path.map Prod.fst).foldl child_name "" ∧
        (o.descriptor nul_device).m_name = o.attr_name ∧
        (o.descriptor nul_device).m_size = toU32 o.attr.type.size ∧
        (o.descriptor nul_device).m_addr =
          (toU32 o.attr.address + (o.path.map (fun i => toU32 i.2)).sum) % 4294967296 ∧
        ((∀ i ∈ o.path, c_str i.1 ≠ "") →
          (o.descriptor nul_device).m_block_name =
            ".".intercalate (o.path.map (fun i => c_str i.1))) ∧
        ((∀ i ∈ o.path, i.1 ≠ "" ∧ Char.ofNat 0 ∉ i.1.data) →
          (o.descriptor nul_device).m_block_name =
            ".".intercalate (o.path.map Prod.fst))) :=
  descriptors_of_occurrences "f" "m" nul_device nul_block nul_session rfl rfl

theorem descriptor_covers (d : device) (o : Occurrence) (k : Nat) :
    (o.descriptor d).covers k ↔ o.covers k := Iff.rfl

theorem descriptor_regular (d : device) (o : Occurrence)
    (hw : 1 ≤ o.width ∧ o.width ≤ 32) (hdv : o.width = 32 ∨ o.default_value < 2 ^ o.width)
    (hend : o.offset + o.width ≤ 4294967288) : (o.descriptor d).regular :=
  ⟨by show o.width ≠ 0; omega, hw.2, hdv, hend⟩

/-- A walk over a tree in which two attributes share a bit does not succeed. -/
theorem add_all_overlapping {feature model : String} {d : device} {root : device_block}
    {i j : Nat} {a b : Occurrence} (hij : i ≠ j)
    (ha : (occurrences root)[i]? = some a) (hbj : (occurrences root)[j]? = some b)
    {k : Nat} (hk : a.covers k ∧ b.covers k) (st' : ModelConfig_DEVICE × List Nat) :
    add_all ((occurrences root).map (Occurrence.descriptor d))
      (⟨feature, model, 0, 0, [], []⟩, []) ≠ .ok st' := by
  intro hrun
  have hpw := List.pairwise_map.mp (add_all_ok_disjoint hrun)
  obtain ⟨hi, rfl⟩ := List.getElem?_eq_some.mp ha
  obtain ⟨hj, rfl⟩ := List.getElem?_eq_some.mp hbj
  rw [List.pairwise_iff_getElem] at hpw
  rcases Nat.lt_or_gt_of_ne hij with hlt | hgt
  · exact hpw i j hi hj hlt ⟨k, hk.1, hk.2⟩
  · exact hpw j i hj hi hgt ⟨k, hk.2, hk.1⟩

/-- C4, as stated, fails: the attributes `a`, 40 bits wide, and `b` of
`wide_block` both hold bit 0, and the constructor fails on the width of `a`,
with `RangeError`, before it visits `b`. -/
theorem overlap_error_counterexample :
    (∃ a b, (occurrences wide_block)[0]? = some a ∧ (occurrences wide_block)[1]? = some b ∧
      a.covers 0 ∧ b.covers 0) ∧
    ModelConfig_DEVICE.new "f" "m" (some wide_device) = .error .RangeError :=
  ⟨⟨⟨[], "a", ⟨0, plain_type 40⟩⟩, ⟨[], "b", ⟨0, plain_type 8⟩⟩, rfl, rfl,
    by decide, by decide⟩, rfl⟩

/-- C4, amended: when two attributes of the tree, of the same or of different
block occurrences, have global ranges that share a bit, the constructor fails
and yields no session, in whatever order the walk visits them.  The failure is
`OverlapError` when every attribute of the tree has a width from 1 to 32, a
default that fits its width and a range that ends at or below `2 ^ 32 - 8`. -/
theorem overlapping_attributes_fail (feature model : String) (d : device)
    (root : device_block) (i j : Nat) (a b : Occurrence) (k : Nat)
    (hm : model.utf8ByteSize ≠ 0) (hb : d.get_block model = some root)
    (hij : i ≠ j) (ha : (occurrences root)[i]? = some a)
    (hbj : (occurrences root)[j]? = some b) (hk : a.covers k ∧ b.covers k) :
    (∃ e, ModelConfig_DEVICE.new feature model (some d) = .error e) ∧
      ((∀ o ∈ occurrences root, (1 ≤ o.width ∧ o.width ≤ 32) ∧
          (o.width = 32 ∨ o.default_value < 2 ^ o.width) ∧
          o.offset + o.width ≤ 4294967288) →
        ModelConfig_DEVICE.new feature model (some d) = .error .OverlapError) := by
  have hno := @add_all_overlapping feature model d root i j a b hij ha hbj k hk
  constructor
  · cases hnew : ModelConfig_DEVICE.new feature model (some d) with
    | error e => exact ⟨e, rfl⟩
    | ok s =>
      obtain ⟨d', root', mask, hd, hb', hrun, _⟩ := new_ok hnew
      cases hd
      rw [hb] at hb'
      cases hb'
      exact absurd hrun (hno _)
  · intro hreg
    have hregular : ∀ x ∈ (occurrences root).map (Occurrence.descriptor d), x.regular := by
      intro x hx
      obtain ⟨o, ho, rfl⟩ := List.mem_map.mp hx
      obtain ⟨h1, h2, h3⟩ := hreg o ho
      exact descriptor_regular d o h1 h2 h3
    rcases add_all_regular _ (alloc_inv_init feature model) hregular with ⟨st', hok⟩ | herr
    · exact absurd hok (hno st')
    · exact new_error_of_add_all hm hb herr

/-- Witness of C4 on a block whose two attributes share the bits 4 to 7. -/
theorem overlapping_attributes_fail_witness :
    (∃ e, ModelConfig_DEVICE.new "f" "m" (some clash_device) = .error e) ∧
      ((∀ o ∈ occurrences clash_block, (1 ≤ o.width ∧ o.width ≤ 32) ∧
          (o.width = 32 ∨ o.default_value < 2 ^ o.width) ∧
          o.offset + o.width ≤ 4294967288) →
        ModelConfig_DEVICE.new "f" "m" (some clash_device) = .error .OverlapError) :=
  overlapping_attributes_fail "f" "m" clash_device clash_block 0 1
    ⟨[], "a", ⟨0, plain_type 8⟩⟩ ⟨[], "b", ⟨4, plain_type 4⟩⟩ 5
    (by decide) rfl (by decide) rfl rfl (by decide)

/-- C5, as stated, fails: the only attribute of `gap_block` is one bit wide and
overlaps nothing, and the constructor fails on its self-check, because bits 0
to 7 belong to no attribute. -/
theorem gap_counterexample :
    occurrences gap_block ≠ [] ∧
    (∀ o ∈ occurrences gap_block, 1 ≤ o.width ∧ o.width ≤ 32) ∧
    (occurrences gap_block).Pairwise (fun a b => ¬ ∃ k, a.covers k ∧ b.covers k) ∧
    ModelConfig_DEVICE.new "f" "m" (some gap_device) = .error .InternalError :=
  ⟨by decide, by decide, by simp [occurrences, occurrences_of_instances, gap_block], rfl⟩

/-- C5, amended: for a named model that the device holds, the constructor
succeeds when the tree has at least one attribute, every attribute has a width
from 1 to 32, a default that fits its width and a range that ends at or below
`2 ^ 32 - 8`, no two ranges share a bit, and the ranges leave no gap: every bit
below the end of a range lies in some range. -/
theorem allocation_succeeds (feature model : String) (d : device) (root : device_block)
    (hm : model.utf8ByteSize ≠ 0) (hb : d.get_block model = some root)
    (hne : occurrences root ≠ [])
    (hw : ∀ o ∈ occurrences root, 1 ≤ o.width ∧ o.width ≤ 32)
    (hdv : ∀ o ∈ occurrences root, o.width = 32 ∨ o.default_value < 2 ^ o.width)
    (hend : ∀ o ∈ occurrences root, o.offset + o.width ≤ 4294967288)
    (hdis : (occurrences root).Pairwise (fun a b => ¬ ∃ k, a.covers k ∧ b.covers k))
    (hgap : ∀ o ∈ occurrences root, ∀ k, k < o.offset + o.width →
      ∃ o' ∈ occurrences root, o'.covers k) :
    ∃ s, ModelConfig_DEVICE.new feature model (some d) = .ok s := by
  have hregular : ∀ x ∈ (occurrences root).map (Occurrence.descriptor d), x.regular := by
    intro x hx
    obtain ⟨o, ho, rfl⟩ := List.mem_map.mp hx
    exact descriptor_regular d o (hw o ho) (hdv o ho) (hend o ho)
  obtain ⟨⟨s, mask⟩, hrun⟩ := add_all_free _ (alloc_inv_init feature model) hregular
    (List.pairwise_map.mpr hdis) (fun _ _ p hp => by cases hp)
  obtain ⟨hinv, hperm, _⟩ := add_all_ok _ (alloc_inv_init feature model) hrun
  simp only [List.append_nil, List.map_map] at hperm
  have hmem : ∀ p, p ∈ s.m_bitfields ↔ ∃ o ∈ occurrences root,
      p = ((o.descriptor d).m_addr, o.descriptor d) := by
    intro p
    rw [hperm.mem_iff, List.mem_map]
    constructor
    · rintro ⟨o, ho, rfl⟩; exact ⟨o, ho, rfl⟩
    · rintro ⟨o, ho, rfl⟩; exact ⟨o, ho, rfl⟩
  obtain ⟨ptop, hptop, htop⟩ : ∃ p ∈ s.m_bitfields, p.2.m_addr + p.2.m_size = s.m_total_bits := by
    rcases hinv.top with ⟨_, hnil⟩ | h
    · exfalso
      obtain ⟨o, ho⟩ := List.exists_mem_of_ne_nil _ hne
      have : ((o.descriptor d).m_addr, o.descriptor d) ∈ s.m_bitfields :=
        (hmem _).mpr ⟨o, ho, rfl⟩
      simp only at hnil
      rw [hnil] at this
      cases this
    · exact h
  have h0 : s.m_total_bits ≠ 0 := by
    have := (hinv.sizes ptop hptop).1
    omega
  have hbits : ∀ k, mask_bit mask k = true ↔ k < s.m_total_bits := by
    intro k
    rw [hinv.bits k]
    constructor
    · rintro ⟨p, hp, hc⟩
      have := hinv.within p hp
      unfold ModelConfig_BITFIELD.covers at hc
      simp only at this
      omega
    · intro hk
      obtain ⟨o, ho, rfl⟩ := (hmem ptop).mp hptop
      obtain ⟨o', ho', hc'⟩ := hgap o ho k (by
        show k < (o.descriptor d).m_addr + (o.descriptor d).m_size
        simp only at htop
        omega)
      exact ⟨_, (hmem _).mpr ⟨o', ho', rfl⟩, hc'⟩
  exact ⟨s, new_of_add_all hm hb hrun h0 (check_mask_full hinv.bytes hinv.mask_len hbits)⟩

theorem sample_occurrences :
    occurrences sample_block =
      [⟨[], "a", ⟨0, plain_type 4⟩⟩, ⟨[], "b", ⟨4, plain_type 4⟩⟩,
        ⟨[("i", 8)], "x", ⟨0, plain_type 8⟩⟩] := rfl

theorem sample_covers (o : Occurrence) (ho : o ∈ occurrences sample_block) (k : Nat) :
    o.covers k ↔
      (o.attr_name = "a" ∧ k < 4) ∨ (o.attr_name = "b" ∧ 4 ≤ k ∧ k < 8) ∨
        (o.attr_name = "x" ∧ 8 ≤ k ∧ k < 16) := by
  rw [sample_occurrences] at ho
  simp only [List.mem_cons, List.mem_singleton, List.not_mem_nil, or_false] at ho
  rcases ho with rfl | rfl | rfl
  · have h1 : Occurrence.offset ⟨[], "a", ⟨0, plain_type 4⟩⟩ = 0 := by decide
    have h2 : Occurrence.width ⟨[], "a", ⟨0, plain_type 4⟩⟩ = 4 := by decide
    have h3 : ¬ ("a" = "b") := by decide
    have h4 : ¬ ("a" = "x") := by decide
    simp only [Occurrence.covers, h1, h2, h3, h4, true_and, false_and, or_false]
    omega
  · have h1 : Occurrence.offset ⟨[], "b", ⟨4, plain_type 4⟩⟩ = 4 := by decide
    have h2 : Occurrence.width ⟨[], "b", ⟨4, plain_type 4⟩⟩ = 4 := by decide
    have h3 : ¬ ("b" = "a") := by decide
    have h4 : ¬ ("b" = "x") := by decide
    simp only [Occurrence.covers, h1, h2, h3, h4, true_and, false_and, or_false, false_or]
  · have h1 : Occurrence.offset ⟨[("i", 8)], "x", ⟨0, plain_type 8⟩⟩ = 8 := by decide
    have h2 : Occurrence.width ⟨[("i", 8)], "x", ⟨0, plain_type 8⟩⟩ = 8 := by decide
    have h3 : ¬ ("x" = "a") := by decide
    have h4 : ¬ ("x" = "b") := by decide
    simp only [Occurrence.covers, h1, h2, h3, h4, true_and, false_and, false_or]

/-- Witness of C5 on the sample device. -/
theorem allocation_succeeds_witness :
    ∃ s, ModelConfig_DEVICE.new "f" "m" (some sample_device) = .ok s :=
  allocation_succeeds "f" "m" sample_device sample_block (by decide) rfl (by decide)
    (by decide) (by decide) (by decide)
    (by
      rw [sample_occurrences]
      simp only [List.pairwise_cons, List.mem_cons, List.mem_singleton, List.not_mem_nil,
        forall_eq_or_imp, forall_eq, IsEmpty.forall_iff, implies_true, List.Pairwise.nil,
        and_true]
      refine ⟨⟨?_, ?_⟩, ?_⟩ <;>
      · rintro ⟨k, h1, h2⟩
        rw [sample_covers _ (by decide)] at h1 h2
        simp only [String.reduceEq, false_and, true_and, or_false, false_or] at h1 h2
        omega)
    (by
      intro o ho k hk
      have hend : o.offset + o.width ≤ 16 := by
        rw [sample_occurrences] at ho
        simp only [List.mem_cons, List.mem_singleton, List.not_mem_nil, or_false] at ho
        rcases ho with rfl | rfl | rfl <;> decide
      have hk16 : k < 16 := by omega
      by_cases h4 : k < 4
      · exact ⟨⟨[], "a", ⟨0, plain_type 4⟩⟩, by decide,
          (sample_covers _ (by decide) k).mpr (Or.inl ⟨rfl, h4⟩)⟩
      · by_cases h8 : k < 8
        · exact ⟨⟨[], "b", ⟨4, plain_type 4⟩⟩, by decide,
            (sample_covers _ (by decide) k).mpr (Or.inr (Or.inl ⟨rfl, by omega, h8⟩))⟩
        · exact ⟨⟨[("i", 8)], "x", ⟨0, plain_type 8⟩⟩, by decide,
            (sample_covers _ (by decide) k).mpr (Or.inr (Or.inr ⟨rfl, by omega, hk16⟩))⟩)

/-! ## Looking a descriptor up and assigning to it -/

theorem find_bitfield_none {inst name : String} {l : List (Nat × ModelConfig_BITFIELD)} :
    find_bitfield inst name l = none ↔ ∀ p ∈ l, bitfield_matches inst name p.2 = false := by
  induction l with
  | nil => simp [find_bitfield]
  | cons b rest ih =>
    unfold find_bitfield
    by_cases hb : bitfield_matches inst name b.2 = true
    · simp [hb]
    · rw [if_neg hb]
      have hb' : bitfield_matches inst name b.2 = false := by simpa using hb
      cases hr : find_bitfield inst name rest with
      | none =>
        simp only [List.mem_cons, forall_eq_or_imp, hb', true_and, true_iff]
        exact ih.mp hr
      | some r =>
        obtain ⟨i, r⟩ := r
        simp only [List.mem_cons, forall_eq_or_imp, hb', true_and]
        constructor
        · intro hc; cases hc
        · intro hall
          rw [ih.mpr hall] at hr
          cases hr

/-- The descriptor that `get_bitfield` returns is the first one, in the order of
the map, that matches. -/
theorem find_bitfield_some {inst name : String} {l : List (Nat × ModelConfig_BITFIELD)}
    {i : Nat} {p : Nat × ModelConfig_BITFIELD} (h : find_bitfield inst name l = some (i, p)) :
    l[i]? = some p ∧ bitfield_matches inst name p.2 = true ∧
      ∀ j q, j < i → l[j]? = some q → bitfield_matches inst name q.2 = false := by
  induction l generalizing i with
  | nil => simp [find_bitfield] at h
  | cons b rest ih =>
    unfold find_bitfield at h
    by_cases hb : bitfield_matches inst name b.2 = true
    · rw [if_pos hb] at h
      cases h
      exact ⟨by simp, hb, fun j q hj _ => absurd hj (Nat.not_lt_zero j)⟩
    · rw [if_neg hb] at h
      cases hr : find_bitfield inst name rest with
      | none => rw [hr] at h; cases h
      | some r =>
        obtain ⟨i', r⟩ := r
        rw [hr] at h
        cases h
        obtain ⟨h1, h2, h3⟩ := ih hr
        refine ⟨by simpa using h1, h2, ?_⟩
        intro j q hj hq
        cases j with
        | zero =>
          simp only [List.getElem?_cons_zero, Option.some.injEq] at hq
          subst hq
          simpa using hb
        | succ j =>
          exact h3 j q (by omega) (by simpa using hq)

/-- Replacing the entry at a position of a map changes the entry with that key
and no other. -/
theorem set_eq_map_of_keys {l : List (Nat × ModelConfig_BITFIELD)}
    (hl : l.Pairwise (fun p q => p.1 < q.1)) {i : Nat} {p v : Nat × ModelConfig_BITFIELD}
    (hp : l[i]? = some p) :
    l.set i v = l.map (fun q => if q.1 = p.1 then v else q) := by
  induction l generalizing i with
  | nil => rfl
  | cons x xs ih =>
    rw [List.pairwise_cons] at hl
    cases i with
    | zero =>
      simp only [List.getElem?_cons_zero, Option.some.injEq] at hp
      subst hp
      simp only [List.set_cons_zero, List.map_cons, if_true, List.cons.injEq, true_and]
      symm
      conv_rhs => rw [← List.map_id xs]
      apply List.map_congr_left
      intro q hq
      have := hl.1 q hq
      rw [if_neg (by omega)]
      rfl
    | succ i =>
      simp only [List.getElem?_cons_succ] at hp
      have hx : x.1 < p.1 := by
        obtain ⟨hi, he⟩ := List.getElem?_eq_some.mp hp
        exact hl.1 p (he ▸ List.getElem_mem hi)
      simp only [List.set_cons_succ, List.map_cons, ih hl.2 hp]
      rw [if_neg (by omega)]

/-- A failing two-argument `set_attr` leaves the session as it was. -/
theorem set_attr_error_unchanged (s : ModelConfig_DEVICE) (inst name value : String)
    {e : CfgError} (h : (s.set_attr inst name value).1 = some e) :
    (s.set_attr inst name value).2 = s := by
  unfold ModelConfig_DEVICE.set_attr at h ⊢
  cases hg : s.get_bitfield inst name with
  | none => rfl
  | some r =>
    obtain ⟨i, key, b⟩ := r
    rw [hg] at h
    simp only at h ⊢
    cases hv : resolve_value b value with
    | error e' => rfl
    | ok v =>
      rw [hv] at h
      simp only at h ⊢
      by_cases hb : b.m_size = 32 ∨ v < 1 <<< b.m_size
      · rw [if_neg (not_not.mpr hb)] at h; cases h
      · rw [if_pos hb]

theorem resolve_value_number (b : ModelConfig_BITFIELD) {value : String} {n : Nat}
    (h : CFG_convert_string_to_u64 value = some n) :
    resolve_value b value = .ok (n % 4294967296) := by
  simp [resolve_value, is_number, h]

/-! ## Claims about `set_attr` -/

theorem bitfield_matches_iff (inst name : String) (b : ModelConfig_BITFIELD) :
    bitfield_matches inst name b = true ↔
      (b.m_block_name = inst ∨ b.m_user_name = inst) ∧ b.m_name = name := by
  simp [bitfield_matches]

/-- The descriptor that `get_bitfield` returns in a keyed session is the
matching descriptor with the lowest global offset. -/
theorem get_bitfield_lowest {s : ModelConfig_DEVICE} {inst name : String}
    {p : Nat × ModelConfig_BITFIELD} (hs : s.keyed) (hp : p ∈ s.m_bitfields)
    (hpm : (p.2.m_block_name = inst ∨ p.2.m_user_name = inst) ∧ p.2.m_name = name)
    (hlow : ∀ q ∈ s.m_bitfields,
      (q.2.m_block_name = inst ∨ q.2.m_user_name = inst) ∧ q.2.m_name = name →
        p.2.m_addr ≤ q.2.m_addr) :
    ∃ i, s.get_bitfield inst name = some (i, p) ∧ s.m_bitfields[i]? = some p := by
  unfold ModelConfig_DEVICE.get_bitfield
  cases hf : find_bitfield inst name s.m_bitfields with
  | none =>
    have := find_bitfield_none.mp hf p hp
    rw [(bitfield_matches_iff inst name p.2).mpr hpm] at this
    cases this
  | some r =>
    obtain ⟨i, p'⟩ := r
    obtain ⟨h1, h2, h3⟩ := find_bitfield_some hf
    obtain ⟨hi, hi'⟩ := List.getElem?_eq_some.mp h1
    obtain ⟨j, hj, hj'⟩ := List.getElem_of_mem hp
    have hpw := List.pairwise_iff_getElem.mp hs.1
    have hpp : p' = p := by
      rcases Nat.lt_trichotomy j i with hlt | heq | hgt
      · have := h3 j p hlt (by rw [List.getElem?_eq_getElem hj, hj'])
        rw [(bitfield_matches_iff inst name p.2).mpr hpm] at this
        cases this
      · subst heq; rw [← hi', ← hj']
      · have hk := hpw i j hi hj hgt
        rw [hi', hj'] at hk
        have h4 := hlow p' (hi' ▸ List.getElem_mem hi) ((bitfield_matches_iff inst name p'.2).mp h2)
        have h5 := hs.2 p hp
        have h6 := hs.2 p' (hi' ▸ List.getElem_mem hi)
        omega
    subst hpp
    exact ⟨i, rfl, h1⟩

/-- C6, as stated, fails: on a field of 32 bits the string `4294967296` parses
as the integer `2 ^ 32`, the call succeeds, and the descriptor then holds 0,
the value narrowed to 32 bits, not `2 ^ 32`. -/
theorem wide_value_counterexample :
    ModelConfig_DEVICE.new "f" "m" (some word_device) = .ok word_session ∧
      CFG_convert_string_to_u64 "4294967296" = some 4294967296 ∧
      (word_session.set_attr "" "w" "4294967296").1 = none ∧
      (word_session.set_attr "" "w" "4294967296").2.read "" "w" = some 0 ∧
      (word_session.set_attr "" "w" "4294967296").2.read "" "w" ≠ some 4294967296 :=
  ⟨rfl, by decide, by decide, by decide, by decide⟩

/-- C6, amended: in a session whose descriptors are keyed by their offsets, let
`p` be the descriptor with the lowest global offset among those whose block
name or alias is `inst` and whose attribute name is `name`.  When `value`
parses as an integer `n` below `2 ^ 32` with `n < 2 ^ width` or `width = 32`,
for the width of `p`, the two-argument `set_attr` succeeds; afterwards `p`
holds `n`, its other fields are as before, and every other descriptor and
every other member of the session is unchanged. -/
theorem set_attr_assigns (s : ModelConfig_DEVICE) (inst name value : String) (n : Nat)
    (p : Nat × ModelConfig_BITFIELD) (hs : s.keyed) (hp : p ∈ s.m_bitfields)
    (hpm : (p.2.m_block_name = inst ∨ p.2.m_user_name = inst) ∧ p.2.m_name = name)
    (hlow : ∀ q ∈ s.m_bitfields,
      (q.2.m_block_name = inst ∨ q.2.m_user_name = inst) ∧ q.2.m_name = name →
        p.2.m_addr ≤ q.2.m_addr)
    (hparse : CFG_convert_string_to_u64 value = some n) (h32 : n < 4294967296)
    (hfit : n < 2 ^ p.2.m_size ∨ p.2.m_size = 32) :
    s.set_attr inst name value =
      (none,
        { s with
          m_bitfields :=
            s.m_bitfields.map
              (fun q => if q.1 = p.1 then (p.1, { p.2 with m_value := n }) else q) }) := by
  obtain ⟨i, hg, hi⟩ := get_bitfield_lowest hs hp hpm hlow
  have hv : resolve_value p.2 value = .ok n := by
    rw [resolve_value_number p.2 hparse, Nat.mod_eq_of_lt h32]
  have hb : p.2.m_size = 32 ∨ n < 1 <<< p.2.m_size := by
    rw [Nat.one_shiftLeft]; exact hfit.symm
  unfold ModelConfig_DEVICE.set_attr
  rw [hg]
  simp only [hv, if_neg (not_not.mpr hb)]
  rw [set_eq_map_of_keys hs.1 hi]

/-- Witness of C6: the value `15` on the four-bit field `a` of the sample
session. -/
theorem set_attr_assigns_witness :
    sample_session.set_attr "" "a" "15" =
      (none,
        { sample_session with
          m_bitfields :=
            sample_session.m_bitfields.map
              (fun q =>
                if q.1 = 0 then (0, ⟨"", "", "a", 0, 4, 15, some (plain_type 4)⟩) else q) }) ∧
      (sample_session.set_attr "" "a" "15").2.read "" "a" = some 15 :=
  ⟨set_attr_assigns sample_session "" "a" "15" 15
      (0, ⟨"", "", "a", 0, 4, 0, some (plain_type 4)⟩)
      ⟨by simp [sample_session], by decide⟩ (by decide) (by decide)
      (by
        intro q _ _
        exact Nat.zero_le _)
      (by decide) (by decide) (by decide),
    by decide⟩

/-- C7, at the failing input: on the four-bit field `x`, which holds 5, the
string `4294967296` parses as `2 ^ 32`, which is not below `2 ^ 4`; the call
succeeds and stores 0. -/
theorem set_attr_accepts_wide_value :
    CFG_convert_string_to_u64 "4294967296" = some 4294967296 ∧
      (preset_session 5 0).set_attr "I" "x" "4294967296" = (none, preset_session 0 0) :=
  ⟨by decide, by decide⟩

/-- C8, as stated, fails: the sample session has a descriptor for the attribute
`a` of the root block, and the call with the value `fast`, which is neither a
number nor a label of the attribute's type, fails with `NotFoundError`. -/
theorem not_found_counterexample :
    (∃ p ∈ sample_session.m_bitfields,
      (p.2.m_block_name = "" ∨ p.2.m_user_name = "") ∧ p.2.m_name = "a") ∧
      sample_session.set_attr "" "a" "fast" = (some .NotFoundError, sample_session) :=
  ⟨by decide, by decide⟩

/-- C8, amended: the two-argument `set_attr` fails with `NotFoundError` exactly
when no descriptor has the block name or alias `inst` and the attribute name
`name`, or the descriptor found cannot resolve the value: the value is not a
number and is not a label of the descriptor's type.  In either case the
session is unchanged, and without a matching descriptor the call fails
whatever the value is. -/
theorem set_attr_not_found (s : ModelConfig_DEVICE) (inst name value : String) :
    ((s.set_attr inst name value).1 = some .NotFoundError ↔
      (∀ p ∈ s.m_bitfields,
        ¬ ((p.2.m_block_name = inst ∨ p.2.m_user_name = inst) ∧ p.2.m_name = name)) ∨
      (∃ r, s.get_bitfield inst name = some r ∧ is_number value = none ∧
        ∀ t, r.2.2.m_type = some t → ∀ l ∈ t.enum_values, l.1 ≠ value)) ∧
      ((s.set_attr inst name value).1 = some .NotFoundError →
        (s.set_attr inst name value).2 = s) ∧
      ((∀ p ∈ s.m_bitfields,
        ¬ ((p.2.m_block_name = inst ∨ p.2.m_user_name = inst) ∧ p.2.m_name = name)) →
        ∀ v, s.set_attr inst name v = (some .NotFoundError, s)) := by
  have hnone : (∀ p ∈ s.m_bitfields,
      ¬ ((p.2.m_block_name = inst ∨ p.2.m_user_name = inst) ∧ p.2.m_name = name)) ↔
      s.get_bitfield inst name = none := by
    unfold ModelConfig_DEVICE.get_bitfield
    rw [find_bitfield_none]
    constructor
    · intro h p hp
      have := h p hp
      rw [← bitfield_matches_iff] at this
      simpa using this
    · intro h p hp
      rw [← bitfield_matches_iff, h p hp]
      simp
  refine ⟨?_, fun h => set_attr_error_unchanged s inst name value h, ?_⟩
  · rw [hnone]
    unfold ModelConfig_DEVICE.set_attr
    cases hg : s.get_bitfield inst name with
    | none => simp
    | some r =>
      obtain ⟨i, key, b⟩ := r
      simp only [false_or, Option.some.injEq, exists_eq_left', reduceCtorEq]
      unfold resolve_value
      cases hn : is_number value with
      | some v =>
        simp only [false_and, iff_false, reduceCtorEq]
        split_ifs <;> simp
      | none =>
        simp only [true_and]
        cases ht : b.m_type with
        | none => simp
        | some t =>
          simp only [ParameterType.get_enum_value, Option.some.injEq, forall_eq']
          cases hf : t.enum_values.find? (fun p => p.1 == value) with
          | none =>
            simp only [true_iff]
            intro l hl heq
            have := List.find?_eq_none.mp hf l hl
            simp [heq] at this
          | some l =>
            have hmem := List.mem_of_find?_eq_some hf
            have hkey := List.find?_some hf
            simp only [beq_iff_eq] at hkey
            have hright : ¬ ∀ l ∈ t.enum_values, l.1 ≠ value := fun h => h l hmem hkey
            simp only [hright, iff_false]
            split_ifs <;> simp
  · intro h v
    unfold ModelConfig_DEVICE.set_attr
    rw [hnone.mp h]

theorem assign_in_order_failed (inst : String) (pairs : List (String × String))
    (e : CfgError) (s : ModelConfig_DEVICE) :
    pairs.foldl
      (fun r pair =>
        match r with
        | (none, s) => s.set_attr inst pair.1 pair.2
        | (some e, s) => (some e, s))
      (some e, s) = (some e, s) := by
  induction pairs with
  | nil => rfl
  | cons a rest ih => exact ih

/-- The loop of the preset-aware `set_attr` is the assignments in declared
order. -/
theorem set_attr_loop_eq (inst : String) (attrs : List ModelConfig_API_ATTRIBUTE) :
    ∀ s : ModelConfig_DEVICE,
      set_attr_loop inst attrs s =
        assign_in_order inst (attrs.map (fun a => (a.m_name, a.m_value))) s := by
  induction attrs with
  | nil => intro s; rfl
  | cons a rest ih =>
    intro s
    unfold set_attr_loop assign_in_order
    simp only [List.map_cons, List.foldl_cons]
    cases hr : s.set_attr inst a.m_name a.m_value with
    | mk r s1 =>
      cases r with
      | none => exact ih s1
      | some e => exact (assign_in_order_failed inst _ e s1).symm

/-- A failing loop leaves the session that the pairs before the failing pair
produced. -/
theorem set_attr_loop_error (inst : String) (attrs : List ModelConfig_API_ATTRIBUTE) :
    ∀ (s : ModelConfig_DEVICE) (e : CfgError), (set_attr_loop inst attrs s).1 = some e →
      ∃ done a rest s1, attrs = done ++ a :: rest ∧ set_attr_loop inst done s = (none, s1) ∧
        s1.set_attr inst a.m_name a.m_value = (some e, s1) ∧
        set_attr_loop inst attrs s = (some e, s1) := by
  induction attrs with
  | nil => intro s e h; cases h
  | cons a rest ih =>
    intro s e h
    unfold set_attr_loop at h
    cases hr : s.set_attr inst a.m_name a.m_value with
    | mk r s1 =>
      rw [hr] at h
      cases r with
      | some e' =>
        simp only at h
        cases h
        have hs1 : s1 = s := by
          have := set_attr_error_unchanged s inst a.m_name a.m_value (e := e) (by rw [hr])
          rw [hr] at this
          exact this
        subst hs1
        exact ⟨[], a, rest, s1, rfl, rfl, hr, by unfold set_attr_loop; rw [hr]⟩
      | none =>
        simp only at h
        obtain ⟨done, b, rest', s2, h1, h2, h3, h4⟩ := ih s1 e h
        refine ⟨a :: done, b, rest', s2, by rw [h1]; rfl, ?_, h3, ?_⟩
        · unfold set_attr_loop; rw [hr]; exact h2
        · unfold set_attr_loop; rw [hr]; exact h4

/-- C9: when `name` is a registered API group and `value` names a setting of
the group, the preset-aware `set_attr` yields the result of the two-argument
`set_attr(instance, a, v)` applied to the pairs `(a, v)` of the setting one
after the other in declared order. -/
theorem preset_expansion (s : ModelConfig_DEVICE) (options : List (String × String))
    (inst name value : String) (api : String × ModelConfig_API)
    (setting : ModelConfig_API_SETTING)
    (hi : options_at options "instance" = some inst)
    (hn : options_at options "name" = some name)
    (hv : options_at options "value" = some value)
    (hapi : s.m_api.find? (fun p => p.1 == name) = some api)
    (hset : api.2.get_setting value = some setting) :
    s.set_attr_options options =
      assign_in_order inst (setting.m_attributes.map (fun a => (a.m_name, a.m_value))) s := by
  unfold ModelConfig_DEVICE.set_attr_options
  simp only [hi, hn, hv, hapi, hset]
  exact set_attr_loop_eq inst setting.m_attributes s

/-- Witness of C9: group `mode`, setting `fast`, on the instance `I`: `x` is
set to 1 and then `y` to 2; with the setting `twice`, whose two pairs assign to
`x`, the later pair wins. -/
theorem preset_expansion_witness :
    (preset_session 0 0).set_attr_options
        [("instance", "I"), ("name", "mode"), ("value", "fast")] =
      assign_in_order "I" [("x", "1"), ("y", "2")] (preset_session 0 0) ∧
    (preset_session 0 0).set_attr "I" "x" "1" = (none, preset_session 1 0) ∧
    (preset_session 1 0).set_attr "I" "y" "2" = (none, preset_session 1 2) ∧
    assign_in_order "I" [("x", "1"), ("y", "2")] (preset_session 0 0) =
      (none, preset_session 1 2) ∧
    (preset_session 1 2).read "I" "x" = some 1 ∧ (preset_session 1 2).read "I" "y" = some 2 ∧
    (preset_session 0 0).set_attr_options
        [("instance", "I"), ("name", "mode"), ("value", "twice")] =
      (none, preset_session 3 0) :=
  ⟨preset_expansion (preset_session 0 0)
      [("instance", "I"), ("name", "mode"), ("value", "fast")] "I" "mode" "fast"
      ("mode", mode_api) ⟨"", [⟨"x", "1"⟩, ⟨"y", "2"⟩]⟩
      (by decide) (by decide) (by decide) (by decide) (by decide),
    by decide, by decide, by decide, by decide, by decide, by decide⟩

/-- C10, as stated, fails: the setting `wrong` of the group `mode` assigns 1 to
`x` and then 16 to `y`; on four-bit fields that hold 0 the command fails with
`RangeError` at `y`, and `x` holds 1 afterwards. -/
theorem halfway_preset_counterexample :
    (preset_session 0 0).set_attr_options
        [("instance", "I"), ("name", "mode"), ("value", "wrong")] =
      (some .RangeError, preset_session 1 0) ∧
    (preset_session 0 0).read "I" "x" = some 0 ∧
    (preset_session 1 0).read "I" "x" = some 1 :=
  ⟨by decide, by decide, by decide⟩

/-- C10, amended: a failing two-argument `set_attr` leaves the session as it
was.  A failing preset-aware `set_attr` leaves the session as it was when an
option is missing (`InternalError`), when `name` is not a registered group (the
command is then the two-argument `set_attr`), and when the group has no setting
called `value` (`NotFoundError`).  When it fails while expanding a preset, the
pairs before the first failing pair have been assigned in declared order and
the session is the one they produced: the failing pair and the pairs after it
change nothing. -/
theorem set_attr_failure_state (s : ModelConfig_DEVICE) (options : List (String × String))
    (e : CfgError) (h : (s.set_attr_options options).1 = some e) :
    (∀ inst name value e', (s.set_attr inst name value).1 = some e' →
      (s.set_attr inst name value).2 = s) ∧
    ((options_at options "instance" = none ∨ options_at options "name" = none ∨
        options_at options "value" = none) →
      s.set_attr_options options = (some .InternalError, s)) ∧
    (∀ inst name value,
      options_at options "instance" = some inst → options_at options "name" = some name →
      options_at options "value" = some value →
      (s.m_api.find? (fun p => p.1 == name) = none →
        s.set_attr_options options = s.set_attr inst name value ∧
        s.set_attr_options options = (some e, s)) ∧
      (∀ api, s.m_api.find? (fun p => p.1 == name) = some api →
        (api.2.get_setting value = none →
          s.set_attr_options options = (some .NotFoundError, s)) ∧
        (∀ setting, api.2.get_setting value = some setting →
          ∃ done a rest s1,
            setting.m_attributes = done ++ a :: rest ∧
            assign_in_order inst (done.map (fun b => (b.m_name, b.m_value))) s = (none, s1) ∧
            s1.set_attr inst a.m_name a.m_value = (some e, s1) ∧
            s.set_attr_options options = (some e, s1)))) := by
  refine ⟨fun inst name value e' h' => set_attr_error_unchanged s inst name value h', ?_, ?_⟩
  · intro hmiss
    unfold ModelConfig_DEVICE.set_attr_options
    cases hi : options_at options "instance" with
    | none => rfl
    | some inst =>
      cases hn : options_at options "name" with
      | none => rfl
      | some name =>
        cases hv : options_at options "value" with
        | none => rfl
        | some value =>
          rw [hi, hn, hv] at hmiss
          rcases hmiss with h1 | h1 | h1 <;> cases h1
  · intro inst name value hi hn hv
    unfold ModelConfig_DEVICE.set_attr_options at h ⊢
    rw [hi, hn, hv] at h
    simp only [hi, hn, hv] at h ⊢
    refine ⟨?_, ?_⟩
    · intro hapi
      rw [hapi] at h
      simp only [hapi] at h ⊢
      refine ⟨trivial, ?_⟩
      have hs := set_attr_error_unchanged s inst name value h
      exact Prod.ext h hs
    · intro api hapi
      rw [hapi] at h
      simp only [hapi] at h ⊢
      refine ⟨?_, ?_⟩
      · intro hset
        simp only [hset]
      · intro setting hset
        rw [hset] at h
        simp only [hset] at h ⊢
        obtain ⟨done, a, rest, s1, h1, h2, h3, h4⟩ :=
          set_attr_loop_error inst setting.m_attributes s e h
        exact ⟨done, a, rest, s1, h1, by rw [← set_attr_loop_eq]; exact h2, h3, h4⟩

/-- Witness of C10: the setting `wrong` on the session whose fields hold 0; the
pair `(x, 1)` is assigned, the pair `(y, 16)` fails, and `x` holds 1. -/
theorem set_attr_failure_state_witness :
    ((preset_session 0 0).set_attr_options
        [("instance", "I"), ("name", "mode"), ("value", "wrong")]).1 = some .RangeError ∧
    (∃ done a rest s1,
      [(⟨"x", "1"⟩ : ModelConfig_API_ATTRIBUTE), ⟨"y", "16"⟩] = done ++ a :: rest ∧
      assign_in_order "I" (done.map (fun b => (b.m_name, b.m_value))) (preset_session 0 0)
        = (none, s1) ∧
      s1.set_attr "I" a.m_name a.m_value = (some .RangeError, s1) ∧
      (preset_session 0 0).set_attr_options
        [("instance", "I"), ("name", "mode"), ("value", "wrong")] = (some .RangeError, s1)) ∧
    (preset_session 0 0).set_attr_options
        [("instance", "I"), ("name", "mode"), ("value", "wrong")] =
      (some .RangeError, preset_session 1 0) :=
  ⟨by decide,
    ((set_attr_failure_state (preset_session 0 0)
      [("instance", "I"), ("name", "mode"), ("value", "wrong")] .RangeError (by decide)).2.2
        "I" "mode" "wrong" (by decide) (by decide) (by decide)).2
          ("mode", mode_api) (by decide) |>.2 ⟨"", [⟨"x", "1"⟩, ⟨"y", "16"⟩]⟩ (by decide),
    by decide⟩

/-! ## What the commands keep of a session -/

theorem toU32_lt (x : Int) : toU32 x < 4294967296 := by
  unfold toU32
  omega

theorem resolve_value_lt {b : ModelConfig_BITFIELD} {value : String} {v : Nat}
    (h : resolve_value b value = .ok v) : v < 4294967296 := by
  unfold resolve_value at h
  cases hn : is_number value with
  | some n =>
    rw [hn] at h
    simp only [Except.ok.injEq] at h
    subst h
    unfold is_number at hn
    cases hc : CFG_convert_string_to_u64 value with
    | none => rw [hc] at hn; cases hn
    | some m =>
      rw [hc] at hn
      simp only [Option.some.injEq] at hn
      omega
  | none =>
    rw [hn] at h
    cases ht : b.m_type with
    | none => rw [ht] at h; cases h
    | some t =>
      rw [ht] at h
      simp only at h
      cases he : t.get_enum_value value with
      | error e => rw [he] at h; cases h
      | ok x =>
        rw [he] at h
        simp only [Except.ok.injEq] at h
        subst h
        exact toU32_lt x

theorem Keeps.refl (s : ModelConfig_DEVICE) : Keeps s s :=
  ⟨rfl, rfl, rfl, rfl, rfl, id⟩

theorem Keeps.trans {s₁ s₂ s₃ : ModelConfig_DEVICE} (h₁ : Keeps s₁ s₂) (h₂ : Keeps s₂ s₃) :
    Keeps s₁ s₃ :=
  ⟨h₂.layout.trans h₁.layout, h₂.total.trans h₁.total, h₂.feature.trans h₁.feature,
    h₂.model.trans h₁.model, h₂.name_length.trans h₁.name_length, fun h => h₂.fit (h₁.fit h)⟩

theorem keeps_of_api (s : ModelConfig_DEVICE) (api : List (String × ModelConfig_API)) :
    Keeps s { s with m_api := api } :=
  ⟨rfl, rfl, rfl, rfl, rfl, id⟩

theorem layout_set {l : List (Nat × ModelConfig_BITFIELD)} {i key : Nat}
    {b : ModelConfig_BITFIELD} (v : Nat) (h : l[i]? = some (key, b)) :
    (l.set i (key, { b with m_value := v })).map (fun p => (p.1, p.2.fixed)) =
      l.map (fun p => (p.1, p.2.fixed)) := by
  induction l generalizing i with
  | nil => rfl
  | cons x xs ih =>
    cases i with
    | zero =>
      simp only [List.getElem?_cons_zero, Option.some.injEq] at h
      subst h
      rfl
    | succ i =>
      simp only [List.getElem?_cons_succ] at h
      simp only [List.set_cons_succ, List.map_cons, ih h]

/-- The two-argument `set_attr` changes at most the value of one descriptor,
and the new value fits the width. -/
theorem set_attr_keeps (s : ModelConfig_DEVICE) (inst name value : String) :
    Keeps s (s.set_attr inst name value).2 := by
  unfold ModelConfig_DEVICE.set_attr
  cases hg : s.get_bitfield inst name with
  | none => exact Keeps.refl s
  | some r =>
    obtain ⟨i, key, b⟩ := r
    simp only
    cases hv : resolve_value b value with
    | error e => exact Keeps.refl s
    | ok v =>
      simp only
      by_cases hb : b.m_size = 32 ∨ v < 1 <<< b.m_size
      · rw [if_neg (not_not.mpr hb)]
        have hi : s.m_bitfields[i]? = some (key, b) := (find_bitfield_some hg).1
        refine ⟨layout_set v hi, rfl, rfl, rfl, rfl, ?_⟩
        intro hfit p hp
        rcases List.mem_or_eq_of_mem_set hp with h | h
        · exact hfit p h
        · obtain ⟨hi', he⟩ := List.getElem?_eq_some.mp hi
          have hold := hfit (key, b) (he ▸ List.getElem_mem hi')
          subst h
          refine ⟨hold.1, hold.2.1, ?_⟩
          show v < 2 ^ b.m_size
          rcases hb with h32 | hlt
          · rw [h32]; exact resolve_value_lt hv
          · rw [Nat.one_shiftLeft] at hlt; exact hlt
      · rw [if_pos hb]; exact Keeps.refl s

theorem set_attr_loop_keeps (inst : String) (attrs : List ModelConfig_API_ATTRIBUTE) :
    ∀ s : ModelConfig_DEVICE, Keeps s (set_attr_loop inst attrs s).2 := by
  induction attrs with
  | nil => intro s; exact Keeps.refl s
  | cons a rest ih =>
    intro s
    unfold set_attr_loop
    have h1 := set_attr_keeps s inst a.m_name a.m_value
    cases hr : s.set_attr inst a.m_name a.m_value with
    | mk r s1 =>
      rw [hr] at h1
      cases r with
      | some e => exact h1
      | none => exact h1.trans (ih s1)

theorem set_attr_options_keeps (s : ModelConfig_DEVICE) (options : List (String × String)) :
    Keeps s (s.set_attr_options options).2 := by
  unfold ModelConfig_DEVICE.set_attr_options
  cases options_at options "instance" with
  | none => exact Keeps.refl s
  | some inst =>
    cases options_at options "name" with
    | none => exact Keeps.refl s
    | some name =>
      cases options_at options "value" with
      | none => exact Keeps.refl s
      | some value =>
        simp only
        cases s.m_api.find? (fun p => p.1 == name) with
        | none => exact set_attr_keeps s inst name value
        | some api =>
          simp only
          cases api.2.get_setting value with
          | none => exact Keeps.refl s
          | some setting => exact set_attr_loop_keeps inst setting.m_attributes s

theorem set_design_items_keeps (inst : String) (items : List (String × Json)) :
    ∀ s : ModelConfig_DEVICE, Keeps s (set_design_items inst items s).2 := by
  induction items with
  | nil => intro s; exact Keeps.refl s
  | cons item rest ih =>
    intro s
    obtain ⟨key, value⟩ := item
    unfold set_design_items
    cases value with
    | string v =>
      simp only
      have h1 := set_attr_options_keeps s [("instance", inst), ("name", key), ("value", v)]
      cases hr : s.set_attr_options [("instance", inst), ("name", key), ("value", v)] with
      | mk r s1 =>
        rw [hr] at h1
        cases r with
        | some e => exact h1
        | none => exact h1.trans (ih s1)
    | null => exact Keeps.refl s
    | bool b => exact Keeps.refl s
    | number n => exact Keeps.refl s
    | array a => exact Keeps.refl s
    | object o => exact Keeps.refl s

theorem set_design_attribute_keeps (s : ModelConfig_DEVICE) (inst : String)
    (attributes : Json) : Keeps s (s.set_design_attribute inst attributes).2 := by
  unfold ModelConfig_DEVICE.set_design_attribute
  cases attributes with
  | object members =>
    simp only
    split_ifs
    · exact Keeps.refl s
    · exact set_design_items_keeps inst members s
  | null => exact Keeps.refl s
  | bool b => exact Keeps.refl s
  | number n => exact Keeps.refl s
  | array a => exact Keeps.refl s
  | string v => exact Keeps.refl s

theorem set_design_maps_keeps (inst : String) (maps : List Json) :
    ∀ s : ModelConfig_DEVICE, Keeps s (set_design_maps inst maps s).2 := by
  induction maps with
  | nil => intro s; exact Keeps.refl s
  | cons element rest ih =>
    intro s
    unfold set_design_maps
    by_cases hobj : ¬ element.is_object = true
    · rw [if_pos hobj]; exact Keeps.refl s
    · rw [if_neg hobj]
      have h1 := set_design_attribute_keeps s inst element
      cases hr : s.set_design_attribute inst element with
      | mk r s1 =>
        rw [hr] at h1
        cases r with
        | some e => exact h1
        | none => exact h1.trans (ih s1)

theorem set_design_attributes_keeps (s : ModelConfig_DEVICE) (inst attributes : Json) :
    Keeps s (s.set_design_attributes inst attributes).2 := by
  unfold ModelConfig_DEVICE.set_design_attributes
  cases inst with
  | string location =>
    simp only
    by_cases h1 : ¬ (attributes.is_array = true ∨ attributes.is_object = true)
    · rw [if_pos h1]; exact Keeps.refl s
    · rw [if_neg h1]
      by_cases h2 : attributes.size = 0
      · rw [if_pos h2]; exact Keeps.refl s
      · rw [if_neg h2]
        cases attributes with
        | array elements => exact set_design_maps_keeps location elements s
        | object members => exact set_design_attribute_keeps s location _
        | null => exact set_design_attribute_keeps s location _
        | bool b => exact set_design_attribute_keeps s location _
        | number n => exact set_design_attribute_keeps s location _
        | string v => exact set_design_attribute_keeps s location _
  | null => exact Keeps.refl s
  | bool b => exact Keeps.refl s
  | number n => exact Keeps.refl s
  | array a => exact Keeps.refl s
  | object o => exact Keeps.refl s

theorem set_design_instances_keeps (instances : List Json) :
    ∀ s : ModelConfig_DEVICE, Keeps s (set_design_instances instances s).2 := by
  induction instances with
  | nil => intro s; exact Keeps.refl s
  | cons inst rest ih =>
    intro s
    unfold set_design_instances
    by_cases h1 : ¬ inst.is_object = true
    · rw [if_pos h1]; exact Keeps.refl s
    rw [if_neg h1]
    by_cases h2 : inst.size = 0
    · rw [if_pos h2]; exact Keeps.refl s
    rw [if_neg h2]
    by_cases h3 : inst.contains "config_attributes" = true
    · rw [if_pos h3]
      cases inst.get "location" with
      | none => exact Keeps.refl s
      | some location =>
        cases inst.get "config_attributes" with
        | none => exact Keeps.refl s
        | some attributes =>
          simp only
          have h1 := set_design_attributes_keeps s location attributes
          cases hr : s.set_design_attributes location attributes with
          | mk r s1 =>
            rw [hr] at h1
            cases r with
            | some e => exact h1
            | none => exact h1.trans (ih s1)
    · rw [if_neg h3]; exact ih s

theorem set_design_keeps (s : ModelConfig_DEVICE) (file : JsonFile) :
    Keeps s (s.set_design file).2 := by
  unfold ModelConfig_DEVICE.set_design
  cases file with
  | unreadable => exact Keeps.refl s
  | malformed => exact Keeps.refl s
  | parsed api =>
    simp only
    by_cases h1 : ¬ api.is_object = true
    · rw [if_pos h1]; exact Keeps.refl s
    rw [if_neg h1]
    by_cases h2 : api.size = 0
    · rw [if_pos h2]; exact Keeps.refl s
    rw [if_neg h2]
    by_cases h3 : api.contains "instances" = true
    · rw [if_pos h3]
      cases api.get "instances" with
      | none => exact Keeps.refl s
      | some j =>
        cases j with
        | array instances =>
          simp only
          by_cases h4 : instances.length ≠ 0
          · rw [if_pos h4]; exact set_design_instances_keeps instances s
          · rw [if_neg h4]; exact Keeps.refl s
        | null => exact Keeps.refl s
        | bool b => exact Keeps.refl s
        | number n => exact Keeps.refl s
        | string v => exact Keeps.refl s
        | object o => exact Keeps.refl s
    · rw [if_neg h3]; exact Keeps.refl s

theorem add_api_keeps (s : ModelConfig_DEVICE) (api : String) (json : Json) :
    Keeps s (s.add_api api json).2 := by
  unfold ModelConfig_DEVICE.add_api
  cases json with
  | object members =>
    simp only
    split_ifs
    · exact Keeps.refl s
    · exact Keeps.refl s
    · exact keeps_of_api s _
  | null => exact Keeps.refl s
  | bool b => exact Keeps.refl s
  | number n => exact Keeps.refl s
  | array a => exact Keeps.refl s
  | string v => exact Keeps.refl s

theorem set_api_groups_keeps (groups : List (String × Json)) :
    ∀ s : ModelConfig_DEVICE, Keeps s (set_api_groups groups s).2 := by
  induction groups with
  | nil => intro s; exact Keeps.refl s
  | cons g rest ih =>
    intro s
    obtain ⟨key, value⟩ := g
    unfold set_api_groups
    have h1 := add_api_keeps s key value
    cases hr : s.add_api key value with
    | mk r s1 =>
      rw [hr] at h1
      cases r with
      | some e => exact h1
      | none => exact h1.trans (ih s1)

theorem set_api_keeps (s : ModelConfig_DEVICE) (file : JsonFile) :
    Keeps s (s.set_api file).2 := by
  unfold ModelConfig_DEVICE.set_api
  cases file with
  | unreadable => exact Keeps.refl s
  | malformed => exact Keeps.refl s
  | parsed api =>
    cases api with
    | object members =>
      simp only
      split_ifs
      · exact Keeps.refl s
      · exact set_api_groups_keeps members s
    | null => exact Keeps.refl s
    | bool b => exact Keeps.refl s
    | number n => exact Keeps.refl s
    | array a => exact Keeps.refl s
    | string v => exact Keeps.refl s

theorem run_keeps (s : ModelConfig_DEVICE) (c : Command) : Keeps s (s.run c).2 := by
  cases c with
  | set_attr options => exact set_attr_options_keeps s options
  | set_api file => exact set_api_keeps s file
  | set_design file => exact set_design_keeps s file

theorem run_all_keeps (cmds : List Command) :
    ∀ s : ModelConfig_DEVICE, Keeps s (s.run_all cmds) := by
  induction cmds with
  | nil => intro s; exact Keeps.refl s
  | cons c rest ih =>
    intro s
    exact (run_keeps s c).trans (ih (s.run c).2)

/-- The values of a constructed session fit their widths. -/
theorem new_values_fit {feature model : String} {dev : Option device} {s : ModelConfig_DEVICE}
    (h : ModelConfig_DEVICE.new feature model dev = .ok s) : s.values_fit := by
  obtain ⟨d, root, mask, hd, hb, hrun, hinv, _, _⟩ := new_ok h
  subst hd
  have hperm := new_perm hb h
  intro p hp
  obtain ⟨h1, h2, h3⟩ := hinv.sizes p hp
  refine ⟨h1, h2, ?_⟩
  rcases h3 with h32 | hlt
  · obtain ⟨o, _, rfl⟩ := List.mem_map.mp (hperm.mem_iff.mp hp)
    have hv : (o.descriptor d).m_value < 4294967296 := by
      show o.default_value < 4294967296
      unfold Occurrence.default_value
      cases o.attr.type.default_value with
      | none => norm_num
      | some v => exact toU32_lt v
    have h32' : (o.descriptor d).m_size = 32 := h32
    rw [h32']
    exact hv
  · exact hlt

/-! ## The design loader as a sequence of assignments -/

theorem replay_entries_failed (entries : List (String × String × String)) (e : CfgError)
    (s : ModelConfig_DEVICE) :
    entries.foldl
      (fun r entry =>
        match r with
        | (none, s) =>
          s.set_attr_options
            [("instance", entry.1), ("name", entry.2.1), ("value", entry.2.2)]
        | (some e, s) => (some e, s))
      (some e, s) = (some e, s) := by
  induction entries with
  | nil => rfl
  | cons a rest ih => exact ih

theorem replay_entries_cons (entry : String × String × String)
    (rest : List (String × String × String)) (s : ModelConfig_DEVICE) :
    replay_entries (entry :: rest) s =
      match s.set_attr_options
          [("instance", entry.1), ("name", entry.2.1), ("value", entry.2.2)] with
      | (none, s1) => replay_entries rest s1
      | (some e, s1) => (some e, s1) := by
  unfold replay_entries
  simp only [List.foldl_cons]
  cases hr : s.set_attr_options
      [("instance", entry.1), ("name", entry.2.1), ("value", entry.2.2)] with
  | mk r s1 =>
    cases r with
    | none => rfl
    | some e => exact replay_entries_failed rest e s1

theorem replay_entries_append (a b : List (String × String × String)) :
    ∀ (s s1 : ModelConfig_DEVICE), replay_entries a s = (none, s1) →
      replay_entries (a ++ b) s = replay_entries b s1 := by
  induction a with
  | nil =>
    intro s s1 h
    cases h
    rfl
  | cons x xs ih =>
    intro s s1 h
    rw [replay_entries_cons] at h
    rw [List.cons_append, replay_entries_cons]
    cases hr : s.set_attr_options [("instance", x.1), ("name", x.2.1), ("value", x.2.2)] with
    | mk r s2 =>
      rw [hr] at h
      cases r with
      | none => exact ih s2 s1 h
      | some e => cases h

theorem set_design_items_replay (inst : String) (items : List (String × Json)) :
    ∀ (s s' : ModelConfig_DEVICE), set_design_items inst items s = (none, s') →
      replay_entries (items.map (fun m => (inst, m.1, m.2.to_string))) s = (none, s') := by
  induction items with
  | nil => intro s s' h; cases h; rfl
  | cons item rest ih =>
    intro s s' h
    obtain ⟨key, value⟩ := item
    unfold set_design_items at h
    cases value with
    | string v =>
      simp only at h
      rw [List.map_cons, replay_entries_cons]
      show (match s.set_attr_options [("instance", inst), ("name", key), ("value", v)] with
        | (none, s1) => replay_entries (rest.map (fun m => (inst, m.1, m.2.to_string))) s1
        | (some e, s1) => (some e, s1)) = (none, s')
      cases hr : s.set_attr_options [("instance", inst), ("name", key), ("value", v)] with
      | mk r s1 =>
        rw [hr] at h
        cases r with
        | none => exact ih s1 s' h
        | some e => cases h
    | null => cases h
    | bool b => cases h
    | number n => cases h
    | array a => cases h
    | object o => cases h

theorem set_design_attribute_replay (s s' : ModelConfig_DEVICE) (inst : String)
    (attributes : Json) (h : s.set_design_attribute inst attributes = (none, s')) :
    replay_entries (map_entries inst attributes) s = (none, s') := by
  unfold ModelConfig_DEVICE.set_design_attribute at h
  cases attributes with
  | object members =>
    simp only at h
    by_cases h0 : members.length = 0
    · rw [if_pos h0] at h; cases h
    · rw [if_neg h0] at h
      exact set_design_items_replay inst members s s' h
  | null => cases h
  | bool b => cases h
  | number n => cases h
  | array a => cases h
  | string v => cases h

theorem set_design_maps_replay (inst : String) (maps : List Json) :
    ∀ (s s' : ModelConfig_DEVICE), set_design_maps inst maps s = (none, s') →
      replay_entries (maps.map (map_entries inst)).flatten s = (none, s') := by
  induction maps with
  | nil => intro s s' h; cases h; rfl
  | cons element rest ih =>
    intro s s' h
    unfold set_design_maps at h
    by_cases hobj : ¬ element.is_object = true
    · rw [if_pos hobj] at h; cases h
    · rw [if_neg hobj] at h
      cases hr : s.set_design_attribute inst element with
      | mk r s1 =>
        rw [hr] at h
        cases r with
        | some e => cases h
        | none =>
          simp only at h
          rw [List.map_cons, List.flatten_cons,
            replay_entries_append _ _ s s1 (set_design_attribute_replay s s1 inst element hr)]
          exact ih s1 s' h

theorem get_eq_none_of_contains {j : Json} {key : String} (h : j.contains key = false) :
    j.get key = none := by
  cases j with
  | object members =>
    simp only [Json.contains, List.any_eq_false] at h
    simp only [Json.get, Option.map_eq_none', List.find?_eq_none]
    exact h
  | null => rfl
  | bool b => rfl
  | number n => rfl
  | array a => rfl
  | string v => rfl

theorem set_design_attributes_replay (s s' : ModelConfig_DEVICE) (inst : Json)
    (location attributes : Json) (hl : inst.get "location" = some location)
    (ha : inst.get "config_attributes" = some attributes)
    (h : s.set_design_attributes location attributes = (none, s')) :
    replay_entries (instance_entries inst) s = (none, s') := by
  unfold ModelConfig_DEVICE.set_design_attributes at h
  unfold instance_entries
  rw [hl, ha]
  cases location with
  | string loc =>
    simp only at h
    by_cases h1 : ¬ (attributes.is_array = true ∨ attributes.is_object = true)
    · rw [if_pos h1] at h; cases h
    rw [if_neg h1] at h
    by_cases h2 : attributes.size = 0
    · rw [if_pos h2] at h; cases h
    rw [if_neg h2] at h
    cases attributes with
    | array elements => exact set_design_maps_replay loc elements s s' h
    | object members => exact set_design_attribute_replay s s' loc _ h
    | null => exact set_design_attribute_replay s s' loc _ h
    | bool b => exact set_design_attribute_replay s s' loc _ h
    | number n => exact set_design_attribute_replay s s' loc _ h
    | string v => exact set_design_attribute_replay s s' loc _ h
  | null => cases h
  | bool b => cases h
  | number n => cases h
  | array a => cases h
  | object o => cases h

theorem instance_entries_skip {inst : Json} (h : inst.contains "config_attributes" = false) :
    instance_entries inst = [] := by
  unfold instance_entries
  rw [get_eq_none_of_contains h]
  cases inst.get "location" with
  | none => rfl
  | some location => cases location <;> rfl

theorem set_design_instances_replay (instances : List Json) :
    ∀ (s s' : ModelConfig_DEVICE), set_design_instances instances s = (none, s') →
      replay_entries (instances.map instance_entries).flatten s = (none, s') := by
  induction instances with
  | nil => intro s s' h; cases h; rfl
  | cons inst rest ih =>
    intro s s' h
    unfold set_design_instances at h
    by_cases h1 : ¬ inst.is_object = true
    · rw [if_pos h1] at h; cases h
    rw [if_neg h1] at h
    by_cases h2 : inst.size = 0
    · rw [if_pos h2] at h; cases h
    rw [if_neg h2] at h
    rw [List.map_cons, List.flatten_cons]
    by_cases h3 : inst.contains "config_attributes" = true
    · rw [if_pos h3] at h
      cases hl : inst.get "location" with
      | none => rw [hl] at h; cases h
      | some location =>
        cases ha : inst.get "config_attributes" with
        | none => rw [hl, ha] at h; cases h
        | some attributes =>
          rw [hl, ha] at h
          simp only at h
          cases hr : s.set_design_attributes location attributes with
          | mk r s1 =>
            rw [hr] at h
            cases r with
            | some e => cases h
            | none =>
              simp only at h
              rw [replay_entries_append _ _ s s1
                (set_design_attributes_replay s s1 inst location attributes hl ha hr)]
              exact ih s1 s' h
    · rw [if_neg h3] at h
      rw [instance_entries_skip (by simpa using h3), List.nil_append]
      exact ih s s' h

/-- An element of `instances` that is a non-empty object without the key
`config_attributes` is passed over. -/
theorem set_design_instances_skip (before after : List Json) (members : List (String × Json))
    (hne : members ≠ [])
    (hno : (Json.object members).contains "config_attributes" = false) :
    ∀ s : ModelConfig_DEVICE,
      set_design_instances (before ++ Json.object members :: after) s =
        set_design_instances (before ++ after) s := by
  induction before with
  | nil =>
    intro s
    have hsize : (Json.object members).size ≠ 0 := by
      simp only [Json.size, ne_eq, List.length_eq_zero]
      exact hne
    rw [List.nil_append, List.nil_append, set_design_instances]
    simp only [Json.is_object, not_true_eq_false, if_false, hsize, hno, Bool.false_eq_true]
  | cons inst rest ih =>
    intro s
    rw [List.cons_append, List.cons_append, set_design_instances, set_design_instances]
    by_cases h1 : ¬ inst.is_object = true
    · rw [if_pos h1, if_pos h1]
    rw [if_neg h1, if_neg h1]
    by_cases h2 : inst.size = 0
    · rw [if_pos h2, if_pos h2]
    rw [if_neg h2, if_neg h2]
    by_cases h3 : inst.contains "config_attributes" = true
    · rw [if_pos h3, if_pos h3]
      cases inst.get "location" with
      | none => rfl
      | some location =>
        cases inst.get "config_attributes" with
        | none => rfl
        | some attributes =>
          simp only
          cases s.set_design_attributes location attributes with
          | mk r s1 =>
            cases r with
            | some e => rfl
            | none => exact ih s1
    · rw [if_neg h3, if_neg h3]
      exact ih s

/-! ## Claims about presets, reachable sessions and design documents -/

/-- C11: when `name` is a registered API group that has no setting named
`value`, the preset-aware `set_attr` fails with `NotFoundError` and leaves the
session as it was, also when the two-argument form would accept the
same instance, name and value: there is no fall-back to a direct assignment. -/
theorem preset_setting_missing (s : ModelConfig_DEVICE) (options : List (String × String))
    (inst name value : String) (api : String × ModelConfig_API)
    (hi : options_at options "instance" = some inst)
    (hn : options_at options "name" = some name)
    (hv : options_at options "value" = some value)
    (hapi : s.m_api.find? (fun p => p.1 == name) = some api)
    (hset : api.2.get_setting value = none) :
    s.set_attr_options options = (some .NotFoundError, s) := by
  unfold ModelConfig_DEVICE.set_attr_options
  simp only [hi, hn, hv, hapi, hset]

/-- Witness of C11: the session has the four-bit attribute `mode` of
the instance `I` and the API group `mode`, which has no setting `3`; the
two-argument form accepts the value 3, the preset-aware form fails. -/
theorem preset_setting_missing_witness :
    ModelConfig_DEVICE.new "f" "m" (some shadow_device) =
      .ok { shadow_session with m_api := [] } ∧
    shadow_session.set_attr "I" "mode" "3" =
      (none,
        { shadow_session with
          m_bitfields := [(0, ⟨"I", "", "mode", 0, 4, 3, some (plain_type 4)⟩)] }) ∧
    shadow_session.set_attr_options [("instance", "I"), ("name", "mode"), ("value", "3")] =
      (some .NotFoundError, shadow_session) :=
  ⟨rfl, by decide,
    preset_setting_missing shadow_session
      [("instance", "I"), ("name", "mode"), ("value", "3")] "I" "mode" "3" ("mode", mode_api)
      (by decide) (by decide) (by decide) (by decide) (by decide)⟩

/-- C12: in the session that any sequence of `set_attr`, `set_api` and
`set_design` commands, successful or failed, leaves of a constructed session,
every descriptor has a width from 1 to 32 and a value below `2 ^ width` (hence
a 32-bit value when the width is 32), and the keys, block names, aliases,
attribute names, offsets and widths of the descriptors are those of the
constructed session. -/
theorem values_stay_bounded (feature model : String) (dev : Option device)
    (s₀ : ModelConfig_DEVICE) (cmds : List Command)
    (h : ModelConfig_DEVICE.new feature model dev = .ok s₀) :
    (∀ p ∈ (s₀.run_all cmds).m_bitfields,
      1 ≤ p.2.m_size ∧ p.2.m_size ≤ 32 ∧ p.2.m_value < 2 ^ p.2.m_size ∧
        p.2.m_value < 4294967296) ∧
    (s₀.run_all cmds).m_bitfields.map
        (fun p => (p.1, p.2.m_block_name, p.2.m_user_name, p.2.m_name, p.2.m_addr, p.2.m_size)) =
      s₀.m_bitfields.map
        (fun p => (p.1, p.2.m_block_name, p.2.m_user_name, p.2.m_name, p.2.m_addr, p.2.m_size)) := by
  have hk := run_all_keeps cmds s₀
  constructor
  · intro p hp
    obtain ⟨h1, h2, h3⟩ := hk.fit (new_values_fit h) p hp
    refine ⟨h1, h2, h3, lt_of_lt_of_le h3 ?_⟩
    calc 2 ^ p.2.m_size ≤ 2 ^ 32 := Nat.pow_le_pow_right (by norm_num) h2
      _ = 4294967296 := by norm_num
  · have hl := congrArg (List.map (fun p : Nat × ModelConfig_BITFIELD =>
      (p.1, p.2.m_block_name, p.2.m_user_name, p.2.m_name, p.2.m_addr, p.2.m_size))) hk.layout
    simpa [ModelConfig_DEVICE.layout, List.map_map, Function.comp,
      ModelConfig_BITFIELD.fixed] using hl

/-- Witness of C12: a successful assignment, a failing one, a design document
whose second assignment fails, and an API file that cannot be opened. -/
theorem values_stay_bounded_witness :
    ModelConfig_DEVICE.new "f" "m" (some preset_device) =
      .ok { preset_session 0 0 with m_api := [] } ∧
    (∀ p ∈ (ModelConfig_DEVICE.run_all { preset_session 0 0 with m_api := [] }
        [.set_attr [("instance", "I"), ("name", "y"), ("value", "7")],
         .set_attr [("instance", "I"), ("name", "y"), ("value", "99")],
         .set_design (.parsed sample_design), .set_api .unreadable]).m_bitfields,
      1 ≤ p.2.m_size ∧ p.2.m_size ≤ 32 ∧ p.2.m_value < 2 ^ p.2.m_size ∧
        p.2.m_value < 4294967296) ∧
    (ModelConfig_DEVICE.run_all { preset_session 0 0 with m_api := [] }
        [.set_attr [("instance", "I"), ("name", "y"), ("value", "7")],
         .set_attr [("instance", "I"), ("name", "y"), ("value", "99")],
         .set_design (.parsed sample_design), .set_api .unreadable]).m_bitfields.map
        (fun p => (p.1, p.2.m_block_name, p.2.m_user_name, p.2.m_name, p.2.m_addr, p.2.m_size)) =
      (preset_session 0 0).m_bitfields.map
        (fun p => (p.1, p.2.m_block_name, p.2.m_user_name, p.2.m_name, p.2.m_addr, p.2.m_size)) :=
  ⟨rfl, values_stay_bounded "f" "m" (some preset_device) { preset_session 0 0 with m_api := [] }
    _ rfl⟩

/-- C18, as stated, fails for the empty object: `set_design` asserts that the
document has at least one member and fails with `ValidationError`. -/
theorem empty_design_counterexample :
    (Json.object []).contains "instances" = false ∧
    sample_session.set_design (.parsed (.object [])) =
      (some .ValidationError, sample_session) :=
  ⟨rfl, by decide⟩

/-- C18, amended: for a design document that is a JSON object with at least one
member and either without the key `instances` or with an empty array under it,
`set_design` succeeds and leaves the session as it was; for the empty object it
fails with `ValidationError` and leaves the session as it was. -/
theorem design_without_instances (s : ModelConfig_DEVICE) (members : List (String × Json))
    (hne : members ≠ [])
    (h : (Json.object members).contains "instances" = false ∨
      (Json.object members).get "instances" = some (.array [])) :
    s.set_design (.parsed (.object members)) = (none, s) ∧
      s.set_design (.parsed (.object [])) = (some .ValidationError, s) := by
  have hsize : (Json.object members).size ≠ 0 := by
    simp only [Json.size, ne_eq, List.length_eq_zero]
    exact hne
  refine ⟨?_, rfl⟩
  unfold ModelConfig_DEVICE.set_design
  simp only [Json.is_object, not_true_eq_false, if_false, hsize]
  by_cases hc : (Json.object members).contains "instances" = true
  · rcases h with h | h
    · rw [h] at hc; cases hc
    · rw [if_pos hc, h]
      rfl
  · rw [if_neg hc]

/-- Witness of C18: a document whose only member is not `instances`. -/
theorem design_without_instances_witness :
    sample_session.set_design (.parsed (.object [("version", .string "1")])) =
        (none, sample_session) ∧
      sample_session.set_design (.parsed (.object [])) =
        (some .ValidationError, sample_session) :=
  design_without_instances sample_session [("version", .string "1")] (by simp)
    (Or.inl (by decide))

/-- C19, as stated, fails for an element without any key: `set_design` asserts
that every element of `instances` has at least one member and fails with
`ValidationError`, whereas the document without the element succeeds. -/
theorem empty_instance_counterexample :
    (Json.object []).contains "config_attributes" = false ∧
    sample_session.set_design (.parsed (.object [("instances", .array [.object []])])) =
      (some .ValidationError, sample_session) ∧
    sample_session.set_design (.parsed (.object [("instances", .array [])])) =
      (none, sample_session) :=
  ⟨rfl, by decide, by decide⟩

/-- C19, amended: an element of `instances` that is an object with at least one
member and without the key `config_attributes`, with or without `location`, is
passed over: the result of `set_design` is that of a document whose
`instances` array is the same without the element. -/
theorem design_instance_skipped (s : ModelConfig_DEVICE) (doc doc' : List (String × Json))
    (before after : List Json) (members : List (String × Json))
    (hdoc : (Json.object doc).get "instances" =
      some (.array (before ++ Json.object members :: after)))
    (hdoc' : (Json.object doc').get "instances" = some (.array (before ++ after)))
    (hne : members ≠ [])
    (hno : (Json.object members).contains "config_attributes" = false) :
    s.set_design (.parsed (.object doc)) = s.set_design (.parsed (.object doc')) := by
  have hcontains : ∀ (l : List (String × Json)) (j : Json),
      (Json.object l).get "instances" = some j →
        (Json.object l).contains "instances" = true ∧ (Json.object l).size ≠ 0 := by
    intro l j hj
    cases hc : (Json.object l).contains "instances" with
    | false => rw [get_eq_none_of_contains hc] at hj; cases hj
    | true =>
      refine ⟨rfl, ?_⟩
      cases l with
      | nil => cases hc
      | cons x xs => simp [Json.size]
  obtain ⟨hc, hs⟩ := hcontains doc _ hdoc
  obtain ⟨hc', hs'⟩ := hcontains doc' _ hdoc'
  have hskip := set_design_instances_skip before after members hne hno s
  unfold ModelConfig_DEVICE.set_design
  simp only [Json.is_object, not_true_eq_false, if_false, hs, hs', hc, hc', if_true, hdoc, hdoc']
  have hlen : (before ++ Json.object members :: after).length ≠ 0 := by simp
  rw [if_pos hlen, hskip]
  by_cases hrest : (before ++ after).length ≠ 0
  · rw [if_pos hrest]
  · rw [if_neg hrest]
    have : before ++ after = [] := List.length_eq_zero.mp (not_not.mp hrest)
    rw [this]
    rfl

/-- Witness of C19: an element that has only a `location`, before an element
that selects the preset `fast`. -/
theorem design_instance_skipped_witness :
    (preset_session 0 0).set_design (.parsed (.object [("instances", .array
        [.object [("location", .string "J")],
          .object [("config_attributes", .object [("mode", .string "fast")]),
            ("location", .string "I")]])])) =
      (preset_session 0 0).set_design (.parsed (.object [("instances", .array
        [.object [("config_attributes", .object [("mode", .string "fast")]),
            ("location", .string "I")]])])) ∧
    (preset_session 0 0).set_design (.parsed (.object [("instances", .array
        [.object [("config_attributes", .object [("mode", .string "fast")]),
            ("location", .string "I")]])])) = (none, preset_session 1 2) :=
  ⟨design_instance_skipped (preset_session 0 0) _ _ []
      [.object [("config_attributes", .object [("mode", .string "fast")]),
        ("location", .string "I")]]
      [("location", .string "J")] rfl rfl (by simp) (by decide),
    by decide⟩

/-- C20: when `set_design` accepts a document, the session it leaves is the one
that the preset-aware `set_attr` with the instance `location`, the name of the
attribute and the value leaves when it is applied once for every entry of every
`config_attributes`, one after the other: the instances in the order of the
array, the maps of an array in the order of the array, and the entries of a map
in the order in which the object is iterated.  Every one of these calls
succeeds, and a name that is a registered API group is expanded as a preset. -/
theorem design_replay (s s' : ModelConfig_DEVICE) (doc : Json)
    (h : s.set_design (.parsed doc) = (none, s')) :
    replay_entries (design_entries doc) s = (none, s') := by
  unfold ModelConfig_DEVICE.set_design at h
  simp only at h
  by_cases h1 : ¬ doc.is_object = true
  · rw [if_pos h1] at h; cases h
  rw [if_neg h1] at h
  by_cases h2 : doc.size = 0
  · rw [if_pos h2] at h; cases h
  rw [if_neg h2] at h
  unfold design_entries
  by_cases h3 : doc.contains "instances" = true
  · rw [if_pos h3] at h
    cases hg : doc.get "instances" with
    | none => rw [hg] at h; cases h
    | some j =>
      rw [hg] at h
      cases j with
      | array instances =>
        simp only at h ⊢
        by_cases h4 : instances.length ≠ 0
        · rw [if_pos h4] at h
          exact set_design_instances_replay instances s s' h
        · rw [if_neg h4] at h
          have : instances = [] := List.length_eq_zero.mp (not_not.mp h4)
          subst this
          exact h
      | null => cases h
      | bool b => cases h
      | number n => cases h
      | string v => cases h
      | object o => cases h
  · rw [if_neg h3] at h
    rw [get_eq_none_of_contains (by simpa using h3)]
    exact h

/-- Witness of C20: the entries of `replay_design` in order, the last of which
is expanded as the preset `fast`. -/
theorem design_replay_witness :
    (preset_session 0 0).set_design (.parsed replay_design) = (none, preset_session 1 2) ∧
    design_entries replay_design =
      [("I", "x", "3"), ("I", "x", "4"), ("I", "y", "5"), ("I", "mode", "fast")] ∧
    replay_entries (design_entries replay_design) (preset_session 0 0) =
      (none, preset_session 1 2) :=
  ⟨by decide, by decide,
    design_replay (preset_session 0 0) (preset_session 1 2) replay_design (by decide)⟩

/-! ## Descriptors that follow one another -/

theorem chained_le : ∀ (l : List (Nat × ModelConfig_BITFIELD)) (a t : Nat),
    chained a t l → a ≤ t := by
  intro l
  induction l with
  | nil => intro a t h; exact Nat.le_of_eq h
  | cons p rest ih =>
    intro a t h
    have := ih _ _ h.2.2.2
    omega

theorem chained_mem : ∀ (l : List (Nat × ModelConfig_BITFIELD)) (a t : Nat),
    chained a t l → ∀ p ∈ l, a ≤ p.1 ∧ p.2.m_addr = p.1 ∧ 1 ≤ p.2.m_size ∧
      p.1 + p.2.m_size ≤ t := by
  intro l
  induction l with
  | nil => intro a t _ p hp; cases hp
  | cons x rest ih =>
    intro a t h p hp
    obtain ⟨h1, h2, h3, h4⟩ := h
    rcases List.mem_cons.mp hp with rfl | hr
    · have := chained_le _ _ _ h4
      omega
    · have := ih _ _ h4 p hr
      omega

theorem chained_ordered : ∀ (l : List (Nat × ModelConfig_BITFIELD)) (a t : Nat),
    chained a t l → l.Pairwise (fun p q => p.2.m_addr + p.2.m_size ≤ q.2.m_addr) := by
  intro l
  induction l with
  | nil => intro a t _; exact List.Pairwise.nil
  | cons x rest ih =>
    intro a t h
    obtain ⟨h1, h2, h3, h4⟩ := h
    rw [List.pairwise_cons]
    refine ⟨?_, ih _ _ h4⟩
    intro q hq
    have := chained_mem _ _ _ h4 q hq
    omega

theorem chained_of_layout : ∀ (l l' : List (Nat × ModelConfig_BITFIELD)) (a t : Nat),
    l'.map (fun p => (p.1, p.2.fixed)) = l.map (fun p => (p.1, p.2.fixed)) →
      chained a t l → chained a t l' := by
  intro l
  induction l with
  | nil =>
    intro l' a t h hc
    cases l' with
    | nil => exact hc
    | cons y ys => cases h
  | cons x rest ih =>
    intro l' a t h hc
    cases l' with
    | nil => cases h
    | cons y ys =>
      simp only [List.map_cons, List.cons.injEq, Prod.mk.injEq] at h
      obtain ⟨⟨hk, hf⟩, hrest⟩ := h
      have haddr : y.2.m_addr = x.2.m_addr := by
        have h := congrArg ModelConfig_BITFIELD.m_addr hf
        exact h
      have hsize : y.2.m_size = x.2.m_size := by
        have h := congrArg ModelConfig_BITFIELD.m_size hf
        exact h
      obtain ⟨h1, h2, h3, h4⟩ := hc
      refine ⟨hk.trans h1, haddr.trans h2, hsize ▸ h3, ?_⟩
      rw [hsize]
      exact ih ys _ _ hrest h4

/-- Descriptors in the order of their offsets that share no bit and cover
`[a, t)` follow one another from `a` to `t`. -/
theorem chained_of_cover (l : List (Nat × ModelConfig_BITFIELD)) :
    ∀ (a t : Nat), a ≤ t → l.Pairwise (fun p q => p.2.m_addr + p.2.m_size ≤ q.2.m_addr) →
      (∀ p ∈ l, p.1 = p.2.m_addr ∧ 0 < p.2.m_size) →
      (∀ k, (a ≤ k ∧ k < t) ↔ ∃ p ∈ l, p.2.covers k) → chained a t l := by
  induction l with
  | nil =>
    intro a t hat _ _ hcov
    have : ¬ (a ≤ a ∧ a < t) := fun h => by simpa using (hcov a).mp h
    show a = t
    omega
  | cons x xs ih =>
    intro a t hat hord hsz hcov
    rw [List.pairwise_cons] at hord
    obtain ⟨hxk, hx⟩ := hsz x (List.mem_cons_self _ _)
    have hxc : ∀ k, x.2.covers k → a ≤ k ∧ k < t :=
      fun k hk => (hcov k).mpr ⟨x, List.mem_cons_self _ _, hk⟩
    have h1 := hxc x.2.m_addr ⟨le_refl _, by omega⟩
    have h2 := hxc (x.2.m_addr + x.2.m_size - 1) ⟨by omega, by omega⟩
    have ha : x.2.m_addr = a := by
      obtain ⟨p, hp, hpc⟩ := (hcov a).mp ⟨le_refl _, by omega⟩
      unfold ModelConfig_BITFIELD.covers at hpc
      rcases List.mem_cons.mp hp with h | h
      · subst h; omega
      · have := hord.1 p h; omega
    refine ⟨hxk.trans ha, ha, hx, ?_⟩
    rw [← ha]
    apply ih (x.2.m_addr + x.2.m_size) t (by omega) hord.2
      (fun p hp => hsz p (List.mem_cons_of_mem _ hp))
    intro k
    constructor
    · intro hk
      obtain ⟨p, hp, hpc⟩ := (hcov k).mp ⟨by omega, hk.2⟩
      rcases List.mem_cons.mp hp with h | h
      · subst h; unfold ModelConfig_BITFIELD.covers at hpc; omega
      · exact ⟨p, h, hpc⟩
    · rintro ⟨p, hp, hpc⟩
      have h3 := hord.1 p hp
      have h4 := (hcov k).mpr ⟨p, List.mem_cons_of_mem _ hp, hpc⟩
      unfold ModelConfig_BITFIELD.covers at hpc
      omega

/-- A constructed session can be serialized. -/
theorem new_serializable {feature model : String} {dev : Option device}
    {s : ModelConfig_DEVICE} (h : ModelConfig_DEVICE.new feature model dev = .ok s) :
    s.serializable := by
  obtain ⟨d, root, mask, _, _, _, hinv, h0, _⟩ := new_ok h
  refine ⟨Nat.pos_of_ne_zero h0, hinv.total_le, ?_, new_values_fit h⟩
  exact chained_of_cover s.m_bitfields 0 s.m_total_bits (Nat.zero_le _) hinv.ordered
    (fun p hp => ⟨hinv.keys p hp, (hinv.sizes p hp).1⟩)
    (fun k => by simpa using new_covering h k)

theorem serializable_of_keeps {s s' : ModelConfig_DEVICE} (hk : Keeps s s')
    (h : s.serializable) : s'.serializable := by
  refine ⟨hk.total ▸ h.total_pos, hk.total ▸ h.total_le, ?_, hk.fit h.fit⟩
  rw [hk.total]
  exact chained_of_layout s.m_bitfields s'.m_bitfields 0 s.m_total_bits hk.layout h.chain

/-- Every session that commands leave of a constructed session can be
serialized. -/
theorem run_all_serializable {feature model : String} {dev : Option device}
    {s₀ : ModelConfig_DEVICE} (h : ModelConfig_DEVICE.new feature model dev = .ok s₀)
    (cmds : List Command) : (s₀.run_all cmds).serializable :=
  serializable_of_keeps (run_all_keeps cmds s₀) (new_serializable h)

theorem map_find_append {pre : List (Nat × ModelConfig_BITFIELD)}
    {p : Nat × ModelConfig_BITFIELD} (rest : List (Nat × ModelConfig_BITFIELD))
    (hpre : ∀ q ∈ pre, q.1 < p.1) : map_find p.1 (pre ++ p :: rest) = some p.2 := by
  induction pre with
  | nil => simp [map_find]
  | cons x xs ih =>
    have hx : x.1 < p.1 := hpre x (List.mem_cons_self _ _)
    have hne : (x.1 == p.1) = false := by simp; omega
    have := ih (fun q hq => hpre q (List.mem_cons_of_mem _ hq))
    unfold map_find at this ⊢
    rw [List.cons_append, List.find?_cons, hne]
    exact this

/-! ## The loops of the serializer -/

/-- The loop over the bits of one descriptor, for a range within the buffer:
it ends at the end of the range and has set the bits of the range that are set
in the value. -/
theorem put_bits_spec (value : Nat) (n : Nat) : ∀ (i addr : Nat) (data : List Nat),
    addr + n ≤ 8 * data.length → addr + n ≤ 4294967288 →
    ∃ data', put_bits value n i addr data = (none, addr + n, data') ∧
      data'.length = data.length ∧ (mask_bytes data → mask_bytes data') ∧
      ∀ k, mask_bit data' k =
        (mask_bit data k || (decide (addr ≤ k ∧ k < addr + n) && value.testBit (i + (k - addr)))) := by
  induction n with
  | zero =>
    intro i addr data _ _
    exact ⟨data, rfl, rfl, id, fun k => by
      have : ¬ (addr ≤ k ∧ k < addr + 0) := by omega
      simp [this]⟩
  | succ n ih =>
    intro i addr data hin hend
    have hwrap : (addr + 1) % 4294967296 = addr + 1 := Nat.mod_eq_of_lt (by omega)
    have hj : addr / 8 < data.length := by omega
    obtain ⟨b, hb⟩ : ∃ b, data[addr / 8]? = some b :=
      ⟨data[addr / 8], List.getElem?_eq_getElem hj⟩
    unfold put_bits
    by_cases hbit : value.testBit i = true
    · have hnz : value &&& (1 <<< i) ≠ 0 := (and_bit_ne_zero value i).mpr hbit
      rw [if_pos hnz]
      simp only [shift_three, and_seven, hb, hwrap]
      obtain ⟨data', hrun, hl, hby, hbits⟩ := ih (i + 1) (addr + 1)
        (data.set (addr / 8) (b ||| (1 <<< (addr % 8))))
        (by rw [List.length_set]; omega) (by omega)
      refine ⟨data', ?_, ?_, ?_, ?_⟩
      · rw [hrun]; congr 2; omega
      · rw [hl, List.length_set]
      · intro hm
        exact hby (mask_bytes_set hm (addr / 8) b (addr % 8) hb (Nat.mod_lt _ (by norm_num)))
      · intro k
        rw [hbits k, mask_bit_set data addr b k hb, Bool.or_assoc]
        congr 1
        by_cases hk : k = addr
        · subst hk
          have h1 : ¬ (k + 1 ≤ k ∧ k < k + 1 + n) := by omega
          have h2 : k ≤ k ∧ k < k + (n + 1) := by omega
          simp [h1, h2, hbit]
        · by_cases hr : addr + 1 ≤ k ∧ k < addr + 1 + n
          · have h2 : addr ≤ k ∧ k < addr + (n + 1) := by omega
            have h3 : i + 1 + (k - (addr + 1)) = i + (k - addr) := by omega
            simp [hk, hr, h2, h3]
          · have h2 : ¬ (addr ≤ k ∧ k < addr + (n + 1)) := by omega
            simp [hk, hr, h2]
    · have hnz : ¬ (value &&& (1 <<< i) ≠ 0) := by
        rw [and_bit_ne_zero]; exact hbit
      rw [if_neg hnz, hwrap]
      obtain ⟨data', hrun, hl, hby, hbits⟩ := ih (i + 1) (addr + 1) data (by omega) (by omega)
      refine ⟨data', ?_, hl, hby, ?_⟩
      · rw [hrun]; congr 2; omega
      · intro k
        rw [hbits k]
        congr 1
        have hbf : value.testBit i = false := by simpa using hbit
        by_cases hk : k = addr
        · subst hk
          have h1 : ¬ (k + 1 ≤ k ∧ k < k + 1 + n) := by omega
          have h2 : k ≤ k ∧ k < k + (n + 1) := by omega
          simp [h1, h2, hbf]
        · by_cases hr : addr + 1 ≤ k ∧ k < addr + 1 + n
          · have h2 : addr ≤ k ∧ k < addr + (n + 1) := by omega
            have h3 : i + 1 + (k - (addr + 1)) = i + (k - addr) := by omega
            simp [hr, h2, h3]
          · have h2 : ¬ (addr ≤ k ∧ k < addr + (n + 1)) := by omega
            simp [hr, h2]

theorem file_put_put (file : Option String) (a b : String) :
    file_put (file_put file a) b = file_put file (a ++ b) := by
  cases file with
  | none => rfl
  | some content => simp [file_put, String.append_assoc]

theorem file_put_empty (file : Option String) : file_put file "" = file := by
  cases file with
  | none => rfl
  | some content => simp [file_put]

theorem image_bit_cons (p : Nat × ModelConfig_BITFIELD) (rest : List (Nat × ModelConfig_BITFIELD))
    (k : Nat) :
    image_bit (p :: rest) k =
      ((decide (p.2.m_addr ≤ k ∧ k < p.2.m_addr + p.2.m_size) &&
        p.2.m_value.testBit (k - p.2.m_addr)) || image_bit rest k) := by
  simp [image_bit]

/-- The loop over the descriptors with a data buffer that holds every bit
below the total: it ends at the total and has packed the values of the
descriptors that were left to visit. -/
theorem write_loop_data (s : ModelConfig_DEVICE) (format : String)
    (htotal : s.m_total_bits ≤ 4294967288) :
    ∀ (suf pre : List (Nat × ModelConfig_BITFIELD)) (fuel : Nat) (st : WriteState),
      s.m_bitfields = pre ++ suf → (∀ q ∈ pre, q.1 < st.addr) →
      chained st.addr s.m_total_bits suf → suf.length ≤ fuel →
      st.data.length ≠ 0 → s.m_total_bits ≤ 8 * st.data.length →
      ∃ data', write_loop s format fuel st =
          some (none, { st with addr := s.m_total_bits, data := data' }) ∧
        data'.length = st.data.length ∧ (mask_bytes st.data → mask_bytes data') ∧
        ∀ k, mask_bit data' k = (mask_bit st.data k || image_bit suf k) := by
  intro suf
  induction suf with
  | nil =>
    intro pre fuel st _ _ hc _ _ _
    have haddr : st.addr = s.m_total_bits := hc
    have hnot : ¬ st.addr < s.m_total_bits := by omega
    refine ⟨st.data, ?_, rfl, id, fun k => by simp [image_bit]⟩
    have hst : ({ st with addr := s.m_total_bits, data := st.data } : WriteState) = st := by
      rw [← haddr]
    rw [hst]
    cases fuel with
    | zero => simp only [write_loop, if_neg hnot]
    | succ f => simp only [write_loop, if_neg hnot]
  | cons p rest ih =>
    intro pre fuel st hsplit hpre hc hfuel hdata hlen
    obtain ⟨hk, haddr, hsize, hrest⟩ := hc
    have hle := chained_le _ _ _ hrest
    have hlt : st.addr < s.m_total_bits := by omega
    obtain ⟨f, rfl⟩ : ∃ f, fuel = f + 1 := ⟨fuel - 1, by simp only [List.length_cons] at hfuel; omega⟩
    have hfind : map_find st.addr s.m_bitfields = some p.2 := by
      rw [hsplit, ← hk]
      exact map_find_append rest (fun q hq => by rw [hk]; exact hpre q hq)
    obtain ⟨data1, hput, hl1, hby1, hbits1⟩ := put_bits_spec p.2.m_value p.2.m_size 0 st.addr
      st.data (by omega) (by omega)
    obtain ⟨data', hrun, hl', hby', hbits'⟩ := ih (pre ++ [p]) f
      { st with addr := st.addr + p.2.m_size, data := data1 }
      (by rw [hsplit, List.append_assoc]; rfl)
      (by
        intro q hq
        show q.1 < st.addr + p.2.m_size
        rcases List.mem_append.mp hq with h | h
        · have := hpre q h; omega
        · rw [List.mem_singleton.mp h]; omega)
      hrest (by simp only [List.length_cons] at hfuel; omega)
      (by show data1.length ≠ 0; rw [hl1]; exact hdata)
      (by show s.m_total_bits ≤ 8 * data1.length; rw [hl1]; exact hlen)
    refine ⟨data', ?_, hl'.trans hl1, fun hm => hby' (hby1 hm), ?_⟩
    · rw [write_loop, if_pos hlt, hfind]
      simp only [haddr, ne_eq, not_true_eq_false, if_false, hdata, not_false_eq_true, if_true,
        hput]
      exact hrun
    · intro k
      rw [hbits' k, image_bit_cons]
      show (mask_bit data1 k || image_bit rest k) = _
      rw [hbits1 k, Bool.or_assoc, haddr]
      simp

/-- The loop over the descriptors without a data buffer: it ends at the total
and has written text to the stream, for every format but DETAIL the lines of
the TCL format of the descriptors that were left to visit. -/
theorem write_loop_text (s : ModelConfig_DEVICE) (format : String)
    (htotal : s.m_total_bits ≤ 4294967288) :
    ∀ (suf pre : List (Nat × ModelConfig_BITFIELD)) (fuel : Nat) (st : WriteState),
      s.m_bitfields = pre ++ suf → (∀ q ∈ pre, q.1 < st.addr) →
      chained st.addr s.m_total_bits suf → suf.length ≤ fuel → st.data.length = 0 →
      ∃ body block_name, write_loop s format fuel st =
          some (none,
            { st with
              addr := s.m_total_bits
              file := file_put st.file body
              block_name := block_name }) ∧
        (format ≠ "DETAIL" → body = concat_text (suf.map (fun p => tcl_line p.2))) := by
  intro suf
  induction suf with
  | nil =>
    intro pre fuel st _ _ hc _ _
    have haddr : st.addr = s.m_total_bits := hc
    have hnot : ¬ st.addr < s.m_total_bits := by omega
    refine ⟨"", st.block_name, ?_, fun _ => rfl⟩
    have hst : ({ st with
        addr := s.m_total_bits
        file := file_put st.file ""
        block_name := st.block_name } : WriteState) = st := by
      rw [← haddr, file_put_empty]
    rw [hst]
    cases fuel with
    | zero => simp only [write_loop, if_neg hnot]
    | succ f => simp only [write_loop, if_neg hnot]
  | cons p rest ih =>
    intro pre fuel st hsplit hpre hc hfuel hdata
    obtain ⟨hk, haddr, hsize, hrest⟩ := hc
    have hle := chained_le _ _ _ hrest
    have hlt : st.addr < s.m_total_bits := by omega
    obtain ⟨f, rfl⟩ : ∃ f, fuel = f + 1 := ⟨fuel - 1, by simp only [List.length_cons] at hfuel; omega⟩
    have hfind : map_find st.addr s.m_bitfields = some p.2 := by
      rw [hsplit, ← hk]
      exact map_find_append rest (fun q hq => by rw [hk]; exact hpre q hq)
    have hwrap : (st.addr + p.2.m_size) % 4294967296 = st.addr + p.2.m_size :=
      Nat.mod_eq_of_lt (by omega)
    have hpre' : ∀ q ∈ pre ++ [p], q.1 < st.addr + p.2.m_size := by
      intro q hq
      rcases List.mem_append.mp hq with h | h
      · have := hpre q h; omega
      · rw [List.mem_singleton.mp h]; omega
    have hsplit' : s.m_bitfields = (pre ++ [p]) ++ rest := by
      rw [hsplit, List.append_assoc]; rfl
    have hfuel' : rest.length ≤ f := by simp only [List.length_cons] at hfuel; omega
    by_cases hd : format = "DETAIL"
    · obtain ⟨body, bn, hrun, _⟩ := ih (pre ++ [p]) f
        { st with
          file := file_put st.file (detail_text s st.block_name p.2)
          block_name := p.2.m_block_name
          addr := st.addr + p.2.m_size }
        hsplit' hpre' hrest hfuel' hdata
      refine ⟨detail_text s st.block_name p.2 ++ body, bn, ?_, fun h => absurd hd h⟩
      rw [write_loop, if_pos hlt, hfind]
      simp only [haddr, ne_eq, not_true_eq_false, if_false, hdata, if_pos hd, hwrap]
      rw [hrun, file_put_put]
    · obtain ⟨body, bn, hrun, hbody⟩ := ih (pre ++ [p]) f
        { st with
          file := file_put st.file (tcl_line p.2)
          block_name := tcl_instance p.2
          addr := st.addr + p.2.m_size }
        hsplit' hpre' hrest hfuel' hdata
      refine ⟨tcl_line p.2 ++ body, bn, ?_, fun _ => ?_⟩
      · rw [write_loop, if_pos hlt, hfind]
        simp only [haddr, ne_eq, not_true_eq_false, if_false, hdata, if_neg hd, hwrap]
        rw [hrun, file_put_put]
      · rw [hbody hd]
        rfl

/-- The loop of the BIT format over bits within the buffer writes text and
does not fail. -/
theorem write_bit_lines_ok (data : List Nat) (n : Nat) :
    ∀ (i : Nat) (file : Option String), i + n ≤ 8 * data.length →
      ∃ body, write_bit_lines data n i file = (none, file_put file body) := by
  induction n with
  | zero => intro i file _; exact ⟨"", by rw [file_put_empty]; rfl⟩
  | succ n ih =>
    intro i file hin
    have hj : i / 8 < data.length := by omega
    obtain ⟨b, hb⟩ : ∃ b, data[i / 8]? = some b :=
      ⟨data[i / 8], List.getElem?_eq_getElem hj⟩
    obtain ⟨body, hrun⟩ := ih (i + 1)
      (file_put file (if b &&& (1 <<< (i % 8)) ≠ 0 then "1\n" else "0\n")) (by omega)
    refine ⟨(if b &&& (1 <<< (i % 8)) ≠ 0 then "1\n" else "0\n") ++ body, ?_⟩
    rw [write_bit_lines]
    simp only [shift_three, and_seven, hb]
    rw [hrun, file_put_put]

/-- The loop of the WORD format writes, for every word, its digits and its
suffix. -/
theorem write_word_lines_eq (total_bits word_count : Nat) (data : List Nat) (n : Nat) :
    ∀ (i : Nat) (file : Option String),
      write_word_lines total_bits word_count data n i file =
        file_put file (concat_text ((List.range n).map (fun j =>
          print_08X (word_at data (i + j)) ++ word_suffix total_bits word_count (i + j)))) := by
  induction n with
  | zero => intro i file; rw [write_word_lines]; simp [concat_text, file_put_empty]
  | succ n ih =>
    intro i file
    rw [write_word_lines, ih (i + 1), file_put_put, file_put_put, List.range_succ_eq_map,
      List.map_cons, concat_text, List.map_map, String.append_assoc]
    congr 4
    apply List.map_congr_left
    intro j _
    simp only [Function.comp, Nat.add_zero, Nat.succ_eq_add_one]
    have : i + (j + 1) = i + 1 + j := by omega
    rw [this]

/-! ## The packed image -/

theorem mask_bit_replicate (n k : Nat) : mask_bit (List.replicate n 0) k = false := by
  unfold mask_bit
  rw [List.getElem?_replicate]
  split_ifs <;> simp

theorem mask_bytes_replicate (n : Nat) : mask_bytes (List.replicate n 0) := by
  intro b hb
  rw [List.eq_of_mem_replicate hb]
  norm_num

theorem mask_bit_take (data : List Nat) (m k : Nat) :
    mask_bit (data.take m) k = (decide (k < 8 * m) && mask_bit data k) := by
  unfold mask_bit
  by_cases hk : k / 8 < m
  · have : k < 8 * m := by omega
    rw [List.getElem?_take_of_lt hk]
    simp [this]
  · have : ¬ k < 8 * m := by omega
    have hnone : (data.take m)[k / 8]? = none :=
      List.getElem?_eq_none (by rw [List.length_take]; omega)
    rw [hnone]
    simp [this]

theorem image_bit_outside {l : List (Nat × ModelConfig_BITFIELD)} {k : Nat}
    (h : ∀ p ∈ l, ¬ (p.2.m_addr ≤ k ∧ k < p.2.m_addr + p.2.m_size)) : image_bit l k = false := by
  unfold image_bit
  rw [List.any_eq_false]
  intro p hp
  simp [h p hp]

/-- Within the range of a descriptor the packed image holds the bits of its
value. -/
theorem image_bit_inside : ∀ (l : List (Nat × ModelConfig_BITFIELD)),
    l.Pairwise (fun p q => p.2.m_addr + p.2.m_size ≤ q.2.m_addr) →
    ∀ p ∈ l, ∀ k, p.2.m_addr ≤ k → k < p.2.m_addr + p.2.m_size →
      image_bit l k = p.2.m_value.testBit (k - p.2.m_addr) := by
  intro l
  induction l with
  | nil => intro _ p hp; cases hp
  | cons x xs ih =>
    intro hord p hp k hk1 hk2
    rw [List.pairwise_cons] at hord
    rw [image_bit_cons]
    rcases List.mem_cons.mp hp with rfl | hmem
    · have hout : image_bit xs k = false := by
        apply image_bit_outside
        intro q hq
        have := hord.1 q hq
        omega
      simp [hout, hk1, hk2]
    · have hx := hord.1 p hmem
      have : ¬ (x.2.m_addr ≤ k ∧ k < x.2.m_addr + x.2.m_size) := by omega
      simp only [this, decide_False, Bool.false_and, Bool.false_or]
      exact ih hord.2 p hmem k hk1 hk2

theorem image_bit_beyond {l : List (Nat × ModelConfig_BITFIELD)} {a t k : Nat}
    (hc : chained a t l) (hk : t ≤ k) : image_bit l k = false := by
  apply image_bit_outside
  intro p hp
  have := chained_mem l a t hc p hp
  omega

/-- The data buffer after the loop over the descriptors, for the formats BIT,
WORD and BIN of a session whose total is at most `2 ^ 32 - 32`: a buffer of
whole words that holds the packed image. -/
theorem write_loop_image (s : ModelConfig_DEVICE) (format : String) (fuel : Nat)
    (file : Option String) (hs : s.serializable) (hbound : s.m_total_bits ≤ 4294967264)
    (hfuel : s.m_bitfields.length ≤ fuel) :
    ∃ data, write_loop s format fuel
        ⟨0, List.replicate ((s.m_total_bits + 31) % 4294967296 / 32 * 4 % 4294967296) 0, file, ""⟩ =
          some (none, ⟨s.m_total_bits, data, file, ""⟩) ∧
      data.length = (s.m_total_bits + 31) / 32 * 4 ∧ mask_bytes data ∧
      ∀ k, mask_bit data k = image_bit s.m_bitfields k := by
  have hpos := hs.total_pos
  have hn : (s.m_total_bits + 31) % 4294967296 / 32 * 4 % 4294967296 =
      (s.m_total_bits + 31) / 32 * 4 := by omega
  rw [hn]
  obtain ⟨data, hrun, hl, hby, hbits⟩ := write_loop_data s format hs.total_le s.m_bitfields []
    fuel ⟨0, List.replicate ((s.m_total_bits + 31) / 32 * 4) 0, file, ""⟩ rfl
    (fun q hq => by cases hq) hs.chain hfuel
    (by simp only [List.length_replicate]; omega)
    (by simp only [List.length_replicate]; omega)
  refine ⟨data, hrun, ?_, hby (mask_bytes_replicate _), ?_⟩
  · rw [hl, List.length_replicate]
  · intro k
    rw [hbits k]
    simp [mask_bit_replicate]

/-- The BIN format of a session whose total is at most `2 ^ 32 - 32`: the
bytes of the packed image up to the last byte that holds a bit below the
total. -/
theorem write_bin (s : ModelConfig_DEVICE) (fuel : Nat) (options : List (String × String))
    (can_open : Bool) (hs : s.serializable) (hbound : s.m_total_bits ≤ 4294967264)
    (hformat : options_at options "format" = some "BIN")
    (hfuel : s.m_bitfields.length ≤ fuel) :
    ∃ bytes, s.write fuel options can_open = some (none, ⟨none, some bytes⟩) ∧
      bytes.length = (s.m_total_bits + 7) / 8 ∧
      ∀ k, mask_bit bytes k = image_bit s.m_bitfields k := by
  obtain ⟨data, hrun, hl, _, hbits⟩ := write_loop_image s "BIN" fuel none hs hbound hfuel
  have hpos := hs.total_pos
  have h0 : s.m_total_bits ≠ 0 := by omega
  have hdl : data.length ≠ 0 := by omega
  have h7 : (s.m_total_bits + 7) % 4294967296 / 8 = (s.m_total_bits + 7) / 8 := by omega
  refine ⟨data.take ((s.m_total_bits + 7) / 8), ?_, ?_, ?_⟩
  · unfold ModelConfig_DEVICE.write
    rw [if_neg h0, hformat]
    simp only [String.reduceEq, or_true, or_false, false_or, not_true_eq_false, if_false,
      ne_eq, not_false_eq_true, false_and, if_true, hrun, hdl, h7]
  · rw [List.length_take]
    omega
  · intro k
    rw [mask_bit_take, hbits k]
    by_cases hk : k < 8 * ((s.m_total_bits + 7) / 8)
    · simp [hk]
    · have : image_bit s.m_bitfields k = false := image_bit_beyond hs.chain (by omega)
      simp [hk, this]

/-! ## Reading the packed image back -/

/-- Bits read back that are the bits of a value give the value modulo
`2 ^ width`. -/
theorem read_bits_eq (bytes : List Nat) (offset v : Nat) (width : Nat)
    (h : ∀ i, i < width → mask_bit bytes (offset + i) = v.testBit i) :
    read_bits bytes offset width = v % 2 ^ width := by
  induction width with
  | zero => simp [read_bits, Nat.mod_one]
  | succ w ih =>
    rw [read_bits, ih (fun i hi => h i (by omega)), h w (by omega), Nat.mod_pow_succ,
      Nat.testBit_to_div_mod]
    congr 1
    have h2 : v / 2 ^ w % 2 = 0 ∨ v / 2 ^ w % 2 = 1 := by omega
    rcases h2 with h0 | h1
    · simp [h0]
    · simp [h1]

theorem testBit_word {b0 b1 b2 b3 : Nat} (h0 : b0 < 256) (h1 : b1 < 256) (h2 : b2 < 256)
    (j : Nat) (hj : j < 32) :
    (b0 + 256 * b1 + 65536 * b2 + 16777216 * b3).testBit j =
      (if j < 8 then b0.testBit j else if j < 16 then b1.testBit (j - 8)
        else if j < 24 then b2.testBit (j - 16) else b3.testBit (j - 24)) := by
  have e : b0 + 256 * b1 + 65536 * b2 + 16777216 * b3 =
      2 ^ 8 * (2 ^ 8 * (2 ^ 8 * b3 + b2) + b1) + b0 := by ring
  rw [e, Nat.testBit_mul_pow_two_add _ (by norm_num; exact h0)]
  by_cases c1 : j < 8
  · rw [if_pos c1, if_pos c1]
  · rw [if_neg c1, if_neg c1, Nat.testBit_mul_pow_two_add _ (by norm_num; exact h1)]
    by_cases c2 : j < 16
    · have c2' : j - 8 < 8 := by omega
      rw [if_pos c2', if_pos c2]
    · have c2' : ¬ j - 8 < 8 := by omega
      rw [if_neg c2', if_neg c2, Nat.testBit_mul_pow_two_add _ (by norm_num; exact h2)]
      by_cases c3 : j < 24
      · have c3' : j - 8 - 8 < 8 := by omega
        have e2 : j - 8 - 8 = j - 16 := by omega
        rw [if_pos c3', if_pos c3, e2]
      · have c3' : ¬ j - 8 - 8 < 8 := by omega
        have e3 : j - 8 - 8 - 8 = j - 24 := by omega
        rw [if_neg c3', if_neg c3, e3]

theorem word_lt {b0 b1 b2 b3 : Nat} (h0 : b0 < 256) (h1 : b1 < 256) (h2 : b2 < 256)
    (h3 : b3 < 256) : b0 + 256 * b1 + 65536 * b2 + 16777216 * b3 < 4294967296 := by
  omega

/-- A word of a buffer of whole words holds 32 bits of the buffer, the least
significant first. -/
theorem word_at_bits {data : List Nat} (hbytes : mask_bytes data) {i : Nat}
    (hi : 4 * i + 3 < data.length) :
    word_at data i < 4294967296 ∧
      ∀ b, b < 32 → (word_at data i).testBit b = mask_bit data (32 * i + b) := by
  have hget : ∀ j, j < 4 → data.getD (4 * i + j) 0 < 256 ∧
      data[4 * i + j]? = some (data.getD (4 * i + j) 0) := by
    intro j hj
    have hlt : 4 * i + j < data.length := by omega
    have he : data.getD (4 * i + j) 0 = data[4 * i + j] := by
      rw [List.getD_eq_getElem?_getD, List.getElem?_eq_getElem hlt]
      rfl
    rw [he]
    exact ⟨hbytes _ (List.getElem_mem hlt), List.getElem?_eq_getElem hlt⟩
  obtain ⟨h0, g0⟩ := hget 0 (by norm_num)
  obtain ⟨h1, g1⟩ := hget 1 (by norm_num)
  obtain ⟨h2, g2⟩ := hget 2 (by norm_num)
  obtain ⟨h3, g3⟩ := hget 3 (by norm_num)
  simp only [Nat.add_zero] at h0 g0
  refine ⟨word_lt h0 h1 h2 h3, ?_⟩
  intro b hb
  unfold word_at
  rw [testBit_word h0 h1 h2 b hb]
  unfold mask_bit
  by_cases c1 : b < 8
  · have e1 : (32 * i + b) / 8 = 4 * i := by omega
    have e2 : (32 * i + b) % 8 = b := by omega
    rw [if_pos c1, e1, e2, g0]
  · rw [if_neg c1]
    by_cases c2 : b < 16
    · have e1 : (32 * i + b) / 8 = 4 * i + 1 := by omega
      have e2 : (32 * i + b) % 8 = b - 8 := by omega
      rw [if_pos c2, e1, e2, g1]
    · rw [if_neg c2]
      by_cases c3 : b < 24
      · have e1 : (32 * i + b) / 8 = 4 * i + 2 := by omega
        have e2 : (32 * i + b) % 8 = b - 16 := by omega
        rw [if_pos c3, e1, e2, g2]
      · have e1 : (32 * i + b) / 8 = 4 * i + 3 := by omega
        have e2 : (32 * i + b) % 8 = b - 24 := by omega
        rw [if_neg c3, e1, e2, g3]

/-! ## Lines of text -/

theorem split_lines_line (line : List Char) (hline : ∀ c ∈ line, c ≠ '\n') :
    ∀ (current rest : List Char),
      split_lines (line ++ '\n' :: rest) current =
        String.mk (current.reverse ++ line) :: split_lines rest [] := by
  induction line with
  | nil =>
    intro current rest
    simp [split_lines]
  | cons c cs ih =>
    intro current rest
    have hc : c ≠ '\n' := hline c (List.mem_cons_self _ _)
    rw [List.cons_append, split_lines, if_neg hc,
      ih (fun x hx => hline x (List.mem_cons_of_mem _ hx))]
    simp

/-- A text that starts with a line without line feed, ended by a line feed,
has that line as its first line. -/
theorem text_lines_line (line rest : String) (hline : ∀ c ∈ line.data, c ≠ '\n') :
    text_lines (line ++ "\n" ++ rest) = line :: text_lines rest := by
  unfold text_lines
  have hdata : (line ++ "\n" ++ rest).data = line.data ++ '\n' :: rest.data := by
    simp [String.data_append]
  rw [hdata, split_lines_line line.data hline [] rest.data]
  simp

theorem digitChar_ne_newline (n : Nat) : Nat.digitChar (n % 10) ≠ '\n' := by
  have h : n % 10 < 10 := Nat.mod_lt _ (by norm_num)
  generalize n % 10 = k at h
  interval_cases k <;> decide

theorem toDigitsCore_no_newline (fuel : Nat) : ∀ (n : Nat) (ds : List Char),
    (∀ c ∈ ds, c ≠ '\n') → ∀ c ∈ Nat.toDigitsCore 10 fuel n ds, c ≠ '\n' := by
  induction fuel with
  | zero => intro n ds hds c hc; exact hds c hc
  | succ f ih =>
    intro n ds hds c hc
    have hds' : ∀ c ∈ Nat.digitChar (n % 10) :: ds, c ≠ '\n' := by
      intro x hx
      rcases List.mem_cons.mp hx with rfl | h
      · exact digitChar_ne_newline n
      · exact hds x h
    unfold Nat.toDigitsCore at hc
    simp only at hc
    split_ifs at hc
    · exact hds' c hc
    · exact ih _ _ hds' c hc

theorem toString_no_newline (n : Nat) : ∀ c ∈ (toString n).data, c ≠ '\n' := by
  intro c hc
  have : (toString n).data = Nat.toDigits 10 n := rfl
  rw [this] at hc
  exact toDigitsCore_no_newline _ _ _ (fun x hx => by cases hx) c hc

theorem print_d_no_newline (v : Nat) : ∀ c ∈ (print_d v).data, c ≠ '\n' := by
  intro c hc
  unfold print_d at hc
  split_ifs at hc
  · exact toString_no_newline _ c hc
  · rw [String.data_append] at hc
    rcases List.mem_append.mp hc with h | h
    · have : c = '-' := by simpa using h
      rw [this]; decide
    · exact toString_no_newline _ c h

theorem print_d_small {v : Nat} (h : v < 2147483648) : print_d v = toString v := by
  unfold print_d
  have h1 : v % 4294967296 = v := Nat.mod_eq_of_lt (by omega)
  rw [h1, if_pos h]

/-! ## The results of `write` -/

/-- The result of `write` when no data buffer is built: for the formats DETAIL
and TCL, and for every format when the total exceeds `2 ^ 32 - 32`, where the
count of words wraps to zero.  The loop over the descriptors writes text, for
every format but DETAIL the lines of the TCL format. -/
theorem write_without_buffer (s : ModelConfig_DEVICE) (fuel : Nat)
    (options : List (String × String)) (format : String) (hs : s.serializable)
    (hformat : options_at options "format" = some format)
    (hknown : format = "BIT" ∨ format = "WORD" ∨ format = "DETAIL" ∨ format = "TCL" ∨
      format = "BIN")
    (hdata : (format = "DETAIL" ∨ format = "TCL") ∨ 4294967264 < s.m_total_bits)
    (hfuel : s.m_bitfields.length ≤ fuel) :
    ∃ body, s.write fuel options true =
        some (none,
          ⟨file_put (if format ≠ "BIN" then some (write_header s format) else none) body,
            none⟩) ∧
      (format ≠ "DETAIL" → body = concat_text (s.m_bitfields.map (fun p => tcl_line p.2))) := by
  have hpos := hs.total_pos
  have hle := hs.total_le
  have h0 : s.m_total_bits ≠ 0 := by omega
  have hempty : (if format = "BIT" ∨ format = "WORD" ∨ format = "BIN" then
      List.replicate ((s.m_total_bits + 31) % 4294967296 / 32 * 4 % 4294967296) 0
      else []) = [] := by
    rcases hdata with hd | hd
    · have hn : ¬ (format = "BIT" ∨ format = "WORD" ∨ format = "BIN") := by
        rcases hd with rfl | rfl <;> decide
      rw [if_neg hn]
    · have hz : (s.m_total_bits + 31) % 4294967296 / 32 * 4 % 4294967296 = 0 := by omega
      rw [hz]
      simp
  obtain ⟨body, block_name, hrun, hbody⟩ := write_loop_text s format hs.total_le s.m_bitfields []
    fuel ⟨0, [], if format ≠ "BIN" then some (write_header s format) else none, ""⟩ rfl
    (fun q hq => by cases hq) hs.chain hfuel rfl
  refine ⟨body, ?_, hbody⟩
  unfold ModelConfig_DEVICE.write
  rw [if_neg h0, hformat]
  simp only [hempty]
  rw [if_neg (not_not.mpr hknown), if_neg (by simp), hrun]
  simp

/-- The result of `write` for the format BIT of a session whose total is at
most `2 ^ 32 - 32`. -/
theorem write_bit (s : ModelConfig_DEVICE) (fuel : Nat) (options : List (String × String))
    (hs : s.serializable) (hbound : s.m_total_bits ≤ 4294967264)
    (hformat : options_at options "format" = some "BIT")
    (hfuel : s.m_bitfields.length ≤ fuel) :
    ∃ body, s.write fuel options true =
      some (none, ⟨some (write_header s "BIT" ++ body), none⟩) := by
  obtain ⟨data, hrun, hl, _, _⟩ :=
    write_loop_image s "BIT" fuel (some (write_header s "BIT")) hs hbound hfuel
  have hpos := hs.total_pos
  have h0 : s.m_total_bits ≠ 0 := by omega
  have hdl : data.length ≠ 0 := by omega
  obtain ⟨body, hlines⟩ := write_bit_lines_ok data s.m_total_bits 0
    (some (write_header s "BIT")) (by omega)
  refine ⟨body, ?_⟩
  unfold ModelConfig_DEVICE.write
  rw [if_neg h0, hformat]
  simp only [String.reduceEq, or_true, or_false, false_or, true_or, not_true_eq_false, if_false,
    ne_eq, not_false_eq_true, false_and, true_and, if_true, hrun, hdl, hlines, file_put,
    Option.map_some', Bool.true_eq_false]

/-- The result of `write` for the format WORD of a session whose total is at
most `2 ^ 32 - 32`: after the header, for every word of the buffer that holds
the packed image, its digits and its suffix. -/
theorem write_word (s : ModelConfig_DEVICE) (fuel : Nat) (options : List (String × String))
    (hs : s.serializable) (hbound : s.m_total_bits ≤ 4294967264)
    (hformat : options_at options "format" = some "WORD")
    (hfuel : s.m_bitfields.length ≤ fuel) :
    ∃ data, s.write fuel options true =
        some (none,
          ⟨some (write_header s "WORD" ++
            concat_text ((List.range ((s.m_total_bits + 31) / 32)).map (fun i =>
              print_08X (word_at data i) ++
                word_suffix s.m_total_bits ((s.m_total_bits + 31) / 32) i))), none⟩) ∧
      data.length = (s.m_total_bits + 31) / 32 * 4 ∧ mask_bytes data ∧
      ∀ k, mask_bit data k = image_bit s.m_bitfields k := by
  obtain ⟨data, hrun, hl, hbytes, hbits⟩ :=
    write_loop_image s "WORD" fuel (some (write_header s "WORD")) hs hbound hfuel
  have hpos := hs.total_pos
  have h0 : s.m_total_bits ≠ 0 := by omega
  have hdl : data.length ≠ 0 := by omega
  have hwc : (s.m_total_bits + 31) % 4294967296 / 32 = (s.m_total_bits + 31) / 32 := by omega
  rw [hwc] at hrun
  refine ⟨data, ?_, hl, hbytes, hbits⟩
  unfold ModelConfig_DEVICE.write
  rw [if_neg h0, hformat]
  simp only [String.reduceEq, or_true, or_false, false_or, true_or, not_true_eq_false, if_false,
    ne_eq, not_false_eq_true, false_and, true_and, if_true, hrun, hdl, hwc,
    write_word_lines_eq, file_put, Option.map_some', Bool.true_eq_false, Nat.zero_add]

/-! ## The header of the text formats -/

theorem append_no_newline {a b : String} (ha : ∀ c ∈ a.data, c ≠ '\n')
    (hb : ∀ c ∈ b.data, c ≠ '\n') : ∀ c ∈ (a ++ b).data, c ≠ '\n' := by
  intro c hc
  rw [String.data_append] at hc
  rcases List.mem_append.mp hc with h | h
  · exact ha c h
  · exact hb c h

/-- The lines of a text that starts with the header of `write`: five lines,
for the format TCL a sixth with the model-binding command, and the lines of
the rest. -/
theorem header_lines (s : ModelConfig_DEVICE) (format body : String)
    (hf : ∀ c ∈ s.m_feature.data, c ≠ '\n') (hm : ∀ c ∈ s.m_model.data, c ≠ '\n')
    (hformat : ∀ c ∈ format.data, c ≠ '\n') :
    text_lines (write_header s format ++ body) =
      ("// Feature Bitstream: " ++ s.m_feature) :: ("// Model: " ++ s.m_model) ::
        ("// Total Bits: " ++ print_d s.m_total_bits) :: "// Timestamp:" ::
        ("// Format: " ++ format) ::
        ((if format = "TCL" then
            ["model_config set_model -feature " ++ s.m_feature ++ " " ++ s.m_model]
          else []) ++ text_lines body) := by
  have h1 : ∀ c ∈ ("// Feature Bitstream: " ++ s.m_feature).data, c ≠ '\n' :=
    append_no_newline (by decide) hf
  have h2 : ∀ c ∈ ("// Model: " ++ s.m_model).data, c ≠ '\n' :=
    append_no_newline (by decide) hm
  have h3 : ∀ c ∈ ("// Total Bits: " ++ print_d s.m_total_bits).data, c ≠ '\n' :=
    append_no_newline (by decide) (print_d_no_newline _)
  have h4 : ∀ c ∈ ("// Timestamp:" : String).data, c ≠ '\n' := by decide
  have h5 : ∀ c ∈ ("// Format: " ++ format).data, c ≠ '\n' :=
    append_no_newline (by decide) hformat
  have h6 : ∀ c ∈ ("model_config set_model -feature " ++ s.m_feature ++ " " ++ s.m_model).data,
      c ≠ '\n' :=
    append_no_newline (append_no_newline (append_no_newline (by decide) hf) (by decide)) hm
  by_cases ht : format = "TCL"
  · have e : write_header s format ++ body =
        "// Feature Bitstream: " ++ s.m_feature ++ "\n" ++
          ("// Model: " ++ s.m_model ++ "\n" ++
            ("// Total Bits: " ++ print_d s.m_total_bits ++ "\n" ++
              ("// Timestamp:" ++ "\n" ++
                ("// Format: " ++ format ++ "\n" ++
                  ("model_config set_model -feature " ++ s.m_feature ++ " " ++ s.m_model ++
                    "\n" ++ body))))) := by
      unfold write_header
      rw [if_pos ht]
      simp only [String.append_assoc]
      rfl
    rw [e, text_lines_line _ _ h1, text_lines_line _ _ h2, text_lines_line _ _ h3,
      text_lines_line _ _ h4, text_lines_line _ _ h5, text_lines_line _ _ h6, if_pos ht]
    rfl
  · have e : write_header s format ++ body =
        "// Feature Bitstream: " ++ s.m_feature ++ "\n" ++
          ("// Model: " ++ s.m_model ++ "\n" ++
            ("// Total Bits: " ++ print_d s.m_total_bits ++ "\n" ++
              ("// Timestamp:" ++ "\n" ++
                ("// Format: " ++ format ++ "\n" ++ body)))) := by
      unfold write_header
      rw [if_neg ht]
      simp only [String.append_assoc, String.append_empty, String.empty_append]
      rfl
    rw [e, text_lines_line _ _ h1, text_lines_line _ _ h2, text_lines_line _ _ h3,
      text_lines_line _ _ h4, text_lines_line _ _ h5, if_neg ht]
    rfl

/-- The instance named on a line of the TCL format, in terms of the emptiness
of the alias. -/
theorem tcl_instance_eq (b : ModelConfig_BITFIELD) :
    tcl_instance b = if b.m_user_name ≠ "" then b.m_user_name else b.m_block_name := by
  unfold tcl_instance
  by_cases h : b.m_user_name = ""
  · rw [h]
    rfl
  · rw [if_pos (utf8ByteSize_ne_zero h), if_pos h]

/-- The suffix of a word line, for a word of a buffer of fewer than `2 ^ 32`
words. -/
theorem word_suffix_eq (total_bits word_count i : Nat) (hi : i < word_count)
    (hw : word_count ≤ 4294967295) :
    word_suffix total_bits word_count i =
      if i + 1 = word_count ∧ total_bits % 32 ≠ 0 then
        " // (Valid LSBits: " ++ toString (total_bits % 32) ++ ", Dummy MSBits: " ++
          toString (32 - total_bits % 32) ++ ")\n"
      else "\n" := by
  unfold word_suffix
  have h1 : (i + 1) % 4294967296 = i + 1 := Nat.mod_eq_of_lt (by omega)
  rw [h1, print_d_small (by omega), print_d_small (by omega)]

/-! ## Sessions of many attributes -/

/-- The constructor succeeds on a tree whose attributes have widths from 1 to
32, defaults that fit, ranges that end at or below `2 ^ 32 - 8`, share no bit
and leave no gap. -/
theorem new_of_occurrences (feature model : String) (d : device) (root : device_block)
    (hm : model.utf8ByteSize ≠ 0) (hb : d.get_block model = some root)
    (hne : occurrences root ≠ [])
    (hw : ∀ o ∈ occurrences root, 1 ≤ o.width ∧ o.width ≤ 32)
    (hdv : ∀ o ∈ occurrences root, o.width = 32 ∨ o.default_value < 2 ^ o.width)
    (hend : ∀ o ∈ occurrences root, o.offset + o.width ≤ 4294967288)
    (hdis : (occurrences root).Pairwise (fun a b => ¬ ∃ k, a.covers k ∧ b.covers k))
    (hgap : ∀ o ∈ occurrences root, ∀ k, k < o.offset + o.width →
      ∃ o' ∈ occurrences root, o'.covers k) :
    ∃ s, ModelConfig_DEVICE.new feature model (some d) = .ok s := by
  have hregular : ∀ x ∈ (occurrences root).map (Occurrence.descriptor d), x.regular := by
    intro x hx
    obtain ⟨o, ho, rfl⟩ := List.mem_map.mp hx
    exact descriptor_regular d o (hw o ho) (hdv o ho) (hend o ho)
  obtain ⟨⟨s, mask⟩, hrun⟩ := add_all_free _ (alloc_inv_init feature model) hregular
    (List.pairwise_map.mpr hdis) (fun _ _ p hp => by cases hp)
  obtain ⟨hinv, hperm, _⟩ := add_all_ok _ (alloc_inv_init feature model) hrun
  simp only [List.append_nil, List.map_map] at hperm
  have hmem : ∀ p, p ∈ s.m_bitfields ↔ ∃ o ∈ occurrences root,
      p = ((o.descriptor d).m_addr, o.descriptor d) := by
    intro p
    rw [hperm.mem_iff, List.mem_map]
    constructor
    · rintro ⟨o, ho, rfl⟩; exact ⟨o, ho, rfl⟩
    · rintro ⟨o, ho, rfl⟩; exact ⟨o, ho, rfl⟩
  obtain ⟨ptop, hptop, htop⟩ : ∃ p ∈ s.m_bitfields, p.2.m_addr + p.2.m_size = s.m_total_bits := by
    rcases hinv.top with ⟨_, hnil⟩ | h
    · exfalso
      obtain ⟨o, ho⟩ := List.exists_mem_of_ne_nil _ hne
      have : ((o.descriptor d).m_addr, o.descriptor d) ∈ s.m_bitfields :=
        (hmem _).mpr ⟨o, ho, rfl⟩
      simp only at hnil
      rw [hnil] at this
      cases this
    · exact h
  have h0 : s.m_total_bits ≠ 0 := by
    have := (hinv.sizes ptop hptop).1
    omega
  have hbits : ∀ k, mask_bit mask k = true ↔ k < s.m_total_bits := by
    intro k
    rw [hinv.bits k]
    constructor
    · rintro ⟨p, hp, hc⟩
      have := hinv.within p hp
      unfold ModelConfig_BITFIELD.covers at hc
      simp only at this
      omega
    · intro hk
      obtain ⟨o, ho, rfl⟩ := (hmem ptop).mp hptop
      obtain ⟨o', ho', hc'⟩ := hgap o ho k (by
        show k < (o.descriptor d).m_addr + (o.descriptor d).m_size
        simp only at htop
        omega)
      exact ⟨_, (hmem _).mpr ⟨o', ho', rfl⟩, hc'⟩
  exact ⟨s, new_of_add_all hm hb hrun h0 (check_mask_full hinv.bytes hinv.mask_len hbits)⟩

theorem long_occurrences (n : Nat) :
    occurrences (long_block n) =
      (List.range n).map (fun i =>
        (⟨[], "a" ++ toString i, ⟨((16 * i : Nat) : Int), plain_type 16⟩⟩ : Occurrence)) := by
  simp [long_block, occurrences, occurrences_of_instances, List.map_map, Function.comp]

theorem long_covers {n : Nat} (hn : 16 * n ≤ 4294967288) {o : Occurrence}
    (ho : o ∈ occurrences (long_block n)) :
    ∃ i, i < n ∧ o.offset = 16 * i ∧ o.width = 16 ∧ o.default_value = 0 := by
  rw [long_occurrences, List.mem_map] at ho
  obtain ⟨i, hi, rfl⟩ := ho
  rw [List.mem_range] at hi
  refine ⟨i, hi, ?_, rfl, rfl⟩
  unfold Occurrence.offset toU32
  simp only [List.map_nil, List.sum_nil, Nat.add_zero]
  omega

/-- The constructor succeeds on a block of `n` attributes of 16 bits, and the
total of the session is `16 * n`. -/
theorem long_new (feature model : String) (d : device) (n : Nat) (hm : model.utf8ByteSize ≠ 0)
    (hb : d.get_block model = some (long_block n)) (h0 : 0 < n)
    (hn : 16 * n ≤ 4294967288) :
    ∃ s, ModelConfig_DEVICE.new feature model (some d) = .ok s ∧ s.m_total_bits = 16 * n := by
  have hin : ∀ i, i < n → ∃ o ∈ occurrences (long_block n), o.offset = 16 * i ∧ o.width = 16 := by
    intro i hi
    have hmem : (⟨[], "a" ++ toString i, ⟨((16 * i : Nat) : Int), plain_type 16⟩⟩ : Occurrence) ∈
        occurrences (long_block n) := by
      rw [long_occurrences]
      exact List.mem_map.mpr ⟨i, List.mem_range.mpr hi, rfl⟩
    obtain ⟨j, _, hj, hw, _⟩ := long_covers hn hmem
    refine ⟨_, hmem, ?_, hw⟩
    unfold Occurrence.offset toU32
    simp only [List.map_nil, List.sum_nil, Nat.add_zero]
    omega
  obtain ⟨s, hs⟩ := new_of_occurrences feature model d (long_block n) hm hb
    (by
      obtain ⟨o, ho, _⟩ := hin 0 h0
      exact List.ne_nil_of_mem ho)
    (fun o ho => by
      obtain ⟨i, _, _, hw, _⟩ := long_covers hn ho
      omega)
    (fun o ho => by
      obtain ⟨i, _, _, hw, hd⟩ := long_covers hn ho
      right
      rw [hd, hw]
      norm_num)
    (fun o ho => by
      obtain ⟨i, hi, ho, hw, _⟩ := long_covers hn ho
      omega)
    (by
      rw [long_occurrences, List.pairwise_map]
      refine (List.pairwise_lt_range n).imp_of_mem ?_
      intro i j hi hj hij
      rw [List.mem_range] at hi hj
      rintro ⟨k, h1, h2⟩
      unfold Occurrence.covers Occurrence.offset Occurrence.width toU32 at h1 h2
      simp only [List.map_nil, List.sum_nil, Nat.add_zero, plain_type] at h1 h2
      omega)
    (fun o ho k hk => by
      obtain ⟨i, hi, hoff, hw, _⟩ := long_covers hn ho
      obtain ⟨o', ho', hoff', hw'⟩ := hin (k / 16) (by omega)
      refine ⟨o', ho', ?_⟩
      unfold Occurrence.covers
      omega)
  refine ⟨s, hs, ?_⟩
  have hcov := new_covering hs
  have hperm := new_perm hb hs
  have hlt : ∀ k, k < s.m_total_bits ↔ k < 16 * n := by
    intro k
    rw [hcov k]
    constructor
    · rintro ⟨p, hp, hc⟩
      obtain ⟨o, ho, rfl⟩ := List.mem_map.mp (hperm.mem_iff.mp hp)
      obtain ⟨i, hi, hoff, hw, _⟩ := long_covers hn ho
      have hc' : o.offset ≤ k ∧ k < o.offset + o.width := hc
      omega
    · intro hk
      obtain ⟨o, ho, hoff, hw⟩ := hin (k / 16) (by omega)
      refine ⟨_, hperm.mem_iff.mpr (List.mem_map.mpr ⟨o, ho, rfl⟩), ?_⟩
      show o.offset ≤ k ∧ k < o.offset + o.width
      omega
  by_contra hne
  rcases Nat.lt_or_gt_of_ne hne with h | h
  · have := (hlt s.m_total_bits).mpr h
    omega
  · have := (hlt (16 * n)).mp h
    omega

/-! ## The packed image of a session -/

theorem keeps_length {s s' : ModelConfig_DEVICE} (hk : Keeps s s') :
    s'.m_bitfields.length = s.m_bitfields.length := by
  have h := congrArg List.length hk.layout
  simpa [ModelConfig_DEVICE.layout] using h

/-- The packed image of a session that can be serialized holds, within the
range of a descriptor, the bits of its value, and nothing from the total on. -/
theorem image_bit_descriptor {s : ModelConfig_DEVICE} (hs : s.serializable) :
    (∀ p ∈ s.m_bitfields, ∀ i, i < p.2.m_size →
      p.2.m_addr + i < s.m_total_bits ∧
        image_bit s.m_bitfields (p.2.m_addr + i) = p.2.m_value.testBit i) ∧
    ∀ k, s.m_total_bits ≤ k → image_bit s.m_bitfields k = false := by
  constructor
  · intro p hp i hi
    have hm := chained_mem _ _ _ hs.chain p hp
    refine ⟨by omega, ?_⟩
    rw [image_bit_inside _ (chained_ordered _ _ _ hs.chain) p hp (p.2.m_addr + i) (by omega)
      (by omega)]
    congr 1
    omega
  · intro k hk
    exact image_bit_beyond hs.chain hk

theorem new_names {feature model : String} {dev : Option device} {s : ModelConfig_DEVICE}
    (h : ModelConfig_DEVICE.new feature model dev = .ok s) :
    s.m_feature = feature ∧ s.m_model = model := by
  obtain ⟨d, root, mask, _, _, hrun, _, _, _⟩ := new_ok h
  obtain ⟨_, _, hf, hm, _⟩ := add_all_ok _ (alloc_inv_init feature model) hrun
  exact ⟨hf, hm⟩

/-- A session of `huge_device`: `2 ^ 32 - 16` bits in 268435455 descriptors. -/
theorem huge_new :
    ∃ s, ModelConfig_DEVICE.new "f" "m" (some huge_device) = .ok s ∧
      s.m_total_bits = 4294967280 ∧ s.m_bitfields.length = 268435455 := by
  obtain ⟨s, hs, ht⟩ := long_new "f" "m" huge_device 268435455 (by decide) rfl (by norm_num)
    (by norm_num)
  refine ⟨s, hs, by rw [ht], ?_⟩
  have hperm := new_perm (rfl : huge_device.get_block "m" = some (long_block 268435455)) hs
  rw [hperm.length_eq, List.length_map, long_occurrences, List.length_map, List.length_range]

/-! ## The BIN format -/

/-- C13 fails on the code for the session of `2 ^ 32 - 16` bits that the
constructor builds for `huge_device`: the count of bytes
`((total_bits + 31) / 32) * 4` of the buffer wraps to zero in 32-bit
arithmetic, while the count `(total_bits + 7) / 8` of the BIN output does not;
`write` reports no error, builds no buffer and hands no byte to
`CFG_write_binary_file`, where the claim has an output of 536870910 bytes. -/
theorem huge_bin_divergence :
    ∃ s, ModelConfig_DEVICE.new "f" "m" (some huge_device) = .ok s ∧
      s.m_total_bits = 4294967280 ∧ (s.m_total_bits + 7) / 8 = 536870910 ∧
      ∀ fuel, s.m_bitfields.length ≤ fuel →
        s.write fuel [("format", "BIN")] true = some (none, ⟨none, none⟩) := by
  obtain ⟨s, hnew, htotal, _⟩ := huge_new
  refine ⟨s, hnew, htotal, by rw [htotal], ?_⟩
  intro fuel hfuel
  obtain ⟨body, hrun, _⟩ := write_without_buffer s fuel [("format", "BIN")] "BIN"
    (new_serializable hnew) rfl (by decide) (Or.inr (by omega)) hfuel
  rw [hrun]
  rfl

/-- The BIN encoding where the count of bytes of the buffer does not wrap: for
every session that a sequence of commands leaves of a constructed session
with a total of at most `2 ^ 32 - 32` bits, `write` with the format BIN
succeeds and hands `CFG_write_binary_file` exactly
`ceil(total_bits / 8)` bytes; for every descriptor and every `i` below its
width, bit `(offset + i) mod 8` of byte `(offset + i) div 8` is bit `i` of the
value of the descriptor; every bit at a global position from `total_bits` on
is 0. -/
theorem bin_encoding (feature model : String) (dev : Option device) (s₀ : ModelConfig_DEVICE)
    (cmds : List Command) (fuel : Nat) (options : List (String × String)) (can_open : Bool)
    (hnew : ModelConfig_DEVICE.new feature model dev = .ok s₀)
    (hbound : s₀.m_total_bits ≤ 4294967264)
    (hformat : options_at options "format" = some "BIN")
    (hfuel : s₀.m_bitfields.length ≤ fuel) :
    ∃ bytes, (s₀.run_all cmds).write fuel options can_open = some (none, ⟨none, some bytes⟩) ∧
      bytes.length = ((s₀.run_all cmds).m_total_bits + 7) / 8 ∧
      (∀ p ∈ (s₀.run_all cmds).m_bitfields, ∀ i, i < p.2.m_size →
        ∃ b, bytes[(p.2.m_addr + i) / 8]? = some b ∧
          b.testBit ((p.2.m_addr + i) % 8) = p.2.m_value.testBit i) ∧
      ∀ k, (s₀.run_all cmds).m_total_bits ≤ k → mask_bit bytes k = false := by
  have hk := run_all_keeps cmds s₀
  have hs := run_all_serializable hnew cmds
  obtain ⟨bytes, hrun, hlen, hbits⟩ := write_bin (s₀.run_all cmds) fuel options can_open hs
    (by rw [hk.total]; exact hbound) hformat (by rw [keeps_length hk]; exact hfuel)
  obtain ⟨hin, hout⟩ := image_bit_descriptor hs
  refine ⟨bytes, hrun, hlen, ?_, ?_⟩
  · intro p hp i hi
    obtain ⟨hlt, himg⟩ := hin p hp i hi
    have hj : (p.2.m_addr + i) / 8 < bytes.length := by omega
    refine ⟨bytes[(p.2.m_addr + i) / 8], List.getElem?_eq_getElem hj, ?_⟩
    have h := hbits (p.2.m_addr + i)
    rw [himg] at h
    rw [← h]
    unfold mask_bit
    rw [List.getElem?_eq_getElem hj]
  · intro k hk'
    rw [hbits k]
    exact hout k hk'

/-- The BIN encoding on the sample session: after 5 was assigned to `a` and 129
to `x`, the session is written as the bytes 5 and 129. -/
theorem bin_encoding_witness :
    (ModelConfig_DEVICE.run_all sample_session
        [.set_attr [("instance", ""), ("name", "a"), ("value", "5")],
         .set_attr [("instance", "I"), ("name", "x"), ("value", "129")]]).write 3
      [("format", "BIN")] false = some (none, ⟨none, some [5, 129]⟩) ∧
    ModelConfig_DEVICE.new "f" "m" (some sample_device) = .ok sample_session ∧
    ∃ bytes, (ModelConfig_DEVICE.run_all sample_session
        [.set_attr [("instance", ""), ("name", "a"), ("value", "5")],
         .set_attr [("instance", "I"), ("name", "x"), ("value", "129")]]).write 3
        [("format", "BIN")] false = some (none, ⟨none, some bytes⟩) ∧
      bytes.length = ((ModelConfig_DEVICE.run_all sample_session
        [.set_attr [("instance", ""), ("name", "a"), ("value", "5")],
         .set_attr [("instance", "I"), ("name", "x"), ("value", "129")]]).m_total_bits + 7) / 8 ∧
      (∀ p ∈ (ModelConfig_DEVICE.run_all sample_session
          [.set_attr [("instance", ""), ("name", "a"), ("value", "5")],
           .set_attr [("instance", "I"), ("name", "x"), ("value", "129")]]).m_bitfields,
        ∀ i, i < p.2.m_size →
          ∃ b, bytes[(p.2.m_addr + i) / 8]? = some b ∧
            b.testBit ((p.2.m_addr + i) % 8) = p.2.m_value.testBit i) ∧
      ∀ k, (ModelConfig_DEVICE.run_all sample_session
          [.set_attr [("instance", ""), ("name", "a"), ("value", "5")],
           .set_attr [("instance", "I"), ("name", "x"), ("value", "129")]]).m_total_bits ≤ k →
        mask_bit bytes k = false :=
  ⟨by decide, rfl,
    bin_encoding "f" "m" (some sample_device) sample_session _ 3 [("format", "BIN")] false rfl
      (by decide) rfl (by decide)⟩

/-- C14 fails on the code for the session of `2 ^ 32 - 16` bits that the
constructor builds for `huge_device`, whatever commands were run on it: the
count of bytes `((total_bits + 31) / 32) * 4` of the buffer wraps to zero,
`write` with the format BIN reports no error, builds no buffer and produces
no output from which a value could be read. -/
theorem huge_round_trip_divergence :
    ∃ s, ModelConfig_DEVICE.new "f" "m" (some huge_device) = .ok s ∧
      ∀ (cmds : List Command) (fuel : Nat), s.m_bitfields.length ≤ fuel →
        (s.run_all cmds).m_total_bits = 4294967280 ∧
        (s.run_all cmds).write fuel [("format", "BIN")] true = some (none, ⟨none, none⟩) := by
  obtain ⟨s, hnew, htotal, _⟩ := huge_new
  refine ⟨s, hnew, ?_⟩
  intro cmds fuel hfuel
  have hk := run_all_keeps cmds s
  have ht : (s.run_all cmds).m_total_bits = 4294967280 := by rw [hk.total, htotal]
  refine ⟨ht, ?_⟩
  obtain ⟨body, hrun, _⟩ := write_without_buffer (s.run_all cmds) fuel [("format", "BIN")] "BIN"
    (run_all_serializable hnew cmds) rfl (by decide) (Or.inr (by omega))
    (by rw [keeps_length hk]; exact hfuel)
  rw [hrun]
  rfl

/-- The BIN round trip where the count of bytes of the buffer does not wrap:
for every session that a sequence of `set_attr`, `set_api` and `set_design`
commands, successful or failed, leaves of a constructed session with a total
of at most `2 ^ 32 - 32` bits, and for every descriptor,
the `width` bits read from the BIN output from global bit `offset` on, the
least significant first, are the current value of the descriptor. -/
theorem bin_round_trip (feature model : String) (dev : Option device) (s₀ : ModelConfig_DEVICE)
    (cmds : List Command) (fuel : Nat) (options : List (String × String)) (can_open : Bool)
    (hnew : ModelConfig_DEVICE.new feature model dev = .ok s₀)
    (hbound : s₀.m_total_bits ≤ 4294967264)
    (hformat : options_at options "format" = some "BIN")
    (hfuel : s₀.m_bitfields.length ≤ fuel) :
    ∃ bytes, (s₀.run_all cmds).write fuel options can_open = some (none, ⟨none, some bytes⟩) ∧
      ∀ p ∈ (s₀.run_all cmds).m_bitfields,
        read_bits bytes p.2.m_addr p.2.m_size = p.2.m_value := by
  have hk := run_all_keeps cmds s₀
  have hs := run_all_serializable hnew cmds
  obtain ⟨bytes, hrun, _, hbits⟩ := write_bin (s₀.run_all cmds) fuel options can_open hs
    (by rw [hk.total]; exact hbound) hformat (by rw [keeps_length hk]; exact hfuel)
  obtain ⟨hin, _⟩ := image_bit_descriptor hs
  refine ⟨bytes, hrun, ?_⟩
  intro p hp
  rw [read_bits_eq bytes p.2.m_addr p.2.m_value p.2.m_size
    (fun i hi => by rw [hbits, (hin p hp i hi).2])]
  exact Nat.mod_eq_of_lt (hs.fit p hp).2.2

/-- The BIN round trip on the sample session: 3 and then 129 are assigned to
`x`, the assignment of 300 to `x` fails, 5 is assigned to `a` and nothing to
`b`; the bytes 5 and 129 are written, from which 5, 0 and 129 are read. -/
theorem bin_round_trip_witness :
    (ModelConfig_DEVICE.run_all sample_session
        [.set_attr [("instance", "I"), ("name", "x"), ("value", "3")],
         .set_attr [("instance", "I"), ("name", "x"), ("value", "129")],
         .set_attr [("instance", "I"), ("name", "x"), ("value", "300")],
         .set_attr [("instance", ""), ("name", "a"), ("value", "5")]]).write 3
      [("format", "BIN")] true = some (none, ⟨none, some [5, 129]⟩) ∧
    (read_bits [5, 129] 0 4 = 5 ∧ read_bits [5, 129] 4 4 = 0 ∧ read_bits [5, 129] 8 8 = 129) ∧
    ModelConfig_DEVICE.new "f" "m" (some sample_device) = .ok sample_session ∧
    ∃ bytes, (ModelConfig_DEVICE.run_all sample_session
        [.set_attr [("instance", "I"), ("name", "x"), ("value", "3")],
         .set_attr [("instance", "I"), ("name", "x"), ("value", "129")],
         .set_attr [("instance", "I"), ("name", "x"), ("value", "300")],
         .set_attr [("instance", ""), ("name", "a"), ("value", "5")]]).write 3
        [("format", "BIN")] true = some (none, ⟨none, some bytes⟩) ∧
      ∀ p ∈ (ModelConfig_DEVICE.run_all sample_session
          [.set_attr [("instance", "I"), ("name", "x"), ("value", "3")],
           .set_attr [("instance", "I"), ("name", "x"), ("value", "129")],
           .set_attr [("instance", "I"), ("name", "x"), ("value", "300")],
           .set_attr [("instance", ""), ("name", "a"), ("value", "5")]]).m_bitfields,
        read_bits bytes p.2.m_addr p.2.m_size = p.2.m_value :=
  ⟨by decide, by decide, rfl,
    bin_round_trip "f" "m" (some sample_device) sample_session _ 3 [("format", "BIN")] true rfl
      (by decide) rfl (by decide)⟩

/-! ## The text formats -/

/-- C15 fails on the code for the session of `2 ^ 32 - 16` bits that the
constructor builds for `huge_device`: the count of bytes
`((total_bits + 31) / 32) * 4` of the buffer wraps to zero, and what `write`
puts after the header for the format WORD is one `set_attr` line of the TCL
format for each of the 268435455 descriptors, where the claim has 134217728
lines of hex digits. -/
theorem huge_word_divergence :
    ∃ s, ModelConfig_DEVICE.new "f" "m" (some huge_device) = .ok s ∧
      (s.m_total_bits + 31) / 32 = 134217728 ∧ s.m_bitfields.length = 268435455 ∧
      ∀ fuel, s.m_bitfields.length ≤ fuel →
        s.write fuel [("format", "WORD")] true =
          some (none,
            ⟨some (write_header s "WORD" ++
              concat_text (s.m_bitfields.map (fun p => tcl_line p.2))), none⟩) := by
  obtain ⟨s, hnew, htotal, hlen⟩ := huge_new
  refine ⟨s, hnew, by rw [htotal], hlen, ?_⟩
  intro fuel hfuel
  obtain ⟨body, hrun, hbody⟩ := write_without_buffer s fuel [("format", "WORD")] "WORD"
    (new_serializable hnew) rfl (by decide) (Or.inr (by omega)) hfuel
  rw [hrun, hbody (by decide)]
  rfl

/-- The WORD encoding where the count of bytes of the buffer does not wrap: for
every session that a sequence of commands leaves of a constructed session
with a total of at most `2 ^ 32 - 32` bits, on a machine
that stores the least significant byte of a word first, the WORD output is the
header followed by exactly `ceil(total_bits / 32)` lines; line `i` starts with
the eight uppercase hex digits of a 32-bit word whose bit `b` is global bit
`32 * i + b` of the packed image, that is bit `j` of the value of a descriptor
at global bit `offset + j` and 0 from `total_bits` on; the last line, and only
it, goes on with ` // (Valid LSBits: V, Dummy MSBits: 32-V)`, where
`V = total_bits mod 32`, exactly when `V` is not 0. -/
theorem word_encoding (feature model : String) (dev : Option device) (s₀ : ModelConfig_DEVICE)
    (cmds : List Command) (fuel : Nat) (options : List (String × String))
    (hnew : ModelConfig_DEVICE.new feature model dev = .ok s₀)
    (hbound : s₀.m_total_bits ≤ 4294967264)
    (hformat : options_at options "format" = some "WORD")
    (hfuel : s₀.m_bitfields.length ≤ fuel) :
    ∃ word : Nat → Nat,
      (s₀.run_all cmds).write fuel options true =
        some (none,
          ⟨some (write_header (s₀.run_all cmds) "WORD" ++
            concat_text ((List.range ((s₀.m_total_bits + 31) / 32)).map (fun i =>
              print_08X (word i) ++
                if i + 1 = (s₀.m_total_bits + 31) / 32 ∧ s₀.m_total_bits % 32 ≠ 0 then
                  " // (Valid LSBits: " ++ toString (s₀.m_total_bits % 32) ++
                    ", Dummy MSBits: " ++ toString (32 - s₀.m_total_bits % 32) ++ ")\n"
                else "\n"))), none⟩) ∧
      (∀ i, i < (s₀.m_total_bits + 31) / 32 → word i < 4294967296) ∧
      (∀ p ∈ (s₀.run_all cmds).m_bitfields, ∀ j, j < p.2.m_size →
        (word ((p.2.m_addr + j) / 32)).testBit ((p.2.m_addr + j) % 32) =
          p.2.m_value.testBit j) ∧
      ∀ k, s₀.m_total_bits ≤ k → k < 32 * ((s₀.m_total_bits + 31) / 32) →
        (word (k / 32)).testBit (k % 32) = false := by
  have hk := run_all_keeps cmds s₀
  have hs := run_all_serializable hnew cmds
  have ht := hk.total
  obtain ⟨data, hrun, hlen, hbytes, hbits⟩ := write_word (s₀.run_all cmds) fuel options hs
    (by rw [ht]; exact hbound) hformat (by rw [keeps_length hk]; exact hfuel)
  rw [ht] at hrun hlen
  obtain ⟨hin, hout⟩ := image_bit_descriptor hs
  have hword : ∀ k, k < 32 * ((s₀.m_total_bits + 31) / 32) →
      (word_at data (k / 32)).testBit (k % 32) = image_bit (s₀.run_all cmds).m_bitfields k := by
    intro k hk'
    have h := (word_at_bits hbytes (by omega : 4 * (k / 32) + 3 < data.length)).2 (k % 32)
      (Nat.mod_lt _ (by norm_num))
    rw [h, hbits]
    congr 1
    omega
  refine ⟨word_at data, ?_, ?_, ?_, ?_⟩
  · rw [hrun]
    congr 6
    apply List.map_congr_left
    intro i hi
    rw [List.mem_range] at hi
    rw [word_suffix_eq _ _ _ hi (by omega)]
  · intro i hi
    exact (word_at_bits hbytes (by omega)).1
  · intro p hp j hj
    obtain ⟨hlt, himg⟩ := hin p hp j hj
    rw [ht] at hlt
    rw [hword _ (by omega), himg]
  · intro k hk1 hk2
    rw [hword k hk2]
    exact hout k (by rw [ht]; exact hk1)

/-- The WORD encoding on a session of 40 bits: with `0x12345678` assigned to the
32 bits of `a` and `0xAB` to the 8 bits of `b`, the session is written as two word lines, the
second of which ends with `(Valid LSBits: 8, Dummy MSBits: 24)`. -/
theorem word_encoding_witness :
    (ModelConfig_DEVICE.run_all forty_session
        [.set_attr [("instance", ""), ("name", "a"), ("value", "305419896")],
         .set_attr [("instance", ""), ("name", "b"), ("value", "171")]]).write 2
      [("format", "WORD")] true =
      some (none,
        ⟨some ("// Feature Bitstream: f\n// Model: m\n// Total Bits: 40\n// Timestamp:\n" ++
          "// Format: WORD\n12345678\n000000AB // (Valid LSBits: 8, Dummy MSBits: 24)\n"),
          none⟩) ∧
    ModelConfig_DEVICE.new "f" "m" (some forty_device) = .ok forty_session ∧
    ∃ word : Nat → Nat,
      (ModelConfig_DEVICE.run_all forty_session
          [.set_attr [("instance", ""), ("name", "a"), ("value", "305419896")],
           .set_attr [("instance", ""), ("name", "b"), ("value", "171")]]).write 2
        [("format", "WORD")] true =
        some (none,
          ⟨some (write_header (ModelConfig_DEVICE.run_all forty_session
              [.set_attr [("instance", ""), ("name", "a"), ("value", "305419896")],
               .set_attr [("instance", ""), ("name", "b"), ("value", "171")]]) "WORD" ++
            concat_text ((List.range ((forty_session.m_total_bits + 31) / 32)).map (fun i =>
              print_08X (word i) ++
                if i + 1 = (forty_session.m_total_bits + 31) / 32 ∧
                    forty_session.m_total_bits % 32 ≠ 0 then
                  " // (Valid LSBits: " ++ toString (forty_session.m_total_bits % 32) ++
                    ", Dummy MSBits: " ++ toString (32 - forty_session.m_total_bits % 32) ++ ")\n"
                else "\n"))), none⟩) ∧
      (∀ i, i < (forty_session.m_total_bits + 31) / 32 → word i < 4294967296) ∧
      (∀ p ∈ (ModelConfig_DEVICE.run_all forty_session
          [.set_attr [("instance", ""), ("name", "a"), ("value", "305419896")],
           .set_attr [("instance", ""), ("name", "b"), ("value", "171")]]).m_bitfields,
        ∀ j, j < p.2.m_size →
          (word ((p.2.m_addr + j) / 32)).testBit ((p.2.m_addr + j) % 32) =
            p.2.m_value.testBit j) ∧
      ∀ k, forty_session.m_total_bits ≤ k → k < 32 * ((forty_session.m_total_bits + 31) / 32) →
        (word (k / 32)).testBit (k % 32) = false :=
  ⟨by decide, rfl,
    word_encoding "f" "m" (some forty_device) forty_session _ 2 [("format", "WORD")] rfl
      (by decide) rfl (by decide)⟩

/-- C16, as stated, fails for the sample session: the header has five lines,
the fourth of which is the timestamp line; the fifth line of the TCL output is
the format line and the model-binding command is the sixth. -/
theorem header_counterexample :
    ∃ text, sample_session.write 3 [("format", "TCL")] true = some (none, ⟨some text, none⟩) ∧
      (text_lines text)[3]? = some "// Timestamp:" ∧
      (text_lines text)[4]? = some "// Format: TCL" ∧
      (text_lines text)[5]? = some "model_config set_model -feature f m" :=
  ⟨"// Feature Bitstream: f\n// Model: m\n// Total Bits: 16\n// Timestamp:\n" ++
      "// Format: TCL\nmodel_config set_model -feature f m\n" ++
      "model_config set_attr -instance  -name a -value 0\n" ++
      "model_config set_attr -instance  -name b -value 0\n" ++
      "model_config set_attr -instance I -name x -value 0\n",
    rfl, rfl, rfl, rfl⟩

/-- C16, amended: for each of the formats BIT, WORD, DETAIL and TCL, for every
session that a sequence of commands leaves of a constructed session whose
feature and model names hold no line feed, `write` succeeds when the file can
be opened, and its output starts with a header of exactly five lines: feature
name, model name, total bit count, a timestamp line without a time, and format
name, in that order.  For TCL the model-binding command is the sixth line;
what the format writes beyond that starts after these lines. -/
theorem text_header (feature model : String) (dev : Option device) (s₀ : ModelConfig_DEVICE)
    (cmds : List Command) (fuel : Nat) (options : List (String × String)) (format : String)
    (hnew : ModelConfig_DEVICE.new feature model dev = .ok s₀)
    (hfeature : ∀ c ∈ feature.data, c ≠ '\n') (hmodel : ∀ c ∈ model.data, c ≠ '\n')
    (hformat : options_at options "format" = some format)
    (htext : format = "BIT" ∨ format = "WORD" ∨ format = "DETAIL" ∨ format = "TCL")
    (hfuel : s₀.m_bitfields.length ≤ fuel) :
    ∃ text body, (s₀.run_all cmds).write fuel options true = some (none, ⟨some text, none⟩) ∧
      text_lines text =
        ("// Feature Bitstream: " ++ feature) :: ("// Model: " ++ model) ::
          ("// Total Bits: " ++ print_d s₀.m_total_bits) :: "// Timestamp:" ::
          ("// Format: " ++ format) ::
          ((if format = "TCL" then
              ["model_config set_model -feature " ++ feature ++ " " ++ model]
            else []) ++ text_lines body) := by
  have hk := run_all_keeps cmds s₀
  have hs := run_all_serializable hnew cmds
  have hf : (s₀.run_all cmds).m_feature = feature := by rw [hk.feature, (new_names hnew).1]
  have hm : (s₀.run_all cmds).m_model = model := by rw [hk.model, (new_names hnew).2]
  have hfuel' : (s₀.run_all cmds).m_bitfields.length ≤ fuel := by
    rw [keeps_length hk]; exact hfuel
  have hfmt : ∀ c ∈ format.data, c ≠ '\n' := by
    rcases htext with rfl | rfl | rfl | rfl <;> decide
  have hlines : ∀ body, text_lines (write_header (s₀.run_all cmds) format ++ body) =
      ("// Feature Bitstream: " ++ feature) :: ("// Model: " ++ model) ::
        ("// Total Bits: " ++ print_d s₀.m_total_bits) :: "// Timestamp:" ::
        ("// Format: " ++ format) ::
        ((if format = "TCL" then
            ["model_config set_model -feature " ++ feature ++ " " ++ model]
          else []) ++ text_lines body) := by
    intro body
    have h := header_lines (s₀.run_all cmds) format body (by rw [hf]; exact hfeature)
      (by rw [hm]; exact hmodel) hfmt
    rw [hf, hm, hk.total] at h
    exact h
  have hbuffer : ((format = "DETAIL" ∨ format = "TCL") ∨
      4294967264 < (s₀.run_all cmds).m_total_bits) →
      ∃ body, (s₀.run_all cmds).write fuel options true =
        some (none, ⟨some (write_header (s₀.run_all cmds) format ++ body), none⟩) := by
    intro hd
    obtain ⟨body, hrun, _⟩ := write_without_buffer (s₀.run_all cmds) fuel options format hs
      hformat (by tauto) hd hfuel'
    have hne : format ≠ "BIN" := by
      rcases htext with rfl | rfl | rfl | rfl <;> decide
    rw [if_pos hne] at hrun
    exact ⟨body, hrun⟩
  have hall : ∃ body, (s₀.run_all cmds).write fuel options true =
      some (none, ⟨some (write_header (s₀.run_all cmds) format ++ body), none⟩) := by
    by_cases hb : (s₀.run_all cmds).m_total_bits ≤ 4294967264
    · rcases htext with rfl | rfl | rfl | rfl
      · exact write_bit _ fuel options hs hb hformat hfuel'
      · obtain ⟨data, hrun, _⟩ := write_word _ fuel options hs hb hformat hfuel'
        exact ⟨_, hrun⟩
      · exact hbuffer (Or.inl (Or.inl rfl))
      · exact hbuffer (Or.inl (Or.inr rfl))
    · exact hbuffer (Or.inr (by omega))
  obtain ⟨body, hrun⟩ := hall
  exact ⟨_, body, hrun, hlines body⟩

/-- Witness of C16: the format DETAIL on the sample session. -/
theorem text_header_witness :
    ModelConfig_DEVICE.new "f" "m" (some sample_device) = .ok sample_session ∧
    ∃ text body,
      (ModelConfig_DEVICE.run_all sample_session
          [.set_attr [("instance", "I"), ("name", "x"), ("value", "129")]]).write 3
        [("format", "DETAIL")] true = some (none, ⟨some text, none⟩) ∧
      text_lines text =
        ("// Feature Bitstream: " ++ "f") :: ("// Model: " ++ "m") ::
          ("// Total Bits: " ++ print_d sample_session.m_total_bits) :: "// Timestamp:" ::
          ("// Format: " ++ "DETAIL") ::
          ((if "DETAIL" = "TCL" then
              ["model_config set_model -feature " ++ "f" ++ " " ++ "m"]
            else []) ++ text_lines body) :=
  ⟨rfl,
    text_header "f" "m" (some sample_device) sample_session _ 3 [("format", "DETAIL")] "DETAIL"
      rfl (by decide) (by decide) rfl (by decide) (by decide)⟩

/-- C17: for every session that a sequence of commands leaves of a constructed
session, `write` with the format TCL succeeds when the file can be opened, and
its output is the five lines of the header, then one model-binding command
with the feature and the model of the session, then one `set_attr` command for
each descriptor, in the ascending order of the global offsets; the instance on
the line of a descriptor is its user alias if that is not empty and its block
name otherwise, and the line carries its attribute name and its current value,
as `%d` prints it. -/
theorem tcl_encoding (feature model : String) (dev : Option device) (s₀ : ModelConfig_DEVICE)
    (cmds : List Command) (fuel : Nat) (options : List (String × String))
    (hnew : ModelConfig_DEVICE.new feature model dev = .ok s₀)
    (hformat : options_at options "format" = some "TCL")
    (hfuel : s₀.m_bitfields.length ≤ fuel) :
    (s₀.run_all cmds).write fuel options true =
      some (none,
        ⟨some ("// Feature Bitstream: " ++ feature ++ "\n" ++
            ("// Model: " ++ model ++ "\n") ++
            ("// Total Bits: " ++ print_d s₀.m_total_bits ++ "\n") ++
            "// Timestamp:\n" ++ "// Format: TCL\n" ++
            ("model_config set_model -feature " ++ feature ++ " " ++ model ++ "\n") ++
            concat_text ((s₀.run_all cmds).m_bitfields.map (fun p =>
              "model_config set_attr -instance " ++
                (if p.2.m_user_name ≠ "" then p.2.m_user_name else p.2.m_block_name) ++
                " -name " ++ p.2.m_name ++ " -value " ++ print_d p.2.m_value ++ "\n"))),
          none⟩) ∧
    (s₀.run_all cmds).m_bitfields.Pairwise (fun p q => p.2.m_addr < q.2.m_addr) := by
  have hk := run_all_keeps cmds s₀
  have hs := run_all_serializable hnew cmds
  have hf : (s₀.run_all cmds).m_feature = feature := by rw [hk.feature, (new_names hnew).1]
  have hm : (s₀.run_all cmds).m_model = model := by rw [hk.model, (new_names hnew).2]
  obtain ⟨body, hrun, hbody⟩ := write_without_buffer (s₀.run_all cmds) fuel options "TCL" hs
    hformat (by decide) (Or.inl (Or.inr rfl)) (by rw [keeps_length hk]; exact hfuel)
  constructor
  · rw [hrun, hbody (by decide)]
    have hline : (fun p : Nat × ModelConfig_BITFIELD => tcl_line p.2) = (fun p =>
        "model_config set_attr -instance " ++
          (if p.2.m_user_name ≠ "" then p.2.m_user_name else p.2.m_block_name) ++
          " -name " ++ p.2.m_name ++ " -value " ++ print_d p.2.m_value ++ "\n") := by
      funext p
      unfold tcl_line
      rw [tcl_instance_eq]
    rw [hline]
    unfold write_header
    rw [hf, hm, hk.total]
    rfl
  · refine (chained_ordered _ _ _ hs.chain).imp_of_mem ?_
    intro p q hp _ hpq
    have := chained_mem _ _ _ hs.chain p hp
    omega

/-- Witness of C17: the sample session after 129 was assigned to `x` of the
block `i`, which has the alias `I`; the value of `x` is printed as 129. -/
theorem tcl_encoding_witness :
    (ModelConfig_DEVICE.run_all sample_session
        [.set_attr [("instance", "I"), ("name", "x"), ("value", "129")]]).write 3
      [("format", "TCL")] true =
      some (none,
        ⟨some ("// Feature Bitstream: f\n// Model: m\n// Total Bits: 16\n// Timestamp:\n" ++
          "// Format: TCL\nmodel_config set_model -feature f m\n" ++
          "model_config set_attr -instance  -name a -value 0\n" ++
          "model_config set_attr -instance  -name b -value 0\n" ++
          "model_config set_attr -instance I -name x -value 129\n"), none⟩) ∧
    ModelConfig_DEVICE.new "f" "m" (some sample_device) = .ok sample_session ∧
    (ModelConfig_DEVICE.run_all sample_session
        [.set_attr [("instance", "I"), ("name", "x"), ("value", "129")]]).write 3
      [("format", "TCL")] true =
      some (none,
        ⟨some ("// Feature Bitstream: " ++ "f" ++ "\n" ++
            ("// Model: " ++ "m" ++ "\n") ++
            ("// Total Bits: " ++ print_d sample_session.m_total_bits ++ "\n") ++
            "// Timestamp:\n" ++ "// Format: TCL\n" ++
            ("model_config set_model -feature " ++ "f" ++ " " ++ "m" ++ "\n") ++
            concat_text ((ModelConfig_DEVICE.run_all sample_session
              [.set_attr [("instance", "I"), ("name", "x"), ("value", "129")]]).m_bitfields.map
              (fun p =>
                "model_config set_attr -instance " ++
                  (if p.2.m_user_name ≠ "" then p.2.m_user_name else p.2.m_block_name) ++
                  " -name " ++ p.2.m_name ++ " -value " ++ print_d p.2.m_value ++ "\n"))),
          none⟩) ∧
    (ModelConfig_DEVICE.run_all sample_session
      [.set_attr [("instance", "I"), ("name", "x"), ("value", "129")]]).m_bitfields.Pairwise
      (fun p q => p.2.m_addr < q.2.m_addr) :=
  ⟨rfl, rfl,
    tcl_encoding "f" "m" (some sample_device) sample_session _ 3 [("format", "TCL")] rfl rfl
      (by decide)⟩

/-! ## Entries of the API catalog -/

theorem string_map_find_assign {α : Type} (key k : String) (value : α) :
    ∀ (m : List (String × α)),
      (string_map_assign key value m).find? (fun p => p.1 == k) =
        if key = k then some (key, value) else m.find? (fun p => p.1 == k) := by
  intro m
  induction m with
  | nil =>
    by_cases h : key = k
    · simp [string_map_assign, h]
    · simp [string_map_assign, h]
  | cons x xs ih =>
    unfold string_map_assign
    by_cases h1 : key < x.1
    · rw [if_pos h1]
      by_cases h : key = k
      · simp [h]
      · simp [h]
    · rw [if_neg h1]
      by_cases h2 : key = x.1
      · rw [if_pos h2]
        by_cases h : key = k
        · simp [h]
        · have hx : ¬ x.1 = k := by rw [← h2]; exact h
          simp [h, hx]
      · rw [if_neg h2]
        by_cases h : key = k
        · have hx : ¬ x.1 = k := by rw [← h]; exact fun e => h2 e.symm
          rw [List.find?_cons_of_neg _ (by simpa using hx), ih, if_pos h, if_pos h]
        · rw [if_neg h]
          by_cases hx : x.1 = k
          · simp [hx]
          · rw [List.find?_cons_of_neg _ (by simpa using hx),
              List.find?_cons_of_neg _ (by simpa using hx), ih, if_neg h]

/-- An entry whose only key is `instance`, with a string under it, is
accepted by the loop of `add_api_setting`. -/
theorem add_api_entries_instance (v : String) (rest : List Json) (set : ModelConfig_API_SETTING) :
    add_api_entries (.object [("instance", .string v)] :: rest) set =
      add_api_entries rest (entry_effect (.object [("instance", .string v)]) set) := by
  rw [add_api_entries]
  simp [Json.is_object, Json.contains, check_json_setting, Json.is_string, entry_effect]

/-- An entry with the keys `attr` and `value`, in either order, with
non-empty strings under them, is accepted by the loop of `add_api_setting`. -/
theorem add_api_entries_pair (members : List (String × Json)) (a v : String)
    (hm : members = [("attr", .string a), ("value", .string v)] ∨
      members = [("value", .string v), ("attr", .string a)])
    (ha : a ≠ "") (hv : v ≠ "") (rest : List Json) (set : ModelConfig_API_SETTING) :
    add_api_entries (.object members :: rest) set =
      add_api_entries rest (entry_effect (.object members) set) := by
  have hna := utf8ByteSize_ne_zero ha
  have hnv := utf8ByteSize_ne_zero hv
  rw [add_api_entries]
  rcases hm with rfl | rfl
  · simp [Json.is_object, Json.contains, check_json_setting, Json.is_string, entry_effect,
      Json.get, Json.to_string, ModelConfig_API_ATTRIBUTE.new, hna, hnv]
  · simp [Json.is_object, Json.contains, check_json_setting, Json.is_string, entry_effect,
      Json.get, Json.to_string, ModelConfig_API_ATTRIBUTE.new, hna, hnv]

/-- The shape of an entry with distinct keys and non-empty strings whose key
set is accepted. -/
theorem entry_accepted_shape (members : List (String × Json))
    (hvalues : ∀ m ∈ members, ∃ v, m.2 = .string v ∧ v ≠ "")
    (h : entry_accepted members) :
    (∃ v, members = [("instance", .string v)]) ∨
    ∃ a v, a ≠ "" ∧ v ≠ "" ∧ (members = [("attr", .string a), ("value", .string v)] ∨
      members = [("value", .string v), ("attr", .string a)]) := by
  rcases h with h | h
  · left
    have h1 := List.perm_singleton.mp h
    match members, hvalues, h1 with
    | [(k, j)], hvalues, h1 =>
      obtain ⟨v, hv, _⟩ := hvalues (k, j) (List.mem_singleton.mpr rfl)
      simp only [List.map_cons, List.map_nil, List.cons.injEq, and_true] at h1
      simp only at hv
      exact ⟨v, by rw [h1, hv]⟩
  · right
    have hlen := h.length_eq
    match members, hvalues, h, hlen with
    | [(k1, j1), (k2, j2)], hvalues, h, _ =>
      obtain ⟨v1, hv1, hn1⟩ := hvalues (k1, j1) (by simp)
      obtain ⟨v2, hv2, hn2⟩ := hvalues (k2, j2) (by simp)
      simp only at hv1 hv2
      subst hv1 hv2
      have ha : "attr" ∈ [k1, k2] := h.symm.subset (by simp)
      have hv : "value" ∈ [k1, k2] := h.symm.subset (by simp)
      simp only [List.mem_cons, List.mem_singleton, List.not_mem_nil, or_false] at ha hv
      rcases ha with ha | ha <;> rcases hv with hv | hv
      · rw [← ha] at hv; exact absurd hv (by decide)
      · exact ⟨v1, v2, hn1, hn2, Or.inl (by rw [← ha, ← hv])⟩
      · exact ⟨v2, v1, hn2, hn1, Or.inr (by rw [← ha, ← hv])⟩
      · rw [← ha] at hv; exact absurd hv (by decide)

/-- An entry with distinct keys and string values whose key set is not
accepted fails the loop of `add_api_setting` with `ValidationError`. -/
theorem add_api_entries_rejected (members : List (String × Json))
    (hkeys : (members.map Prod.fst).Nodup)
    (h : ¬ entry_accepted members) (rest : List Json) (set : ModelConfig_API_SETTING) :
    add_api_entries (.object members :: rest) set = (some .ValidationError, set) := by
  rw [add_api_entries]
  simp only [Json.is_object, not_true_eq_false, if_false]
  by_cases hc : (Json.object members).contains "instance" = true
  · rw [if_pos hc]
    have hcheck : check_json_setting (.object members) ["instance"] = some .ValidationError := by
      unfold check_json_setting
      simp only
      by_cases hl : members.length ≠ ["instance"].length
      · rw [if_pos hl]
      · exfalso
        apply h
        left
        match members, hc, hl with
        | [(k, j)], hc, _ =>
          simp only [Json.contains, List.any_cons, List.any_nil, Bool.or_false, beq_iff_eq] at hc
          rw [hc]
          exact List.Perm.refl _
        | [], hc, _ => simp [Json.contains] at hc
        | _ :: _ :: _, _, hl => simp at hl
    rw [hcheck]
  · rw [if_neg hc]
    have hcheck : check_json_setting (.object members) ["attr", "value"] =
        some .ValidationError := by
      unfold check_json_setting
      simp only
      by_cases hl : members.length ≠ ["attr", "value"].length
      · rw [if_pos hl]
      · rw [if_neg hl]
        by_cases hall : members.all (fun m => ["attr", "value"].contains m.1 && m.2.is_string) = true
        · exfalso
          apply h
          right
          match members, hkeys, hall, hl with
          | [(k1, j1), (k2, j2)], hkeys, hall, _ =>
            simp only [List.all_cons, List.all_nil, Bool.and_true, Bool.and_eq_true,
              List.contains_iff_exists_mem_beq, List.mem_cons, List.mem_singleton,
              List.not_mem_nil, or_false, beq_iff_eq, exists_eq_or_imp, exists_eq_left] at hall
            simp only [List.map_cons, List.map_nil, List.nodup_cons, List.mem_singleton,
              List.not_mem_nil, not_false_eq_true, List.nodup_nil, and_true] at hkeys
            obtain ⟨⟨h1, _⟩, ⟨h2, _⟩⟩ := hall
            simp only [List.map_cons, List.map_nil]
            rcases h1 with h1 | h1 <;> rcases h2 with h2 | h2
            · exact absurd (h1.trans h2.symm) hkeys
            · rw [h1, h2]
            · rw [h1, h2]; exact List.Perm.swap _ _ _
            · exact absurd (h1.trans h2.symm) hkeys
          | [], _, _, hl => simp at hl
          | [_], _, _, hl => simp at hl
          | _ :: _ :: _ :: _, _, _, hl => simp at hl
        · rw [if_neg hall]
    rw [hcheck]

/-- The loop of `add_api_setting` at an entry with distinct keys and non-empty
string values. -/
theorem add_api_entries_step (members : List (String × Json))
    (hkeys : (members.map Prod.fst).Nodup)
    (hvalues : ∀ m ∈ members, ∃ v, m.2 = .string v ∧ v ≠ "")
    (rest : List Json) (set : ModelConfig_API_SETTING) :
    (entry_accepted members →
      add_api_entries (.object members :: rest) set =
        add_api_entries rest (entry_effect (.object members) set)) ∧
    (¬ entry_accepted members →
      add_api_entries (.object members :: rest) set = (some .ValidationError, set)) := by
  constructor
  · intro h
    rcases entry_accepted_shape members hvalues h with ⟨v, rfl⟩ | ⟨a, v, ha, hv, hm⟩
    · exact add_api_entries_instance v rest set
    · exact add_api_entries_pair members a v hm ha hv rest set
  · intro h
    exact add_api_entries_rejected members hkeys h rest set

/-! ## Settings and groups of the API catalog -/

/-- The setting that the loop of `add_api_setting` builds when it succeeds:
the equation of the last `instance` entry, or the one it started with, and the
pairs of the other entries after those it started with. -/
theorem add_api_entries_ok : ∀ (elements : List Json) (set set' : ModelConfig_API_SETTING),
    add_api_entries elements set = (none, set') →
      set' =
        ⟨(((elements.filter (fun e => e.contains "instance")).getLast?).map
            (fun e => ((e.get "instance").getD .null).to_string)).getD set.m_instance_equation,
          set.m_attributes ++ (elements.filter (fun e => ¬ e.contains "instance")).map
            (fun e => ⟨((e.get "attr").getD .null).to_string,
              ((e.get "value").getD .null).to_string⟩)⟩ := by
  intro elements
  induction elements with
  | nil =>
    intro set set' h
    rw [add_api_entries] at h
    cases h
    simp
  | cons e rest ih =>
    intro set set' h
    rw [add_api_entries] at h
    by_cases ho : ¬ e.is_object = true
    · rw [if_pos ho] at h; cases h
    rw [if_neg ho] at h
    by_cases hc : e.contains "instance" = true
    · rw [if_pos hc] at h
      cases hk : check_json_setting e ["instance"] with
      | some err => rw [hk] at h; cases h
      | none =>
        rw [hk] at h
        simp only at h
        rw [ih _ _ h]
        simp only [List.filter_cons, hc, if_true, not_true_eq_false, decide_False,
          Bool.false_eq_true, if_false]
        congr 1
        rw [List.getLast?_cons]
        cases (rest.filter (fun e => e.contains "instance")).getLast? <;> rfl
    · rw [if_neg hc] at h
      cases hk : check_json_setting e ["attr", "value"] with
      | some err => rw [hk] at h; cases h
      | none =>
        rw [hk] at h
        simp only at h
        cases hn : ModelConfig_API_ATTRIBUTE.new ((e.get "attr").getD .null).to_string
            ((e.get "value").getD .null).to_string with
        | error err => rw [hn] at h; cases h
        | ok attr =>
          rw [hn] at h
          simp only at h
          have hattr : attr = ⟨((e.get "attr").getD .null).to_string,
              ((e.get "value").getD .null).to_string⟩ := by
            unfold ModelConfig_API_ATTRIBUTE.new at hn
            split_ifs at hn
            cases hn
            rfl
          rw [ih _ _ h, hattr]
          simp only [List.filter_cons, hc, Bool.false_eq_true, if_false, not_false_eq_true,
            decide_True, if_true, List.map_cons, List.append_assoc, List.singleton_append]

theorem get_setting_assign (api : ModelConfig_API) (key name : String)
    (set : ModelConfig_API_SETTING) :
    ModelConfig_API.get_setting { api with m_setting := string_map_assign key set api.m_setting }
        name =
      if key = name then some set else api.get_setting name := by
  unfold ModelConfig_API.get_setting
  simp only
  rw [string_map_find_assign]
  by_cases h : key = name
  · rw [if_pos h, if_pos h]; rfl
  · rw [if_neg h, if_neg h]

/-- What a successful `add_api_setting` has done. -/
theorem add_api_setting_ok {api api' : ModelConfig_API} {setting : String} {json : Json}
    (h : add_api_setting api setting json = (none, api')) :
    api.get_setting setting = none ∧
      ∃ elements, json = .array elements ∧ elements ≠ [] ∧
        api' = { api with
          m_setting := string_map_assign setting (setting_of_entries elements) api.m_setting } := by
  unfold add_api_setting at h
  cases json with
  | array elements =>
    simp only at h
    by_cases hl : elements.length = 0
    · rw [if_pos hl] at h; cases h
    rw [if_neg hl] at h
    by_cases hs : (api.get_setting setting).isSome = true
    · rw [if_pos hs] at h; cases h
    rw [if_neg hs] at h
    cases hrun : add_api_entries elements ⟨"", []⟩ with
    | mk e set =>
      rw [hrun] at h
      simp only [Prod.mk.injEq] at h
      obtain ⟨he, hapi⟩ := h
      subst he
      have hset := add_api_entries_ok elements _ _ hrun
      simp only [List.nil_append] at hset
      refine ⟨by simpa using hs, elements, rfl, ?_, ?_⟩
      · intro hnil
        apply hl
        rw [hnil]
        rfl
      · rw [← hapi, hset]
        rfl
  | null => cases h
  | bool b => cases h
  | number n => cases h
  | string v => cases h
  | object o => cases h

/-- The settings of a group after the loop of `add_api` has succeeded: the
settings of the document, none of which the group had before, and the settings
that the group had before. -/
theorem add_api_settings_ok : ∀ (members : List (String × Json)) (api api' : ModelConfig_API),
    add_api_settings members api = (none, api') →
      api'.m_name = api.m_name ∧
      ∀ name,
        (members.find? (fun m => m.1 == name) = none →
          api'.get_setting name = api.get_setting name) ∧
        (∀ m, members.find? (fun m => m.1 == name) = some m →
          api.get_setting name = none ∧
            ∃ elements, m.2 = .array elements ∧ elements ≠ [] ∧
              api'.get_setting name = some (setting_of_entries elements)) := by
  intro members
  induction members with
  | nil =>
    intro api api' h
    rw [add_api_settings] at h
    cases h
    exact ⟨rfl, fun name => ⟨fun _ => rfl, fun m hm => by cases hm⟩⟩
  | cons x rest ih =>
    intro api api' h
    obtain ⟨key, value⟩ := x
    rw [add_api_settings] at h
    cases hstep : add_api_setting api key value with
    | mk e api1 =>
      rw [hstep] at h
      cases e with
      | some err => cases h
      | none =>
        simp only at h
        obtain ⟨hnew, elements, hvalue, hne, hapi1⟩ := add_api_setting_ok hstep
        obtain ⟨hname, hrest⟩ := ih api1 api' h
        have hget : ∀ name, api1.get_setting name =
            if key = name then some (setting_of_entries elements) else api.get_setting name := by
          intro name
          rw [hapi1]
          exact get_setting_assign api key name _
        refine ⟨by rw [hname, hapi1], ?_⟩
        intro name
        obtain ⟨hr1, hr2⟩ := hrest name
        by_cases hk : key = name
        · subst hk
          have hfind : List.find? (fun m => m.1 == key) ((key, value) :: rest) =
              some (key, value) := by simp
          rw [hfind]
          refine ⟨fun hn => (by cases hn), ?_⟩
          intro m hm
          cases hm
          refine ⟨hnew, elements, hvalue, hne, ?_⟩
          cases hf : rest.find? (fun m => m.1 == key) with
          | none => rw [hr1 hf, hget, if_pos rfl]
          | some m' =>
            have := (hr2 m' hf).1
            rw [hget, if_pos rfl] at this
            cases this
        · have hfind : List.find? (fun m => m.1 == name) ((key, value) :: rest) =
              rest.find? (fun m => m.1 == name) :=
            List.find?_cons_of_neg _ (by simpa using hk)
          rw [hfind]
          have hsame : api1.get_setting name = api.get_setting name := by
            rw [hget, if_neg hk]
          constructor
          · intro hn
            rw [hr1 hn, hsame]
          · intro m hm
            obtain ⟨h1, h2⟩ := hr2 m hm
            exact ⟨by rw [← hsame]; exact h1, h2⟩

/-- What a successful `add_api` has done: the group of the document, built
from an empty group, is in the catalog under its name. -/
theorem add_api_ok {s s' : ModelConfig_DEVICE} {api : String} {json : Json}
    (h : s.add_api api json = (none, s')) :
    ∃ members group, json = .object members ∧ members ≠ [] ∧
      add_api_settings members ⟨api, []⟩ = (none, group) ∧
      s' = { s with m_api := string_map_assign api group s.m_api } := by
  unfold ModelConfig_DEVICE.add_api at h
  cases json with
  | object members =>
    simp only at h
    by_cases hl : members.length = 0
    · rw [if_pos hl] at h; cases h
    rw [if_neg hl] at h
    by_cases hn : api.utf8ByteSize = 0
    · rw [if_pos hn] at h; cases h
    rw [if_neg hn] at h
    cases hrun : add_api_settings members ⟨api, []⟩ with
    | mk e group =>
      rw [hrun] at h
      simp only [Prod.mk.injEq] at h
      obtain ⟨he, hs⟩ := h
      subst he
      refine ⟨members, group, rfl, ?_, hrun, hs.symm⟩
      intro hnil
      apply hl
      rw [hnil]
      rfl
  | null => cases h
  | bool b => cases h
  | number n => cases h
  | string v => cases h
  | array o => cases h

/-- The catalog after a successful `add_api`: under the name of the group,
exactly the settings of the document; under every other name, the group that
was there. -/
theorem add_api_catalog {s s' : ModelConfig_DEVICE} {api : String} {json : Json}
    (h : s.add_api api json = (none, s')) :
    ∃ members group, json = .object members ∧ members ≠ [] ∧ s'.get_api api = some group ∧
      group.m_name = api ∧
      (∀ name, group.get_setting name = setting_of_document members name) ∧
      (∀ name elements, members.find? (fun m => m.1 == name) = some (name, .array elements) →
        elements ≠ []) ∧
      (∀ name m, members.find? (fun m => m.1 == name) = some m → ∃ elements,
        m = (name, .array elements)) ∧
      (∀ other, other ≠ api → s'.get_api other = s.get_api other) ∧
      s' = { s with m_api := s'.m_api } := by
  obtain ⟨members, group, hjson, hne, hrun, hs⟩ := add_api_ok h
  obtain ⟨hname, hsettings⟩ := add_api_settings_ok members _ _ hrun
  have hshape : ∀ name m, members.find? (fun m => m.1 == name) = some m → ∃ elements,
      m = (name, .array elements) ∧ elements ≠ [] ∧
        group.get_setting name = some (setting_of_entries elements) := by
    intro name m hm
    obtain ⟨_, elements, hv, hnn, hg⟩ := (hsettings name).2 m hm
    have hkey : m.1 = name := by
      have := List.find?_some hm
      simpa using this
    refine ⟨elements, ?_, hnn, hg⟩
    rw [← hkey, ← hv]
  refine ⟨members, group, hjson, hne, ?_, hname, ?_, ?_, ?_, ?_, ?_⟩
  · rw [hs]
    unfold ModelConfig_DEVICE.get_api
    simp only
    rw [string_map_find_assign, if_pos rfl]
    rfl
  · intro name
    unfold setting_of_document
    cases hf : members.find? (fun m => m.1 == name) with
    | none =>
      rw [(hsettings name).1 hf]
      rfl
    | some m =>
      obtain ⟨elements, hm, _, hg⟩ := hshape name m hf
      rw [hg, hm]
  · intro name elements hf
    obtain ⟨elements', hm, hnn, _⟩ := hshape name _ hf
    cases hm
    exact hnn
  · intro name m hf
    obtain ⟨elements, hm, _, _⟩ := hshape name m hf
    exact ⟨elements, hm⟩
  · intro other ho
    rw [hs]
    unfold ModelConfig_DEVICE.get_api
    simp only
    rw [string_map_find_assign, if_neg (fun e => ho e.symm)]
  · rw [hs]

theorem string_map_assign_head {α : Type} (key : String) (value old : α)
    (rest : List (String × α)) :
    string_map_assign key value ((key, old) :: rest) = (key, value) :: rest := by
  unfold string_map_assign
  rw [if_neg (lt_irrefl key), if_pos rfl]

/-- The result of `add_api` for a document with at least one setting and a
non-empty group name, from the result of its loop over the settings. -/
theorem add_api_eq (s : ModelConfig_DEVICE) (api : String) (members : List (String × Json))
    (e : Option CfgError) (group : ModelConfig_API) (hl : members.length ≠ 0)
    (hn : api.utf8ByteSize ≠ 0) (hrun : add_api_settings members ⟨api, []⟩ = (e, group)) :
    s.add_api api (.object members) =
      (e, { s with m_api := string_map_assign api group s.m_api }) := by
  unfold ModelConfig_DEVICE.add_api
  simp only [if_neg hl, if_neg hn, hrun]

/-! ## Claims about the API catalog -/

/-- C21: for an entry of the array of a setting that is a JSON object with
distinct keys and non-empty strings as values, `add_api` of a non-empty group
name accepts the entry if and only if its key set is exactly `instance` or
exactly `attr` and `value`, and fails with `ValidationError` for every other
key set; this holds of the document whose only entry it is and of the entry at
any place of an array, where an accepted entry adds its equation or its pair
to the setting and the loop goes on. -/
theorem api_entry_validation (s : ModelConfig_DEVICE) (group setting : String)
    (members : List (String × Json)) (hgroup : group ≠ "")
    (hkeys : (members.map Prod.fst).Nodup)
    (hvalues : ∀ m ∈ members, ∃ v, m.2 = .string v ∧ v ≠ "") :
    ((s.add_api group (.object [(setting, .array [.object members])])).1 = none ↔
      entry_accepted members) ∧
    (¬ entry_accepted members →
      (s.add_api group (.object [(setting, .array [.object members])])).1 =
        some .ValidationError) ∧
    ∀ (rest : List Json) (set : ModelConfig_API_SETTING),
      (entry_accepted members →
        add_api_entries (.object members :: rest) set =
          add_api_entries rest (entry_effect (.object members) set)) ∧
      (¬ entry_accepted members →
        add_api_entries (.object members :: rest) set = (some .ValidationError, set)) := by
  have hstep := add_api_entries_step members hkeys hvalues
  have hn := utf8ByteSize_ne_zero hgroup
  have hrun : (s.add_api group (.object [(setting, .array [.object members])])).1 =
      (add_api_entries [.object members] ⟨"", []⟩).1 := by
    unfold ModelConfig_DEVICE.add_api
    simp only [List.length_singleton, Nat.add_one_ne_zero, if_false, hn, add_api_settings,
      add_api_setting, ModelConfig_API.get_setting, List.find?_nil, Option.map_none',
      Option.isSome_none, Bool.false_eq_true]
    cases add_api_entries [Json.object members] ⟨"", []⟩ with
    | mk e set => cases e <;> rfl
  have hyes : entry_accepted members →
      (s.add_api group (.object [(setting, .array [.object members])])).1 = none := by
    intro h
    rw [hrun, (hstep [] _).1 h]
    rfl
  have hno : ¬ entry_accepted members →
      (s.add_api group (.object [(setting, .array [.object members])])).1 =
        some .ValidationError := by
    intro h
    rw [hrun, (hstep [] _).2 h]
  refine ⟨⟨?_, hyes⟩, hno, hstep⟩
  intro h
  by_contra hacc
  rw [hno hacc] at h
  cases h

/-- Witness of C21: the entry with the keys `attr` and `value` is accepted;
the key sets `attr`, `value`, `attr` with `instance`, `attr` and `value` with
a third key, and the empty key set fail with `ValidationError`; the key set
`instance` is accepted. -/
theorem api_entry_validation_witness :
    ((sample_session.add_api "g" (.object [("s", .array [.object
        [("attr", .string "x")]])])).1 = some .ValidationError ∧
      (sample_session.add_api "g" (.object [("s", .array [.object
        [("value", .string "1")]])])).1 = some .ValidationError ∧
      (sample_session.add_api "g" (.object [("s", .array [.object
        [("attr", .string "x"), ("instance", .string "i")]])])).1 = some .ValidationError ∧
      (sample_session.add_api "g" (.object [("s", .array [.object
        [("attr", .string "x"), ("extra", .string "e"), ("value", .string "1")]])])).1 =
          some .ValidationError ∧
      (sample_session.add_api "g" (.object [("s", .array [.object []])])).1 =
        some .ValidationError ∧
      (sample_session.add_api "g" (.object [("s", .array [.object
        [("instance", .string "i")]])])).1 = none) ∧
    ((sample_session.add_api "g" (.object [("s", .array [.object
        [("attr", .string "x"), ("value", .string "1")]])])).1 = none ↔
      entry_accepted [("attr", .string "x"), ("value", .string "1")]) ∧
    (¬ entry_accepted [("attr", .string "x"), ("value", .string "1")] →
      (sample_session.add_api "g" (.object [("s", .array [.object
        [("attr", .string "x"), ("value", .string "1")]])])).1 = some .ValidationError) ∧
    ∀ (rest : List Json) (set : ModelConfig_API_SETTING),
      (entry_accepted [("attr", .string "x"), ("value", .string "1")] →
        add_api_entries (.object [("attr", .string "x"), ("value", .string "1")] :: rest) set =
          add_api_entries rest
            (entry_effect (.object [("attr", .string "x"), ("value", .string "1")]) set)) ∧
      (¬ entry_accepted [("attr", .string "x"), ("value", .string "1")] →
        add_api_entries (.object [("attr", .string "x"), ("value", .string "1")] :: rest) set =
          (some .ValidationError, set)) :=
  ⟨⟨by decide, by decide, by decide, by decide, by decide, by decide⟩,
    api_entry_validation sample_session "g" "s" [("attr", .string "x"), ("value", .string "1")]
      (by decide) (by decide)
      (by
        intro m hm
        simp only [List.mem_cons, List.mem_singleton, List.not_mem_nil, or_false] at hm
        rcases hm with rfl | rfl
        · exact ⟨"x", rfl, by decide⟩
        · exact ⟨"1", rfl, by decide⟩)⟩

/-- C22, as stated, fails for a setting whose array mixes the two kinds of
entry, which `add_api` stores with both an equation and an attribute pair, and
for a setting whose only entry is an empty equation, which it stores with
neither. -/
theorem mixed_setting_counterexample :
    (sample_session.add_api "g" (.object [("s", .array
        [.object [("instance", .string "eq")],
          .object [("attr", .string "x"), ("value", .string "1")]])])) =
      (none, { sample_session with m_api := [("g", ⟨"g", [("s", ⟨"eq", [⟨"x", "1"⟩]⟩)]⟩)] }) ∧
    (sample_session.add_api "g" (.object [("s", .array [.object [("instance", .string "")]])])) =
      (none, { sample_session with m_api := [("g", ⟨"g", [("s", ⟨"", []⟩)]⟩)] }) :=
  ⟨by decide, by decide⟩

/-- C22, amended: every setting that a successful `add_api` stores holds the
pairs of the `attr` and `value` entries of its array, in the order of the
document, and the equation of the last `instance` entry of its array, the
empty string when there is none; the array is not empty.  Hence a setting
whose array has no `instance` entry has no equation and a non-empty list of
pairs, the entries of the array in order, and a setting whose array has only
`instance` entries has no pair. -/
theorem stored_settings (s s' : ModelConfig_DEVICE) (api : String) (json : Json)
    (h : s.add_api api json = (none, s')) :
    ∃ members group, json = .object members ∧ s'.get_api api = some group ∧
      ∀ name set, group.get_setting name = some set →
        ∃ elements, members.find? (fun m => m.1 == name) = some (name, .array elements) ∧
          elements ≠ [] ∧ set = setting_of_entries elements ∧
          ((∀ e ∈ elements, e.contains "instance" = false) →
            set.m_instance_equation = "" ∧ set.m_attributes ≠ [] ∧
              set.m_attributes = elements.map (fun e =>
                ⟨((e.get "attr").getD .null).to_string,
                  ((e.get "value").getD .null).to_string⟩)) ∧
          ((∀ e ∈ elements, e.contains "instance" = true) → set.m_attributes = []) := by
  obtain ⟨members, group, hjson, _, hgroup, _, hsettings, hne, hshape, _, _⟩ := add_api_catalog h
  refine ⟨members, group, hjson, hgroup, ?_⟩
  intro name set hset
  rw [hsettings name] at hset
  unfold setting_of_document at hset
  cases hf : members.find? (fun m => m.1 == name) with
  | none => rw [hf] at hset; cases hset
  | some m =>
    obtain ⟨elements, hm⟩ := hshape name m hf
    subst hm
    rw [hf] at hset
    simp only [Option.some.injEq] at hset
    refine ⟨elements, rfl, hne name elements hf, hset.symm, ?_, ?_⟩
    · intro hall
      have hnone : elements.filter (fun e => e.contains "instance") = [] := by
        rw [List.filter_eq_nil_iff]
        intro e he
        rw [hall e he]
        decide
      have hsome : elements.filter (fun e => decide (¬ e.contains "instance" = true)) =
          elements := by
        rw [List.filter_eq_self]
        intro e he
        rw [hall e he]
        decide
      rw [← hset]
      unfold setting_of_entries
      simp only [hnone, hsome, List.getLast?_nil, Option.map_none', Option.getD_none, ne_eq,
        List.map_eq_nil_iff, true_and, and_true]
      exact hne name elements hf
    · intro hall
      have hnone : elements.filter (fun e => decide (¬ e.contains "instance" = true)) = [] := by
        rw [List.filter_eq_nil_iff]
        intro e he
        rw [hall e he]
        decide
      rw [← hset]
      unfold setting_of_entries
      simp only [hnone, List.map_nil]

/-- Witness of C22: a document with a setting of two pairs. -/
theorem stored_settings_witness :
    ∃ members group,
      Json.object [("fast", .array [.object [("attr", .string "x"), ("value", .string "1")],
          .object [("attr", .string "y"), ("value", .string "2")]])] = .object members ∧
      ModelConfig_DEVICE.get_api
        { sample_session with
          m_api := [("g", ⟨"g", [("fast", ⟨"", [⟨"x", "1"⟩, ⟨"y", "2"⟩]⟩)]⟩)] } "g" =
        some group ∧
      ∀ name set, group.get_setting name = some set →
        ∃ elements, members.find? (fun m => m.1 == name) = some (name, .array elements) ∧
          elements ≠ [] ∧ set = setting_of_entries elements ∧
          ((∀ e ∈ elements, e.contains "instance" = false) →
            set.m_instance_equation = "" ∧ set.m_attributes ≠ [] ∧
              set.m_attributes = elements.map (fun e =>
                ⟨((e.get "attr").getD .null).to_string,
                  ((e.get "value").getD .null).to_string⟩)) ∧
          ((∀ e ∈ elements, e.contains "instance" = true) → set.m_attributes = []) :=
  stored_settings sample_session _ "g"
    (.object [("fast", .array [.object [("attr", .string "x"), ("value", .string "1")],
        .object [("attr", .string "y"), ("value", .string "2")]])])
    (by decide)

/-- C23: after `add_api` of a group name has succeeded, the group under the
name has exactly the settings of the document: `get_setting` finds every
setting of the document with the content of the document and no other
setting, whatever the group under the name held before, as in a session
without catalog; every other group of the catalog and the descriptors are as
they were. -/
theorem group_replaced (s s' : ModelConfig_DEVICE) (api : String) (json : Json)
    (h : s.add_api api json = (none, s')) :
    ∃ members group, json = .object members ∧ s'.get_api api = some group ∧
      group.m_name = api ∧
      (∀ name, group.get_setting name = setting_of_document members name) ∧
      (∀ name, members.find? (fun m => m.1 == name) = none → group.get_setting name = none) ∧
      ({ s with m_api := [] }.add_api api json).2.get_api api = some group ∧
      (∀ other, other ≠ api → s'.get_api other = s.get_api other) ∧
      s'.m_bitfields = s.m_bitfields ∧ s'.m_total_bits = s.m_total_bits := by
  obtain ⟨members, group, hjson, hne, hrun, hs⟩ := add_api_ok h
  obtain ⟨members', group', hjson', _, hgroup, hname, hsettings, _, _, hother, _⟩ :=
    add_api_catalog h
  rw [hjson] at hjson'
  cases hjson'
  have hg : group' = group := by
    have h1 : s'.get_api api = some group := by
      rw [hs]
      unfold ModelConfig_DEVICE.get_api
      simp only
      rw [string_map_find_assign, if_pos rfl]
      rfl
    rw [hgroup] at h1
    exact Option.some.inj h1
  subst hg
  refine ⟨members, group', hjson, hgroup, hname, hsettings, ?_, ?_, hother, ?_, ?_⟩
  · intro name hf
    rw [hsettings name]
    unfold setting_of_document
    rw [hf]
  · have hl : members.length ≠ 0 := by
      intro h0
      exact hne (List.length_eq_zero.mp h0)
    have hn : ¬ api.utf8ByteSize = 0 := by
      intro h0
      unfold ModelConfig_DEVICE.add_api at h
      rw [hjson] at h
      simp only [if_neg hl, if_pos h0] at h
      cases h
    rw [hjson]
    unfold ModelConfig_DEVICE.add_api
    simp only [if_neg hl, if_neg hn, hrun]
    unfold ModelConfig_DEVICE.get_api
    simp [string_map_assign]
  · rw [hs]
  · rw [hs]

/-- Witness of C23: the group `mode` with the settings `fast`, `twice` and
`wrong` is added again with the only setting `slow`; afterwards `fast` is not
found. -/
theorem group_replaced_witness :
    (mode_api.get_setting "fast").isSome = true ∧
    ModelConfig_API.get_setting ⟨"mode", [("slow", ⟨"", [⟨"x", "0"⟩]⟩)]⟩ "fast" = none ∧
    ∃ members group,
      Json.object [("slow", .array [.object [("attr", .string "x"), ("value", .string "0")]])] =
        .object members ∧
      ModelConfig_DEVICE.get_api { preset_session 0 0 with
        m_api := [("mode", ⟨"mode", [("slow", ⟨"", [⟨"x", "0"⟩]⟩)]⟩)] } "mode" = some group ∧
      group.m_name = "mode" ∧
      (∀ name, group.get_setting name = setting_of_document members name) ∧
      (∀ name, members.find? (fun m => m.1 == name) = none → group.get_setting name = none) ∧
      ({ preset_session 0 0 with m_api := [] }.add_api "mode"
        (.object [("slow", .array [.object [("attr", .string "x"),
          ("value", .string "0")]])])).2.get_api "mode" = some group ∧
      (∀ other, other ≠ "mode" →
        ModelConfig_DEVICE.get_api { preset_session 0 0 with
          m_api := [("mode", ⟨"mode", [("slow", ⟨"", [⟨"x", "0"⟩]⟩)]⟩)] } other =
          (preset_session 0 0).get_api other) ∧
      ModelConfig_DEVICE.m_bitfields { preset_session 0 0 with
          m_api := [("mode", ⟨"mode", [("slow", ⟨"", [⟨"x", "0"⟩]⟩)]⟩)] } =
        (preset_session 0 0).m_bitfields ∧
      ModelConfig_DEVICE.m_total_bits { preset_session 0 0 with
          m_api := [("mode", ⟨"mode", [("slow", ⟨"", [⟨"x", "0"⟩]⟩)]⟩)] } =
        (preset_session 0 0).m_total_bits :=
  ⟨by decide, by decide,
    group_replaced (preset_session 0 0) _ "mode"
      (.object [("slow", .array [.object [("attr", .string "x"), ("value", .string "0")]])])
      (by
        rw [add_api_eq (preset_session 0 0) "mode" _ none
          ⟨"mode", [("slow", ⟨"", [⟨"x", "0"⟩]⟩)]⟩ (by decide) (by decide) (by decide)]
        simp only [preset_session, string_map_assign_head])⟩

/-! ## The feature registry -/

theorem utf8ByteSize_eq_zero_iff (s : String) : s.utf8ByteSize = 0 ↔ s = "" := by
  constructor
  · intro h
    by_contra hne
    exact utf8ByteSize_ne_zero hne h
  · intro h
    rw [h]
    rfl

theorem find_session_update (feature other : String) (s : ModelConfig_DEVICE) :
    ∀ (l : List (String × Option ModelConfig_DEVICE)),
      ((session_update feature s l).find? (fun p => p.1 == other)).map Prod.snd =
        if other = feature then
          ((l.find? (fun p => p.1 == other)).map Prod.snd).map (fun _ => some s)
        else (l.find? (fun p => p.1 == other)).map Prod.snd := by
  intro l
  induction l with
  | nil => simp [session_update]
  | cons p rest ih =>
    unfold session_update
    by_cases hp : p.1 = feature
    · rw [if_pos hp]
      by_cases ho : other = feature
      · have h1 : p.1 = other := by rw [hp, ho]
        simp [h1, ho]
      · have h1 : ¬ p.1 = other := by rw [hp]; exact fun e => ho e.symm
        rw [if_neg ho, List.find?_cons_of_neg _ (by simpa using h1),
          List.find?_cons_of_neg _ (by simpa using h1)]
    · rw [if_neg hp]
      by_cases h1 : p.1 = other
      · have ho : ¬ other = feature := by rw [← h1]; exact hp
        simp [h1, ho]
      · rw [List.find?_cons_of_neg _ (by simpa using h1),
          List.find?_cons_of_neg _ (by simpa using h1), ih]

theorem session_find {r : ModelConfig_MRG} {feature : String} {s : ModelConfig_DEVICE}
    (h : r.session feature = some s) : r.find feature = some (some s) := by
  unfold ModelConfig_MRG.session at h
  cases hf : r.find feature with
  | none => rw [hf] at h; cases h
  | some x =>
    rw [hf] at h
    cases x with
    | none => cases h
    | some y =>
      simp only [Option.join] at h
      rw [← Option.some.inj h]

/-- The registry after a method has changed the current session: the session
of the feature is the changed one, every other binding is as it was. -/
theorem set_current_find (r : ModelConfig_MRG) (feature : String) (s s' : ModelConfig_DEVICE)
    (hd : r.m_current_device = some feature) (hs : r.session feature = some s) :
    (r.set_current s').session feature = some s' ∧
      (∀ other, other ≠ feature → (r.set_current s').find other = r.find other) ∧
      (r.set_current s').m_current_feature = r.m_current_feature ∧
      (r.set_current s').m_current_device = r.m_current_device := by
  have hfind := session_find hs
  unfold ModelConfig_MRG.find at hfind
  have hset : r.set_current s' =
      { r with m_feature_devices := session_update feature s' r.m_feature_devices } := by
    unfold ModelConfig_MRG.set_current
    rw [hd]
  rw [hset]
  refine ⟨?_, ?_, rfl, rfl⟩
  · unfold ModelConfig_MRG.session ModelConfig_MRG.find
    simp only
    rw [find_session_update, if_pos rfl, hfind]
    rfl
  · intro other ho
    unfold ModelConfig_MRG.find
    simp only
    rw [find_session_update, if_neg ho]

/-- A command whose resolved feature is empty or not bound: `set_feature`
fails with `NotFoundError` and leaves every binding as it was. -/
theorem set_feature_unbound (r : ModelConfig_MRG) (options : List (String × String))
    (h : r.resolve options = "" ∨ r.find (r.resolve options) = none) :
    (r.set_feature options).1 = some .NotFoundError ∧
      (r.set_feature options).2.m_feature_devices = r.m_feature_devices := by
  have hres : (match options_at options "feature" with
      | some feature => feature
      | none => r.m_current_feature) = r.resolve options := by
    unfold ModelConfig_MRG.resolve
    cases options_at options "feature" <;> rfl
  unfold ModelConfig_MRG.set_feature
  simp only [hres]
  by_cases he : (r.resolve options).utf8ByteSize = 0
  · rw [if_pos he]
    exact ⟨rfl, rfl⟩
  · rw [if_neg he]
    rcases h with h | h
    · exact absurd ((utf8ByteSize_eq_zero_iff _).mpr h) he
    · rw [h]
      exact ⟨rfl, rfl⟩

/-- A command whose resolved feature is not empty and bound: `set_feature`
makes it the current feature and its session the current session. -/
theorem set_feature_bound (r : ModelConfig_MRG) (options : List (String × String))
    (x : Option ModelConfig_DEVICE) (hne : r.resolve options ≠ "")
    (h : r.find (r.resolve options) = some x) :
    r.set_feature options =
      (none,
        { r with
          m_current_feature := r.resolve options
          m_current_device := some (r.resolve options) }) := by
  have hres : (match options_at options "feature" with
      | some feature => feature
      | none => r.m_current_feature) = r.resolve options := by
    unfold ModelConfig_MRG.resolve
    cases options_at options "feature" <;> rfl
  unfold ModelConfig_MRG.set_feature
  simp only [hres]
  rw [if_neg (utf8ByteSize_ne_zero hne), h]

/-- A command on a registry whose resolved feature is bound to a session: the
method is applied to that session. -/
theorem command_on_session (r : ModelConfig_MRG) (options : List (String × String))
    (s : ModelConfig_DEVICE) (hne : r.resolve options ≠ "")
    (hs : r.session (r.resolve options) = some s)
    (method : ModelConfig_DEVICE → Option CfgError × ModelConfig_DEVICE) :
    (match r.set_feature options with
      | (some e, r) => (some e, r)
      | (none, r) => r.call method) =
      ((method s).1,
        ModelConfig_MRG.set_current
          { r with
            m_current_feature := r.resolve options
            m_current_device := some (r.resolve options) } (method s).2) := by
  rw [set_feature_bound r options _ hne (session_find hs)]
  simp only
  unfold ModelConfig_MRG.call ModelConfig_MRG.current
  simp only
  have hs' : ModelConfig_MRG.session
      { r with
        m_current_feature := r.resolve options
        m_current_device := some (r.resolve options) } (r.resolve options) = some s := hs
  rw [hs']

theorem command_unbound (r : ModelConfig_MRG) (options : List (String × String))
    (h : r.resolve options = "" ∨ r.find (r.resolve options) = none)
    (method : ModelConfig_DEVICE → Option CfgError × ModelConfig_DEVICE) :
    (match r.set_feature options with
      | (some e, r) => (some e, r)
      | (none, r) => r.call method) =
      (some .NotFoundError, (r.set_feature options).2) := by
  obtain ⟨h1, _⟩ := set_feature_unbound r options h
  cases hsf : r.set_feature options with
  | mk e r1 =>
    rw [hsf] at h1
    simp only at h1
    subst h1
    rfl

/-! ## Binding a feature -/

theorem new_api {feature model : String} {dev : Option device} {s : ModelConfig_DEVICE}
    (h : ModelConfig_DEVICE.new feature model dev = .ok s) : s.m_api = [] := by
  obtain ⟨d, root, mask, _, _, hrun, _, _, _⟩ := new_ok h
  obtain ⟨_, _, _, _, ha⟩ := add_all_ok _ (alloc_inv_init feature model) hrun
  exact ha

theorem find_assign (current : String) (pointer : Option String)
    (l : List (String × Option ModelConfig_DEVICE)) (feature other : String)
    (value : Option ModelConfig_DEVICE) :
    ModelConfig_MRG.find ⟨current, pointer, string_map_assign feature value l⟩ other =
      if feature = other then some value
      else ModelConfig_MRG.find ⟨current, pointer, l⟩ other := by
  unfold ModelConfig_MRG.find
  simp only
  rw [string_map_find_assign]
  by_cases h : feature = other
  · rw [if_pos h, if_pos h]; rfl
  · rw [if_neg h, if_neg h]

/-- What a successful `set_model` has done: the session that the constructor
builds for the feature and the model is bound to the feature and is the
current session. -/
theorem set_model_ok {r r' : ModelConfig_MRG} {modeler : Model}
    {options : List (String × String)} {model : String}
    (h : r.set_model modeler options model = (none, r')) :
    ∃ feature dev s, options_at options "feature" = some feature ∧
      modeler.get_device_model model = some dev ∧
      ModelConfig_DEVICE.new feature model (some dev) = .ok s ∧
      r.find feature ≠ some none ∧
      r' = ⟨feature, some feature, string_map_assign feature (some s) r.m_feature_devices⟩ := by
  unfold ModelConfig_MRG.set_model at h
  cases hf : options_at options "feature" with
  | none => rw [hf] at h; cases h
  | some feature =>
    rw [hf] at h
    simp only at h
    cases hd : modeler.get_device_model model with
    | none => rw [hd] at h; cases h
    | some dev =>
      rw [hd] at h
      simp only at h
      cases hn : ModelConfig_DEVICE.new feature model (some dev) with
      | error e =>
        rw [hn] at h
        cases hfind : r.find feature with
        | none => rw [hfind] at h; cases h
        | some x =>
          rw [hfind] at h
          cases x <;> cases h
      | ok s =>
        rw [hn] at h
        cases hfind : r.find feature with
        | none =>
          rw [hfind] at h
          simp only [Prod.mk.injEq, true_and] at h
          exact ⟨feature, dev, s, rfl, rfl, hn, by rw [hfind]; simp, h.symm⟩
        | some x =>
          rw [hfind] at h
          cases x with
          | none => cases h
          | some old =>
            simp only [Prod.mk.injEq, true_and] at h
            exact ⟨feature, dev, s, rfl, rfl, hn, by rw [hfind]; simp, h.symm⟩

/-- The result of `set_model` when the feature is not bound to a deleted
session and the constructor succeeds. -/
theorem set_model_eq (r : ModelConfig_MRG) (modeler : Model)
    (options : List (String × String)) (model feature : String) (dev : device)
    (s : ModelConfig_DEVICE) (hf : options_at options "feature" = some feature)
    (hd : modeler.get_device_model model = some dev)
    (hfind : r.find feature ≠ some none)
    (hn : ModelConfig_DEVICE.new feature model (some dev) = .ok s) :
    r.set_model modeler options model =
      (none, ⟨feature, some feature, string_map_assign feature (some s) r.m_feature_devices⟩) := by
  unfold ModelConfig_MRG.set_model
  rw [hf]
  simp only
  rw [hd]
  simp only
  cases hx : r.find feature with
  | none => simp only [hn]
  | some x =>
    cases x with
    | none => exact absurd hx hfind
    | some old => simp only [hn]

/-! ## The invariant of the registry -/

theorem consistent_of_bound (r : ModelConfig_MRG) (options : List (String × String))
    (s : ModelConfig_DEVICE) (hs : r.session (r.resolve options) = some s) :
    ModelConfig_MRG.consistent
      { r with
        m_current_feature := r.resolve options
        m_current_device := some (r.resolve options) } := by
  right
  refine ⟨?_, rfl⟩
  show (r.session (r.resolve options)).isSome = true
  rw [hs]
  rfl

/-- In a consistent registry, a command that either has no feature option or
names a feature that is bound to a session resolves an empty feature or a
feature that is bound to a session. -/
theorem resolve_cases (r : ModelConfig_MRG) (options : List (String × String))
    (hc : r.consistent)
    (ha : ∀ feature, options_at options "feature" = some feature →
      (r.session feature).isSome = true) :
    r.resolve options = "" ∨ ∃ s, r.session (r.resolve options) = some s := by
  unfold ModelConfig_MRG.resolve
  cases ho : options_at options "feature" with
  | some feature =>
    right
    simp only [Option.getD_some]
    exact Option.isSome_iff_exists.mp (ha feature ho)
  | none =>
    simp only [Option.getD_none]
    rcases hc with h | ⟨h, _⟩
    · exact Or.inl h
    · exact Or.inr (Option.isSome_iff_exists.mp h)

/-- A command that applies a method to the resolved session keeps the
registry consistent. -/
theorem command_consistent (r : ModelConfig_MRG) (options : List (String × String))
    (hc : r.consistent)
    (ha : ∀ feature, options_at options "feature" = some feature →
      (r.session feature).isSome = true)
    (method : ModelConfig_DEVICE → Option CfgError × ModelConfig_DEVICE) :
    ModelConfig_MRG.consistent
      (match r.set_feature options with
        | (some e, r) => (some e, r)
        | (none, r) => r.call method).2 := by
  by_cases hne : r.resolve options = ""
  · rw [command_unbound r options (Or.inl hne) method]
    have hsame : (r.set_feature options).2 = r := by
      have hres : (match options_at options "feature" with
          | some feature => feature
          | none => r.m_current_feature) = r.resolve options := by
        unfold ModelConfig_MRG.resolve
        cases options_at options "feature" <;> rfl
      unfold ModelConfig_MRG.set_feature
      simp only [hres]
      rw [if_pos ((utf8ByteSize_eq_zero_iff _).mpr hne)]
    simp only [hsame]
    exact hc
  · rcases resolve_cases r options hc ha with h | ⟨s, hs⟩
    · exact absurd h hne
    · rw [command_on_session r options s hne hs method]
      simp only
      obtain ⟨h1, _, h3, h4⟩ := set_current_find
        { r with
          m_current_feature := r.resolve options
          m_current_device := some (r.resolve options) }
        (r.resolve options) s (method s).2 rfl hs
      right
      rw [h3, h4]
      refine ⟨?_, rfl⟩
      show (ModelConfig_MRG.session _ (r.resolve options)).isSome = true
      rw [h1]
      rfl

/-- The registry after `write` is the registry after its `set_feature`. -/
theorem write_state (r : ModelConfig_MRG) (fuel : Nat) (options : List (String × String))
    (can_open : Bool) : (r.write fuel options can_open).2 = (r.set_feature options).2 := by
  unfold ModelConfig_MRG.write
  cases hsf : r.set_feature options with
  | mk e r1 =>
    cases e with
    | some err => rfl
    | none =>
      simp only
      cases r1.current <;> rfl

theorem set_feature_empty (r : ModelConfig_MRG) (options : List (String × String))
    (h : r.resolve options = "") : r.set_feature options = (some .NotFoundError, r) := by
  have hres : (match options_at options "feature" with
      | some feature => feature
      | none => r.m_current_feature) = r.resolve options := by
    unfold ModelConfig_MRG.resolve
    cases options_at options "feature" <;> rfl
  unfold ModelConfig_MRG.set_feature
  simp only [hres]
  rw [if_pos ((utf8ByteSize_eq_zero_iff _).mpr h)]

theorem set_feature_consistent (r : ModelConfig_MRG) (options : List (String × String))
    (hc : r.consistent)
    (ha : ∀ feature, options_at options "feature" = some feature →
      (r.session feature).isSome = true) :
    (r.set_feature options).2.consistent := by
  by_cases hne : r.resolve options = ""
  · rw [set_feature_empty r options hne]
    exact hc
  · rcases resolve_cases r options hc ha with h | ⟨s, hs⟩
    · exact absurd h hne
    · rw [set_feature_bound r options _ hne (session_find hs)]
      exact consistent_of_bound r options s hs

/-- One command that is within what the registry relies on keeps the registry
consistent. -/
theorem run_consistent (modeler : Model) (fuel : Nat) (r : ModelConfig_MRG)
    (c : RegistryCommand) (hc : r.consistent) (ha : c.aimed r modeler) :
    (r.run modeler fuel c).consistent := by
  cases c with
  | set_model options model =>
    unfold ModelConfig_MRG.run
    simp only
    cases hf : options_at options "feature" with
    | none =>
      have : r.set_model modeler options model = (some .InternalError, r) := by
        unfold ModelConfig_MRG.set_model
        rw [hf]
      rw [this]
      exact hc
    | some feature =>
      cases hd : modeler.get_device_model model with
      | none =>
        have : r.set_model modeler options model = (some .NotFoundError, r) := by
          unfold ModelConfig_MRG.set_model
          rw [hf]
          simp only
          rw [hd]
        rw [this]
        exact hc
      | some dev =>
        obtain ⟨hfind, s, hn⟩ := ha feature dev hf hd
        rw [set_model_eq r modeler options model feature dev s hf hd hfind hn]
        right
        refine ⟨?_, rfl⟩
        show (ModelConfig_MRG.session ⟨feature, some feature, _⟩ feature).isSome = true
        unfold ModelConfig_MRG.session
        rw [find_assign, if_pos rfl]
        rfl
  | set_api options file => exact command_consistent r options hc ha _
  | set_attr options => exact command_consistent r options hc ha _
  | set_design options file => exact command_consistent r options hc ha _
  | write options can_open =>
    unfold ModelConfig_MRG.run
    simp only
    rw [write_state]
    exact set_feature_consistent r options hc ha
  | dump_ric model can_open =>
    unfold ModelConfig_MRG.run ModelConfig_MRG.dump_ric
    simp only
    cases modeler.get_device_model model with
    | none => exact hc
    | some dev =>
      simp only
      cases dev.get_block model with
      | none => exact hc
      | some block =>
        simp only
        split_ifs <;> exact hc

/-- A sequence of commands, each within what the registry relies on, keeps
the registry consistent. -/
theorem run_all_consistent (modeler : Model) (fuel : Nat) :
    ∀ (cmds : List RegistryCommand) (r : ModelConfig_MRG), r.consistent →
      aimed_all modeler fuel r cmds → (r.run_all modeler fuel cmds).consistent := by
  intro cmds
  induction cmds with
  | nil => intro r hc _; exact hc
  | cons c rest ih =>
    intro r hc ha
    exact ih _ (run_consistent modeler fuel r c hc ha.1) ha.2

/-- In a consistent registry whose current feature is not empty, a command
without the option `feature` resolves the current feature, which is bound to
a session, and `set_feature` leaves the registry as it is. -/
theorem set_feature_current (r : ModelConfig_MRG) (options : List (String × String))
    (hc : r.consistent) (hne : r.m_current_feature ≠ "")
    (ho : options_at options "feature" = none) :
    r.set_feature options = (none, r) ∧ (r.session r.m_current_feature).isSome = true := by
  have hres : r.resolve options = r.m_current_feature := by
    unfold ModelConfig_MRG.resolve
    rw [ho]
    rfl
  rcases hc with h | ⟨h1, h2⟩
  · exact absurd h hne
  · obtain ⟨s, hs⟩ := Option.isSome_iff_exists.mp h1
    refine ⟨?_, h1⟩
    rw [set_feature_bound r options (some s) (by rw [hres]; exact hne)
      (by rw [hres]; exact session_find hs), hres, ← h2]

/-! ## Claims about the feature registry -/

/-- C24: after a successful `set_model` for a feature, bound before or not,
the session of the feature is the session that the constructor builds for the
feature and the model, which is the session that `set_model` binds in an empty
registry: its descriptors are those of the attributes of the model with their
initial values and its API catalog is empty; it is the current session, and
the binding of every other feature is as it was. -/
theorem set_model_replaces (r r' : ModelConfig_MRG) (modeler : Model)
    (options : List (String × String)) (model : String)
    (h : r.set_model modeler options model = (none, r')) :
    ∃ feature dev s, options_at options "feature" = some feature ∧
      modeler.get_device_model model = some dev ∧
      ModelConfig_DEVICE.new feature model (some dev) = .ok s ∧
      r'.session feature = some s ∧
      ModelConfig_MRG.empty.set_model modeler options model =
        (none, ⟨feature, some feature, [(feature, some s)]⟩) ∧
      s.m_api = [] ∧
      (∀ root, dev.get_block model = some root →
        s.m_bitfields.Perm
          ((occurrences root).map (fun o => ((o.descriptor dev).m_addr, o.descriptor dev)))) ∧
      r'.m_current_feature = feature ∧ r'.m_current_device = some feature ∧
      ∀ other, other ≠ feature → r'.find other = r.find other := by
  obtain ⟨feature, dev, s, hf, hd, hn, _, hr⟩ := set_model_ok h
  refine ⟨feature, dev, s, hf, hd, hn, ?_, ?_, new_api hn, ?_, ?_, ?_, ?_⟩
  · rw [hr]
    unfold ModelConfig_MRG.session
    rw [find_assign, if_pos rfl]
    rfl
  · rw [set_model_eq ModelConfig_MRG.empty modeler options model feature dev s hf hd
      (by intro hx; cases hx) hn]
    rfl
  · intro root hb
    exact new_perm hb hn
  · rw [hr]
  · rw [hr]
  · intro other ho
    rw [hr, find_assign, if_neg (fun e => ho e.symm)]
    rfl

/-- Witness of C24: the feature `F`, bound to a session with the value 3 of
`x` and the preset group `mode`, is bound again to the model `m`. -/
theorem set_model_replaces_witness :
    ∃ feature dev s, options_at [("feature", "F")] "feature" = some feature ∧
      sample_modeler.get_device_model "m" = some dev ∧
      ModelConfig_DEVICE.new feature "m" (some dev) = .ok s ∧
      ModelConfig_MRG.session
        ⟨"F", some "F",
          [("F", some (feature_session 0)),
            ("G", some { feature_session 7 with m_feature := "G" })]⟩ feature = some s ∧
      ModelConfig_MRG.empty.set_model sample_modeler [("feature", "F")] "m" =
        (none, ⟨feature, some feature, [(feature, some s)]⟩) ∧
      s.m_api = [] ∧
      (∀ root, dev.get_block "m" = some root →
        s.m_bitfields.Perm
          ((occurrences root).map (fun o => ((o.descriptor dev).m_addr, o.descriptor dev)))) ∧
      ModelConfig_MRG.m_current_feature
        ⟨"F", some "F",
          [("F", some (feature_session 0)),
            ("G", some { feature_session 7 with m_feature := "G" })]⟩ = feature ∧
      ModelConfig_MRG.m_current_device
        ⟨"F", some "F",
          [("F", some (feature_session 0)),
            ("G", some { feature_session 7 with m_feature := "G" })]⟩ = some feature ∧
      ∀ other, other ≠ feature →
        ModelConfig_MRG.find
          ⟨"F", some "F",
            [("F", some (feature_session 0)),
              ("G", some { feature_session 7 with m_feature := "G" })]⟩ other =
          busy_registry.find other :=
  set_model_replaces busy_registry _ sample_modeler [("feature", "F")] "m"
    (by
      rw [set_model_eq busy_registry sample_modeler [("feature", "F")] "m" "F" sample_device
        (feature_session 0) rfl rfl (by decide) rfl]
      simp only [busy_registry, string_map_assign_head])

/-- C25: a command `set_api`, `set_attr`, `set_design` or `write` resolves the
feature of the option `feature` when it is given and the current feature
otherwise.  When the resolved feature is empty or not bound, the command fails
with `NotFoundError` and every session of the registry is as it was.  When it
is not empty and bound to a session, the command is the method of that
session: it fails as the method does and leaves the session that the method
leaves, and every other binding is as it was; `write` returns what the
serializer of that session returns. -/
theorem feature_resolution (r : ModelConfig_MRG) (options : List (String × String))
    (file : JsonFile) (fuel : Nat) (can_open : Bool) :
    ((r.resolve options = "" ∨ r.find (r.resolve options) = none) →
      ((r.set_api options file).1 = some .NotFoundError ∧
        (r.set_api options file).2.m_feature_devices = r.m_feature_devices) ∧
      ((r.set_attr options).1 = some .NotFoundError ∧
        (r.set_attr options).2.m_feature_devices = r.m_feature_devices) ∧
      ((r.set_design options file).1 = some .NotFoundError ∧
        (r.set_design options file).2.m_feature_devices = r.m_feature_devices) ∧
      ((r.write fuel options can_open).1 = some (some .NotFoundError, ⟨none, none⟩) ∧
        (r.write fuel options can_open).2.m_feature_devices = r.m_feature_devices)) ∧
    ∀ s, r.resolve options ≠ "" → r.session (r.resolve options) = some s →
      r.acted options (s.set_api file) (r.set_api options file) ∧
      r.acted options (s.set_attr_options options) (r.set_attr options) ∧
      r.acted options (s.set_design file) (r.set_design options file) ∧
      r.write fuel options can_open =
        (s.write fuel options can_open,
          { r with
            m_current_feature := r.resolve options
            m_current_device := some (r.resolve options) }) := by
  constructor
  · intro h
    obtain ⟨h1, h2⟩ := set_feature_unbound r options h
    have hcmd : ∀ method : ModelConfig_DEVICE → Option CfgError × ModelConfig_DEVICE,
        (match r.set_feature options with
          | (some e, r) => (some e, r)
          | (none, r) => r.call method).1 = some .NotFoundError ∧
        (match r.set_feature options with
          | (some e, r) => (some e, r)
          | (none, r) => r.call method).2.m_feature_devices = r.m_feature_devices := by
      intro method
      rw [command_unbound r options h method]
      exact ⟨rfl, h2⟩
    refine ⟨hcmd _, hcmd _, hcmd _, ?_, ?_⟩
    · unfold ModelConfig_MRG.write
      cases hsf : r.set_feature options with
      | mk e r1 =>
        rw [hsf] at h1
        simp only at h1
        subst h1
        rfl
    · rw [write_state]
      exact h2
  · intro s hne hs
    have hcmd : ∀ method : ModelConfig_DEVICE → Option CfgError × ModelConfig_DEVICE,
        r.acted options (method s)
          (match r.set_feature options with
            | (some e, r) => (some e, r)
            | (none, r) => r.call method) := by
      intro method
      rw [command_on_session r options s hne hs method]
      obtain ⟨h1, h2, h3, h4⟩ := set_current_find
        { r with
          m_current_feature := r.resolve options
          m_current_device := some (r.resolve options) }
        (r.resolve options) s (method s).2 rfl hs
      exact ⟨rfl, h1, h2, h3, h4⟩
    refine ⟨hcmd _, hcmd _, hcmd _, ?_⟩
    unfold ModelConfig_MRG.write
    rw [set_feature_bound r options _ hne (session_find hs)]
    simp only
    have hcur : ModelConfig_MRG.current
        { r with
          m_current_feature := r.resolve options
          m_current_device := some (r.resolve options) } = some s := hs
    rw [hcur]

/-- Witness of C25: in a registry whose current feature is `G`, a command
with the option `feature` of `F` assigns to the session of `F`, a command
without the option assigns to the session of `G`, and a command with the
option `feature` of `H`, which is not bound, fails with `NotFoundError`. -/
theorem feature_resolution_witness :
    (busy_registry.set_attr
        [("feature", "F"), ("instance", "I"), ("name", "x"), ("value", "5")] =
      (none, ⟨"F", some "F",
        [("F", some { feature_session 5 with m_api := [("mode", mode_api)] }),
          ("G", some { feature_session 7 with m_feature := "G" })]⟩) ∧
      busy_registry.set_attr [("instance", "I"), ("name", "x"), ("value", "5")] =
        (none, ⟨"G", some "G",
          [("F", some { feature_session 3 with m_api := [("mode", mode_api)] }),
            ("G", some { feature_session 5 with m_feature := "G" })]⟩) ∧
      busy_registry.set_attr
          [("feature", "H"), ("instance", "I"), ("name", "x"), ("value", "5")] =
        (some .NotFoundError, { busy_registry with m_current_feature := "H" })) ∧
    ((busy_registry.resolve [("feature", "F"), ("instance", "I"), ("name", "x"), ("value", "5")] = "" ∨
        busy_registry.find (busy_registry.resolve [("feature", "F"), ("instance", "I"), ("name", "x"), ("value", "5")]) = none) →
      ((busy_registry.set_api [("feature", "F"), ("instance", "I"), ("name", "x"), ("value", "5")] .unreadable).1 = some .NotFoundError ∧
        (busy_registry.set_api [("feature", "F"), ("instance", "I"), ("name", "x"), ("value", "5")] .unreadable).2.m_feature_devices =
          busy_registry.m_feature_devices) ∧
      ((busy_registry.set_attr [("feature", "F"), ("instance", "I"), ("name", "x"), ("value", "5")]).1 = some .NotFoundError ∧
        (busy_registry.set_attr [("feature", "F"), ("instance", "I"), ("name", "x"), ("value", "5")]).2.m_feature_devices =
          busy_registry.m_feature_devices) ∧
      ((busy_registry.set_design [("feature", "F"), ("instance", "I"), ("name", "x"), ("value", "5")] .unreadable).1 = some .NotFoundError ∧
        (busy_registry.set_design [("feature", "F"), ("instance", "I"), ("name", "x"), ("value", "5")] .unreadable).2.m_feature_devices =
          busy_registry.m_feature_devices) ∧
      ((busy_registry.write 3 [("feature", "F"), ("instance", "I"), ("name", "x"), ("value", "5")] true).1 =
          some (some .NotFoundError, ⟨none, none⟩) ∧
        (busy_registry.write 3 [("feature", "F"), ("instance", "I"), ("name", "x"), ("value", "5")] true).2.m_feature_devices =
          busy_registry.m_feature_devices)) ∧
    ∀ s, busy_registry.resolve [("feature", "F"), ("instance", "I"), ("name", "x"), ("value", "5")] ≠ "" →
      busy_registry.session (busy_registry.resolve [("feature", "F"), ("instance", "I"), ("name", "x"), ("value", "5")]) = some s →
      busy_registry.acted [("feature", "F"), ("instance", "I"), ("name", "x"), ("value", "5")] (s.set_api .unreadable)
        (busy_registry.set_api [("feature", "F"), ("instance", "I"), ("name", "x"), ("value", "5")] .unreadable) ∧
      busy_registry.acted [("feature", "F"), ("instance", "I"), ("name", "x"), ("value", "5")] (s.set_attr_options [("feature", "F"), ("instance", "I"), ("name", "x"), ("value", "5")])
        (busy_registry.set_attr [("feature", "F"), ("instance", "I"), ("name", "x"), ("value", "5")]) ∧
      busy_registry.acted [("feature", "F"), ("instance", "I"), ("name", "x"), ("value", "5")] (s.set_design .unreadable)
        (busy_registry.set_design [("feature", "F"), ("instance", "I"), ("name", "x"), ("value", "5")] .unreadable) ∧
      busy_registry.write 3 [("feature", "F"), ("instance", "I"), ("name", "x"), ("value", "5")] true =
        (s.write 3 [("feature", "F"), ("instance", "I"), ("name", "x"), ("value", "5")] true,
          { busy_registry with
            m_current_feature := busy_registry.resolve [("feature", "F"), ("instance", "I"), ("name", "x"), ("value", "5")]
            m_current_device := some (busy_registry.resolve [("feature", "F"), ("instance", "I"), ("name", "x"), ("value", "5")]) }) :=
  ⟨⟨by decide, by decide, by decide⟩,
    feature_resolution busy_registry [("feature", "F"), ("instance", "I"), ("name", "x"), ("value", "5")] .unreadable 3 true⟩

/-- C29, as stated, fails after a command that names a feature which is not
bound: `set_feature` makes the name the current feature before it asserts that
the name is bound.  After `set_model` for `F` and an assignment, a `set_attr`
without the option `feature` succeeds; after a `set_attr` with the option
`feature` of `G` has failed, the current feature is `G`, which is not bound,
and the same `set_attr` without the option fails with `NotFoundError`. -/
theorem unbound_feature_counterexample :
    ModelConfig_MRG.empty.run_all sample_modeler 3
        [.set_model [("feature", "F")] "m",
          .set_attr [("instance", "I"), ("name", "x"), ("value", "3")]] =
      feature_registry 3 ∧
    (feature_registry 3).set_attr [("instance", "I"), ("name", "x"), ("value", "5")] =
      (none, feature_registry 5) ∧
    (feature_registry 3).set_attr
        [("feature", "G"), ("instance", "I"), ("name", "x"), ("value", "5")] =
      (some .NotFoundError, { feature_registry 3 with m_current_feature := "G" }) ∧
    ModelConfig_MRG.find { feature_registry 3 with m_current_feature := "G" } "G" = none ∧
    ¬ ModelConfig_MRG.consistent { feature_registry 3 with m_current_feature := "G" } ∧
    ModelConfig_MRG.set_attr { feature_registry 3 with m_current_feature := "G" }
        [("instance", "I"), ("name", "x"), ("value", "5")] =
      (some .NotFoundError, { feature_registry 3 with m_current_feature := "G" }) :=
  ⟨by decide, by decide, by decide, by decide, by decide, by decide⟩

/-- C29, amended: after any sequence of registry commands, whether each
succeeded or failed, in which every `set_model` of a known model builds its
session for a feature that is not bound to a deleted session, and every
option `feature` of another command names a feature that is bound to a
session, the current feature is empty or bound to a session, and the
current-session reference is that session; a command without the option
`feature` then resolves the current feature and its session without changing
the registry. -/
theorem registry_invariant (modeler : Model) (fuel : Nat) (r : ModelConfig_MRG)
    (cmds : List RegistryCommand) (hc : r.consistent)
    (ha : aimed_all modeler fuel r cmds) :
    (r.run_all modeler fuel cmds).consistent ∧
    ∀ options, options_at options "feature" = none →
      (r.run_all modeler fuel cmds).m_current_feature ≠ "" →
        (r.run_all modeler fuel cmds).set_feature options =
          (none, r.run_all modeler fuel cmds) ∧
        ((r.run_all modeler fuel cmds).session
          (r.run_all modeler fuel cmds).m_current_feature).isSome = true := by
  have h := run_all_consistent modeler fuel cmds r hc ha
  exact ⟨h, fun options ho hne => set_feature_current _ options h hne ho⟩

/-- Witness of C29: from the empty registry, a `set_model`, an assignment, an
assignment that fails with `RangeError`, a `set_model` of an unknown model, a
`write` and a `dump_ric`. -/
theorem registry_invariant_witness :
    ModelConfig_MRG.empty.run_all sample_modeler 3
        [.set_model [("feature", "F")] "m",
          .set_attr [("instance", "I"), ("name", "x"), ("value", "3")],
          .set_attr [("instance", "I"), ("name", "x"), ("value", "256")],
          .set_model [("feature", "F")] "unknown",
          .write [("format", "BIN")] true,
          .dump_ric "m" true] = feature_registry 3 ∧
    (ModelConfig_MRG.empty.run_all sample_modeler 3
        [.set_model [("feature", "F")] "m",
          .set_attr [("instance", "I"), ("name", "x"), ("value", "3")],
          .set_attr [("instance", "I"), ("name", "x"), ("value", "256")],
          .set_model [("feature", "F")] "unknown",
          .write [("format", "BIN")] true,
          .dump_ric "m" true]).consistent ∧
    ∀ options, options_at options "feature" = none →
      (ModelConfig_MRG.empty.run_all sample_modeler 3
        [.set_model [("feature", "F")] "m",
          .set_attr [("instance", "I"), ("name", "x"), ("value", "3")],
          .set_attr [("instance", "I"), ("name", "x"), ("value", "256")],
          .set_model [("feature", "F")] "unknown",
          .write [("format", "BIN")] true,
          .dump_ric "m" true]).m_current_feature ≠ "" →
        (ModelConfig_MRG.empty.run_all sample_modeler 3
          [.set_model [("feature", "F")] "m",
            .set_attr [("instance", "I"), ("name", "x"), ("value", "3")],
            .set_attr [("instance", "I"), ("name", "x"), ("value", "256")],
            .set_model [("feature", "F")] "unknown",
            .write [("format", "BIN")] true,
            .dump_ric "m" true]).set_feature options =
          (none, ModelConfig_MRG.empty.run_all sample_modeler 3
            [.set_model [("feature", "F")] "m",
              .set_attr [("instance", "I"), ("name", "x"), ("value", "3")],
              .set_attr [("instance", "I"), ("name", "x"), ("value", "256")],
              .set_model [("feature", "F")] "unknown",
              .write [("format", "BIN")] true,
              .dump_ric "m" true]) ∧
        ((ModelConfig_MRG.empty.run_all sample_modeler 3
          [.set_model [("feature", "F")] "m",
            .set_attr [("instance", "I"), ("name", "x"), ("value", "3")],
            .set_attr [("instance", "I"), ("name", "x"), ("value", "256")],
            .set_model [("feature", "F")] "unknown",
            .write [("format", "BIN")] true,
            .dump_ric "m" true]).session
          (ModelConfig_MRG.empty.run_all sample_modeler 3
            [.set_model [("feature", "F")] "m",
              .set_attr [("instance", "I"), ("name", "x"), ("value", "3")],
              .set_attr [("instance", "I"), ("name", "x"), ("value", "256")],
              .set_model [("feature", "F")] "unknown",
              .write [("format", "BIN")] true,
              .dump_ric "m" true]).m_current_feature).isSome = true :=
  ⟨by decide,
    registry_invariant sample_modeler 3 ModelConfig_MRG.empty _ (by decide)
      (by
        refine ⟨?_, ?_, ?_, ?_, ?_, ?_, trivial⟩
        · intro feature dev hf hd
          cases hf
          cases hd
          exact ⟨by decide, feature_session 0, rfl⟩
        · intro feature hf; cases hf
        · intro feature hf; cases hf
        · intro feature dev hf hd
          cases hd
        · intro feature hf; cases hf
        · trivial)⟩

/-! ## The diagnostic walk -/

theorem dump_ric_attributes_eq (space addr_name : String) (offset : Nat)
    (attributes : List (String × Parameter)) :
    dump_ric_attributes space addr_name offset attributes =
      attributes.map (fun a =>
        .attr space a.1 ((offset + toU32 a.2.address) % 4294967296) addr_name
          (toU32 a.2.type.size)
          (match a.2.type.default_value with
            | some v => toU32 v
            | none => 0)) := by
  induction attributes with
  | nil => rfl
  | cons a rest ih =>
    rw [dump_ric_attributes, ih]
    rfl

theorem dump_ric_instances_eq (d : device) (space name addr_name : String) (offset : Nat)
    (instances : List (String × Int × device_block)) :
    dump_ric_instances d instances space name addr_name offset =
      (instances.map (fun i =>
        .inst space (space.utf8ByteSize / 4) i.1 offset i.2.1 ::
          dump_ric d i.2.2 (space ++ "    ") (child_name name i.1)
            (addr_name ++ " + " ++ toString i.2.1)
            ((offset + toU32 i.2.1) % 4294967296))).flatten := by
  induction instances with
  | nil =>
    rw [dump_ric_instances]
    rfl
  | cons i rest ih =>
    obtain ⟨iter_first, logic_address, block⟩ := i
    rw [dump_ric_instances, ih]
    simp

/-- The lines of a block in pre-order: the line of the block, the lines of
its attributes, and for every instance in turn the line of the instance and
the lines of its block. -/
theorem dump_ric_eq (d : device) (block_name : String) (attributes : List (String × Parameter))
    (instances : List (String × Int × device_block)) (space name addr_name : String)
    (offset : Nat) :
    dump_ric d (.mk block_name attributes instances) space name addr_name offset =
      .block space block_name
          (if attributes.length ≠ 0 then some (name, d.getCustomerName name) else none) ::
        (attributes.map (fun a =>
          .attr space a.1 ((offset + toU32 a.2.address) % 4294967296) addr_name
            (toU32 a.2.type.size)
            (match a.2.type.default_value with
              | some v => toU32 v
              | none => 0)) ++
        (instances.map (fun i =>
          .inst space (space.utf8ByteSize / 4) i.1 offset i.2.1 ::
            dump_ric d i.2.2 (space ++ "    ") (child_name name i.1)
              (addr_name ++ " + " ++ toString i.2.1)
              ((offset + toU32 i.2.1) % 4294967296))).flatten) := by
  rw [dump_ric, dump_ric_instances_eq, dump_ric_attributes_eq]
  by_cases h : attributes.length ≠ 0
  · rw [if_pos h, if_pos h]
    rfl
  · rw [if_neg h, if_neg h]
    have : attributes = [] := List.length_eq_zero.mp (not_not.mp h)
    rw [this]
    rfl

theorem attribute_lines_blocks (space addr_name : String) (offset : Nat)
    (attributes : List (String × Parameter)) :
    (dump_ric_attributes space addr_name offset attributes).filterMap RicRecord.block_name? =
      [] := by
  rw [dump_ric_attributes_eq]
  induction attributes with
  | nil => rfl
  | cons a rest ih =>
    rw [List.map_cons, List.filterMap_cons]
    exact ih

theorem attribute_lines_data (d : device) (space name addr_name : String) (offset : Nat)
    (attributes : List (String × Parameter)) :
    (dump_ric_attributes space addr_name offset attributes).filterMap RicRecord.attr? =
      (attributes.map (fun a => (⟨[], a.1, a.2⟩ : Occurrence))).map
        (fun o => (o.descriptor_from d name offset).attribute_data) := by
  rw [dump_ric_attributes_eq]
  induction attributes with
  | nil => rfl
  | cons a rest ih =>
    rw [List.map_cons, List.filterMap_cons, List.map_cons, List.map_cons]
    simp only [RicRecord.attr?]
    rw [ih]
    rfl

mutual
theorem dump_ric_blocks (d : device) :
    ∀ (block : device_block) (space name addr_name : String) (offset : Nat),
      (dump_ric d block space name addr_name offset).filterMap RicRecord.block_name? =
        (block_occurrences block).map device_block.block_name
  | .mk block_name attributes instances, space, name, addr_name, offset => by
    rw [dump_ric, block_occurrences, List.filterMap_append,
      dump_ric_instances_blocks d instances space name addr_name offset]
    by_cases h : attributes.length ≠ 0
    · rw [if_pos h, List.filterMap_cons]
      simp only [RicRecord.block_name?]
      rw [attribute_lines_blocks]
      rfl
    · rw [if_neg h]
      rfl
theorem dump_ric_instances_blocks (d : device) :
    ∀ (instances : List (String × Int × device_block)) (space name addr_name : String)
      (offset : Nat),
      (dump_ric_instances d instances space name addr_name offset).filterMap
          RicRecord.block_name? =
        (block_occurrences_of_instances instances).map device_block.block_name
  | [], _, _, _, _ => by
    rw [dump_ric_instances, block_occurrences_of_instances]
    rfl
  | (iter_first, logic_address, block) :: rest, space, name, addr_name, offset => by
    rw [dump_ric_instances, block_occurrences_of_instances, List.filterMap_cons]
    simp only [RicRecord.block_name?]
    rw [List.filterMap_append, List.map_append, dump_ric_blocks d block,
      dump_ric_instances_blocks d rest space name addr_name offset]
end

mutual
theorem dump_ric_data (d : device) :
    ∀ (block : device_block) (space name addr_name : String) (offset : Nat),
      (dump_ric d block space name addr_name offset).filterMap RicRecord.attr? =
        (occurrences block).map (fun o => (o.descriptor_from d name offset).attribute_data)
  | .mk block_name attributes instances, space, name, addr_name, offset => by
    rw [dump_ric, occurrences, List.filterMap_append, List.map_append,
      dump_ric_instances_data d instances space name addr_name offset,
      ← attribute_lines_data d space name addr_name offset attributes]
    by_cases h : attributes.length ≠ 0
    · rw [if_pos h, List.filterMap_cons]
      simp only [RicRecord.attr?]
    · rw [if_neg h]
      have : attributes = [] := List.length_eq_zero.mp (not_not.mp h)
      rw [this]
      rfl
theorem dump_ric_instances_data (d : device) :
    ∀ (instances : List (String × Int × device_block)) (space name addr_name : String)
      (offset : Nat),
      (dump_ric_instances d instances space name addr_name offset).filterMap
          RicRecord.attr? =
        (occurrences_of_instances instances).map
          (fun o => (o.descriptor_from d name offset).attribute_data)
  | [], _, _, _, _ => by
    rw [dump_ric_instances, occurrences_of_instances]
    rfl
  | (iter_first, logic_address, block) :: rest, space, name, addr_name, offset => by
    rw [dump_ric_instances, occurrences_of_instances, List.filterMap_cons]
    simp only [RicRecord.attr?]
    rw [List.filterMap_append, List.map_append, List.map_map, dump_ric_data d block,
      dump_ric_instances_data d rest space name addr_name offset]
    congr 1
end

/-- The lines of the tree of a model: one line of a block for every block
occurrence and one line of an attribute for every attribute of every
occurrence, both in pre-order. -/
theorem dump_ric_root (d : device) (root : device_block) :
    (dump_ric d root "" "" "0" 0).filterMap RicRecord.block_name? =
        (block_occurrences root).map device_block.block_name ∧
      (dump_ric d root "" "" "0" 0).filterMap RicRecord.attr? =
        (occurrences root).map
          (fun o => (o.attr_name, o.offset, o.width, o.default_value)) := by
  refine ⟨dump_ric_blocks d root "" "" "0" 0, ?_⟩
  rw [dump_ric_data d root "" "" "0" 0]
  apply List.map_congr_left
  intro o _
  rw [descriptor_from_root]
  rfl

/-! ## The walk of the serializer -/

/-- The buffer that `write` builds for a format. -/
theorem write_buffer_empty (s : ModelConfig_DEVICE) (format : String)
    (hle : s.m_total_bits ≤ 4294967288)
    (hdata : ¬ (format = "BIT" ∨ format = "WORD" ∨ format = "BIN") ∨
      4294967264 < s.m_total_bits) :
    (if format = "BIT" ∨ format = "WORD" ∨ format = "BIN" then
      List.replicate ((s.m_total_bits + 31) % 4294967296 / 32 * 4 % 4294967296) 0
      else []) = [] := by
  rcases hdata with hd | hd
  · rw [if_neg hd]
  · have hz : (s.m_total_bits + 31) % 4294967296 / 32 * 4 % 4294967296 = 0 := by omega
    rw [hz]
    simp

/-- The loop of `write` over the descriptors of a session that can be
serialized, from the state in which `write` starts it: the loop ends without
failure with the cursor at the total. -/
theorem write_walk (s : ModelConfig_DEVICE) (format : String) (fuel : Nat)
    (file : Option String) (hs : s.serializable) (hfuel : s.m_bitfields.length ≤ fuel) :
    ∃ st, write_loop s format fuel
        ⟨0,
          if format = "BIT" ∨ format = "WORD" ∨ format = "BIN" then
            List.replicate ((s.m_total_bits + 31) % 4294967296 / 32 * 4 % 4294967296) 0
          else [],
          file, ""⟩ = some (none, st) ∧
      st.addr = s.m_total_bits := by
  by_cases hb : (format = "BIT" ∨ format = "WORD" ∨ format = "BIN") ∧
      s.m_total_bits ≤ 4294967264
  · obtain ⟨data, hrun, _⟩ := write_loop_image s format fuel file hs hb.2 hfuel
    rw [if_pos hb.1]
    exact ⟨_, hrun, rfl⟩
  · have hempty := write_buffer_empty s format hs.total_le (by
      by_cases hf : format = "BIT" ∨ format = "WORD" ∨ format = "BIN"
      · right
        have : ¬ s.m_total_bits ≤ 4294967264 := fun h => hb ⟨hf, h⟩
        omega
      · exact Or.inl hf)
    rw [hempty]
    obtain ⟨body, block_name, hrun, _⟩ := write_loop_text s format hs.total_le s.m_bitfields []
      fuel ⟨0, [], file, ""⟩ rfl (fun q hq => by cases hq) hs.chain hfuel rfl
    exact ⟨_, hrun, rfl⟩

/-- The result of `write` for the format BIN when the total exceeds
`2 ^ 32 - 32`: no failure and no output. -/
theorem write_bin_wrapped (s : ModelConfig_DEVICE) (fuel : Nat)
    (options : List (String × String)) (can_open : Bool) (hs : s.serializable)
    (hformat : options_at options "format" = some "BIN")
    (hwrap : 4294967264 < s.m_total_bits) (hfuel : s.m_bitfields.length ≤ fuel) :
    s.write fuel options can_open = some (none, ⟨none, none⟩) := by
  have hpos := hs.total_pos
  have h0 : s.m_total_bits ≠ 0 := by omega
  have key : ∀ format, format = "BIN" → options_at options "format" = some format →
      s.write fuel options can_open = some (none, ⟨none, none⟩) := by
    intro format hf hfm
    have hempty := write_buffer_empty s format hs.total_le (Or.inr hwrap)
    obtain ⟨body, block_name, hrun, _⟩ := write_loop_text s format hs.total_le s.m_bitfields []
      fuel ⟨0, [], if format ≠ "BIN" then some (write_header s format) else none, ""⟩ rfl
      (fun q hq => by cases hq) hs.chain hfuel rfl
    unfold ModelConfig_DEVICE.write
    rw [if_neg h0, hfm]
    simp only [hempty]
    rw [if_neg (not_not.mpr (Or.inr (Or.inr (Or.inr (Or.inr hf))))), if_neg (fun h => h.1 hf),
      hrun]
    simp [hf, file_put]
  exact key "BIN" rfl hformat

/-- The result of `write` for a session that can be serialized: no failure
when the file can be opened or the format is BIN, `IOError` otherwise. -/
theorem write_safe (s : ModelConfig_DEVICE) (fuel : Nat) (options : List (String × String))
    (format : String) (can_open : Bool) (hs : s.serializable)
    (hformat : options_at options "format" = some format)
    (hknown : format = "BIT" ∨ format = "WORD" ∨ format = "DETAIL" ∨ format = "TCL" ∨
      format = "BIN")
    (hfuel : s.m_bitfields.length ≤ fuel) :
    ∃ out, s.write fuel options can_open =
      some (if format ≠ "BIN" ∧ can_open = false then some .IOError else none, out) := by
  have hpos := hs.total_pos
  have h0 : s.m_total_bits ≠ 0 := by omega
  by_cases hio : format ≠ "BIN" ∧ can_open = false
  · rw [if_pos hio]
    refine ⟨⟨none, none⟩, ?_⟩
    unfold ModelConfig_DEVICE.write
    rw [if_neg h0, hformat]
    simp only
    rw [if_neg (not_not.mpr hknown), if_pos hio]
  · rw [if_neg hio]
    by_cases hbin : format = "BIN"
    · subst hbin
      by_cases hb : s.m_total_bits ≤ 4294967264
      · obtain ⟨bytes, hrun, _⟩ := write_bin s fuel options can_open hs hb hformat hfuel
        exact ⟨_, hrun⟩
      · exact ⟨_, write_bin_wrapped s fuel options can_open hs hformat (by omega) hfuel⟩
    · have hopen : can_open = true := by
        cases can_open with
        | true => rfl
        | false => exact absurd ⟨hbin, rfl⟩ hio
      subst hopen
      by_cases hb : s.m_total_bits ≤ 4294967264
      · rcases hknown with rfl | rfl | rfl | rfl | rfl
        · obtain ⟨body, hrun⟩ := write_bit s fuel options hs hb hformat hfuel
          exact ⟨_, hrun⟩
        · obtain ⟨data, hrun, _⟩ := write_word s fuel options hs hb hformat hfuel
          exact ⟨_, hrun⟩
        · obtain ⟨body, hrun, _⟩ := write_without_buffer s fuel options "DETAIL" hs hformat
            (by decide) (Or.inl (Or.inl rfl)) hfuel
          exact ⟨_, hrun⟩
        · obtain ⟨body, hrun, _⟩ := write_without_buffer s fuel options "TCL" hs hformat
            (by decide) (Or.inl (Or.inr rfl)) hfuel
          exact ⟨_, hrun⟩
        · exact absurd rfl hbin
      · obtain ⟨body, hrun, _⟩ := write_without_buffer s fuel options format hs hformat
          hknown (Or.inr (by omega)) hfuel
        exact ⟨_, hrun⟩

/-- The descriptors of a constructed session and the attributes of the tree
of its model: every descriptor is the descriptor of an occurrence, with its
initial value, and every occurrence has its descriptor. -/
theorem new_descriptors {feature model : String} {d : device} {root : device_block}
    {s : ModelConfig_DEVICE} (hb : d.get_block model = some root)
    (h : ModelConfig_DEVICE.new feature model (some d) = .ok s) :
    (∀ p ∈ s.m_bitfields, ∃ o ∈ occurrences root, p = ((o.descriptor d).m_addr, o.descriptor d)) ∧
      ∀ o ∈ occurrences root, ((o.descriptor d).m_addr, o.descriptor d) ∈ s.m_bitfields := by
  have hperm := new_perm hb h
  constructor
  · intro p hp
    obtain ⟨o, ho, rfl⟩ := List.mem_map.mp (hperm.mem_iff.mp hp)
    exact ⟨o, ho, rfl⟩
  · intro o ho
    exact hperm.mem_iff.mpr (List.mem_map.mpr ⟨o, ho, rfl⟩)

/-- The values read back from the BIN output of a session that can be
serialized, with a total of at most `2 ^ 32 - 32`. -/
theorem write_bin_read (s : ModelConfig_DEVICE) (fuel : Nat) (options : List (String × String))
    (can_open : Bool) (hs : s.serializable) (hbound : s.m_total_bits ≤ 4294967264)
    (hformat : options_at options "format" = some "BIN")
    (hfuel : s.m_bitfields.length ≤ fuel) :
    ∃ bytes, s.write fuel options can_open = some (none, ⟨none, some bytes⟩) ∧
      ∀ p ∈ s.m_bitfields, read_bits bytes p.2.m_addr p.2.m_size = p.2.m_value := by
  obtain ⟨bytes, hrun, _, hbits⟩ := write_bin s fuel options can_open hs hbound hformat hfuel
  obtain ⟨hin, _⟩ := image_bit_descriptor hs
  refine ⟨bytes, hrun, ?_⟩
  intro p hp
  rw [read_bits_eq bytes p.2.m_addr p.2.m_value p.2.m_size
    (fun i hi => by rw [hbits, (hin p hp i hi).2])]
  exact Nat.mod_eq_of_lt (hs.fit p hp).2.2

/-- The text that `%d` prints for a 32-bit value from `2 ^ 31` on. -/
theorem print_d_large {v : Nat} (h1 : 2147483648 ≤ v) (h2 : v < 4294967296) :
    print_d v = "-" ++ toString (4294967296 - v) := by
  unfold print_d
  have hm : v % 4294967296 = v := Nat.mod_eq_of_lt h2
  rw [hm, if_neg (by omega)]

/-! ## Claims about `dump_ric`, the walk of the serializer and initial values -/

/-- C26: for every block tree, `dump_ric` ends and writes exactly one line of
a block for every block occurrence (the root and one for every instance edge)
and exactly one line of an attribute for every attribute of every occurrence,
in pre-order: the lines of a block are its own line, the lines of its
attributes, and for every instance in turn the line of the instance followed
by all lines of the block of the instance.  The registry, with its sessions
and its current feature, is as it was, whether `dump_ric` fails or not. -/
theorem dump_ric_visits (r : ModelConfig_MRG) (modeler : Model) (model : String) (dev : device)
    (root : device_block) (hd : modeler.get_device_model model = some dev)
    (hb : dev.get_block model = some root) :
    r.dump_ric modeler model true = (none, some (dump_ric dev root "" "" "0" 0), r) ∧
    (dump_ric dev root "" "" "0" 0).filterMap RicRecord.block_name? =
      (block_occurrences root).map device_block.block_name ∧
    (dump_ric dev root "" "" "0" 0).filterMap RicRecord.attr? =
      (occurrences root).map (fun o => (o.attr_name, o.offset, o.width, o.default_value)) ∧
    (∀ (block_name : String) (attributes : List (String × Parameter))
        (instances : List (String × Int × device_block)) (space name addr_name : String)
        (offset : Nat),
      dump_ric dev (.mk block_name attributes instances) space name addr_name offset =
        .block space block_name
            (if attributes.length ≠ 0 then some (name, dev.getCustomerName name) else none) ::
          (attributes.map (fun a =>
            .attr space a.1 ((offset + toU32 a.2.address) % 4294967296) addr_name
              (toU32 a.2.type.size)
              (match a.2.type.default_value with
                | some v => toU32 v
                | none => 0)) ++
          (instances.map (fun i =>
            .inst space (space.utf8ByteSize / 4) i.1 offset i.2.1 ::
              dump_ric dev i.2.2 (space ++ "    ") (child_name name i.1)
                (addr_name ++ " + " ++ toString i.2.1)
                ((offset + toU32 i.2.1) % 4294967296))).flatten)) ∧
    ∀ (other : String) (can_open : Bool), (r.dump_ric modeler other can_open).2.2 = r := by
  refine ⟨?_, (dump_ric_root dev root).1, (dump_ric_root dev root).2, ?_, ?_⟩
  · unfold ModelConfig_MRG.dump_ric
    rw [hd]
    simp only
    rw [hb]
    rfl
  · intro block_name attributes instances space name addr_name offset
    exact dump_ric_eq dev block_name attributes instances space name addr_name offset
  · intro other can_open
    unfold ModelConfig_MRG.dump_ric
    cases modeler.get_device_model other with
    | none => rfl
    | some d =>
      simp only
      cases d.get_block other with
      | none => rfl
      | some block =>
        simp only
        split_ifs <;> rfl

/-- Witness of C26: the tree of the model `m`, a root with two attributes and
one instance whose block has one attribute. -/
theorem dump_ric_visits_witness :
    dump_ric sample_device sample_block "" "" "0" 0 =
      [.block "" "root" (some ("", "")), .attr "" "a" 0 "0" 4 0,
        .attr "" "b" 4 "0" 4 0, .inst "" 0 "i" 0 8,
        .block "    " "child" (some ("i", "I")), .attr "    " "x" 8 "0 + 8" 8 0] ∧
    busy_registry.dump_ric sample_modeler "m" true =
      (none, some (dump_ric sample_device sample_block "" "" "0" 0), busy_registry) ∧
    (dump_ric sample_device sample_block "" "" "0" 0).filterMap RicRecord.block_name? =
      (block_occurrences sample_block).map device_block.block_name ∧
    (dump_ric sample_device sample_block "" "" "0" 0).filterMap RicRecord.attr? =
      (occurrences sample_block).map
        (fun o => (o.attr_name, o.offset, o.width, o.default_value)) ∧
    (∀ (block_name : String) (attributes : List (String × Parameter))
        (instances : List (String × Int × device_block)) (space name addr_name : String)
        (offset : Nat),
      dump_ric sample_device (.mk block_name attributes instances) space name addr_name offset =
        .block space block_name
            (if attributes.length ≠ 0 then some (name, sample_device.getCustomerName name)
              else none) ::
          (attributes.map (fun a =>
            .attr space a.1 ((offset + toU32 a.2.address) % 4294967296) addr_name
              (toU32 a.2.type.size)
              (match a.2.type.default_value with
                | some v => toU32 v
                | none => 0)) ++
          (instances.map (fun i =>
            .inst space (space.utf8ByteSize / 4) i.1 offset i.2.1 ::
              dump_ric sample_device i.2.2 (space ++ "    ") (child_name name i.1)
                (addr_name ++ " + " ++ toString i.2.1)
                ((offset + toU32 i.2.1) % 4294967296))).flatten)) ∧
    ∀ (other : String) (can_open : Bool),
      (busy_registry.dump_ric sample_modeler other can_open).2.2 = busy_registry :=
  ⟨by decide, dump_ric_visits busy_registry sample_modeler "m" sample_device sample_block rfl rfl⟩

/-- C27: in every session that a sequence of `set_attr`, `set_api` and
`set_design` commands leaves of a constructed session, the descriptors are
keyed by their offsets and follow one another from bit 0 to the total, each
starting where the one before it ends; for every format the loop of `write`
over the descriptors ends without failure with the cursor at the total; and
`write` with one of the five formats returns without `MissingBitfieldError`
and without an access outside the data buffer: it succeeds, or fails with
`IOError` when the text file cannot be opened. -/
theorem serializer_walk (feature model : String) (dev : Option device) (s₀ : ModelConfig_DEVICE)
    (cmds : List Command) (fuel : Nat) (format : String) (file : Option String)
    (hnew : ModelConfig_DEVICE.new feature model dev = .ok s₀)
    (hknown : format = "BIT" ∨ format = "WORD" ∨ format = "DETAIL" ∨ format = "TCL" ∨
      format = "BIN")
    (hfuel : s₀.m_bitfields.length ≤ fuel) :
    chained 0 (s₀.run_all cmds).m_total_bits (s₀.run_all cmds).m_bitfields ∧
    (∃ st, write_loop (s₀.run_all cmds) format fuel
        ⟨0,
          if format = "BIT" ∨ format = "WORD" ∨ format = "BIN" then
            List.replicate
              (((s₀.run_all cmds).m_total_bits + 31) % 4294967296 / 32 * 4 % 4294967296) 0
          else [],
          file, ""⟩ = some (none, st) ∧
      st.addr = (s₀.run_all cmds).m_total_bits) ∧
    ∀ (options : List (String × String)) (can_open : Bool),
      options_at options "format" = some format →
        ∃ out, (s₀.run_all cmds).write fuel options can_open =
          some (if format ≠ "BIN" ∧ can_open = false then some .IOError else none, out) := by
  have hk := run_all_keeps cmds s₀
  have hs := run_all_serializable hnew cmds
  have hfuel' : (s₀.run_all cmds).m_bitfields.length ≤ fuel := by
    rw [keeps_length hk]; exact hfuel
  refine ⟨hs.chain, write_walk _ format fuel file hs hfuel', ?_⟩
  intro options can_open hformat
  exact write_safe _ fuel options format can_open hs hformat hknown hfuel'

/-- Witness of C27: the format BIT on the sample session after an
assignment. -/
theorem serializer_walk_witness :
    ModelConfig_DEVICE.new "f" "m" (some sample_device) = .ok sample_session ∧
    chained 0
        (ModelConfig_DEVICE.run_all sample_session
          [.set_attr [("instance", "I"), ("name", "x"), ("value", "129")]]).m_total_bits
        (ModelConfig_DEVICE.run_all sample_session
          [.set_attr [("instance", "I"), ("name", "x"), ("value", "129")]]).m_bitfields ∧
    (∃ st, write_loop
        (ModelConfig_DEVICE.run_all sample_session
          [.set_attr [("instance", "I"), ("name", "x"), ("value", "129")]]) "BIT" 3
        ⟨0,
          if "BIT" = "BIT" ∨ "BIT" = "WORD" ∨ "BIT" = "BIN" then
            List.replicate
              (((ModelConfig_DEVICE.run_all sample_session
                [.set_attr [("instance", "I"), ("name", "x"), ("value", "129")]]).m_total_bits +
                  31) % 4294967296 / 32 * 4 % 4294967296) 0
          else [],
          none, ""⟩ = some (none, st) ∧
      st.addr = (ModelConfig_DEVICE.run_all sample_session
        [.set_attr [("instance", "I"), ("name", "x"), ("value", "129")]]).m_total_bits) ∧
    ∀ (options : List (String × String)) (can_open : Bool),
      options_at options "format" = some "BIT" →
        ∃ out, (ModelConfig_DEVICE.run_all sample_session
            [.set_attr [("instance", "I"), ("name", "x"), ("value", "129")]]).write 3 options
            can_open =
          some (if "BIT" ≠ "BIN" ∧ can_open = false then some .IOError else none, out) :=
  ⟨rfl,
    serializer_walk "f" "m" (some sample_device) sample_session _ 3 "BIT" none rfl (by decide)
      (by decide)⟩

/-- C28: after a successful `set_model`, every descriptor of the session of
the feature is the descriptor of an attribute of the tree of the model and
holds as value the default of the type of the attribute, converted to 32
bits, or 0 when the type has no default, and every attribute has its
descriptor; a `write` of that session prints these values on the lines of the
TCL format and, for a total of at most `2 ^ 32 - 32`, packs them into the
bytes of the BIN format. -/
theorem initial_values (r r' : ModelConfig_MRG) (modeler : Model)
    (options : List (String × String)) (model : String)
    (h : r.set_model modeler options model = (none, r')) :
    ∃ feature dev root s, options_at options "feature" = some feature ∧
      modeler.get_device_model model = some dev ∧ dev.get_block model = some root ∧
      r'.session feature = some s ∧
      (∀ p ∈ s.m_bitfields, ∃ o ∈ occurrences root,
        p.2.m_name = o.attr_name ∧ p.2.m_addr = o.offset ∧ p.2.m_type = some o.attr.type ∧
          p.2.m_value =
            match o.attr.type.default_value with
            | some v => toU32 v
            | none => 0) ∧
      (∀ o ∈ occurrences root, ∃ p ∈ s.m_bitfields,
        p.2.m_name = o.attr_name ∧ p.2.m_addr = o.offset ∧
          p.2.m_value =
            match o.attr.type.default_value with
            | some v => toU32 v
            | none => 0) ∧
      ∀ fuel, s.m_bitfields.length ≤ fuel →
        s.write fuel [("format", "TCL")] true =
          some (none,
            ⟨some (write_header s "TCL" ++
              concat_text (s.m_bitfields.map (fun p => tcl_line p.2))), none⟩) ∧
        (s.m_total_bits ≤ 4294967264 →
          ∃ bytes, s.write fuel [("format", "BIN")] true = some (none, ⟨none, some bytes⟩) ∧
            ∀ o ∈ occurrences root,
              read_bits bytes o.offset o.width =
                match o.attr.type.default_value with
                | some v => toU32 v
                | none => 0) := by
  obtain ⟨feature, dev, s, hf, hd, hn, _, hr⟩ := set_model_ok h
  obtain ⟨d, root, mask, hdev, hb, _, _, _, _⟩ := new_ok hn
  cases hdev
  obtain ⟨hall, hmem⟩ := new_descriptors hb hn
  have hs := new_serializable hn
  refine ⟨feature, dev, root, s, hf, hd, hb, ?_, ?_, ?_, ?_⟩
  · rw [hr]
    unfold ModelConfig_MRG.session
    rw [find_assign, if_pos rfl]
    rfl
  · intro p hp
    obtain ⟨o, ho, rfl⟩ := hall p hp
    exact ⟨o, ho, rfl, rfl, rfl, rfl⟩
  · intro o ho
    exact ⟨_, hmem o ho, rfl, rfl, rfl⟩
  · intro fuel hfuel
    constructor
    · obtain ⟨body, hrun, hbody⟩ := write_without_buffer s fuel [("format", "TCL")] "TCL" hs
        rfl (by decide) (Or.inl (Or.inr rfl)) hfuel
      rw [hrun, hbody (by decide)]
      rfl
    · intro hbound
      obtain ⟨bytes, hrun, hread⟩ := write_bin_read s fuel [("format", "BIN")] true hs hbound
        rfl hfuel
      refine ⟨bytes, hrun, ?_⟩
      intro o ho
      exact hread _ (hmem o ho)

/-- Witness of C28: the feature `F` of `busy_registry`, whose session holds
the value 3 of `x`, is bound again to the model `m`, whose attributes have no
default: the values are 0. -/
theorem initial_values_witness :
    busy_registry.set_model sample_modeler [("feature", "F")] "m" =
      (none, ⟨"F", some "F",
        [("F", some (feature_session 0)),
          ("G", some { feature_session 7 with m_feature := "G" })]⟩) ∧
    ∃ feature dev root s, options_at [("feature", "F")] "feature" = some feature ∧
      sample_modeler.get_device_model "m" = some dev ∧ dev.get_block "m" = some root ∧
      ModelConfig_MRG.session
        ⟨"F", some "F",
          [("F", some (feature_session 0)),
            ("G", some { feature_session 7 with m_feature := "G" })]⟩ feature = some s ∧
      (∀ p ∈ s.m_bitfields, ∃ o ∈ occurrences root,
        p.2.m_name = o.attr_name ∧ p.2.m_addr = o.offset ∧ p.2.m_type = some o.attr.type ∧
          p.2.m_value =
            match o.attr.type.default_value with
            | some v => toU32 v
            | none => 0) ∧
      (∀ o ∈ occurrences root, ∃ p ∈ s.m_bitfields,
        p.2.m_name = o.attr_name ∧ p.2.m_addr = o.offset ∧
          p.2.m_value =
            match o.attr.type.default_value with
            | some v => toU32 v
            | none => 0) ∧
      ∀ fuel, s.m_bitfields.length ≤ fuel →
        s.write fuel [("format", "TCL")] true =
          some (none,
            ⟨some (write_header s "TCL" ++
              concat_text (s.m_bitfields.map (fun p => tcl_line p.2))), none⟩) ∧
        (s.m_total_bits ≤ 4294967264 →
          ∃ bytes, s.write fuel [("format", "BIN")] true = some (none, ⟨none, some bytes⟩) ∧
            ∀ o ∈ occurrences root,
              read_bits bytes o.offset o.width =
                match o.attr.type.default_value with
                | some v => toU32 v
                | none => 0) :=
  have hrun : busy_registry.set_model sample_modeler [("feature", "F")] "m" =
      (none, ⟨"F", some "F",
        [("F", some (feature_session 0)),
          ("G", some { feature_session 7 with m_feature := "G" })]⟩) := by
    rw [set_model_eq busy_registry sample_modeler [("feature", "F")] "m" "F" sample_device
      (feature_session 0) rfl rfl (by decide) rfl]
    simp only [busy_registry, string_map_assign_head]
  ⟨hrun, initial_values busy_registry _ sample_modeler [("feature", "F")] "m" hrun⟩

/-- C30 fails for a value from `2 ^ 31` on: after `0x80000000` was assigned
to a field of 32 bits, the TCL line of the field ends with
`-value -2147483648` and its DETAIL line with `-2147483648`, because `%d`
prints the 32-bit value as a signed number. -/
theorem signed_value_printed :
    (ModelConfig_DEVICE.run_all forty_session
        [.set_attr [("instance", ""), ("name", "a"), ("value", "2147483648")]]).m_bitfields =
      [(0, ⟨"", "", "a", 0, 32, 2147483648, some (plain_type 32)⟩),
        (32, ⟨"", "", "b", 32, 8, 0, some (plain_type 8)⟩)] ∧
    (ModelConfig_DEVICE.run_all forty_session
        [.set_attr [("instance", ""), ("name", "a"), ("value", "2147483648")]]).write 2
      [("format", "TCL")] true =
      some (none,
        ⟨some ("// Feature Bitstream: f\n// Model: m\n// Total Bits: 40\n// Timestamp:\n" ++
          "// Format: TCL\nmodel_config set_model -feature f m\n" ++
          "model_config set_attr -instance  -name a -value -2147483648\n" ++
          "model_config set_attr -instance  -name b -value 0\n"), none⟩) ∧
    (ModelConfig_DEVICE.run_all forty_session
        [.set_attr [("instance", ""), ("name", "a"), ("value", "2147483648")]]).write 2
      [("format", "DETAIL")] true =
      some (none,
        ⟨some ("// Feature Bitstream: f\n// Model: m\n// Total Bits: 40\n// Timestamp:\n" ++
          "// Format: DETAIL\n" ++
          "    a - Addr: 0x00000000, Size: 32, Value: (0x80000000) -2147483648\n" ++
          "    b - Addr: 0x00000020, Size:  8, Value: (0x00000000) 0\n"), none⟩) :=
  ⟨by decide, rfl, rfl⟩

end FOEDAG
